import Mathlib

/-
Pintos (KAIST) thread scheduler and synchronisation primitives.

Embedded sources:
  * threads/thread.c  (pintos-kaist-kjh):      thread_test_preemption, thread_create,
    thread_block, thread_cmp_priority, thread_unblock, compare_wakeup_tick, thread_sleep,
    thread_awake, thread_current, thread_exit, thread_yield, thread_set_priority,
    init_thread, next_thread_to_run, do_schedule, schedule, allocate_tid, donate_priority,
    refresh_priority, thread_init.
  * threads/synch.c   (pintos-kaist-chanseok): sema_init, sema_down, sema_try_down, sema_up,
    lock_init, lock_acquire, lock_try_acquire, lock_release, lock_held_by_current_thread,
    cond_sema_priority_cmp, cond_init, cond_wait, cond_signal, cond_broadcast.

The two files come from two forks of the same kernel.  thread.c keeps the locks a thread
holds in hold_list, which its refresh_priority reads; synch.c keeps the donors of a thread in
donations and writes hold_list nowhere.  The functions synch.c calls whose definitions are
not among the sources are modelled from the specification and marked so: thread_priority_cmp,
test_max_priority, remove_with_lock, and the refresh_priority of its fork (refresh_donations
here, over the donor list).  donate_priority, which lock_acquire calls, is the one of
thread.c; refresh_priority of thread.c is what thread_set_priority calls.

Memory is modelled as arenas indexed by addresses (natural numbers); a nullable pointer is an
Option.  An intrusive list is the list of the addresses of the records linked on it.
A failed ASSERT is the fault "panic".  A call that reaches the dispatcher ends in
"switched": the state is the one in which the chosen thread runs, and the caller's remaining
work inside the kernel is a list of frames, to be run when the caller is dispatched again.
Interrupt masking (intr_disable / intr_set_level) only brackets the critical sections and is
not represented: every modelled call is atomic up to its dispatch point.
-/

namespace Pintos

/-! ## Data model -/

/-- Thread life-cycle states (enum thread_status). -/
inductive Status
  | THREAD_RUNNING
  | THREAD_READY
  | THREAD_BLOCKED
  | THREAD_DYING
  deriving DecidableEq, Repr

/-- Value of the magic member of a live thread record (thread.c, line 21). -/
def THREAD_MAGIC : Nat := 0xcd6abf4b

/-- Lowest priority. The macro is declared in threads/thread.h, which is not among the
sources; the value is the one of the Pintos distribution. -/
def PRI_MIN : Int := 0

/-- Default priority (threads/thread.h, as for PRI_MIN). -/
def PRI_DEFAULT : Int := 31

/-- Highest priority (threads/thread.h, as for PRI_MIN). -/
def PRI_MAX : Int := 63

/-- Error value for tid_t (threads/thread.h, as for PRI_MIN). -/
def TID_ERROR : Int := -1

/-- Number of values of the C type unsigned: the semaphore counter is computed modulo this. -/
def UINT_MOD : Nat := 2 ^ 32

/-- Greatest value of the C type int, the type of tid_t. -/
def INT_MAX : Int := 2147483647

/-- The value an int variable holds after an addition whose mathematical result is n: the
result modulo 2^32, read as a signed 32-bit number. This is what the machine addition does
when next_tid++ passes INT_MAX (the C standard leaves that overflow undefined). -/
def int_wrap (n : Int) : Int := (n + 2147483648) % 4294967296 - 2147483648

/-- Address of the static lock tid_lock of thread.c in the lock arena. -/
def tid_lock : Nat := 0

/-- A struct semaphore: the unsigned counter and the list of waiting threads. -/
structure Semaphore where
  value : Nat
  waiters : List Nat
  deriving DecidableEq, Repr

/-- A struct lock: the holder pointer and the embedded semaphore. -/
structure Lock where
  holder : Option Nat
  semaphore : Semaphore
  deriving DecidableEq, Repr

/-- A struct condition: the list of the semaphore_elem records waiting on it, each named by
the address of its semaphore. -/
structure Condition where
  waiters : List Nat
  deriving DecidableEq, Repr

/-- The members of struct thread that the scheduler and the synchronisation code use.
The name, the interrupt frame and the list links are not represented; hold_list is the
member used by thread.c, donations the member used by synch.c. -/
structure Thread where
  tid : Int
  status : Status
  priority : Int
  init_priority : Int
  wakeup_tick : Int
  wait_on_lock : Option Nat
  hold_list : List Nat
  donations : List Nat
  magic : Nat
  deriving DecidableEq, Repr

/-- A pointer to a struct semaphore: the one embedded in a lock, or one that stands alone
(a local variable, or the semaphore of a semaphore_elem). -/
inductive SemaRef
  | lock_sema (lock : Nat)
  | sema (addr : Nat)
  deriving DecidableEq, Repr

/-- A suspended activation: the program point inside a kernel function at which a thread
continues when it is dispatched again, with the locals it still needs. -/
inductive Frame
  | sema_down_loop (sema : SemaRef)
  | lock_acquire_tail (lock : Nat) (curr : Nat)
  | allocate_tid_locked
  | allocate_tid_unlocked (tid : Int)
  | thread_create_tid (t : Nat)
  | thread_create_ret (tid : Int)
  | thread_init_tid
  | thread_exit_not_reached
  | cond_wait_released (waiter : Nat) (lock : Nat)
  | cond_wait_signaled (lock : Nat)
  | cond_broadcast_loop (cond : Nat) (lock : Nat)
  deriving DecidableEq, Repr

/-- The kernel state: the arenas, the static variables of thread.c, the running thread
(running_thread ()), the interrupt-context flag (intr_context ()), the pages handed to
palloc_free_page, and the suspended activations of every thread. -/
structure State where
  threads : Nat → Thread
  locks : Nat → Lock
  semas : Nat → Semaphore
  conds : Nat → Condition
  ready_list : List Nat
  sleep_list : List Nat
  destruction_req : List Nat
  idle_thread : Option Nat
  initial_thread : Option Nat
  next_tid : Int
  thread_ticks : Nat
  thread_mlfqs : Bool
  current : Nat
  intr_context : Bool
  freed : List Nat
  mem_pages : Nat
  frames : Nat → List Frame

/-- The ways a call can fail to come back: a failed assertion, or a loop that does not end. -/
inductive Fault
  | panic
  | diverge
  deriving DecidableEq, Repr

/-- Outcome of a call that may reach the dispatcher. -/
inductive Res
  | ret (v : Int) (s : State)
  | switched (s : State) (k : List Frame)
  | fault (f : Fault)

/-- The state a call leaves behind, whether it returned or was switched out. -/
def Res.state : Res → Option State
  | .ret _ s => some s
  | .switched s _ => some s
  | .fault _ => none

/-- Replace the record of thread t. -/
def State.set_thread (s : State) (t : Nat) (th : Thread) : State :=
  { s with threads := Function.update s.threads t th }

/-- Replace the record of a lock. -/
def State.set_lock (s : State) (l : Nat) (lk : Lock) : State :=
  { s with locks := Function.update s.locks l lk }

/-- Read through a semaphore pointer. -/
def State.sema (s : State) : SemaRef → Semaphore
  | .lock_sema l => (s.locks l).semaphore
  | .sema a => s.semas a

/-- Write through a semaphore pointer. -/
def State.set_sema (s : State) (r : SemaRef) (v : Semaphore) : State :=
  match r with
  | .lock_sema l => s.set_lock l { s.locks l with semaphore := v }
  | .sema a => { s with semas := Function.update s.semas a v }

/-- Replace the wait list of a condition variable. -/
def State.set_cond (s : State) (c : Nat) (ws : List Nat) : State :=
  { s with conds := Function.update s.conds c (Condition.mk ws) }

/-- Priority member of the thread at address t. -/
def State.prio (s : State) (t : Nat) : Int := (s.threads t).priority

/-! ## The list library (lib/kernel/list.c) -/

/-- Modelled from the spec: list_insert_ordered of lib/kernel/list.c, which is not among the
sources. The element goes in front of the first entry that it precedes in the order, hence
behind every entry of equal rank already on the list (arrival order among ties). -/
def list_insert_ordered {α : Type} (less : α → α → Bool) (x : α) : List α → List α
  | [] => [x]
  | e :: l => if less x e then x :: e :: l else e :: list_insert_ordered less x l

/-- Insertion step of the stable sort: x stood in front of every entry of l, so it goes in
front of the first entry that does not precede it. -/
def sort_insert {α : Type} (less : α → α → Bool) (x : α) : List α → List α
  | [] => [x]
  | e :: l => if less e x then e :: sort_insert less x l else x :: e :: l

/-- Modelled from the spec: list_sort of lib/kernel/list.c, which is not among the sources.
The list is re-sorted by the order; entries of equal rank keep their relative position. -/
def list_sort {α : Type} (less : α → α → Bool) : List α → List α
  | [] => []
  | x :: l => sort_insert less x (list_sort less l)

/-! ## threads/thread.c -/

/-- The macro is_thread (thread.c, line 69) on a non-null pointer. -/
def is_thread (s : State) (t : Nat) : Prop := (s.threads t).magic = THREAD_MAGIC

instance (s : State) (t : Nat) : Decidable (is_thread s t) := by
  unfold is_thread; infer_instance

/-- thread_current (thread.c, 372-385): the running thread, after the two sanity checks. -/
def thread_current (s : State) : Except Fault Nat :=
  let t := s.current
  if is_thread s t ∧ (s.threads t).status = Status.THREAD_RUNNING then .ok t
  else .error .panic

/-- thread_cmp_priority (thread.c, 259-272). List elements are never null, so the null test of
the source never fires. -/
def thread_cmp_priority (s : State) (a b : Nat) : Bool :=
  decide ((s.threads a).priority > (s.threads b).priority)

/-- compare_wakeup_tick (thread.c, 300-307). -/
def compare_wakeup_tick (s : State) (a b : Nat) : Bool :=
  decide ((s.threads a).wakeup_tick < (s.threads b).wakeup_tick)

/-- thread_unblock (thread.c, 282-294). -/
def thread_unblock (t : Nat) (s : State) : Except Fault State :=
  if ¬ is_thread s t then .error .panic
  else if (s.threads t).status ≠ Status.THREAD_BLOCKED then .error .panic
  else
    let s1 := { s with ready_list := list_insert_ordered (thread_cmp_priority s) t s.ready_list }
    .ok (s1.set_thread t { s1.threads t with status := Status.THREAD_READY })

/-- next_thread_to_run (thread.c, 566-572): the chosen thread (possibly the null idle_thread)
and the state with the ready list popped. -/
def next_thread_to_run (s : State) : Option Nat × State :=
  match s.ready_list with
  | [] => (s.idle_thread, s)
  | t :: rest => (some t, { s with ready_list := rest })

/-- The end of schedule (thread.c, 696-723) once the assertions have passed: the chosen thread
is marked running and a new time slice starts; when it is not the caller, a dying caller
other than the initial thread is queued for destruction and the chosen thread is launched. -/
def schedule_launch (curr next : Nat) (s : State) : State :=
  let s2 := { s.set_thread next { s.threads next with status := Status.THREAD_RUNNING } with
              thread_ticks := 0 }
  if curr ≠ next then
    let s3 :=
      if (s2.threads curr).status = Status.THREAD_DYING ∧ some curr ≠ s2.initial_thread
      then { s2 with destruction_req := s2.destruction_req ++ [curr] }
      else s2
    { s3 with current := next }
  else s2

/-- schedule (thread.c, 688-724). The result is the state in which the chosen thread runs;
when the chosen thread is the caller itself the function simply returns into it. -/
def schedule (s : State) : Except Fault State :=
  let curr := s.current
  let next := (next_thread_to_run s).1
  let s1 := (next_thread_to_run s).2
  if (s1.threads curr).status = Status.THREAD_RUNNING then .error .panic
  else
    match next with
    | none => .error .panic
    | some n =>
      if ¬ is_thread s1 n then .error .panic
      else .ok (schedule_launch curr n s1)

/-- do_schedule (thread.c, 675-686): every page queued for destruction is freed, the running
thread takes the given status, and the dispatcher runs. -/
def do_schedule (status : Status) (s : State) : Except Fault State :=
  match thread_current s with
  | .error f => .error f
  | .ok curr =>
    let s1 := { s with freed := s.freed ++ s.destruction_req, destruction_req := [] }
    schedule (s1.set_thread curr { s1.threads curr with status := status })

/-- thread_block (thread.c, 241-247). -/
def thread_block (s : State) : Except Fault State :=
  if s.intr_context then .error .panic
  else
    match thread_current s with
    | .error f => .error f
    | .ok curr => schedule (s.set_thread curr { s.threads curr with status := Status.THREAD_BLOCKED })

/-- thread_yield (thread.c, 412-439). Nothing remains to be done after the dispatch. -/
def thread_yield (s : State) : Res :=
  match thread_current s with
  | .error f => .fault f
  | .ok curr =>
    if s.intr_context then .fault .panic
    else
      let s1 :=
        if some curr ≠ s.idle_thread
        then { s with ready_list := list_insert_ordered (thread_cmp_priority s) curr s.ready_list }
        else s
      match do_schedule Status.THREAD_READY s1 with
      | .error f => .fault f
      | .ok s2 => .switched s2 []

/-- thread_test_preemption (thread.c, 168-175). -/
def thread_test_preemption (s : State) : Res :=
  match s.ready_list with
  | [] => .ret 0 s
  | max_ready :: _ =>
    match thread_current s with
    | .error f => .fault f
    | .ok curr =>
      if (s.threads max_ready).priority > (s.threads curr).priority then thread_yield s
      else .ret 0 s

/-- thread_exit (thread.c, 395-408). Coming back from the dispatcher would hit NOT_REACHED. -/
def thread_exit (s : State) : Res :=
  if s.intr_context then .fault .panic
  else
    match do_schedule Status.THREAD_DYING s with
    | .error f => .fault f
    | .ok s1 => .switched s1 [Frame.thread_exit_not_reached]

/-- thread_sleep (thread.c, 311-333). -/
def thread_sleep (wakeup_tick : Int) (s : State) : Res :=
  match thread_current s with
  | .error f => .fault f
  | .ok cur =>
    if some cur = s.idle_thread then .ret 0 s
    else
      let s1 := s.set_thread cur { s.threads cur with wakeup_tick := wakeup_tick }
      let s2 := { s1 with sleep_list := list_insert_ordered (compare_wakeup_tick s1) cur s1.sleep_list }
      match thread_block s2 with
      | .error f => .fault f
      | .ok s3 => .switched s3 []

/-- The loop of thread_awake over the entries still to be visited. -/
def thread_awake_loop (current_tick : Int) : List Nat → State → Except Fault State
  | [], s => .ok s
  | t :: rest, s =>
    if (s.threads t).wakeup_tick ≤ current_tick then
      match thread_unblock t { s with sleep_list := rest } with
      | .error f => .error f
      | .ok s1 => thread_awake_loop current_tick rest s1
    else .ok s

/-- thread_awake (thread.c, 337-361). -/
def thread_awake (current_tick : Int) (s : State) : Except Fault State :=
  thread_awake_loop current_tick s.sleep_list s

/-- init_thread (thread.c, 539-559): the record is zeroed and then filled in. The member
donations, which this function does not know, is left as the zeroing leaves it. -/
def init_thread (t : Nat) (priority : Int) (s : State) : Except Fault State :=
  if ¬ (PRI_MIN ≤ priority ∧ priority ≤ PRI_MAX) then .error .panic
  else
    .ok (s.set_thread t
      { tid := 0, status := Status.THREAD_BLOCKED, priority := priority,
        init_priority := priority, wakeup_tick := 0, wait_on_lock := none,
        hold_list := [], donations := [], magic := THREAD_MAGIC })

/-- The loop of donate_priority (thread.c, 753-761). Every turn uses one unit of fuel. -/
def donate_loop : Nat → Nat → Option Nat → State → Except Fault State
  | 0, _, _, _ => .error .diverge
  | fuel + 1, cur_t, cur_lock, s =>
    match cur_lock with
    | none => .ok s
    | some l =>
      match (s.locks l).holder with
      | none => .ok s
      | some h =>
        if (s.threads h).priority < (s.threads cur_t).priority then
          let s1 := s.set_thread h { s.threads h with priority := (s.threads cur_t).priority }
          donate_loop fuel h (s1.threads h).wait_on_lock s1
        else .ok s

/-- donate_priority (thread.c, 739-762). A turn of the loop raises a thread record that lies
in memory, so one unit of fuel per page and one for the last test end the loop. -/
def donate_priority (s : State) : Except Fault State :=
  match thread_current s with
  | .error f => .error f
  | .ok cur_t =>
    match (s.threads cur_t).wait_on_lock with
    | none => .ok s
    | some cur_lock =>
      match (s.locks cur_lock).holder with
      | none => .ok s
      | some _ => donate_loop (s.mem_pages + 1) cur_t (some cur_lock) s

/-- The loop of refresh_priority (thread.c, 770-784) over the held-lock list, with the running
maximum. -/
def refresh_max (s : State) : Int → List Nat → Int
  | max_priority, [] => max_priority
  | max_priority, l :: rest =>
    match (s.locks l).semaphore.waiters with
    | [] => refresh_max s max_priority rest
    | t :: _ =>
      if (s.threads t).priority > max_priority then refresh_max s (s.threads t).priority rest
      else refresh_max s max_priority rest

/-- refresh_priority (thread.c, 764-788). -/
def refresh_priority (s : State) : Except Fault State :=
  match thread_current s with
  | .error f => .error f
  | .ok cur_t =>
    .ok (s.set_thread cur_t { s.threads cur_t with
      priority := refresh_max s (s.threads cur_t).init_priority (s.threads cur_t).hold_list })

/-- thread_set_priority (thread.c, 443-454). -/
def thread_set_priority (new_priority : Int) (s : State) : Res :=
  match thread_current s with
  | .error f => .fault f
  | .ok cur =>
    match refresh_priority (s.set_thread cur { s.threads cur with init_priority := new_priority }) with
    | .error f => .fault f
    | .ok s1 => thread_test_preemption s1

/-! ## threads/synch.c -/

/-- Modelled from the spec: thread_priority_cmp, the comparator synch.c passes to the list
library; its definition is not among the sources. Waiters are ordered by current priority,
higher first, the same ordering as the ready queue. -/
def thread_priority_cmp (s : State) (a b : Nat) : Bool :=
  decide ((s.threads a).priority > (s.threads b).priority)

/-- Modelled from the spec: test_max_priority, the preemption check synch.c calls at the end
of sema_up; its definition is not among the sources. If the head of the ready queue has
strictly higher priority than the running thread, the running thread yields at once; from an
interrupt handler nothing is dispatched (4.1, up: safe to call from interrupt context, the
wake target is only marked READY, never dispatched synchronously from that context). -/
def test_max_priority (s : State) : Res :=
  match s.ready_list with
  | [] => .ret 0 s
  | head :: _ =>
    if ¬ s.intr_context ∧ (s.threads head).priority > (s.threads s.current).priority
    then thread_yield s
    else .ret 0 s

/-- Modelled from the spec: remove_with_lock, called by lock_release; its definition is not
among the sources. Every entry of the running thread's donation list that is attributable to
the lock, that is every donor waiting on it, is removed; the other entries stay. -/
def remove_with_lock (lock : Nat) (s : State) : State :=
  s.set_thread s.current { s.threads s.current with
    donations := (s.threads s.current).donations.filter
      (fun d => decide ((s.threads d).wait_on_lock ≠ some lock)) }

/-- The running maximum of refresh_donations over the donor list. -/
def donated_max (s : State) : Int → List Nat → Int
  | max_priority, [] => max_priority
  | max_priority, d :: rest =>
    if (s.threads d).priority > max_priority then donated_max s (s.threads d).priority rest
    else donated_max s max_priority rest

/-- Modelled from the spec: the refresh_priority that lock_release of synch.c calls (synch.c,
line 287, with the comment that it restores the highest of the donated priorities). Its
definition in the fork synch.c comes from is not among the sources; the refresh_priority of
thread.c belongs to the other fork and reads hold_list, a member that nothing in synch.c
writes. This is Restore of 4.3 over the bookkeeping synch.c keeps, the donor list donations:
the priority of the running thread becomes the maximum of its base priority and of the
priorities of the donors still registered with it. -/
def refresh_donations (s : State) : Except Fault State :=
  match thread_current s with
  | .error f => .error f
  | .ok cur_t =>
    .ok (s.set_thread cur_t { s.threads cur_t with
      priority := donated_max s (s.threads cur_t).init_priority (s.threads cur_t).donations })

/-- sema_init (synch.c, 44-50). -/
def sema_init (sema : SemaRef) (value : Nat) (s : State) : State :=
  s.set_sema sema { value := value % UINT_MOD, waiters := [] }

/-- sema_down (synch.c, 75-96). One pass of the while loop: with the counter at zero the
caller queues itself and blocks, and tests again when it next runs (frame sema_down_loop);
otherwise the counter is decremented. -/
def sema_down (sema : SemaRef) (s : State) : Res :=
  if (s.sema sema).value = 0 then
    match thread_current s with
    | .error f => .fault f
    | .ok curr =>
      let s1 := s.set_sema sema { s.sema sema with
        waiters := list_insert_ordered (thread_priority_cmp s) curr (s.sema sema).waiters }
      match thread_block s1 with
      | .error f => .fault f
      | .ok s2 => .switched s2 [Frame.sema_down_loop sema]
  else
    .ret 0 (s.set_sema sema { s.sema sema with
      value := ((s.sema sema).value + (UINT_MOD - 1)) % UINT_MOD })

/-- sema_try_down (synch.c, 104-122). -/
def sema_try_down (sema : SemaRef) (s : State) : Bool × State :=
  if (s.sema sema).value > 0 then
    (true, s.set_sema sema { s.sema sema with
      value := ((s.sema sema).value + (UINT_MOD - 1)) % UINT_MOD })
  else (false, s)

/-- The first half of sema_up (synch.c, 148-159): the waiters are sorted, the front one is
popped and unblocked, and the counter is incremented. -/
def sema_up_wake (sema : SemaRef) (s : State) : Except Fault State :=
  let woken : Except Fault State :=
    match (s.sema sema).waiters with
    | [] => .ok s
    | _ :: _ =>
      match list_sort (thread_priority_cmp s) (s.sema sema).waiters with
      | [] => .error .panic
      | t :: rest => thread_unblock t (s.set_sema sema { s.sema sema with waiters := rest })
  match woken with
  | .error f => .error f
  | .ok s1 => .ok (s1.set_sema sema { s1.sema sema with value := ((s1.sema sema).value + 1) % UINT_MOD })

/-- sema_up (synch.c, 142-166). -/
def sema_up (sema : SemaRef) (s : State) : Res :=
  match sema_up_wake sema s with
  | .error f => .fault f
  | .ok s1 => test_max_priority s1

/-- lock_init (synch.c, 219-225). -/
def lock_init (lock : Nat) (s : State) : State :=
  sema_init (.lock_sema lock) 1 (s.set_lock lock { s.locks lock with holder := none })

/-- lock_held_by_current_thread (synch.c, 297-302). -/
def lock_held_by_current_thread (lock : Nat) (s : State) : Except Fault Bool :=
  match thread_current s with
  | .error f => .error f
  | .ok curr => .ok (decide ((s.locks lock).holder = some curr))

/-- The end of lock_acquire (synch.c, 251-252), after sema_down has come back. -/
def lock_acquire_tail (lock : Nat) (curr : Nat) (s : State) : State :=
  let s1 := s.set_thread curr { s.threads curr with wait_on_lock := none }
  s1.set_lock lock { s1.locks lock with holder := some curr }

/-- The donation step of lock_acquire (synch.c, 243-247). -/
def lock_acquire_donate (lock : Nat) (curr : Nat) (s : State) : Except Fault State :=
  match (s.locks lock).holder with
  | none => .ok s
  | some holder =>
    if s.thread_mlfqs then .ok s
    else
      let s1 := s.set_thread curr { s.threads curr with wait_on_lock := some lock }
      let s2 := s1.set_thread holder { s1.threads holder with
        donations := list_insert_ordered (thread_priority_cmp s1) curr (s1.threads holder).donations }
      donate_priority s2

/-- lock_acquire (synch.c, 235-253). -/
def lock_acquire (lock : Nat) (s : State) : Res :=
  if s.intr_context then .fault .panic
  else
    match lock_held_by_current_thread lock s with
    | .error f => .fault f
    | .ok true => .fault .panic
    | .ok false =>
      match thread_current s with
      | .error f => .fault f
      | .ok curr =>
        match lock_acquire_donate lock curr s with
        | .error f => .fault f
        | .ok s1 =>
          match sema_down (.lock_sema lock) s1 with
          | .ret _ s2 => .ret 0 (lock_acquire_tail lock curr s2)
          | .switched s2 k => .switched s2 (k ++ [Frame.lock_acquire_tail lock curr])
          | .fault f => .fault f

/-- lock_try_acquire (synch.c, 262-273). -/
def lock_try_acquire (lock : Nat) (s : State) : Except Fault (Bool × State) :=
  match lock_held_by_current_thread lock s with
  | .error f => .error f
  | .ok true => .error .panic
  | .ok false =>
    match sema_try_down (.lock_sema lock) s with
    | (true, s1) =>
      match thread_current s1 with
      | .error f => .error f
      | .ok curr => .ok (true, s1.set_lock lock { s1.locks lock with holder := some curr })
    | (false, s1) => .ok (false, s1)

/-- lock_release (synch.c, 281-291). The two functions it calls first, remove_with_lock and
refresh_priority, are those of the fork of synch.c, over the donor list. -/
def lock_release (lock : Nat) (s : State) : Res :=
  match lock_held_by_current_thread lock s with
  | .error f => .fault f
  | .ok false => .fault .panic
  | .ok true =>
    match refresh_donations (remove_with_lock lock s) with
    | .error f => .fault f
    | .ok s1 => sema_up (.lock_sema lock) (s1.set_lock lock { s1.locks lock with holder := none })

/-- cond_sema_priority_cmp (synch.c, 340-353). -/
def cond_sema_priority_cmp (s : State) (a b : Nat) : Bool :=
  match (s.semas a).waiters, (s.semas b).waiters with
  | [], _ => false
  | _ :: _, [] => true
  | t_a :: _, t_b :: _ => decide ((s.threads t_a).priority > (s.threads t_b).priority)

/-- cond_init (synch.c, 313-318). -/
def cond_init (cond : Nat) (s : State) : State :=
  s.set_cond cond []

/-- The end of cond_wait (synch.c, 370-371), after lock_release has come back. -/
def cond_wait_released (waiter : Nat) (lock : Nat) (s : State) : Res :=
  match sema_down (.sema waiter) s with
  | .ret _ s1 => lock_acquire lock s1
  | .switched s1 k => .switched s1 (k ++ [Frame.cond_wait_signaled lock])
  | .fault f => .fault f

/-- cond_wait (synch.c, 356-372). The local semaphore_elem lives at the address waiter. -/
def cond_wait (cond : Nat) (lock : Nat) (waiter : Nat) (s : State) : Res :=
  if s.intr_context then .fault .panic
  else
    match lock_held_by_current_thread lock s with
    | .error f => .fault f
    | .ok false => .fault .panic
    | .ok true =>
      let s1 := sema_init (.sema waiter) 0 s
      let s2 := s1.set_cond cond
        (list_insert_ordered (cond_sema_priority_cmp s1) waiter (s1.conds cond).waiters)
      match lock_release lock s2 with
      | .ret _ s3 => cond_wait_released waiter lock s3
      | .switched s3 k => .switched s3 (k ++ [Frame.cond_wait_released waiter lock])
      | .fault f => .fault f

/-- cond_signal (synch.c, 383-398). -/
def cond_signal (cond : Nat) (lock : Nat) (s : State) : Res :=
  if s.intr_context then .fault .panic
  else
    match lock_held_by_current_thread lock s with
    | .error f => .fault f
    | .ok false => .fault .panic
    | .ok true =>
      match (s.conds cond).waiters with
      | [] => .ret 0 s
      | _ :: _ =>
        match list_sort (cond_sema_priority_cmp s) (s.conds cond).waiters with
        | [] => .fault .panic
        | sema_elem :: rest =>
          sema_up (.sema sema_elem) (s.set_cond cond rest)

/-- The while loop of cond_broadcast (synch.c, 412-413). A signal that returns lets the loop
go on; one that yields leaves the rest of the loop to the frame cond_broadcast_loop. -/
def cond_broadcast_loop : Nat → Nat → Nat → State → Res
  | 0, cond, _, s =>
    match (s.conds cond).waiters with
    | [] => .ret 0 s
    | _ :: _ => .fault .diverge
  | fuel + 1, cond, lock, s =>
    match (s.conds cond).waiters with
    | [] => .ret 0 s
    | _ :: _ =>
      match cond_signal cond lock s with
      | .ret _ s1 => cond_broadcast_loop fuel cond lock s1
      | .switched s1 k => .switched s1 (k ++ [Frame.cond_broadcast_loop cond lock])
      | .fault f => .fault f

/-- cond_broadcast (synch.c, 407-415). Every signal pops one waiter, so the length of the
wait list bounds the number of turns. -/
def cond_broadcast (cond : Nat) (lock : Nat) (s : State) : Res :=
  cond_broadcast_loop (s.conds cond).waiters.length cond lock s

/-! ## Thread creation (thread.c), which goes through the tid lock -/

/-- allocate_tid (thread.c, 733-736), from the point where tid_lock has been acquired. -/
def allocate_tid_locked (s : State) : Res :=
  let tid := s.next_tid
  match lock_release tid_lock { s with next_tid := int_wrap (s.next_tid + 1) } with
  | .ret _ s1 => .ret tid s1
  | .switched s1 k => .switched s1 (k ++ [Frame.allocate_tid_unlocked tid])
  | .fault f => .fault f

/-- allocate_tid (thread.c, 727-737). -/
def allocate_tid (s : State) : Res :=
  match lock_acquire tid_lock s with
  | .ret _ s1 => allocate_tid_locked s1
  | .switched s1 k => .switched s1 (k ++ [Frame.allocate_tid_locked])
  | .fault f => .fault f

/-- thread_create (thread.c, 207-232), from the point where allocate_tid has returned tid. -/
def thread_create_tid (t : Nat) (tid : Int) (s : State) : Res :=
  match thread_unblock t (s.set_thread t { s.threads t with tid := tid }) with
  | .error f => .fault f
  | .ok s1 =>
    match thread_test_preemption s1 with
    | .ret _ s2 => .ret tid s2
    | .switched s2 k => .switched s2 (k ++ [Frame.thread_create_ret tid])
    | .fault f => .fault f

/-- thread_create (thread.c, 192-233). The argument page is what palloc_get_page returned:
none for a null pointer. The name, the entry function and its argument only fill the
interrupt frame and are not represented. -/
def thread_create (page : Option Nat) (priority : Int) (s : State) : Res :=
  match page with
  | none => .ret TID_ERROR s
  | some t =>
    match init_thread t priority s with
    | .error f => .fault f
    | .ok s1 =>
      match allocate_tid s1 with
      | .ret tid s2 => thread_create_tid t tid s2
      | .switched s2 k => .switched s2 (k ++ [Frame.thread_create_tid t])
      | .fault f => .fault f

/-- The end of thread_init (thread.c, line 121), once allocate_tid has returned tid. -/
def thread_init_tid (tid : Int) (s : State) : Res :=
  match s.initial_thread with
  | none => .fault .panic
  | some t => .ret 0 (s.set_thread t { s.threads t with tid := tid })

/-- thread_init (thread.c, 98-122): the code that is running becomes the thread "main". -/
def thread_init (s : State) : Res :=
  let s1 := lock_init tid_lock s
  let s2 := { s1 with ready_list := [], destruction_req := [], sleep_list := [],
                      initial_thread := some s1.current }
  match init_thread s2.current PRI_DEFAULT s2 with
  | .error f => .fault f
  | .ok s3 =>
    match allocate_tid (s3.set_thread s3.current
        { s3.threads s3.current with status := Status.THREAD_RUNNING }) with
    | .ret tid s4 => thread_init_tid tid s4
    | .switched s4 k => .switched s4 (k ++ [Frame.thread_init_tid])
    | .fault f => .fault f

/-! ## Suspended activations and traces -/

/-- Run one suspended activation; v is the value the activation below it returned. -/
def run_frame : Frame → Int → State → Res
  | .sema_down_loop sema, _, s => sema_down sema s
  | .lock_acquire_tail lock curr, _, s => .ret 0 (lock_acquire_tail lock curr s)
  | .allocate_tid_locked, _, s => allocate_tid_locked s
  | .allocate_tid_unlocked tid, _, s => .ret tid s
  | .thread_create_tid t, v, s => thread_create_tid t v s
  | .thread_create_ret tid, _, s => .ret tid s
  | .thread_init_tid, v, s => thread_init_tid v s
  | .thread_exit_not_reached, _, _ => .fault .panic
  | .cond_wait_released waiter lock, _, s => cond_wait_released waiter lock s
  | .cond_wait_signaled lock, _, s => lock_acquire lock s
  | .cond_broadcast_loop cond lock, _, s => cond_broadcast cond lock s

/-- Run suspended activations, innermost first, until one reaches the dispatcher again. -/
def run_frames : List Frame → Int → State → Res
  | [], v, s => .ret v s
  | f :: fs, v, s =>
    match run_frame f v s with
    | .ret v1 s1 => run_frames fs v1 s1
    | .switched s1 k => .switched s1 (k ++ fs)
    | .fault f => .fault f

/-- The kernel entry points a thread can call. -/
inductive Call
  | thread_init
  | thread_create (page : Option Nat) (priority : Int)
  | thread_block
  | thread_unblock (t : Nat)
  | thread_sleep (wakeup_tick : Int)
  | thread_awake (current_tick : Int)
  | thread_exit
  | thread_yield
  | thread_set_priority (new_priority : Int)
  | sema_init (sema : SemaRef) (value : Nat)
  | sema_down (sema : SemaRef)
  | sema_try_down (sema : SemaRef)
  | sema_up (sema : SemaRef)
  | lock_init (lock : Nat)
  | lock_acquire (lock : Nat)
  | lock_try_acquire (lock : Nat)
  | lock_release (lock : Nat)
  | cond_init (cond : Nat)
  | cond_wait (cond : Nat) (lock : Nat) (waiter : Nat)
  | cond_signal (cond : Nat) (lock : Nat)
  | cond_broadcast (cond : Nat) (lock : Nat)

/-- Lift the outcome of a function that never reaches the dispatcher. -/
def Res.of_except : Except Fault State → Res
  | .ok s => .ret 0 s
  | .error f => .fault f

/-- Execute one call in the running thread. -/
def exec : Call → State → Res
  | .thread_init, s => thread_init s
  | .thread_create page priority, s => thread_create page priority s
  | .thread_block, s =>
    match thread_block s with
    | .ok s1 => .switched s1 []
    | .error f => .fault f
  | .thread_unblock t, s => Res.of_except (thread_unblock t s)
  | .thread_sleep w, s => thread_sleep w s
  | .thread_awake tick, s => Res.of_except (thread_awake tick s)
  | .thread_exit, s => thread_exit s
  | .thread_yield, s => thread_yield s
  | .thread_set_priority p, s => thread_set_priority p s
  | .sema_init sema v, s => .ret 0 (sema_init sema v s)
  | .sema_down sema, s => sema_down sema s
  | .sema_try_down sema, s =>
    .ret (if (sema_try_down sema s).1 then 1 else 0) (sema_try_down sema s).2
  | .sema_up sema, s => sema_up sema s
  | .lock_init lock, s => .ret 0 (lock_init lock s)
  | .lock_acquire lock, s => lock_acquire lock s
  | .lock_try_acquire lock, s =>
    match lock_try_acquire lock s with
    | .ok (b, s1) => .ret (if b then 1 else 0) s1
    | .error f => .fault f
  | .lock_release lock, s => lock_release lock s
  | .cond_init cond, s => .ret 0 (cond_init cond s)
  | .cond_wait cond lock waiter, s => cond_wait cond lock waiter s
  | .cond_signal cond lock, s => cond_signal cond lock s
  | .cond_broadcast cond lock, s => cond_broadcast cond lock s

/-- Record the outcome of what thread c just ran: when it was switched out its remaining
activations go on top of the ones it already had. -/
def commit (c : Nat) : Res → Except Fault State
  | .ret _ s => .ok s
  | .switched s k => .ok { s with frames := Function.update s.frames c (k ++ s.frames c) }
  | .fault f => .error f

/-- What can happen next: the running thread makes a call, the running thread continues the
activations it was suspended in, or an external interrupt handler makes a call. -/
inductive Event
  | call (c : Call)
  | resume
  | interrupt (c : Call)

/-- One step of the system; none when the event cannot happen in this state or the kernel
faults. A thread that still has suspended activations is inside a critical section: it can
only continue them. An interrupt handler runs to its end on top of the running thread. -/
def step : Event → State → Option State
  | .call c, s =>
    match s.frames s.current with
    | [] => (commit s.current (exec c s)).toOption
    | _ :: _ => none
  | .resume, s =>
    match s.frames s.current with
    | [] => none
    | k :: ks =>
      (commit s.current
        (run_frames (k :: ks) 0 { s with frames := Function.update s.frames s.current [] })).toOption
  | .interrupt c, s =>
    match s.frames s.current with
    | [] =>
      match exec c { s with intr_context := true } with
      | .ret _ s1 => some { s1 with intr_context := s.intr_context }
      | _ => none
    | _ :: _ => none

/-- Run a sequence of events. -/
def run : List Event → State → Option State
  | [], s => some s
  | e :: es, s =>
    match step e s with
    | some s1 => run es s1
    | none => none

/-- A zeroed thread page; THREAD_RUNNING is the first enumerator of the status, hence 0. -/
def Thread.zero : Thread :=
  { tid := 0, status := Status.THREAD_RUNNING, priority := 0, init_priority := 0,
    wakeup_tick := 0, wait_on_lock := none, hold_list := [], donations := [], magic := 0 }

/-- The machine before thread_init: zeroed memory of the given number of pages, the boot code
running on page 0, the tid counter at its static initial value 1. -/
def boot (pages : Nat) : State :=
  { threads := fun _ => Thread.zero,
    locks := fun _ => { holder := none, semaphore := { value := 0, waiters := [] } },
    semas := fun _ => { value := 0, waiters := [] },
    conds := fun _ => { waiters := [] },
    ready_list := [], sleep_list := [], destruction_req := [],
    idle_thread := none, initial_thread := none,
    next_tid := 1, thread_ticks := 0, thread_mlfqs := false,
    current := 0, intr_context := false, freed := [], mem_pages := pages,
    frames := fun _ => [] }

/-- The states the system can reach from s0. -/
def Reachable (s0 s : State) : Prop := ∃ es, run es s0 = some s

/-! ## Concrete scenarios -/

/-- A live thread record with the given status and priority, holding and awaiting nothing. -/
def Thread.live (status : Status) (priority : Int) : Thread :=
  { tid := 0, status := status, priority := priority, init_priority := priority,
    wakeup_tick := 0, wait_on_lock := none, hold_list := [], donations := [],
    magic := THREAD_MAGIC }

/-- Thread 0 runs at priority 31, threads 1 (priority 40) and 2 (priority 20) are READY in that
order, thread 3 (priority 31) is BLOCKED. -/
def ready_scene : State :=
  { boot 8 with
    threads := fun t =>
      match t with
      | 0 => Thread.live Status.THREAD_RUNNING 31
      | 1 => Thread.live Status.THREAD_READY 40
      | 2 => Thread.live Status.THREAD_READY 20
      | 3 => Thread.live Status.THREAD_BLOCKED 31
      | _ => Thread.zero
    ready_list := [1, 2] }

/-- From boot: main (page 0, priority 31) takes lock 1 and creates thread 1 (priority 31) and
thread 2 (priority 32), which preempts it; thread 2 creates thread 3 (priority 40), which
preempts it and asks for lock 1. -/
def inversion_trace : List Event :=
  [.call .thread_init, .call (.lock_init 1), .call (.lock_acquire 1),
   .call (.thread_create (some 1) 31), .call (.thread_create (some 2) 32),
   .call (.thread_create (some 3) 40), .call (.lock_acquire 1)]

/-- Thread 0 (base priority 1) holds lock 1 and lists it in hold_list, thread 2 (priority 3)
holds lock 2; thread 1 (priority 5) runs, thread 3 (priority 7) sleeps until tick 10. -/
def refresh_scene : State :=
  { boot 8 with
    threads := fun t =>
      match t with
      | 0 => { Thread.live Status.THREAD_READY 1 with hold_list := [1] }
      | 1 => Thread.live Status.THREAD_RUNNING 5
      | 2 => { Thread.live Status.THREAD_READY 3 with hold_list := [2] }
      | 3 => { Thread.live Status.THREAD_BLOCKED 7 with wakeup_tick := 10 }
      | _ => Thread.zero
    locks := fun l =>
      match l with
      | 1 => { holder := some 0, semaphore := { value := 0, waiters := [] } }
      | 2 => { holder := some 2, semaphore := { value := 0, waiters := [] } }
      | _ => { holder := none, semaphore := { value := 1, waiters := [] } }
    current := 1
    ready_list := [2, 0]
    sleep_list := [3] }

/-- Thread 1 and then thread 2 block on lock 1; the timer wakes thread 3; thread 0 yields to
it; thread 3 blocks on lock 2, which thread 2 holds, and so donates to thread 2 while thread 2
stands behind thread 1 in the wait list of lock 1. -/
def refresh_trace : List Event :=
  [.call (.lock_acquire 1), .call (.lock_acquire 1), .interrupt (.thread_awake 10),
   .call .thread_yield, .call (.lock_acquire 2)]

/-- From boot: main takes the free lock 1. -/
def acquire_trace : List Event :=
  [.call .thread_init, .call (.lock_init 1), .call (.lock_acquire 1)]

/-- Thread 0 (priority 5) runs and holds lock 1; threads 1 and 2 (priority 7) and thread 3
(priority 0) are READY; the stand-alone semaphore 0 has the counter 0 and no waiter. -/
def wake_scene : State :=
  { boot 8 with
    threads := fun t =>
      match t with
      | 0 => Thread.live Status.THREAD_RUNNING 5
      | 1 => Thread.live Status.THREAD_READY 7
      | 2 => Thread.live Status.THREAD_READY 7
      | 3 => Thread.live Status.THREAD_READY 0
      | _ => Thread.zero
    locks := fun l =>
      match l with
      | 1 => { holder := some 0, semaphore := { value := 0, waiters := [] } }
      | _ => { holder := none, semaphore := { value := 1, waiters := [] } }
    ready_list := [1, 2, 3] }

/-- Thread 0 and then thread 1 go down on semaphore 0; thread 2 asks for lock 1 and so donates
its priority to thread 0; thread 3 ups semaphore 0. -/
def wake_trace : List Event :=
  [.call (.sema_down (.sema 0)), .call (.sema_down (.sema 0)), .call (.lock_acquire 1),
   .call (.sema_up (.sema 0))]

/-- Thread 3 runs; threads 1 and 0, both of priority 7 and BLOCKED, wait in that order on the
stand-alone semaphore 0; thread 2 is BLOCKED elsewhere. -/
def tie_scene : State :=
  { boot 8 with
    threads := fun t =>
      match t with
      | 0 => Thread.live Status.THREAD_BLOCKED 7
      | 1 => Thread.live Status.THREAD_BLOCKED 7
      | 2 => Thread.live Status.THREAD_BLOCKED 7
      | 3 => Thread.live Status.THREAD_RUNNING 0
      | _ => Thread.zero
    semas := fun a =>
      match a with
      | 0 => { value := 0, waiters := [1, 0] }
      | _ => { value := 0, waiters := [] }
    current := 3 }

/-- Number of thread pages whose priority is below p: what a turn of the donation loop,
which raises one such thread to p, makes smaller. -/
def below (s : State) (p : Int) : Nat :=
  ((Finset.range s.mem_pages).filter (fun a => s.prio a < p)).card

/-- Every holder pointer of a lock points into the thread pages. -/
def holders_in_memory (s : State) : Prop :=
  ∀ l h, (s.locks l).holder = some h → h < s.mem_pages

/-- The nested wait of P3: thread 0 (priority 10) runs and has recorded that it waits on lock 1,
held by thread 1 (priority 1), which waits on lock 2, held by thread 2 (priority 1). -/
def chain_scene : State :=
  { boot 8 with
    threads := fun t =>
      match t with
      | 0 => { Thread.live Status.THREAD_RUNNING 10 with wait_on_lock := some 1 }
      | 1 => { Thread.live Status.THREAD_BLOCKED 1 with wait_on_lock := some 2 }
      | 2 => Thread.live Status.THREAD_READY 1
      | _ => Thread.zero
    locks := fun l =>
      match l with
      | 1 => { holder := some 1, semaphore := { value := 0, waiters := [] } }
      | 2 => { holder := some 2, semaphore := { value := 0, waiters := [1] } }
      | _ => { holder := none, semaphore := { value := 1, waiters := [] } }
    ready_list := [2] }

/-- The scenario of P2 before the donation: thread 0 (L, base and current priority 1) is READY
and holds lock 1; thread 1 (M, priority 5) runs. -/
def donate_scene : State :=
  { boot 8 with
    threads := fun t =>
      match t with
      | 0 => Thread.live Status.THREAD_READY 1
      | 1 => Thread.live Status.THREAD_RUNNING 5
      | _ => Thread.zero
    locks := fun l =>
      match l with
      | 1 => { holder := some 0, semaphore := { value := 0, waiters := [] } }
      | _ => { holder := none, semaphore := { value := 1, waiters := [] } }
    current := 1
    ready_list := [0] }

/-- The scenario of P2 after thread 1 has blocked on lock 1: thread 0 runs at the donated
priority 5 with base priority 1, thread 1 waits on the lock. -/
def release_scene : State :=
  { boot 8 with
    threads := fun t =>
      match t with
      | 0 => { Thread.live Status.THREAD_RUNNING 5 with init_priority := 1, donations := [1] }
      | 1 => { Thread.live Status.THREAD_BLOCKED 5 with wait_on_lock := some 1 }
      | _ => Thread.zero
    locks := fun l =>
      match l with
      | 1 => { holder := some 0, semaphore := { value := 0, waiters := [1] } }
      | _ => { holder := none, semaphore := { value := 1, waiters := [] } }
    current := 0
    ready_list := [] }

/-- Thread 0 (L, priority 1) runs and holds lock 1; threads 1 (M) and 2 (N), both of priority
5, are READY in that order. -/
def handover_scene : State :=
  { boot 8 with
    threads := fun t =>
      match t with
      | 0 => Thread.live Status.THREAD_RUNNING 1
      | 1 => Thread.live Status.THREAD_READY 5
      | 2 => Thread.live Status.THREAD_READY 5
      | _ => Thread.zero
    locks := fun l =>
      match l with
      | 1 => { holder := some 0, semaphore := { value := 0, waiters := [] } }
      | _ => { holder := none, semaphore := { value := 1, waiters := [] } }
    current := 0
    ready_list := [1, 2] }

/-- L yields; M asks for lock 1 and blocks; N yields, so that L runs; L releases lock 1. -/
def handover_trace : List Event :=
  [.call .thread_yield, .call (.lock_acquire 1), .call .thread_yield, .call (.lock_release 1)]

/-- The four operations on one semaphore, as they may follow one another in any order and
from any thread. A sema_down that was switched out is followed, when its caller runs again,
by another pass of sema_down (the frame sema_down_loop). -/
inductive SemaOp
  | sema_init (value : Nat)
  | sema_down
  | sema_try_down
  | sema_up

/-- The state after one operation on the semaphore, none when the kernel faults. -/
def sema_op (sema : SemaRef) : SemaOp → State → Option State
  | .sema_init v, s => some (sema_init sema v s)
  | .sema_down, s => (sema_down sema s).state
  | .sema_try_down, s => some (sema_try_down sema s).2
  | .sema_up, s => (sema_up sema s).state

/-- Along the sequence, no operation other than sema_init takes the counter from 0 to the
greatest unsigned value, which is what a decrement at 0 would do. -/
def never_wraps (sema : SemaRef) : List SemaOp → State → Prop
  | [], _ => True
  | op :: ops, s =>
    match sema_op sema op s with
    | none => True
    | some s' =>
      ((∃ v, op = SemaOp.sema_init v) ∨
        ¬ ((s.sema sema).value = 0 ∧ (s'.sema sema).value = UINT_MOD - 1)) ∧
      never_wraps sema ops s'

/-- Whether a call came back to its caller without reaching the dispatcher. -/
def Res.returned : Res → Bool
  | .ret _ _ => true
  | _ => false

/-- The failure a call ended in, if it did. -/
def Res.failure : Res → Option Fault
  | .fault f => some f
  | _ => none

/-- The idle thread (page 4, priority 0) runs and nothing is READY; thread 0 is BLOCKED. -/
def idle_scene : State :=
  { boot 8 with
    threads := fun t =>
      match t with
      | 0 => Thread.live Status.THREAD_BLOCKED 31
      | 4 => Thread.live Status.THREAD_RUNNING 0
      | _ => Thread.zero
    idle_thread := some 4
    current := 4 }

/-- Thread 1 (priority 1) runs, thread 2 (priority 0) is READY, thread 0 (priority 5) sleeps
until tick 10; lock 1 is free and condition 0 has no waiter. -/
def cond_scene : State :=
  { boot 8 with
    threads := fun t =>
      match t with
      | 0 => { Thread.live Status.THREAD_BLOCKED 5 with wakeup_tick := 10 }
      | 1 => Thread.live Status.THREAD_RUNNING 1
      | 2 => Thread.live Status.THREAD_READY 0
      | _ => Thread.zero
    locks := fun _ => { holder := none, semaphore := { value := 1, waiters := [] } }
    current := 1
    ready_list := [2]
    sleep_list := [0] }

/-- Thread 1 takes lock 1 and waits on condition 0 with the waiter record 10, so that thread 2
runs; the timer wakes thread 0, thread 2 yields to it, and thread 0 takes lock 1. -/
def cond_trace : List Event :=
  [.call (.lock_acquire 1), .call (.cond_wait 0 1 10), .interrupt (.thread_awake 10),
   .call .thread_yield, .call (.lock_acquire 1)]

/-- Thread 1 (priority 5) runs and thread 0 (priority 1) is READY; the stand-alone semaphore 0
has the counter 0 and no waiter. -/
def handler_scene : State :=
  { boot 8 with
    threads := fun t =>
      match t with
      | 0 => Thread.live Status.THREAD_READY 1
      | 1 => Thread.live Status.THREAD_RUNNING 5
      | _ => Thread.zero
    current := 1
    ready_list := [0] }

/-- The state of handler_scene after thread 1 (priority 5) has called sema_down on semaphore 0
and blocked: thread 0 (priority 1) runs and thread 1 waits on the semaphore. -/
def handler_blocked_scene : State :=
  { boot 8 with
    threads := fun t =>
      match t with
      | 0 => Thread.live Status.THREAD_RUNNING 1
      | 1 => Thread.live Status.THREAD_BLOCKED 5
      | _ => Thread.zero
    semas := fun a =>
      match a with
      | 0 => { value := 0, waiters := [1] }
      | _ => { value := 0, waiters := [] }
    current := 0
    ready_list := [] }

/-- What a dispatch may change: the status of threads and the scheduler's own variables
(running thread, ready list, time slice, pages to free). Everything named here stays. -/
def dispatched (s s' : State) : Prop :=
  (∀ t, s'.threads t = { s.threads t with status := (s'.threads t).status }) ∧
  s'.locks = s.locks ∧ s'.semas = s.semas ∧ s'.conds = s.conds ∧
  s'.sleep_list = s.sleep_list ∧ s'.idle_thread = s.idle_thread ∧
  s'.intr_context = s.intr_context ∧ s'.mem_pages = s.mem_pages ∧
  s'.thread_mlfqs = s.thread_mlfqs
/-- The priority invariant of the data model: no thread is below its base priority. -/
def priority_inv (s : State) : Prop :=
  ∀ t, (s.threads t).init_priority ≤ (s.threads t).priority

/-- The operations of thread.c that write a priority. -/
inductive PrioOp
  | init_thread (t : Nat) (priority : Int)
  | donate_priority
  | refresh_priority
  | thread_set_priority (new_priority : Int)

/-- The state one of these operations leaves, none when the kernel faults. -/
def prio_op : PrioOp → State → Option State
  | .init_thread t p, s => (init_thread t p s).toOption
  | .donate_priority, s => (donate_priority s).toOption
  | .refresh_priority, s => (refresh_priority s).toOption
  | .thread_set_priority p, s => (thread_set_priority p s).state

/-- The state after a sequence of these operations. -/
def prio_run : List PrioOp → State → Option State
  | [], s => some s
  | op :: ops, s =>
    match prio_op op s with
    | some s1 => prio_run ops s1
    | none => none

/-- The lock invariant of the data model: the holder is null exactly when the counter of the
lock's semaphore is 1, and the counter is 0 or 1. -/
def lock_inv (s : State) (l : Nat) : Prop :=
  ((s.locks l).holder = none ↔ (s.locks l).semaphore.value = 1) ∧
  ((s.locks l).semaphore.value = 0 ∨ (s.locks l).semaphore.value = 1)

/-- A number of lock_try_acquire calls on the same lock, one after the other, with the list of
the values they return. -/
def lock_try_acquire_times : Nat → Nat → State → Except Fault (List Bool × State)
  | 0, _, s => .ok ([], s)
  | n + 1, lock, s =>
    match lock_try_acquire lock s with
    | .error f => .error f
    | .ok (b, s1) =>
      match lock_try_acquire_times n lock s1 with
      | .error f => .error f
      | .ok (bs, s2) => .ok (b :: bs, s2)

/-- The order of the sleep list: ascending wakeup_tick. -/
def sleep_sorted (s : State) : Prop :=
  s.sleep_list.Pairwise (fun a b => (s.threads a).wakeup_tick ≤ (s.threads b).wakeup_tick)
/-- What the sleep list and the ready list hold between calls: the sleep list is in ascending
order, has no repetition and holds BLOCKED threads; the ready list has no repetition and holds
READY threads; the idle thread is not asleep. -/
def sleep_inv (s : State) : Prop :=
  sleep_sorted s ∧ s.sleep_list.Nodup ∧
  (∀ t ∈ s.sleep_list, (s.threads t).status = Status.THREAD_BLOCKED) ∧
  (∀ t ∈ s.ready_list, (s.threads t).status = Status.THREAD_READY) ∧
  s.ready_list.Nodup ∧
  (∀ i, s.idle_thread = some i → i ∉ s.sleep_list)

/-- The two operations on the sleep list. -/
inductive SleepOp
  | thread_sleep (wakeup_tick : Int)
  | thread_awake (current_tick : Int)

/-- The state one of these operations leaves, none when the kernel faults. -/
def sleep_op : SleepOp → State → Option State
  | .thread_sleep w, s => (thread_sleep w s).state
  | .thread_awake tick, s => (thread_awake tick s).toOption

/-- The state after a sequence of these operations. -/
def sleep_run : List SleepOp → State → Option State
  | [], s => some s
  | op :: ops, s =>
    match sleep_op op s with
    | some s1 => sleep_run ops s1
    | none => none
/-- Thread 0 runs and thread 1 is READY; threads 2, 3 and 4 sleep until ticks 5, 10 and 20;
thread 5 is the idle thread, BLOCKED. -/
def sleep_scene : State :=
  { boot 8 with
    threads := fun t =>
      match t with
      | 0 => Thread.live Status.THREAD_RUNNING 31
      | 1 => Thread.live Status.THREAD_READY 31
      | 2 => { Thread.live Status.THREAD_BLOCKED 31 with wakeup_tick := 5 }
      | 3 => { Thread.live Status.THREAD_BLOCKED 31 with wakeup_tick := 10 }
      | 4 => { Thread.live Status.THREAD_BLOCKED 31 with wakeup_tick := 20 }
      | 5 => Thread.live Status.THREAD_BLOCKED 0
      | _ => Thread.zero
    idle_thread := some 5
    ready_list := [1]
    sleep_list := [2, 3, 4] }

/-- The priority of the thread at the front of the private semaphore of a waiter record. -/
def waiter_priority (s : State) (r : Nat) : Int :=
  match (s.semas r).waiters with
  | [] => 0
  | t :: _ => (s.threads t).priority

/-- What the claim says cond_broadcast does: sema_up on the private semaphore of each record,
in the order of the given list, every record leaving the wait set as it is signalled; when a
sema_up yields, the rest is left to the suspended loop. -/
def signal_in_order (cond lock : Nat) : List Nat → State → Res
  | [], s => .ret 0 s
  | r :: rest, s =>
    match sema_up (.sema r) (s.set_cond cond rest) with
    | .ret _ s1 => signal_in_order cond lock rest s1
    | .switched s1 k => .switched s1 (k ++ [Frame.cond_broadcast_loop cond lock])
    | .fault f => .fault f

/-- The situation of P7: outside interrupt context the running thread holds the lock; the wait
set of the condition is the list L of distinct records, each with exactly one valid BLOCKED
thread on its private semaphore, no thread on two of them; the ready list holds valid
threads. -/
def broadcast_ready (s : State) (cond lock : Nat) (L : List Nat) : Prop :=
  (s.conds cond).waiters = L ∧ s.intr_context = false ∧ is_thread s s.current ∧
  (s.threads s.current).status = Status.THREAD_RUNNING ∧
  (s.locks lock).holder = some s.current ∧
  (∀ x ∈ s.ready_list, is_thread s x) ∧ L.Nodup ∧
  (∀ r ∈ L, ∃ t, (s.semas r).waiters = [t] ∧ is_thread s t ∧
    (s.threads t).status = Status.THREAD_BLOCKED) ∧
  (∀ r ∈ L, ∀ r' ∈ L, (s.semas r).waiters = (s.semas r').waiters → r = r')
/-- Thread 0 (priority 9) runs and holds lock 1; the wait set of condition 0 holds the records
10, 11 and 12, on whose semaphores threads 1 (priority 3), 2 (priority 7) and 3 (priority 5)
are blocked; thread 4 (priority 0) is READY. -/
def broadcast_scene : State :=
  { boot 8 with
    threads := fun t =>
      match t with
      | 0 => Thread.live Status.THREAD_RUNNING 9
      | 1 => Thread.live Status.THREAD_BLOCKED 3
      | 2 => Thread.live Status.THREAD_BLOCKED 7
      | 3 => Thread.live Status.THREAD_BLOCKED 5
      | 4 => Thread.live Status.THREAD_READY 0
      | _ => Thread.zero
    locks := fun l =>
      match l with
      | 1 => { holder := some 0, semaphore := { value := 0, waiters := [] } }
      | _ => { holder := none, semaphore := { value := 1, waiters := [] } }
    semas := fun a =>
      match a with
      | 10 => { value := 0, waiters := [1] }
      | 11 => { value := 0, waiters := [2] }
      | 12 => { value := 0, waiters := [3] }
      | _ => { value := 0, waiters := [] }
    conds := fun c =>
      match c with
      | 0 => { waiters := [10, 11, 12] }
      | _ => { waiters := [] }
    ready_list := [4] }

/-- Thread 1 runs; thread 2 and thread 0, the initial thread, are READY in that order; all
three have priority 31. The stand-alone semaphore 0 has the counter 0 and no waiter. -/
def exit_scene : State :=
  { boot 8 with
    threads := fun t =>
      match t with
      | 0 => Thread.live Status.THREAD_READY 31
      | 1 => Thread.live Status.THREAD_RUNNING 31
      | 2 => Thread.live Status.THREAD_READY 31
      | _ => Thread.zero
    initial_thread := some 0
    current := 1
    ready_list := [2, 0] }

/-- The wait-for chain that starts at a lock pointer: the holder of the lock, then the holder
of the lock that holder waits on, and so on. -/
inductive on_chain (s : State) : Option Nat → Nat → Prop
  | holder (l h : Nat) : (s.locks l).holder = some h → on_chain s (some l) h
  | next (l h t : Nat) : (s.locks l).holder = some h →
      on_chain s (s.threads h).wait_on_lock t → on_chain s (some l) t

/-- A wait-for cycle: thread 0 (priority 10) runs and has recorded that it waits on lock 1,
held by thread 1 (priority 1), which waits on lock 2, held by thread 2 (priority 1), which
waits on lock 3, held by thread 1 again. Thread 3 (priority 4) stands aside. -/
def cycle_scene : State :=
  { boot 8 with
    threads := fun t =>
      match t with
      | 0 => { Thread.live Status.THREAD_RUNNING 10 with wait_on_lock := some 1 }
      | 1 => { Thread.live Status.THREAD_BLOCKED 1 with wait_on_lock := some 2 }
      | 2 => { Thread.live Status.THREAD_BLOCKED 1 with wait_on_lock := some 3 }
      | 3 => Thread.live Status.THREAD_READY 4
      | _ => Thread.zero
    locks := fun l =>
      match l with
      | 1 => { holder := some 1, semaphore := { value := 0, waiters := [] } }
      | 2 => { holder := some 2, semaphore := { value := 0, waiters := [1] } }
      | 3 => { holder := some 1, semaphore := { value := 0, waiters := [2] } }
      | _ => { holder := none, semaphore := { value := 1, waiters := [] } }
    ready_list := [3] }

/-- One round of the ping-pong of sema_self_test once both threads are inside their loops
(synch.c, 183-201): the helper asks for the first semaphore and blocks, the tester ends its
sema_down, posts the first semaphore and blocks on the second, the helper ends its sema_down
and posts the second semaphore. -/
def self_test_round : List Event :=
  [.call (.sema_down (.sema 0)), .resume, .call (.sema_up (.sema 0)),
   .call (.sema_down (.sema 1)), .resume, .call (.sema_up (.sema 1))]

/-- The run of sema_self_test (synch.c, 174-202) from boot: two semaphores initialised to 0, the
helper (page 1) created at PRI_DEFAULT, ten sema_up and ten sema_down on each semaphore; the
helper exits after its tenth round and the tester ends its tenth sema_down. -/
def self_test_trace : List Event :=
  [.call .thread_init, .call (.sema_init (.sema 0) 0), .call (.sema_init (.sema 1) 0),
   .call (.thread_create (some 1) PRI_DEFAULT),
   .call (.sema_up (.sema 0)), .call (.sema_down (.sema 1)),
   .call (.sema_down (.sema 0)), .call (.sema_up (.sema 1))] ++
  (List.replicate 9 self_test_round).flatten ++
  [.call .thread_exit, .resume]

/-- Number of sema_up operations in a sequence. -/
def count_up : List SemaOp → Nat
  | [] => 0
  | .sema_up :: ops => count_up ops + 1
  | _ :: ops => count_up ops

/-- Number of sema_down operations in a sequence. -/
def count_down : List SemaOp → Nat
  | [] => 0
  | .sema_down :: ops => count_down ops + 1
  | _ :: ops => count_down ops

/-- Run a sequence of operations on one semaphore, each from the state the one before left;
none when an operation faults, and none when a sema_down finds the counter at 0. -/
def sema_run_positive (sema : SemaRef) : List SemaOp → State → Option State
  | [], s => some s
  | .sema_down :: ops, s =>
    if (s.sema sema).value = 0 then none
    else (sema_op sema .sema_down s).bind (sema_run_positive sema ops)
  | op :: ops, s => (sema_op sema op s).bind (sema_run_positive sema ops)

/-- The loop of the tester in sema_self_test with one semaphore: n rounds of sema_up followed
by sema_down, none unless every call returns to its caller without reaching the dispatcher. -/
def round_trips (sema : SemaRef) : Nat → State → Option State
  | 0, s => some s
  | n + 1, s =>
    match sema_up sema s with
    | .ret _ s1 =>
      match sema_down sema s1 with
      | .ret _ s2 => round_trips sema n s2
      | _ => none
    | _ => none

/-- What a call leaves alone when it writes only to locks, to the tid counter and to the record
of the running thread, whose magic, status and base priority it keeps. -/
def caller_only (s s' : State) : Prop :=
  s'.ready_list = s.ready_list ∧ s'.current = s.current ∧
  s'.intr_context = s.intr_context ∧ s'.idle_thread = s.idle_thread ∧
  (∀ u, u ≠ s.current → s'.threads u = s.threads u) ∧
  (s'.threads s.current).magic = (s.threads s.current).magic ∧
  (s'.threads s.current).status = (s.threads s.current).status ∧
  (s'.threads s.current).init_priority = (s.threads s.current).init_priority

/-- The increment next_tid++ of allocate_tid (thread.c, 734) as the machine does it. -/
def tid_succ (n : Int) : Int := int_wrap (n + 1)

/-- The tid counter has gone from a to b by increments of allocate_tid only. -/
def tid_advanced (a b : Int) : Prop := ∃ k : Nat, b = tid_succ^[k] a

/-- The effective priority lock_release restores for thread t: the maximum of its base
priority and of the priorities of its donors. -/
def effective_priority (s : State) (t : Nat) : Int :=
  donated_max s (s.threads t).init_priority (s.threads t).donations

/-- The situation in which thread_create, its tid allocated, finishes the creation on page t
with priority p: the creator is a valid running thread outside interrupt context, the ready
list holds valid threads, and page t holds the record init_thread has written, BLOCKED and on
no list. -/
def create_pending (s : State) (t : Nat) (p : Int) : Prop :=
  is_thread s s.current ∧ (s.threads s.current).status = Status.THREAD_RUNNING ∧
  s.intr_context = false ∧ t ≠ s.current ∧ t ∉ s.ready_list ∧
  (∀ x ∈ s.ready_list, is_thread s x) ∧
  s.threads t = Thread.mk 0 Status.THREAD_BLOCKED p p 0 none [] [] THREAD_MAGIC

/-- The state handler_scene with tid_lock initialised and the tid counter at INT_MAX, as after
2147483646 allocations. -/
def tid_max_scene : State :=
  { lock_init tid_lock handler_scene with next_tid := INT_MAX }

/-- The broadcast started by cond_broadcast in state s comes to its end. Either the call
returns with the wait set empty and every record of the wait set signalled once; or the caller
yields inside a sema_up, having signalled once each record of a non-empty front part of the
wait set in non-increasing order of priority, with the unsignalled rest as the wait set, every
record of the rest untouched, the lock still held and the rest of the loop as its suspended
activation, and the broadcast comes to its end from every state in which the caller runs again
in the situation of P7 for that rest. In both cases no semaphore outside the wait set is
touched, so that a record signalled in one activation is not signalled again in a later one. -/
inductive broadcast_ends (cond lock : Nat) : State → Prop
  | returns (s s' : State) :
      cond_broadcast cond lock s = .ret 0 s' →
      (s'.conds cond).waiters = [] →
      (∀ r ∈ (s.conds cond).waiters,
        s'.semas r = { value := ((s.semas r).value + 1) % UINT_MOD, waiters := [] }) →
      (∀ r, r ∉ (s.conds cond).waiters → s'.semas r = s.semas r) →
      broadcast_ends cond lock s
  | yields (s s' : State) (done rest : List Nat) :
      cond_broadcast cond lock s = .switched s' [Frame.cond_broadcast_loop cond lock] →
      done ≠ [] →
      (done ++ rest).Perm (s.conds cond).waiters →
      (done ++ rest).Pairwise (fun a b => waiter_priority s b ≤ waiter_priority s a) →
      (s'.conds cond).waiters = rest →
      (∀ r ∈ done,
        s'.semas r = { value := ((s.semas r).value + 1) % UINT_MOD, waiters := [] }) →
      (∀ r ∈ rest, s'.semas r = s.semas r) →
      (∀ r, r ∉ (s.conds cond).waiters → s'.semas r = s.semas r) →
      (s'.locks lock).holder = some s.current →
      (∀ s2, broadcast_ready s2 cond lock rest → broadcast_ends cond lock s2) →
      broadcast_ends cond lock s

/-- The scenario broadcast_scene with a caller of priority 4, which two of the three waiting
threads outrank: thread 0 (priority 4) runs and holds lock 1; the wait set of condition 0 holds
the records 10, 11 and 12, on whose semaphores threads 1 (priority 3), 2 (priority 7) and 3
(priority 5) are blocked; thread 4 (priority 0) is READY. -/
def broadcast_low_scene : State :=
  { broadcast_scene with
    threads := fun t =>
      match t with
      | 0 => Thread.live Status.THREAD_RUNNING 4
      | 1 => Thread.live Status.THREAD_BLOCKED 3
      | 2 => Thread.live Status.THREAD_BLOCKED 7
      | 3 => Thread.live Status.THREAD_BLOCKED 5
      | 4 => Thread.live Status.THREAD_READY 0
      | _ => Thread.zero }

/-- A broadcast with two preemptions: thread 0 calls cond_broadcast and yields to the thread
it wakes first; that thread blocks on semaphore 20 and thread 0 goes on with its broadcast,
yields to the second thread it wakes, which blocks on semaphore 20 as well, and thread 0 ends
its broadcast. -/
def broadcast_low_trace : List Event :=
  [.call (.cond_broadcast 0 1), .call (.sema_down (.sema 20)), .resume,
   .call (.sema_down (.sema 20)), .resume]

/-! # Theorems -/

/-! ## Ordered insertion -/

theorem list_insert_ordered_split {α : Type} (less : α → α → Bool) (x : α) (l : List α) :
    ∃ front back, l = front ++ back ∧ list_insert_ordered less x l = front ++ x :: back ∧
      (∀ e ∈ front, less x e = false) ∧ (∀ e, back.head? = some e → less x e = true) := by
  induction l with
  | nil => exact ⟨[], [], rfl, rfl, by simp, by simp⟩
  | cons a l ih =>
    by_cases h : less x a = true
    · exact ⟨[], a :: l, rfl, by simp [list_insert_ordered, h], by simp, by simpa using h⟩
    · obtain ⟨f, b, h1, h2, h3, h4⟩ := ih
      refine ⟨a :: f, b, by simp [h1], by simp [list_insert_ordered, h, h2], ?_, h4⟩
      intro e he
      rcases List.mem_cons.1 he with rfl | he
      · simpa using h
      · exact h3 e he

theorem thread_unblock_ok (s : State) (t : Nat) (h1 : is_thread s t)
    (h2 : (s.threads t).status = Status.THREAD_BLOCKED) :
    thread_unblock t s = .ok
      ({ s with ready_list := list_insert_ordered (thread_cmp_priority s) t s.ready_list }.set_thread t
        { s.threads t with status := Status.THREAD_READY }) := by
  simp [thread_unblock, h1, h2]

/-- C2. thread_unblock of a BLOCKED thread t, on a ready list of READY threads in non-increasing
priority order, puts t once into the ready list, behind every entry of priority at least
that of t and in front of every entry of lower priority, keeps the other entries in their
order and the list sorted, marks t READY and changes nothing else (the running thread stays);
on a thread that is not BLOCKED it fails its assertion. -/
theorem C2_thread_unblock (s : State) (t : Nat) (hthread : is_thread s t)
    (hready : ∀ x ∈ s.ready_list, (s.threads x).status = Status.THREAD_READY)
    (hsorted : s.ready_list.Pairwise (fun a b => s.prio a ≥ s.prio b)) :
    ((s.threads t).status = Status.THREAD_BLOCKED →
      ∃ s' front back, thread_unblock t s = .ok s' ∧
        s.ready_list = front ++ back ∧ s'.ready_list = front ++ t :: back ∧
        (∀ x ∈ front, s.prio x ≥ s.prio t) ∧ (∀ x ∈ back, s.prio x < s.prio t) ∧
        s'.ready_list.count t = 1 ∧
        s'.ready_list.Pairwise (fun a b => s'.prio a ≥ s'.prio b) ∧
        s'.threads t = { s.threads t with status := Status.THREAD_READY } ∧
        (∀ u, u ≠ t → s'.threads u = s.threads u) ∧
        s'.current = s.current ∧
        s' = { s with ready_list := s'.ready_list, threads := s'.threads }) ∧
    ((s.threads t).status ≠ Status.THREAD_BLOCKED → thread_unblock t s = .error .panic) := by
  constructor
  · intro hb
    obtain ⟨front, back, h1, h2, h3, h4⟩ :=
      list_insert_ordered_split (thread_cmp_priority s) t s.ready_list
    have hfront : ∀ x ∈ front, s.prio x ≥ s.prio t := by
      intro x hx
      have := h3 x hx
      simp [thread_cmp_priority] at this
      exact this
    have hback : ∀ x ∈ back, s.prio x < s.prio t := by
      rw [h1] at hsorted
      have hp := (List.pairwise_append.1 hsorted).2.1
      intro x hx
      cases back with
      | nil => simp at hx
      | cons b bs =>
        have hb0 := h4 b rfl
        simp [thread_cmp_priority] at hb0
        rcases List.mem_cons.1 hx with rfl | hx
        · exact hb0
        · have := List.rel_of_pairwise_cons hp hx
          simp only [State.prio] at *
          omega
    have hnotin : t ∉ s.ready_list := by
      intro hin
      have := hready t hin
      rw [hb] at this
      exact absurd this (by decide)
    have hprio : ∀ u, ({ s with ready_list := list_insert_ordered (thread_cmp_priority s) t s.ready_list }.set_thread t
        { s.threads t with status := Status.THREAD_READY }).prio u = s.prio u := by
      intro u
      by_cases hu : u = t
      · subst hu; simp [State.prio, State.set_thread]
      · simp [State.prio, State.set_thread, Function.update_noteq hu]
    refine ⟨_, front, back, thread_unblock_ok s t hthread hb, h1, ?_, hfront, hback, ?_, ?_, ?_, ?_, rfl, rfl⟩
    · simpa [State.set_thread] using h2
    · simp only [State.set_thread, h2]
      rw [h1] at hnotin
      simp only [List.mem_append, not_or] at hnotin
      simp [List.count_append, List.count_cons, List.count_eq_zero_of_not_mem hnotin.1,
        List.count_eq_zero_of_not_mem hnotin.2]
    · simp only [hprio]
      simp only [State.set_thread, h2]
      rw [h1] at hsorted
      rw [List.pairwise_append] at hsorted ⊢
      refine ⟨hsorted.1, ?_, ?_⟩
      · rw [List.pairwise_cons]
        exact ⟨fun x hx => le_of_lt (hback x hx), hsorted.2.1⟩
      · intro a ha b hb'
        rcases List.mem_cons.1 hb' with rfl | hb'
        · exact hfront a ha
        · exact hsorted.2.2 a ha b hb'
    · simp [State.set_thread]
    · intro u hu
      simp [State.set_thread, Function.update_noteq hu]
  · intro hb
    simp [thread_unblock, hb]

/-- C2 at ready_scene: the BLOCKED thread 3 (priority 31) goes between threads 1 and 2; the
READY thread 1 cannot be unblocked. -/
theorem C2_thread_unblock_witness :
    (∃ s', thread_unblock 3 ready_scene = .ok s' ∧ s'.ready_list = [1, 3, 2] ∧
      (s'.threads 3).status = Status.THREAD_READY ∧ s'.current = 0) ∧
    thread_unblock 1 ready_scene = .error .panic := by
  have h := C2_thread_unblock ready_scene 3 (by decide!) (by decide!) (by decide!)
  refine ⟨?_, (C2_thread_unblock ready_scene 1 (by decide!) (by decide!) (by decide!)).2 (by decide!)⟩
  obtain ⟨s', front, back, h1, -, -, -, -, -, -, h8, -, h10, -⟩ := h.1 (by decide!)
  have h2 := thread_unblock_ok ready_scene 3 (by decide!) (by decide!)
  rw [h2] at h1
  cases h1
  exact ⟨_, h2, by decide!, by decide!, by decide!⟩

/-! ## C1: donation to a READY thread leaves the ready list unsorted -/

/-- C1 (the code breaks it). After inversion_trace the ready list is [thread 1, thread 0] with
priorities 31 and 40, both READY: thread 0 holds lock 1 and received the donation of thread 3
while it stood in the ready list. next_thread_to_run returns thread 1, of priority 31, although
the READY thread 0 has priority 40; and the thread that was dispatched when thread 3 blocked
is thread 2, of priority 32. -/
theorem C1_donation_inverts_ready_list :
    (run inversion_trace (boot 8)).map
      (fun s => ((next_thread_to_run s).1, s.ready_list, s.ready_list.map s.prio,
        s.ready_list.map (fun t => (s.threads t).status))) =
      some (some 1, [1, 0], [31, 40], [Status.THREAD_READY, Status.THREAD_READY]) ∧
    (run inversion_trace (boot 8)).map
      (fun s => (s.current, s.prio s.current, (s.locks 1).holder,
        (s.locks 1).semaphore.waiters, (s.threads 0).init_priority)) =
      some (2, 32, some 0, [3], 31) :=
  ⟨by decide!, by decide!⟩

/-! ## C8: refresh_priority reads only the front waiter -/

/-- C8 (the code breaks it). After refresh_trace thread 0 runs, holds lock 1 (listed in its
hold_list), and the wait list of lock 1 is [thread 1, thread 2] with priorities 5 and 7.
refresh_priority sets the priority of thread 0 to 5, not to the maximum 7. -/
theorem C8_refresh_priority_front_only :
    (run refresh_trace refresh_scene).map
      (fun s => (s.current, (s.threads 0).init_priority, (s.threads 0).hold_list,
        (s.locks 1).semaphore.waiters, (s.locks 1).semaphore.waiters.map s.prio)) =
      some (0, 1, [1], [1, 2], [5, 7]) ∧
    ((run refresh_trace refresh_scene).bind (fun s => (refresh_priority s).toOption)).map
      (fun s => s.prio 0) = some 5 := by
  decide!

/-! ## C10: lock_acquire and the held-lock list -/

/-- C10 (as stated, refuted). After main has acquired the free lock 1, the lock's holder is
main and main waits on no lock, but hold_list of main is empty: the lock is not a member.
The same holds on the blocking path: in donate_scene thread 1 blocks on lock 1, thread 0
releases it, and thread 1, dispatched again, completes its lock_acquire with an empty
hold_list. -/
theorem C10_lock_acquire_leaves_hold_list :
    (run acquire_trace (boot 8)).map
      (fun s => (s.current, s.frames 0, (s.locks 1).holder, (s.threads 0).wait_on_lock,
        (s.threads 0).hold_list)) =
      some (0, [], some 0, none, []) ∧
    (run [.call (.lock_acquire 1), .call (.lock_release 1), .resume] donate_scene).map
      (fun s => (s.current, s.frames 1, (s.locks 1).holder, (s.threads 1).wait_on_lock,
        (s.threads 1).hold_list)) =
      some (1, [], some 1, none, []) :=
  ⟨by decide!, by decide!⟩

/-! ## Semaphore pointers -/

theorem sema_set_sema (s : State) (r : SemaRef) (v : Semaphore) : (s.set_sema r v).sema r = v := by
  cases r <;> simp [State.sema, State.set_sema, State.set_lock]

theorem sema_set_sema_ne (s : State) (r r' : SemaRef) (v : Semaphore) (h : r' ≠ r) :
    (s.set_sema r v).sema r' = s.sema r' := by
  cases r <;> cases r' <;> simp [State.sema, State.set_sema, State.set_lock]
  all_goals
    rename_i a b
    by_cases hab : b = a
    · subst hab; exact absurd rfl h
    · simp [Function.update_noteq hab]

theorem uint_decrement (v : Nat) (h0 : v ≠ 0) (hr : v < UINT_MOD) :
    (v + (UINT_MOD - 1)) % UINT_MOD + 1 = v := by
  unfold UINT_MOD at *
  omega

theorem next_thread_to_run_state (s : State) :
    (next_thread_to_run s).2 = { s with ready_list := s.ready_list.tail } := by
  unfold next_thread_to_run
  cases hr : s.ready_list with
  | nil =>
    simp only [List.tail_nil]
    rw [← hr]
  | cons a l => rfl

theorem next_thread_to_run_head (s : State) (n : Nat) (rest : List Nat)
    (hr : s.ready_list = n :: rest) : (next_thread_to_run s).1 = some n := by
  unfold next_thread_to_run
  rw [hr]

/-- When the dispatcher comes back, it has launched the thread next_thread_to_run chose. -/
theorem schedule_eq (s s' : State) (h : schedule s = .ok s') :
    ∃ n, (next_thread_to_run s).1 = some n ∧ is_thread s n ∧
      (s.threads s.current).status ≠ Status.THREAD_RUNNING ∧
      s' = schedule_launch s.current n { s with ready_list := s.ready_list.tail } := by
  unfold schedule at h
  rw [next_thread_to_run_state] at h
  simp only at h
  split at h
  · cases h
  · rename_i hst
    cases hn : (next_thread_to_run s).1 with
    | none => rw [hn] at h; cases h
    | some n =>
      rw [hn] at h
      simp only at h
      split at h
      · cases h
      · rename_i hth
        cases h
        exact ⟨n, rfl, not_not.1 hth, hst, rfl⟩

theorem schedule_ok (s : State) (n : Nat) (hnext : (next_thread_to_run s).1 = some n)
    (hn : is_thread s n) (hst : (s.threads s.current).status ≠ Status.THREAD_RUNNING) :
    schedule s = .ok (schedule_launch s.current n { s with ready_list := s.ready_list.tail }) := by
  unfold schedule
  rw [next_thread_to_run_state, hnext]
  simp only
  rw [if_neg hst]
  exact if_neg (not_not.2 hn)

theorem schedule_launch_sema (curr n : Nat) (s : State) (r : SemaRef) :
    (schedule_launch curr n s).sema r = s.sema r := by
  unfold schedule_launch
  simp only
  split
  · split <;> cases r <;> rfl
  · cases r <;> rfl

theorem schedule_sema (s s' : State) (h : schedule s = .ok s') (r : SemaRef) :
    s'.sema r = s.sema r := by
  obtain ⟨n, -, -, -, rfl⟩ := schedule_eq s s' h
  rw [schedule_launch_sema]
  cases r <;> rfl

theorem thread_block_sema (s s' : State) (h : thread_block s = .ok s') (r : SemaRef) :
    s'.sema r = s.sema r := by
  unfold thread_block thread_current at h
  repeat' split at h
  all_goals first
    | (rw [schedule_sema _ _ h r]; cases r <;> rfl)
    | cases h

theorem thread_unblock_sema (t : Nat) (s s' : State) (h : thread_unblock t s = .ok s')
    (r : SemaRef) : s'.sema r = s.sema r := by
  unfold thread_unblock at h
  repeat' split at h
  all_goals cases h <;> cases r <;> rfl

theorem sema_up_wake_value (sema : SemaRef) (s s1 : State) (h : sema_up_wake sema s = .ok s1) :
    (s1.sema sema).value = ((s.sema sema).value + 1) % UINT_MOD := by
  unfold sema_up_wake at h
  simp only at h
  split at h
  · cases h
  · rename_i s0 hw
    injection h with h
    subst h
    rw [sema_set_sema]
    simp only
    split at hw
    · cases hw; rfl
    · split at hw
      · cases hw
      · rw [thread_unblock_sema _ _ _ hw, sema_set_sema]

theorem sema_try_down_pos (s : State) (sema : SemaRef) (h : (s.sema sema).value > 0) :
    sema_try_down sema s = (true, s.set_sema sema { s.sema sema with
      value := ((s.sema sema).value + (UINT_MOD - 1)) % UINT_MOD }) := by
  simp [sema_try_down, h]

theorem sema_try_down_zero (s : State) (sema : SemaRef) (h : (s.sema sema).value = 0) :
    sema_try_down sema s = (false, s) := by
  simp [sema_try_down, h]

theorem sema_down_pos (s : State) (sema : SemaRef) (h : (s.sema sema).value ≠ 0) :
    sema_down sema s = .ret 0 (s.set_sema sema { s.sema sema with
      value := ((s.sema sema).value + (UINT_MOD - 1)) % UINT_MOD }) := by
  simp [sema_down, h]

theorem sema_down_zero (s : State) (sema : SemaRef) (h : (s.sema sema).value = 0) :
    (∃ f, sema_down sema s = .fault f) ∨
    ∃ curr s', thread_current s = .ok curr ∧
      thread_block (s.set_sema sema { s.sema sema with
        waiters := list_insert_ordered (thread_priority_cmp s) curr (s.sema sema).waiters }) = .ok s' ∧
      sema_down sema s = .switched s' [Frame.sema_down_loop sema] := by
  unfold sema_down
  rw [if_pos h]
  cases hc : thread_current s with
  | error f => exact Or.inl ⟨f, rfl⟩
  | ok curr =>
    simp only
    cases hb : thread_block (s.set_sema sema { s.sema sema with
        waiters := list_insert_ordered (thread_priority_cmp s) curr (s.sema sema).waiters }) with
    | error f => exact Or.inl ⟨f, by simp [hb]⟩
    | ok s' => exact Or.inr ⟨curr, s', rfl, hb, by simp [hb]⟩

/-! ## What the dispatcher leaves alone -/

theorem do_schedule_sema (st : Status) (s s' : State) (h : do_schedule st s = .ok s')
    (r : SemaRef) : s'.sema r = s.sema r := by
  unfold do_schedule at h
  cases hc : thread_current s with
  | error f => rw [hc] at h; cases h
  | ok curr =>
    rw [hc] at h
    rw [schedule_sema _ _ h r]
    cases r <;> rfl

theorem thread_yield_state (s s' : State) (h : (thread_yield s).state = some s') :
    ∃ curr, thread_current s = .ok curr ∧ s.intr_context = false ∧
      do_schedule Status.THREAD_READY
        (if some curr ≠ s.idle_thread
         then { s with ready_list := list_insert_ordered (thread_cmp_priority s) curr s.ready_list }
         else s) = .ok s' ∧
      thread_yield s = .switched s' [] := by
  unfold thread_yield at h ⊢
  cases hc : thread_current s with
  | error f => rw [hc] at h; cases h
  | ok curr =>
    rw [hc] at h
    simp only at h ⊢
    by_cases hi : s.intr_context = true
    · rw [if_pos hi] at h; cases h
    · rw [if_neg hi] at h
      rw [if_neg hi]
      have hi' : s.intr_context = false := by simpa using hi
      generalize hd : do_schedule Status.THREAD_READY _ = d at h ⊢
      cases d with
      | error f => cases h
      | ok s2 =>
        simp only [Res.state, Option.some.injEq] at h
        subst h
        exact ⟨curr, rfl, hi', hd, by simp [hd]⟩

theorem thread_yield_sema (s s' : State) (h : (thread_yield s).state = some s')
    (r : SemaRef) : s'.sema r = s.sema r := by
  obtain ⟨curr, -, -, hd, -⟩ := thread_yield_state s s' h
  rw [do_schedule_sema _ _ _ hd r]
  split <;> cases r <;> rfl

theorem test_max_priority_sema (s s' : State) (h : (test_max_priority s).state = some s')
    (r : SemaRef) : s'.sema r = s.sema r := by
  unfold test_max_priority at h
  cases hr : s.ready_list with
  | nil => rw [hr] at h; cases h; rfl
  | cons a l =>
    rw [hr] at h
    simp only at h
    split at h
    · exact thread_yield_sema _ _ h r
    · cases h; rfl

/-! ## C4: sema_try_down -/

/-- C4. sema_try_down returns true and lowers the counter by exactly one when it is positive,
returns false and leaves it when it is zero; either way the wait list, every other semaphore,
the ready list, every thread record and the running thread are unchanged. -/
theorem C4_sema_try_down (s : State) (sema : SemaRef) (hrange : (s.sema sema).value < UINT_MOD) :
    ((s.sema sema).value > 0 →
      (sema_try_down sema s).1 = true ∧
      ((sema_try_down sema s).2.sema sema).value + 1 = (s.sema sema).value) ∧
    ((s.sema sema).value = 0 →
      (sema_try_down sema s).1 = false ∧ (sema_try_down sema s).2 = s) ∧
    ((sema_try_down sema s).2.sema sema).waiters = (s.sema sema).waiters ∧
    (∀ r, r ≠ sema → (sema_try_down sema s).2.sema r = s.sema r) ∧
    (sema_try_down sema s).2.ready_list = s.ready_list ∧
    (sema_try_down sema s).2.sleep_list = s.sleep_list ∧
    (sema_try_down sema s).2.threads = s.threads ∧
    (sema_try_down sema s).2.current = s.current := by
  by_cases h : (s.sema sema).value > 0
  · have h0 : (s.sema sema).value ≠ 0 := by omega
    rw [sema_try_down_pos s sema h]
    simp only [sema_set_sema]
    refine ⟨fun _ => ⟨trivial, uint_decrement _ h0 hrange⟩, fun h' => absurd h' h0, trivial,
      fun r hr => sema_set_sema_ne _ _ _ _ hr, ?_, ?_, ?_, ?_⟩ <;>
      cases sema <;> rfl
  · have h0 : (s.sema sema).value = 0 := by omega
    rw [sema_try_down_zero s sema h0]
    simp [h0]

/-- C4 on a freshly initialised lock semaphore (counter 1) and on a semaphore at 0. -/
theorem C4_sema_try_down_witness :
    ((sema_try_down (.lock_sema 1) (lock_init 1 (boot 8))).1 = true ∧
      ((sema_try_down (.lock_sema 1) (lock_init 1 (boot 8))).2.sema (.lock_sema 1)).value + 1 = 1) ∧
    (sema_try_down (.sema 0) (boot 8)).1 = false := by
  have h1 := C4_sema_try_down (lock_init 1 (boot 8)) (.lock_sema 1) (by decide!)
  have h2 := C4_sema_try_down (boot 8) (.sema 0) (by decide!)
  exact ⟨h1.1 (by decide!), (h2.2.1 (by decide!)).1⟩

/-! ## C5: the counter is never decremented at zero -/

/-- One operation keeps the counter in range and does not wrap it. -/
theorem sema_op_step (sema : SemaRef) (op : SemaOp) (s s' : State)
    (hrange : (s.sema sema).value < UINT_MOD) (h : sema_op sema op s = some s') :
    (s'.sema sema).value < UINT_MOD ∧
    ((∃ v, op = SemaOp.sema_init v) ∨
      ¬ ((s.sema sema).value = 0 ∧ (s'.sema sema).value = UINT_MOD - 1)) := by
  have hpos : 0 < UINT_MOD := by unfold UINT_MOD; omega
  cases op with
  | sema_init v =>
    simp only [sema_op, Option.some.injEq] at h
    subst h
    refine ⟨?_, Or.inl ⟨v, rfl⟩⟩
    simp only [sema_init, sema_set_sema]
    exact Nat.mod_lt _ hpos
  | sema_down =>
    simp only [sema_op] at h
    by_cases h0 : (s.sema sema).value = 0
    · rcases sema_down_zero s sema h0 with ⟨f, hf⟩ | ⟨curr, s2, -, hb, hs⟩
      · rw [hf] at h; cases h
      · rw [hs] at h
        simp only [Res.state, Option.some.injEq] at h
        subst h
        have hv : (s2.sema sema).value = 0 := by
          rw [thread_block_sema _ _ hb sema, sema_set_sema]; exact h0
        rw [hv]
        refine ⟨hpos, Or.inr ?_⟩
        intro hc
        have := hc.2
        unfold UINT_MOD at this
        omega
    · rw [sema_down_pos s sema h0] at h
      simp only [Res.state, Option.some.injEq] at h
      subst h
      rw [sema_set_sema]
      have := uint_decrement _ h0 hrange
      simp only at this ⊢
      exact ⟨by omega, Or.inr (fun hc => h0 hc.1)⟩
  | sema_try_down =>
    simp only [sema_op, Option.some.injEq] at h
    subst h
    by_cases h0 : (s.sema sema).value = 0
    · rw [sema_try_down_zero s sema h0, h0]
      refine ⟨hpos, Or.inr ?_⟩
      intro hc
      have := hc.2
      unfold UINT_MOD at this
      omega
    · rw [sema_try_down_pos s sema (by omega)]
      simp only [sema_set_sema]
      have := uint_decrement _ h0 hrange
      exact ⟨by omega, Or.inr (fun hc => h0 hc.1)⟩
  | sema_up =>
    simp only [sema_op] at h
    unfold sema_up at h
    cases hw : sema_up_wake sema s with
    | error f => rw [hw] at h; cases h
    | ok s1 =>
      rw [hw] at h
      simp only at h
      rw [test_max_priority_sema _ _ h, sema_up_wake_value sema s s1 hw]
      refine ⟨Nat.mod_lt _ hpos, Or.inr ?_⟩
      intro hc
      rw [hc.1] at hc
      have := hc.2
      unfold UINT_MOD at this
      omega

theorem never_wraps_all (sema : SemaRef) (ops : List SemaOp) :
    ∀ s : State, (s.sema sema).value < UINT_MOD → never_wraps sema ops s := by
  induction ops with
  | nil => intro s _; trivial
  | cons op ops ih =>
    intro s hrange
    unfold never_wraps
    cases h : sema_op sema op s with
    | none => trivial
    | some s' =>
      obtain ⟨h1, h2⟩ := sema_op_step sema op s s' hrange h
      exact ⟨h2, ih s' h1⟩

/-- C5. In every state, for a semaphore whose counter is in the range of unsigned: when
sema_down returns, the counter was positive and is now exactly one less (no wrap-around);
when sema_down reaches the dispatcher instead, the counter was zero and no semaphore counter
changed; a woken thread goes through the same test again (the frame sema_down_loop is
sema_down itself); sema_try_down lowers the counter by exactly one from a positive value or
leaves the state alone; sema_up and sema_init never subtract; no other semaphore's counter
is touched by sema_down or sema_try_down; and so, along every sequence of the four
operations, the counter never goes from 0 to the greatest unsigned value by a decrement. -/
theorem C5_counter_never_wraps (s : State) (sema : SemaRef)
    (hrange : (s.sema sema).value < UINT_MOD) :
    (∀ v s', sema_down sema s = .ret v s' →
      0 < (s.sema sema).value ∧ (s'.sema sema).value + 1 = (s.sema sema).value ∧
      ∀ r, r ≠ sema → s'.sema r = s.sema r) ∧
    (∀ s' k, sema_down sema s = .switched s' k →
      (s.sema sema).value = 0 ∧ ∀ r, (s'.sema r).value = (s.sema r).value) ∧
    (∀ v, run_frame (.sema_down_loop sema) v s = sema_down sema s) ∧
    ((sema_try_down sema s).1 = true →
      0 < (s.sema sema).value ∧
      ((sema_try_down sema s).2.sema sema).value + 1 = (s.sema sema).value ∧
      ∀ r, r ≠ sema → (sema_try_down sema s).2.sema r = s.sema r) ∧
    ((sema_try_down sema s).1 = false →
      (s.sema sema).value = 0 ∧ (sema_try_down sema s).2 = s) ∧
    (∀ s1, sema_up_wake sema s = .ok s1 →
      (s1.sema sema).value = ((s.sema sema).value + 1) % UINT_MOD) ∧
    (∀ n, ((sema_init sema n s).sema sema).value = n % UINT_MOD) ∧
    (∀ ops, never_wraps sema ops s) := by
  refine ⟨?_, ?_, fun _ => rfl, ?_, ?_, fun s1 h => sema_up_wake_value sema s s1 h, ?_,
    fun ops => never_wraps_all sema ops s hrange⟩
  · intro v s' h
    by_cases h0 : (s.sema sema).value = 0
    · rcases sema_down_zero s sema h0 with ⟨f, hf⟩ | ⟨curr, s2, -, -, hs⟩
      · rw [hf] at h; cases h
      · rw [hs] at h; cases h
    · rw [sema_down_pos s sema h0] at h
      cases h
      rw [sema_set_sema]
      exact ⟨Nat.pos_of_ne_zero h0, uint_decrement _ h0 hrange,
        fun r hr => sema_set_sema_ne _ _ _ _ hr⟩
  · intro s' k h
    by_cases h0 : (s.sema sema).value = 0
    · refine ⟨h0, fun r => ?_⟩
      rcases sema_down_zero s sema h0 with ⟨f, hf⟩ | ⟨curr, s2, -, hb, hs⟩
      · rw [hf] at h; cases h
      · rw [hs] at h
        cases h
        rw [thread_block_sema _ _ hb r]
        by_cases hr : r = sema
        · subst hr; rw [sema_set_sema]
        · rw [sema_set_sema_ne _ _ _ _ hr]
    · rw [sema_down_pos s sema h0] at h
      cases h
  · intro h
    have h0 : (s.sema sema).value > 0 := by
      by_contra hc
      rw [sema_try_down_zero s sema (by omega)] at h
      cases h
    have hne : (s.sema sema).value ≠ 0 := by omega
    rw [sema_try_down_pos s sema h0]
    simp only [sema_set_sema]
    exact ⟨h0, uint_decrement _ hne hrange, fun r hr => sema_set_sema_ne _ _ _ _ hr⟩
  · intro h
    have h0 : (s.sema sema).value = 0 := by
      by_contra hc
      rw [sema_try_down_pos s sema (by omega)] at h
      cases h
    rw [sema_try_down_zero s sema h0]
    exact ⟨h0, rfl⟩
  · intro n
    simp [sema_init, sema_set_sema]

/-- C5 on a freshly initialised lock semaphore (counter 1) and on a semaphore at 0. -/
theorem C5_counter_never_wraps_witness :
    (∃ s', sema_down (.lock_sema 1) (lock_init 1 (boot 8)) = .ret 0 s' ∧
      (s'.sema (.lock_sema 1)).value + 1 = 1) ∧
    (sema_try_down (.sema 0) (boot 8)).2.semas 0 = (boot 8).semas 0 := by
  have h1 := C5_counter_never_wraps (lock_init 1 (boot 8)) (.lock_sema 1) (by decide!)
  have h2 := C5_counter_never_wraps (boot 8) (.sema 0) (by decide!)
  have e := sema_down_pos (lock_init 1 (boot 8)) (.lock_sema 1) (by decide!)
  refine ⟨⟨_, e, (h1.1 _ _ e).2.1⟩, ?_⟩
  rw [(h2.2.2.2.2.1 (by decide!)).2]

/-! ## The stable sort -/

theorem sort_insert_perm {α : Type} (less : α → α → Bool) (x : α) (l : List α) :
    (sort_insert less x l).Perm (x :: l) := by
  induction l with
  | nil => exact List.Perm.refl _
  | cons e l ih =>
    unfold sort_insert
    split
    · exact (List.Perm.cons e ih).trans (List.Perm.swap x e l)
    · exact List.Perm.refl _

theorem list_sort_perm {α : Type} (less : α → α → Bool) (l : List α) :
    (list_sort less l).Perm l := by
  induction l with
  | nil => exact List.Perm.refl _
  | cons x l ih => exact (sort_insert_perm less x _).trans (List.Perm.cons x ih)

/-- The front of the sorted list is the first entry of greatest key, and the rest is, up to
order, the list without that entry. -/
theorem list_sort_front {α : Type} (key : α → Int) (l : List α) (hne : l ≠ []) :
    ∃ w rest pre post, list_sort (fun a b => decide (key a > key b)) l = w :: rest ∧
      l = pre ++ w :: post ∧ (∀ t ∈ pre, key t < key w) ∧ (∀ t ∈ post, key t ≤ key w) ∧
      rest.Perm (pre ++ post) := by
  induction l with
  | nil => exact absurd rfl hne
  | cons x l ih =>
    cases l with
    | nil => exact ⟨x, [], [], [], rfl, rfl, by simp, by simp, List.Perm.refl _⟩
    | cons y l' =>
      obtain ⟨w, rest, pre, post, h1, h2, h3, h4, h5⟩ := ih (by simp)
      by_cases hx : key w > key x
      · refine ⟨w, sort_insert (fun a b => decide (key a > key b)) x rest, x :: pre, post, ?_, by rw [h2]; rfl, ?_, h4, ?_⟩
        · show sort_insert (fun a b => decide (key a > key b)) x (list_sort _ (y :: l')) = _
          rw [h1]
          simp [sort_insert, hx]
        · intro t ht
          rcases List.mem_cons.1 ht with rfl | ht
          · exact hx
          · exact h3 t ht
        · exact (sort_insert_perm _ x rest).trans (List.Perm.cons x h5)
      · refine ⟨x, w :: rest, [], y :: l', ?_, rfl, by simp, ?_, ?_⟩
        · show sort_insert (fun a b => decide (key a > key b)) x (list_sort _ (y :: l')) = _
          rw [h1]
          simp [sort_insert, hx]
        · intro t ht
          rw [h2] at ht
          have hw : key w ≤ key x := by omega
          rcases List.mem_append.1 ht with ht | ht
          · have := h3 t ht; omega
          · rcases List.mem_cons.1 ht with rfl | ht
            · exact hw
            · have := h4 t ht; omega
        · rw [h2]
          exact (List.Perm.cons w h5).trans List.perm_middle.symm

/-- The first entry of greatest key is unique, so a list split at it sorts with it in front. -/
theorem list_sort_front_eq {α : Type} (key : α → Int) (pre post : List α) (m : α)
    (hpre : ∀ t ∈ pre, key t < key m) (hpost : ∀ t ∈ post, key t ≤ key m) :
    ∃ rest, list_sort (fun a b => decide (key a > key b)) (pre ++ m :: post) = m :: rest ∧
      rest.Perm (pre ++ post) := by
  obtain ⟨w, rest, pre2, post2, h1, h2, h3, h4, h5⟩ :=
    list_sort_front key (pre ++ m :: post) (by simp)
  rcases List.append_eq_append_iff.1 h2 with ⟨a, ha1, ha2⟩ | ⟨c, hc1, hc2⟩
  · cases a with
    | nil =>
      simp at ha1 ha2
      obtain ⟨rfl, rfl⟩ := ha2
      subst ha1
      exact ⟨rest, h1, h5⟩
    | cons b a' =>
      simp at ha2
      obtain ⟨hb, hpost2⟩ := ha2
      have hw : w ∈ post := by rw [hpost2]; simp
      have hm : m ∈ pre2 := by rw [ha1, hb]; simp
      have := hpost w hw
      have := h3 m hm
      omega
  · cases c with
    | nil =>
      simp at hc1 hc2
      obtain ⟨rfl, rfl⟩ := hc2
      subst hc1
      exact ⟨rest, h1, h5⟩
    | cons b c' =>
      simp at hc2
      obtain ⟨hb, hpost2⟩ := hc2
      have hw : w ∈ pre := by rw [hc1, hb]; simp
      have hm : m ∈ post2 := by rw [hpost2]; simp
      have := hpre w hw
      have := h4 m hm
      omega

/-! ## C3: sema_up wakes the highest-priority waiter -/

theorem set_sema_threads (s : State) (r : SemaRef) (v : Semaphore) :
    (s.set_sema r v).threads = s.threads := by
  cases r <;> rfl

theorem set_sema_ready_list (s : State) (r : SemaRef) (v : Semaphore) :
    (s.set_sema r v).ready_list = s.ready_list := by
  cases r <;> rfl

/-- The wake-up half of sema_up on a non-empty wait list of BLOCKED threads. -/
theorem sema_up_wake_spec (s : State) (sema : SemaRef)
    (hne : (s.sema sema).waiters ≠ [])
    (hblocked : ∀ t ∈ (s.sema sema).waiters,
      is_thread s t ∧ (s.threads t).status = Status.THREAD_BLOCKED) :
    ∃ w rest pre post s1,
      list_sort (thread_priority_cmp s) (s.sema sema).waiters = w :: rest ∧
      (s.sema sema).waiters = pre ++ w :: post ∧
      (∀ t ∈ pre, s.prio t < s.prio w) ∧ (∀ t ∈ post, s.prio t ≤ s.prio w) ∧
      rest.Perm (pre ++ post) ∧
      sema_up_wake sema s = .ok s1 ∧
      s1.sema sema = { value := ((s.sema sema).value + 1) % UINT_MOD, waiters := rest } ∧
      (∀ r, r ≠ sema → s1.sema r = s.sema r) ∧
      s1.threads w = { s.threads w with status := Status.THREAD_READY } ∧
      (∀ t, t ≠ w → s1.threads t = s.threads t) ∧
      s1.ready_list = list_insert_ordered (thread_cmp_priority s) w s.ready_list ∧
      s1.current = s.current ∧ s1.intr_context = s.intr_context ∧
      s1.idle_thread = s.idle_thread ∧ (∀ l, (s1.locks l).holder = (s.locks l).holder) := by
  obtain ⟨w, rest, pre, post, h1, h2, h3, h4, h5⟩ := list_sort_front s.prio _ hne
  have h1' : list_sort (thread_priority_cmp s) (s.sema sema).waiters = w :: rest := h1
  have hw : w ∈ (s.sema sema).waiters := by rw [h2]; simp
  obtain ⟨hwt, hwb⟩ := hblocked w hw
  have hub := thread_unblock_ok (s.set_sema sema { s.sema sema with waiters := rest }) w
    (by unfold is_thread at *; rw [set_sema_threads]; exact hwt)
    (by rw [set_sema_threads]; exact hwb)
  have hwake : sema_up_wake sema s = .ok
      (({ s.set_sema sema { s.sema sema with waiters := rest } with
          ready_list := list_insert_ordered
            (thread_cmp_priority (s.set_sema sema { s.sema sema with waiters := rest })) w
            (s.set_sema sema { s.sema sema with waiters := rest }).ready_list }.set_thread w
          { (s.set_sema sema { s.sema sema with waiters := rest }).threads w with
            status := Status.THREAD_READY }).set_sema sema
        { value := ((s.sema sema).value + 1) % UINT_MOD, waiters := rest }) := by
    unfold sema_up_wake
    cases hl : (s.sema sema).waiters with
    | nil => exact absurd hl hne
    | cons a l =>
      simp only
      rw [← hl, h1']
      simp only
      rw [hub]
      simp only
      congr 2
      cases sema <;> simp [State.sema, State.set_sema, State.set_lock, State.set_thread]
  refine ⟨w, rest, pre, post, _, h1', h2, h3, h4, h5, hwake, ?_, ?_, ?_, ?_, ?_, ?_, ?_, ?_, ?_⟩
  rotate_right 3
  · cases sema <;> rfl
  · cases sema <;> rfl
  · intro l
    cases sema with
    | sema a => rfl
    | lock_sema l' =>
      by_cases h : l = l'
      · subst h; simp [State.set_sema, State.set_lock, State.set_thread]
      · simp [State.set_sema, State.set_lock, State.set_thread, Function.update_noteq h]
  · rw [sema_set_sema]
  · intro r hr
    rw [sema_set_sema_ne _ _ _ _ hr]
    cases sema <;> cases r <;>
      simp [State.sema, State.set_sema, State.set_lock, State.set_thread] <;>
      (rename_i a b
       by_cases hab : b = a
       · subst hab; exact absurd rfl hr
       · simp [Function.update_noteq hab])
  · cases sema <;> simp [State.set_sema, State.set_lock, State.set_thread]
  · intro t ht
    cases sema <;> simp [State.set_sema, State.set_lock, State.set_thread, Function.update_noteq ht]
  · cases sema <;> rfl
  · cases sema <;> rfl

/-- C3 (as amended). On a non-empty wait list of BLOCKED threads sema_up removes exactly one
waiter w: w has the greatest current priority of all waiters and is the first in wait-list
order among those of that priority; it is marked READY and inserted into the ready list by
priority, after which the preemption check runs; all other waiters keep their records and
stay in the wait list, before and after the preemption check. -/
theorem C3_sema_up_wakes_highest (s : State) (sema : SemaRef)
    (hne : (s.sema sema).waiters ≠ [])
    (hblocked : ∀ t ∈ (s.sema sema).waiters,
      is_thread s t ∧ (s.threads t).status = Status.THREAD_BLOCKED) :
    ∃ w pre post s1,
      (s.sema sema).waiters = pre ++ w :: post ∧
      (∀ t ∈ (s.sema sema).waiters, s.prio t ≤ s.prio w) ∧
      (∀ t ∈ pre, s.prio t < s.prio w) ∧
      sema_up_wake sema s = .ok s1 ∧
      sema_up sema s = test_max_priority s1 ∧
      (s1.sema sema).waiters.Perm (pre ++ post) ∧
      (s1.threads w).status = Status.THREAD_READY ∧
      s1.ready_list = list_insert_ordered (thread_cmp_priority s) w s.ready_list ∧
      (∀ t, t ≠ w → s1.threads t = s.threads t) ∧
      (∀ s2, (sema_up sema s).state = some s2 →
        (s2.sema sema).waiters = (s1.sema sema).waiters) := by
  obtain ⟨w, rest, pre, post, s1, -, h2, h3, h4, h5, h6, h7, -, h9, h10, h11, -⟩ :=
    sema_up_wake_spec s sema hne hblocked
  have hup : sema_up sema s = test_max_priority s1 := by
    unfold sema_up; rw [h6]
  refine ⟨w, pre, post, s1, h2, ?_, h3, h6, hup, ?_, ?_, h11, h10, ?_⟩
  · intro t ht
    rw [h2] at ht
    rcases List.mem_append.1 ht with ht | ht
    · exact le_of_lt (h3 t ht)
    · rcases List.mem_cons.1 ht with rfl | ht
      · exact le_refl _
      · exact h4 t ht
  · rw [h7]; exact h5
  · rw [h9]
  · intro s2 hs2
    rw [hup] at hs2
    rw [test_max_priority_sema _ _ hs2]

/-- C3 at tie_scene, where two BLOCKED threads of priority 7 wait on semaphore 0. -/
theorem C3_sema_up_wakes_highest_witness :
    ∃ w s1, sema_up_wake (.sema 0) tie_scene = .ok s1 ∧
      (s1.threads w).status = Status.THREAD_READY ∧
      (∀ t ∈ [1, 0], tie_scene.prio t ≤ tie_scene.prio w) ∧
      sema_up (.sema 0) tie_scene = test_max_priority s1 := by
  obtain ⟨w, pre, post, s1, -, h2, -, h4, h5, -, h7, -⟩ :=
    C3_sema_up_wakes_highest tie_scene (.sema 0) (by decide!) (by decide!)
  exact ⟨w, s1, h4, h7, h2, h5⟩

/-- C3 (as stated, refuted). In wake_trace thread 0 is put on the wait list of semaphore 0
first and thread 1 second; when sema_up is called both have priority 7, the greatest; sema_up
wakes thread 1 and leaves thread 0, the earliest-inserted of the two, BLOCKED on the list. -/
theorem C3_earliest_inserted_not_woken :
    (run (wake_trace.take 1) wake_scene).map (fun s => (s.semas 0).waiters) = some [0] ∧
    (run (wake_trace.take 2) wake_scene).map (fun s => (s.semas 0).waiters) = some [1, 0] ∧
    (run (wake_trace.take 3) wake_scene).map
      (fun s => ((s.semas 0).waiters, (s.semas 0).waiters.map s.prio)) = some ([1, 0], [7, 7]) ∧
    (run wake_trace wake_scene).map
      (fun s => ((s.semas 0).waiters, (s.threads 0).status, (s.threads 1).status)) =
      some ([0], Status.THREAD_BLOCKED, Status.THREAD_RUNNING) := by
  decide!

/-! ## The donation loop -/

/-- Raising one thread of priority below p to p makes the measure smaller. -/
theorem below_raise (s : State) (h : Nat) (p : Int) (hmem : h < s.mem_pages)
    (hlt : s.prio h < p) :
    below (s.set_thread h { s.threads h with priority := p }) p < below s p := by
  unfold below
  apply Finset.card_lt_card
  rw [Finset.ssubset_iff_of_subset]
  · refine ⟨h, ?_, ?_⟩
    · simp only [Finset.mem_filter, Finset.mem_range]
      exact ⟨hmem, hlt⟩
    · simp [State.prio, State.set_thread]
  · intro a ha
    simp only [Finset.mem_filter, Finset.mem_range] at ha ⊢
    refine ⟨ha.1, ?_⟩
    by_cases hah : a = h
    · subst hah; exact hlt
    · have := ha.2
      simpa [State.prio, State.set_thread, Function.update_noteq hah] using this

/-- The donation loop ends within the fuel when the holders lie in memory, and it only raises
priorities to the priority it carries. -/
theorem donate_loop_spec (fuel : Nat) : ∀ (s : State) (cur_t : Nat) (cur_lock : Option Nat),
    holders_in_memory s → below s (s.prio cur_t) < fuel →
    ∃ s', donate_loop fuel cur_t cur_lock s = .ok s' ∧
      (∀ t, s'.prio t = s.prio t ∨ (s.prio t < s.prio cur_t ∧ s'.prio t = s.prio cur_t)) ∧
      (∀ t, s'.threads t = { s.threads t with priority := s'.prio t }) ∧
      s' = { s with threads := s'.threads } := by
  induction fuel with
  | zero => intro s cur_t cur_lock _ hf; exact absurd hf (Nat.not_lt_zero _)
  | succ fuel ih =>
    intro s cur_t cur_lock hwf hf
    unfold donate_loop
    cases cur_lock with
    | none => exact ⟨s, rfl, fun t => Or.inl rfl, fun t => rfl, rfl⟩
    | some l =>
      simp only
      cases hh : (s.locks l).holder with
      | none => exact ⟨s, rfl, fun t => Or.inl rfl, fun t => rfl, rfl⟩
      | some h =>
        simp only
        by_cases hlt : (s.threads h).priority < (s.threads cur_t).priority
        · rw [if_pos hlt]
          have hmem := hwf l h hh
          have hb := below_raise s h (s.prio cur_t) hmem hlt
          have hne : h ≠ cur_t := by
            intro e; subst e; exact absurd hlt (lt_irrefl _)
          have hp1 : (s.set_thread h { s.threads h with priority := (s.threads cur_t).priority }).prio h
              = s.prio cur_t := by
            simp [State.prio, State.set_thread]
          obtain ⟨s', h1, h2, h3, h4⟩ := ih
            (s.set_thread h { s.threads h with priority := (s.threads cur_t).priority }) h
            ((s.set_thread h { s.threads h with priority := (s.threads cur_t).priority }).threads h).wait_on_lock
            hwf (by rw [hp1]; exact Nat.lt_of_lt_of_le hb (Nat.le_of_lt_succ hf))
          rw [hp1] at h2
          refine ⟨s', h1, ?_, ?_, ?_⟩
          · intro t
            by_cases ht : t = h
            · subst ht
              rcases h2 t with e | ⟨e1, e2⟩
              · exact Or.inr ⟨hlt, by rw [e, hp1]⟩
              · exact Or.inr ⟨hlt, e2⟩
            · have hs1 : (s.set_thread h { s.threads h with priority := (s.threads cur_t).priority }).prio t
                  = s.prio t := by
                simp [State.prio, State.set_thread, Function.update_noteq ht]
              rcases h2 t with e | ⟨e1, e2⟩
              · exact Or.inl (by rw [e, hs1])
              · exact Or.inr ⟨by rw [← hs1]; exact e1, e2⟩
          · intro t
            rw [h3 t]
            by_cases ht : t = h
            · subst ht; simp [State.set_thread]
            · simp [State.set_thread, Function.update_noteq ht]
          · rw [h4]
            simp [State.set_thread]
        · rw [if_neg hlt]
          exact ⟨s, rfl, fun t => Or.inl rfl, fun t => rfl, rfl⟩
/-- Along a wait chain T 0 -> L 0 -> T 1 -> ... -> T n: started at position k with the links
up to k already raised to p, the loop leaves every link of the chain at p. -/
theorem donate_loop_chain (T L : Nat → Nat) (n : Nat) (p : Int) (fuel : Nat) :
    ∀ (s : State) (k : Nat), k ≤ n →
      (∀ i, i < n → (s.threads (T i)).wait_on_lock = some (L i) ∧
        (s.locks (L i)).holder = some (T (i + 1))) →
      s.prio (T k) = p →
      (∀ i, 1 ≤ i → i ≤ k → s.prio (T i) = p) →
      (∀ i, k < i → i ≤ n → s.prio (T i) < p ∨ ∃ j, 1 ≤ j ∧ j ≤ k ∧ T i = T j) →
      holders_in_memory s → below s p < fuel →
      ∃ s', donate_loop fuel (T k) (s.threads (T k)).wait_on_lock s = .ok s' ∧
        (∀ i, 1 ≤ i → i ≤ n → s'.prio (T i) = p) ∧
        (∀ t, s'.prio t = s.prio t ∨ (s.prio t < p ∧ s'.prio t = p)) ∧
        (∀ t, s'.threads t = { s.threads t with priority := s'.prio t }) ∧
        s' = { s with threads := s'.threads } := by
  induction fuel with
  | zero => intro s k _ _ _ _ _ _ hf; exact absurd hf (Nat.not_lt_zero _)
  | succ fuel ih =>
    intro s k hkn hlinks hpk hdone hrest hwf hf
    by_cases hk : k = n
    · obtain ⟨s', h1, h2, h3, h4⟩ :=
        donate_loop_spec (fuel + 1) s (T k) (s.threads (T k)).wait_on_lock hwf (by rw [hpk]; exact hf)
      rw [hpk] at h2
      refine ⟨s', h1, ?_, h2, h3, h4⟩
      intro i hi1 hin
      have := hdone i hi1 (by omega)
      rcases h2 (T i) with e | ⟨_, e⟩
      · rw [e, this]
      · exact e
    · have hklt : k < n := by omega
      obtain ⟨hw, hh⟩ := hlinks k hklt
      unfold donate_loop
      rw [hw]
      simp only
      rw [hh]
      simp only
      by_cases hlt : (s.threads (T (k + 1))).priority < (s.threads (T k)).priority
      · rw [if_pos hlt]
        have hpk' : (s.threads (T k)).priority = p := hpk
        rw [hpk']
        have hlt' : s.prio (T (k + 1)) < p := by rw [← hpk']; exact hlt
        have hmem := hwf (L k) (T (k + 1)) hh
        have hb := below_raise s (T (k + 1)) p hmem hlt'
        have hprio : ∀ t, (s.set_thread (T (k + 1)) { s.threads (T (k + 1)) with priority := p }).prio t
            = if t = T (k + 1) then p else s.prio t := by
          intro t
          by_cases ht : t = T (k + 1)
          · subst ht; simp [State.prio, State.set_thread]
          · simp [State.prio, State.set_thread, Function.update_noteq ht, ht]
        have hwol : ∀ t, ((s.set_thread (T (k + 1)) { s.threads (T (k + 1)) with priority := p }).threads t).wait_on_lock
            = (s.threads t).wait_on_lock := by
          intro t
          by_cases ht : t = T (k + 1)
          · subst ht; simp [State.set_thread]
          · simp [State.set_thread, Function.update_noteq ht]
        obtain ⟨s', h1, h2, h3, h4, h5⟩ := ih
          (s.set_thread (T (k + 1)) { s.threads (T (k + 1)) with priority := p }) (k + 1) (by omega)
          (fun i hi => ⟨by rw [hwol]; exact (hlinks i hi).1, (hlinks i hi).2⟩)
          (by rw [hprio]; simp)
          (by
            intro i hi1 hik
            rw [hprio]
            split
            · rfl
            · by_cases hik' : i = k + 1
              · subst hik'; rename_i hc; exact absurd rfl hc
              · exact hdone i hi1 (by omega))
          (by
            intro i hki hin
            rw [hprio]
            by_cases hti : T i = T (k + 1)
            · exact Or.inr ⟨k + 1, by omega, le_refl _, hti⟩
            · rw [if_neg hti]
              rcases hrest i (by omega) hin with hl | ⟨j, hj1, hj2, hj3⟩
              · exact Or.inl hl
              · exact Or.inr ⟨j, hj1, by omega, hj3⟩)
          hwf (Nat.lt_of_lt_of_le hb (Nat.le_of_lt_succ hf))
        refine ⟨s', h1, h2, ?_, ?_, ?_⟩
        · intro t
          have := h3 t
          rw [hprio] at this
          by_cases ht : t = T (k + 1)
          · subst ht
            rw [if_pos rfl] at this
            rcases this with e | ⟨_, e⟩
            · exact Or.inr ⟨hlt', e⟩
            · exact Or.inr ⟨hlt', e⟩
          · rw [if_neg ht] at this
            exact this
        · intro t
          rw [h4 t]
          by_cases ht : t = T (k + 1)
          · subst ht; simp [State.set_thread]
          · simp [State.set_thread, Function.update_noteq ht]
        · rw [h5]
          simp [State.set_thread]
      · rw [if_neg hlt]
        have hnlt : ¬ s.prio (T (k + 1)) < p := by rw [← hpk]; exact hlt
        have hbase : ∃ j, 1 ≤ j ∧ j ≤ k ∧ T (k + 1) = T j := by
          rcases hrest (k + 1) (by omega) (by omega) with hl | hj
          · exact absurd hl hnlt
          · exact hj
        have hall : ∀ d, k + 1 + d ≤ n → ∃ j, 1 ≤ j ∧ j ≤ k ∧ T (k + 1 + d) = T j := by
          intro d
          induction d with
          | zero => intro _; exact hbase
          | succ d ihd =>
            intro hd
            obtain ⟨j, hj1, hj2, hj3⟩ := ihd (by omega)
            obtain ⟨hwi, hhi⟩ := hlinks (k + 1 + d) (by omega)
            obtain ⟨hwj, hhj⟩ := hlinks j (by omega)
            rw [hj3, hwj] at hwi
            injection hwi with hL
            rw [← hL, hhj] at hhi
            injection hhi with hT
            have hT' : T (k + 1 + (d + 1)) = T (j + 1) := hT.symm
            by_cases hjk : j + 1 ≤ k
            · exact ⟨j + 1, by omega, hjk, hT'⟩
            · have : j = k := by omega
              subst this
              obtain ⟨j0, h01, h02, h03⟩ := hbase
              exact ⟨j0, h01, h02, by rw [hT', h03]⟩
        refine ⟨s, rfl, ?_, fun t => Or.inl rfl, fun t => rfl, rfl⟩
        intro i hi1 hin
        by_cases hik : i ≤ k
        · exact hdone i hi1 hik
        · obtain ⟨j, hj1, hj2, hj3⟩ := hall (i - (k + 1)) (by omega)
          have hi : k + 1 + (i - (k + 1)) = i := by omega
          rw [hi] at hj3
          rw [hj3]
          exact hdone j hj1 hj2

/-! ## C7: nested donation -/

theorem below_le (s : State) (p : Int) : below s p ≤ s.mem_pages := by
  unfold below
  calc ((Finset.range s.mem_pages).filter (fun a => s.prio a < p)).card
      ≤ (Finset.range s.mem_pages).card := Finset.card_filter_le _ _
    _ = s.mem_pages := Finset.card_range _

theorem thread_current_ok (s : State) (h1 : is_thread s s.current)
    (h2 : (s.threads s.current).status = Status.THREAD_RUNNING) :
    thread_current s = .ok s.current := by
  simp [thread_current, h1, h2]

/-- donate_priority along a wait chain that starts at the running thread: it comes back, every
link ends at the caller's priority, and only priorities have changed, none downwards. -/
theorem donate_priority_chain (s : State) (T L : Nat → Nat) (n : Nat) (hn : 1 ≤ n)
    (hcur : s.current = T 0) (hthread : is_thread s (T 0))
    (hrun : (s.threads (T 0)).status = Status.THREAD_RUNNING)
    (hlinks : ∀ i, i < n → (s.threads (T i)).wait_on_lock = some (L i) ∧
      (s.locks (L i)).holder = some (T (i + 1)))
    (hlow : ∀ i, 1 ≤ i → i ≤ n → s.prio (T i) < s.prio (T 0))
    (hwf : holders_in_memory s) :
    ∃ s', donate_priority s = .ok s' ∧
      (∀ i, 1 ≤ i → i ≤ n → s'.prio (T i) = s.prio (T 0)) ∧
      (∀ t, s'.prio t = s.prio t ∨ (s.prio t < s.prio (T 0) ∧ s'.prio t = s.prio (T 0))) ∧
      (∀ t, s'.threads t = { s.threads t with priority := s'.prio t }) ∧
      s' = { s with threads := s'.threads } := by
  obtain ⟨s', h1, h2, h3, h4, h5⟩ := donate_loop_chain T L n (s.prio (T 0)) (s.mem_pages + 1) s 0
    (Nat.zero_le _) hlinks rfl (fun i hi1 hi0 => absurd hi0 (by omega))
    (fun i _ hin => Or.inl (hlow i (by omega) hin)) hwf (Nat.lt_succ_of_le (below_le _ _))
  obtain ⟨hw, hh⟩ := hlinks 0 (by omega)
  refine ⟨s', ?_, h2, h3, h4, h5⟩
  unfold donate_priority
  rw [thread_current_ok s (by rw [hcur]; exact hthread) (by rw [hcur]; exact hrun), hcur]
  simp only
  rw [hw] at h1 ⊢
  simp only
  rw [hh]
  exact h1

/-- C7. For a wait chain T 0 -> lock L 0 held by T 1 -> ... -> T n (n >= 1) whose threads
T 1 .. T n all have priority strictly below that of the running thread T 0, donate_priority
called by T 0 comes back and leaves every T 1 .. T n with exactly the priority of T 0, which
keeps its own; no priority is lowered. The holder pointers are assumed to point into the
finitely many thread pages. -/
theorem C7_nested_donation (s : State) (T L : Nat → Nat) (n : Nat) (hn : 1 ≤ n)
    (hcur : s.current = T 0) (hthread : is_thread s (T 0))
    (hrun : (s.threads (T 0)).status = Status.THREAD_RUNNING)
    (hlinks : ∀ i, i < n → (s.threads (T i)).wait_on_lock = some (L i) ∧
      (s.locks (L i)).holder = some (T (i + 1)))
    (hlow : ∀ i, 1 ≤ i → i ≤ n → s.prio (T i) < s.prio (T 0))
    (hwf : holders_in_memory s) :
    ∃ s', donate_priority s = .ok s' ∧
      (∀ i, 1 ≤ i → i ≤ n → s'.prio (T i) = s.prio (T 0)) ∧
      s'.prio (T 0) = s.prio (T 0) ∧
      (∀ t, s.prio t ≤ s'.prio t) := by
  obtain ⟨s', h1, h2, h3, -, -⟩ :=
    donate_priority_chain s T L n hn hcur hthread hrun hlinks hlow hwf
  refine ⟨s', h1, h2, ?_, ?_⟩
  · rcases h3 (T 0) with e | ⟨e, _⟩
    · exact e
    · exact absurd e (lt_irrefl _)
  · intro t
    rcases h3 t with e | ⟨e1, e2⟩
    · exact le_of_eq e.symm
    · rw [e2]; exact le_of_lt e1

theorem chain_scene_holders : holders_in_memory chain_scene := by
  intro l h hl
  by_cases h1 : l = 1
  · subst h1; cases hl; decide
  · by_cases h2 : l = 2
    · subst h2; cases hl; decide
    · simp [chain_scene] at hl

/-- C7 at chain_scene: priorities 10 -> 1 -> 1 along two locks; both holders end at 10. -/
theorem C7_nested_donation_witness :
    ∃ s', donate_priority chain_scene = .ok s' ∧ s'.prio 1 = 10 ∧ s'.prio 2 = 10 := by
  obtain ⟨s', h1, h2, -, -⟩ := C7_nested_donation chain_scene (fun i => i) (fun i => i + 1) 2
    (by decide) (by decide!) (by decide!) (by decide!)
    (by intro i hi; interval_cases i <;> decide!)
    (by intro i h1 h2; interval_cases i <;> decide!)
    chain_scene_holders
  exact ⟨s', h1, h2 1 (by decide) (by decide), h2 2 (by decide) (by decide)⟩

/-! ## The dispatcher, step by step -/

theorem set_thread_prio_status (x : State) (n t : Nat) (st : Status) :
    (x.set_thread n { x.threads n with status := st }).prio t = x.prio t := by
  by_cases ht : t = n
  · subst ht; simp [State.prio, State.set_thread]
  · simp [State.prio, State.set_thread, Function.update_noteq ht]

theorem set_thread_status_record (x : State) (n t : Nat) (st : Status) :
    (x.set_thread n { x.threads n with status := st }).threads t =
      { x.threads t with
        status := ((x.set_thread n { x.threads n with status := st }).threads t).status } := by
  by_cases ht : t = n
  · subst ht; simp [State.set_thread]
  · simp [State.set_thread, Function.update_noteq ht]

theorem next_thread_to_run_congr (s s' : State) (h1 : s'.ready_list = s.ready_list)
    (h2 : s'.idle_thread = s.idle_thread) :
    (next_thread_to_run s').1 = (next_thread_to_run s).1 := by
  unfold next_thread_to_run
  rw [h1, h2]
  cases s.ready_list <;> rfl

/-- Launching thread n from the caller curr (the running thread) changes statuses only, apart
from the scheduler's own variables. -/
theorem schedule_launch_props (n : Nat) (s : State) :
    (schedule_launch s.current n s).current = n ∧
    (schedule_launch s.current n s).ready_list = s.ready_list ∧
    ((schedule_launch s.current n s).threads n).status = Status.THREAD_RUNNING ∧
    (∀ t, t ≠ n → (schedule_launch s.current n s).threads t = s.threads t) ∧
    (∀ t, (schedule_launch s.current n s).threads t =
      { s.threads t with status := ((schedule_launch s.current n s).threads t).status }) ∧
    (schedule_launch s.current n s).locks = s.locks ∧
    (schedule_launch s.current n s).semas = s.semas ∧
    (schedule_launch s.current n s).intr_context = s.intr_context ∧
    (schedule_launch s.current n s).idle_thread = s.idle_thread ∧
    (schedule_launch s.current n s).mem_pages = s.mem_pages ∧
    (schedule_launch s.current n s).thread_mlfqs = s.thread_mlfqs := by
  unfold schedule_launch
  simp only
  by_cases hc : s.current = n
  · rw [if_neg (not_not.2 hc)]
    refine ⟨hc, rfl, by simp [State.set_thread], ?_, ?_, rfl, rfl, rfl, rfl, rfl, rfl⟩
    · intro t ht
      simp [State.set_thread, Function.update_noteq ht]
    · intro t
      exact set_thread_status_record s n t _
  · rw [if_pos hc]
    split
    · refine ⟨rfl, rfl, by simp [State.set_thread], ?_, ?_, rfl, rfl, rfl, rfl, rfl, rfl⟩
      · intro t ht
        simp [State.set_thread, Function.update_noteq ht]
      · intro t
        exact set_thread_status_record s n t _
    · refine ⟨rfl, rfl, by simp [State.set_thread], ?_, ?_, rfl, rfl, rfl, rfl, rfl, rfl⟩
      · intro t ht
        simp [State.set_thread, Function.update_noteq ht]
      · intro t
        exact set_thread_status_record s n t _

/-- The running thread gives up the processor with the given status and thread n, the front
of the ready list or else the idle thread, is dispatched. -/
theorem do_schedule_spec (st : Status) (s : State) (n : Nat)
    (hcur : is_thread s s.current)
    (hrun : (s.threads s.current).status = Status.THREAD_RUNNING)
    (hst : st ≠ Status.THREAD_RUNNING)
    (hnext : (next_thread_to_run s).1 = some n) (hn : is_thread s n) :
    ∃ s', do_schedule st s = .ok s' ∧ s'.current = n ∧
      s'.ready_list = s.ready_list.tail ∧
      (s'.threads n).status = Status.THREAD_RUNNING ∧
      (n ≠ s.current → (s'.threads s.current).status = st) ∧
      (∀ t, t ≠ n → t ≠ s.current → s'.threads t = s.threads t) ∧
      (∀ t, s'.threads t = { s.threads t with status := (s'.threads t).status }) ∧
      s'.locks = s.locks ∧ s'.semas = s.semas ∧ s'.intr_context = s.intr_context ∧
      s'.idle_thread = s.idle_thread ∧ s'.mem_pages = s.mem_pages ∧
      s'.thread_mlfqs = s.thread_mlfqs := by
  have hsched := schedule_ok
    ({ s with freed := s.freed ++ s.destruction_req, destruction_req := [] }.set_thread s.current
      { s.threads s.current with status := st }) n
    (by rw [← hnext]; exact next_thread_to_run_congr _ _ rfl rfl)
    (by
      unfold is_thread at hn ⊢
      by_cases hc : n = s.current
      · rw [hc]; simp [State.set_thread]; rw [← hc]; exact hn
      · simp [State.set_thread, Function.update_noteq hc]; exact hn)
    (by simp [State.set_thread]; exact hst)
  obtain ⟨h1, h2, h3, h4, h5, h6, h7, h8, h9, h10, h11⟩ := schedule_launch_props n
    { ({ s with freed := s.freed ++ s.destruction_req, destruction_req := [] }.set_thread s.current
      { s.threads s.current with status := st }) with ready_list := s.ready_list.tail }
  refine ⟨_, ?_, h1, h2, h3, ?_, ?_, ?_, h6, h7, h8, h9, h10, h11⟩
  · unfold do_schedule
    rw [thread_current_ok s hcur hrun]
    exact hsched
  · intro hne
    rw [h4 _ (Ne.symm hne)]
    simp [State.set_thread]
  · intro t ht1 ht2
    rw [h4 t ht1]
    simp [State.set_thread, Function.update_noteq ht2]
  · intro t
    rw [h5 t]
    by_cases ht : t = s.current
    · subst ht; simp [State.set_thread]
    · simp [State.set_thread, Function.update_noteq ht]
/-- thread_block with a valid thread to dispatch. -/
theorem thread_block_spec (s : State) (n : Nat) (hintr : s.intr_context = false)
    (hcur : is_thread s s.current)
    (hrun : (s.threads s.current).status = Status.THREAD_RUNNING)
    (hnext : (next_thread_to_run s).1 = some n) (hn : is_thread s n) :
    ∃ s', thread_block s = .ok s' ∧ s'.current = n ∧
      s'.ready_list = s.ready_list.tail ∧
      (s'.threads n).status = Status.THREAD_RUNNING ∧
      (n ≠ s.current → (s'.threads s.current).status = Status.THREAD_BLOCKED) ∧
      (∀ t, t ≠ n → t ≠ s.current → s'.threads t = s.threads t) ∧
      (∀ t, s'.threads t = { s.threads t with status := (s'.threads t).status }) ∧
      s'.locks = s.locks ∧ s'.semas = s.semas ∧ s'.intr_context = s.intr_context ∧
      s'.idle_thread = s.idle_thread ∧ s'.mem_pages = s.mem_pages ∧
      s'.thread_mlfqs = s.thread_mlfqs := by
  have hsched := schedule_ok
    (s.set_thread s.current { s.threads s.current with status := Status.THREAD_BLOCKED }) n
    (by rw [← hnext]; exact next_thread_to_run_congr _ _ rfl rfl)
    (by
      unfold is_thread at hn ⊢
      by_cases hc : n = s.current
      · rw [hc]; simp [State.set_thread]; rw [← hc]; exact hn
      · simp [State.set_thread, Function.update_noteq hc]; exact hn)
    (by simp [State.set_thread])
  obtain ⟨h1, h2, h3, h4, h5, h6, h7, h8, h9, h10, h11⟩ := schedule_launch_props n
    { (s.set_thread s.current { s.threads s.current with status := Status.THREAD_BLOCKED }) with
      ready_list := s.ready_list.tail }
  refine ⟨_, ?_, h1, h2, h3, ?_, ?_, ?_, h6, h7, h8, h9, h10, h11⟩
  · unfold thread_block
    rw [if_neg (by rw [hintr]; decide), thread_current_ok s hcur hrun]
    exact hsched
  · intro hne
    rw [h4 _ (Ne.symm hne)]
    simp [State.set_thread]
  · intro t ht1 ht2
    rw [h4 t ht1]
    simp [State.set_thread, Function.update_noteq ht2]
  · intro t
    rw [h5 t]
    by_cases ht : t = s.current
    · subst ht; simp [State.set_thread]
    · simp [State.set_thread, Function.update_noteq ht]

/-- The ready list thread_yield hands to the dispatcher. -/
theorem thread_yield_spec (s : State) (n : Nat) (hintr : s.intr_context = false)
    (hcur : is_thread s s.current)
    (hrun : (s.threads s.current).status = Status.THREAD_RUNNING)
    (hnext : (next_thread_to_run
      (if some s.current ≠ s.idle_thread
       then { s with ready_list := list_insert_ordered (thread_cmp_priority s) s.current s.ready_list }
       else s)).1 = some n)
    (hn : is_thread s n) :
    ∃ s', thread_yield s = .switched s' [] ∧ s'.current = n ∧
      (s'.threads n).status = Status.THREAD_RUNNING ∧
      (n ≠ s.current → (s'.threads s.current).status = Status.THREAD_READY) ∧
      (∀ t, t ≠ n → t ≠ s.current → s'.threads t = s.threads t) ∧
      (∀ t, s'.threads t = { s.threads t with status := (s'.threads t).status }) ∧
      s'.locks = s.locks ∧ s'.semas = s.semas := by
  have hi : ¬ (s.intr_context = true) := by rw [hintr]; decide
  by_cases hidle : some s.current ≠ s.idle_thread
  · rw [if_pos hidle] at hnext
    obtain ⟨s', h1, h2, -, h4, h5, h6, h7, h8, h9, -⟩ := do_schedule_spec Status.THREAD_READY
      { s with ready_list := list_insert_ordered (thread_cmp_priority s) s.current s.ready_list }
      n hcur hrun (by decide) hnext hn
    refine ⟨s', ?_, h2, h4, h5, h6, h7, h8, h9⟩
    unfold thread_yield
    rw [thread_current_ok s hcur hrun]
    simp only
    rw [if_neg hi, if_pos hidle, h1]
  · rw [if_neg hidle] at hnext
    obtain ⟨s', h1, h2, -, h4, h5, h6, h7, h8, h9, -⟩ := do_schedule_spec Status.THREAD_READY
      s n hcur hrun (by decide) hnext hn
    refine ⟨s', ?_, h2, h4, h5, h6, h7, h8, h9⟩
    unfold thread_yield
    rw [thread_current_ok s hcur hrun]
    simp only
    rw [if_neg hi, if_neg hidle, h1]

/-! ## Reading a state after an update -/

@[simp] theorem set_thread_same (s : State) (t : Nat) (th : Thread) :
    (s.set_thread t th).threads t = th := by
  simp [State.set_thread]

theorem set_thread_ne (s : State) (t u : Nat) (th : Thread) (h : u ≠ t) :
    (s.set_thread t th).threads u = s.threads u := by
  simp [State.set_thread, Function.update_noteq h]

@[simp] theorem set_thread_locks (s : State) (t : Nat) (th : Thread) :
    (s.set_thread t th).locks = s.locks := rfl

@[simp] theorem set_thread_current (s : State) (t : Nat) (th : Thread) :
    (s.set_thread t th).current = s.current := rfl

@[simp] theorem set_thread_ready_list (s : State) (t : Nat) (th : Thread) :
    (s.set_thread t th).ready_list = s.ready_list := rfl

@[simp] theorem set_thread_idle_thread (s : State) (t : Nat) (th : Thread) :
    (s.set_thread t th).idle_thread = s.idle_thread := rfl

@[simp] theorem set_thread_intr_context (s : State) (t : Nat) (th : Thread) :
    (s.set_thread t th).intr_context = s.intr_context := rfl

@[simp] theorem set_thread_mem_pages (s : State) (t : Nat) (th : Thread) :
    (s.set_thread t th).mem_pages = s.mem_pages := rfl

@[simp] theorem set_thread_sema (s : State) (t : Nat) (th : Thread) (r : SemaRef) :
    (s.set_thread t th).sema r = s.sema r := by
  cases r <;> rfl

@[simp] theorem set_sema_current (s : State) (r : SemaRef) (v : Semaphore) :
    (s.set_sema r v).current = s.current := by
  cases r <;> rfl

@[simp] theorem set_sema_idle_thread (s : State) (r : SemaRef) (v : Semaphore) :
    (s.set_sema r v).idle_thread = s.idle_thread := by
  cases r <;> rfl

@[simp] theorem set_sema_intr_context (s : State) (r : SemaRef) (v : Semaphore) :
    (s.set_sema r v).intr_context = s.intr_context := by
  cases r <;> rfl

@[simp] theorem set_sema_mem_pages (s : State) (r : SemaRef) (v : Semaphore) :
    (s.set_sema r v).mem_pages = s.mem_pages := by
  cases r <;> rfl

@[simp] theorem set_sema_lock_holder (s : State) (r : SemaRef) (v : Semaphore) (l : Nat) :
    ((s.set_sema r v).locks l).holder = (s.locks l).holder := by
  cases r with
  | sema a => rfl
  | lock_sema l' =>
    by_cases h : l = l'
    · subst h; simp [State.set_sema, State.set_lock]
    · simp [State.set_sema, State.set_lock, Function.update_noteq h]

theorem lock_sema_eq (s : State) (l : Nat) : s.sema (.lock_sema l) = (s.locks l).semaphore := rfl

/-- The calling thread M asks for a lock that L holds, L having the lower priority: the
donation raises L to the priority of M, M queues itself on the lock and the dispatcher runs;
M is left with the two activations that finish its lock_acquire. -/
theorem lock_acquire_blocks (s : State) (l L M n : Nat)
    (hcur : s.current = M) (hthread : is_thread s M)
    (hrun : (s.threads M).status = Status.THREAD_RUNNING)
    (hintr : s.intr_context = false) (hmlfqs : s.thread_mlfqs = false)
    (hholder : (s.locks l).holder = some L)
    (hval : (s.locks l).semaphore.value = 0)
    (hlt : s.prio L < s.prio M)
    (hwf : holders_in_memory s)
    (hnext : (next_thread_to_run s).1 = some n) (hn : is_thread s n) :
    ∃ s', lock_acquire l s =
        .switched s' [Frame.sema_down_loop (.lock_sema l), Frame.lock_acquire_tail l M] ∧
      s'.prio L = s.prio M ∧ s'.prio M = s.prio M ∧
      (∀ t, s.prio t ≤ s'.prio t) ∧
      (s'.locks l).semaphore.waiters =
        list_insert_ordered (fun a b => decide (s'.prio a > s'.prio b)) M
          (s.locks l).semaphore.waiters ∧
      (s'.threads M).wait_on_lock = some l ∧
      (s'.locks l).holder = some L ∧
      s'.current = n ∧
      (n ≠ M → (s'.threads M).status = Status.THREAD_BLOCKED) := by
  have hLM : L ≠ M := by intro e; subst e; exact absurd hlt (lt_irrefl _)
  have hML : M ≠ L := Ne.symm hLM
  -- the state after the bookkeeping of the donation step
  obtain ⟨s2, hs2⟩ : ∃ s2, s2 =
      (s.set_thread M { s.threads M with wait_on_lock := some l }).set_thread L
        { (s.set_thread M { s.threads M with wait_on_lock := some l }).threads L with
          donations := list_insert_ordered
            (thread_priority_cmp (s.set_thread M { s.threads M with wait_on_lock := some l })) M
            ((s.set_thread M { s.threads M with wait_on_lock := some l }).threads L).donations } :=
    ⟨_, rfl⟩
  have h2M : s2.threads M = { s.threads M with wait_on_lock := some l } := by
    rw [hs2, set_thread_ne _ _ _ _ hML, set_thread_same]
  have h2prio : ∀ t, s2.prio t = s.prio t := by
    intro t
    rw [hs2]
    unfold State.prio
    by_cases h1 : t = L
    · subst h1; rw [set_thread_same, set_thread_ne _ _ _ _ hLM]
    · rw [set_thread_ne _ _ _ _ h1]
      by_cases h2 : t = M
      · subst h2; rw [set_thread_same]
      · rw [set_thread_ne _ _ _ _ h2]
  have h2locks : s2.locks = s.locks := by rw [hs2]; rfl
  have h2cur : s2.current = M := by rw [hs2]; exact hcur
  have hdon : lock_acquire_donate l M s = donate_priority s2 := by
    unfold lock_acquire_donate
    rw [hholder]
    simp only
    rw [if_neg (by rw [hmlfqs]; decide), hs2]
  obtain ⟨s3, h31, h32, h33, h34, h35⟩ := donate_priority_chain s2
    (fun i => if i = 0 then M else L) (fun _ => l) 1 (le_refl _)
    (by simpa using h2cur)
    (by unfold is_thread at *; simp only [if_true]; rw [h2M]; exact hthread)
    (by simp only [if_true]; rw [h2M]; exact hrun)
    (by
      intro i hi
      have : i = 0 := by omega
      subst this
      simp only [if_true]
      rw [h2M, h2locks]
      exact ⟨rfl, by simpa using hholder⟩)
    (by
      intro i h1 h2
      have : i = 1 := by omega
      subst this
      simp only [if_true]
      rw [h2prio, h2prio]
      simpa using hlt)
    (by intro l' h' hl'; rw [h2locks] at hl'; rw [hs2]; exact hwf l' h' hl')
  have h3L : s3.prio L = s.prio M := by
    have := h32 1 (le_refl _) (le_refl _)
    simp only [if_true] at this
    rw [h2prio] at this
    simpa using this
  have h3M : s3.prio M = s.prio M := by
    rcases h33 M with e | ⟨e, _⟩
    · rw [e, h2prio]
    · simp only [if_true] at e
      exact absurd e (lt_irrefl _)
  have h3mono : ∀ t, s.prio t ≤ s3.prio t := by
    intro t
    rcases h33 t with e | ⟨e1, e2⟩
    · rw [e, h2prio]
    · rw [e2, ← h2prio t]; exact le_of_lt e1
  have h3locks : s3.locks = s.locks := by
    have := congrArg State.locks h35
    exact this.trans h2locks
  have h3cur : s3.current = M := by
    have := congrArg State.current h35
    exact this.trans h2cur
  have h3ready : s3.ready_list = s.ready_list := by
    have := congrArg State.ready_list h35
    rw [this, hs2]; rfl
  have h3idle : s3.idle_thread = s.idle_thread := by
    have := congrArg State.idle_thread h35
    rw [this, hs2]; rfl
  have h3intr : s3.intr_context = false := by
    have := congrArg State.intr_context h35
    rw [this, hs2]; exact hintr
  have h2magic : ∀ t, (s2.threads t).magic = (s.threads t).magic ∧
      (s2.threads t).status = (s.threads t).status := by
    intro t
    rw [hs2]
    by_cases h1 : t = L
    · subst h1; rw [set_thread_same, set_thread_ne _ _ _ _ hLM]; exact ⟨rfl, rfl⟩
    · rw [set_thread_ne _ _ _ _ h1]
      by_cases h2 : t = M
      · subst h2; rw [set_thread_same]; exact ⟨rfl, rfl⟩
      · rw [set_thread_ne _ _ _ _ h2]; exact ⟨rfl, rfl⟩
  have h3magic : ∀ t, (s3.threads t).magic = (s.threads t).magic ∧
      (s3.threads t).status = (s.threads t).status := by
    intro t
    rw [h34 t]
    exact h2magic t
  have h3wol : (s3.threads M).wait_on_lock = some l := by
    rw [h34 M, h2M]
  have h3thread : ∀ t, is_thread s t → is_thread s3 t := by
    intro t ht
    unfold is_thread at *
    rw [(h3magic t).1]; exact ht
  -- sema_down finds the counter at zero
  have h3val : (s3.sema (.lock_sema l)).value = 0 := by
    rw [lock_sema_eq, h3locks]; exact hval
  obtain ⟨s4, hs4⟩ : ∃ s4, s4 = s3.set_sema (.lock_sema l) { s3.sema (.lock_sema l) with
      waiters := list_insert_ordered (thread_priority_cmp s3) M (s3.sema (.lock_sema l)).waiters } :=
    ⟨_, rfl⟩
  have h4threads : s4.threads = s3.threads := by rw [hs4]; rfl
  obtain ⟨s5, h51, h52, -, -, h55, -, h57, h58, -⟩ := thread_block_spec s4 n
    (by rw [hs4]; exact h3intr)
    (by rw [hs4]; unfold is_thread; simp only [set_sema_current]; rw [h3cur]
        exact h3thread M hthread)
    (by rw [hs4]; simp only [set_sema_current]; rw [h3cur]
        show (s3.threads M).status = _
        rw [(h3magic M).2]; exact hrun)
    (by rw [← hnext]; exact next_thread_to_run_congr _ _ (by rw [hs4]; exact h3ready)
          (by rw [hs4]; simp only [set_sema_idle_thread]; exact h3idle))
    (by unfold is_thread; rw [h4threads]; exact h3thread n hn)
  have h4cur : s4.current = M := by rw [hs4]; simp only [set_sema_current]; exact h3cur
  have hdown : sema_down (.lock_sema l) s3 = .switched s5 [Frame.sema_down_loop (.lock_sema l)] := by
    unfold sema_down
    rw [if_pos h3val, thread_current_ok s3 (by rw [h3cur]; exact h3thread M hthread)
      (by rw [h3cur, (h3magic M).2]; exact hrun), h3cur]
    simp only
    rw [← hs4, h51]
  have h5prio : ∀ t, s5.prio t = s3.prio t := by
    intro t
    unfold State.prio
    rw [h57 t, h4threads]
  refine ⟨s5, ?_, ?_, ?_, ?_, ?_, ?_, ?_, h52, ?_⟩
  · unfold lock_acquire
    rw [if_neg (by rw [hintr]; decide)]
    have hheld : lock_held_by_current_thread l s = .ok false := by
      unfold lock_held_by_current_thread
      rw [thread_current_ok s (by rw [hcur]; exact hthread) (by rw [hcur]; exact hrun), hcur, hholder]
      simp only
      congr 1
      simpa using hLM
    rw [hheld, thread_current_ok s (by rw [hcur]; exact hthread) (by rw [hcur]; exact hrun), hcur]
    simp only
    rw [hdon, h31]
    simp only
    rw [hdown]
    rfl
  · rw [h5prio, h3L]
  · rw [h5prio, h3M]
  · intro t; rw [h5prio]; exact h3mono t
  · rw [h58, hs4]
    simp only [State.set_sema, State.set_lock, State.sema, Function.update_same]
    rw [h3locks]
    congr 1
    funext a b
    have ha := h5prio a
    have hb := h5prio b
    unfold State.prio at ha hb
    simp only [thread_priority_cmp, State.prio, ha, hb]
  · rw [h57 M, h4threads]
    exact h3wol
  · rw [h58, hs4, set_sema_lock_holder, h3locks]; exact hholder
  · intro hne
    have := h55 (by rw [h4cur]; exact hne)
    rw [h4cur] at this
    exact this

theorem list_insert_ordered_front {α : Type} (less : α → α → Bool) (x : α) (l : List α)
    (h : ∀ e ∈ l, less x e = true) : list_insert_ordered less x l = x :: l := by
  cases l with
  | nil => rfl
  | cons a l => simp [list_insert_ordered, h a (by simp)]

theorem list_insert_ordered_behind {α : Type} (less : α → α → Bool) (x a : α) (l : List α)
    (h : less x a = false) :
    list_insert_ordered less x (a :: l) = a :: list_insert_ordered less x l := by
  simp [list_insert_ordered, h]

/-- The wake-up half of sema_up when the first of the highest-priority waiters is known. -/
theorem sema_up_wake_at (s : State) (sema : SemaRef) (pre post : List Nat) (m : Nat)
    (hwait : (s.sema sema).waiters = pre ++ m :: post)
    (hpre : ∀ t ∈ pre, s.prio t < s.prio m) (hpost : ∀ t ∈ post, s.prio t ≤ s.prio m)
    (hblocked : ∀ t ∈ (s.sema sema).waiters,
      is_thread s t ∧ (s.threads t).status = Status.THREAD_BLOCKED) :
    ∃ rest s1, rest.Perm (pre ++ post) ∧
      sema_up_wake sema s = .ok s1 ∧
      s1.sema sema = { value := ((s.sema sema).value + 1) % UINT_MOD, waiters := rest } ∧
      s1.threads m = { s.threads m with status := Status.THREAD_READY } ∧
      (∀ t, t ≠ m → s1.threads t = s.threads t) ∧
      s1.ready_list = list_insert_ordered (thread_cmp_priority s) m s.ready_list ∧
      s1.current = s.current ∧ s1.intr_context = s.intr_context ∧
      s1.idle_thread = s.idle_thread ∧ (∀ l, (s1.locks l).holder = (s.locks l).holder) := by
  obtain ⟨w, rest, pre2, post2, s1, h1, -, -, -, -, h6, h7, -, h9, h10, h11, h12, h13, h14, h15⟩ :=
    sema_up_wake_spec s sema (by rw [hwait]; simp) hblocked
  obtain ⟨rest', hr1, hr2⟩ := list_sort_front_eq s.prio pre post m hpre hpost
  rw [hwait] at h1
  have e : w :: rest = m :: rest' := h1.symm.trans hr1
  injection e with e1 e2
  subst e1 e2
  exact ⟨rest, s1, hr2, h6, h7, h9, h10, h11, h12, h13, h14, h15⟩

/-- The holder L of a lock, all of whose donors wait on that lock, releases it while M is the
first of the highest-priority waiters and outranks both the base priority of L and every READY thread:
L falls back to its base priority, M is woken to the front of the ready list, and the
preemption check hands the processor to M. -/
theorem lock_release_hands_over (s : State) (l L M : Nat) (pre post : List Nat)
    (hcur : s.current = L) (hthread : is_thread s L)
    (hrun : (s.threads L).status = Status.THREAD_RUNNING)
    (hintr : s.intr_context = false)
    (hholder : (s.locks l).holder = some L)
    (hdon : ∀ d ∈ (s.threads L).donations, (s.threads d).wait_on_lock = some l)
    (hwait : (s.locks l).semaphore.waiters = pre ++ M :: post)
    (hpre : ∀ t ∈ pre, s.prio t < s.prio M) (hpost : ∀ t ∈ post, s.prio t ≤ s.prio M)
    (hblocked : ∀ t ∈ (s.locks l).semaphore.waiters,
      is_thread s t ∧ (s.threads t).status = Status.THREAD_BLOCKED)
    (hlow : (s.threads L).init_priority < s.prio M)
    (hready : ∀ x ∈ s.ready_list, s.prio x < s.prio M) :
    ∃ s1 s', lock_release l s = test_max_priority s1 ∧
      (s1.threads M).status = Status.THREAD_READY ∧
      s1.ready_list = M :: s.ready_list ∧
      s1.prio L = (s.threads L).init_priority ∧
      lock_release l s = .switched s' [] ∧
      s'.current = M ∧ (s'.threads M).status = Status.THREAD_RUNNING ∧
      (s'.threads L).status = Status.THREAD_READY ∧
      s'.prio L = (s.threads L).init_priority ∧
      (s'.locks l).holder = none := by
  have hMw : M ∈ (s.locks l).semaphore.waiters := by rw [hwait]; simp
  obtain ⟨hMt, hMb⟩ := hblocked M hMw
  have hML : M ≠ L := by
    intro e; subst e; rw [hrun] at hMb; exact absurd hMb (by decide)
  have hnotL : ∀ t ∈ (s.locks l).semaphore.waiters, t ≠ L := by
    intro t ht e; subst e
    have := (hblocked t ht).2
    rw [hrun] at this; exact absurd this (by decide)
  -- remove_with_lock and refresh_priority
  obtain ⟨sH, hsH⟩ : ∃ sH, sH =
      ((remove_with_lock l s).set_thread L { (remove_with_lock l s).threads L with
        priority := (s.threads L).init_priority }).set_lock l
        { (s.locks l) with holder := none } := ⟨_, rfl⟩
  have hrm : (remove_with_lock l s).threads L = { s.threads L with
      donations := (s.threads L).donations.filter
        (fun d => decide ((s.threads d).wait_on_lock ≠ some l)) } := by
    unfold remove_with_lock
    rw [hcur, set_thread_same]
  have hfilter : (s.threads L).donations.filter
      (fun d => decide ((s.threads d).wait_on_lock ≠ some l)) = [] := by
    rw [List.filter_eq_nil_iff]
    intro d hd
    simp [hdon d hd]
  have hrefresh : refresh_donations (remove_with_lock l s) = .ok
      ((remove_with_lock l s).set_thread L { (remove_with_lock l s).threads L with
        priority := (s.threads L).init_priority }) := by
    unfold refresh_donations
    have hc : thread_current (remove_with_lock l s) = .ok L := by
      have := thread_current_ok (remove_with_lock l s)
        (by unfold is_thread remove_with_lock; simp only [set_thread_current]; rw [hcur, set_thread_same]
            exact hthread)
        (by unfold remove_with_lock; simp only [set_thread_current]; rw [hcur, set_thread_same]
            exact hrun)
      rw [this]; unfold remove_with_lock; simp only [set_thread_current]; rw [hcur]
    rw [hc]
    simp only
    rw [hrm]
    simp only [hfilter, donated_max]
  have hHthreads : ∀ t, t ≠ L → sH.threads t = s.threads t := by
    intro t ht
    rw [hsH]
    show (((remove_with_lock l s).set_thread L _).threads t) = _
    rw [set_thread_ne _ _ _ _ ht]
    unfold remove_with_lock
    rw [hcur, set_thread_ne _ _ _ _ ht]
  have hHL : sH.threads L = { (remove_with_lock l s).threads L with
      priority := (s.threads L).init_priority } := by
    rw [hsH]
    show (((remove_with_lock l s).set_thread L _).threads L) = _
    rw [set_thread_same]
  have hHprioL : sH.prio L = (s.threads L).init_priority := by
    unfold State.prio; rw [hHL]
  have hHprio : ∀ t, t ≠ L → sH.prio t = s.prio t := by
    intro t ht; unfold State.prio; rw [hHthreads t ht]
  have hHwait : (sH.sema (.lock_sema l)).waiters = pre ++ M :: post := by
    rw [hsH, lock_sema_eq]
    simp only [State.set_lock, Function.update_same]
    exact hwait
  have hHready : sH.ready_list = s.ready_list := by rw [hsH]; rfl
  have hHcur : sH.current = L := by rw [hsH]; exact hcur
  obtain ⟨rest, s1, -, h12, -, h14, h15, h16, h17, h18, h19, h110⟩ :=
    sema_up_wake_at sH (.lock_sema l) pre post M hHwait
      (by intro t ht
          rw [hHprio M hML, hHprio t (hnotL t (by rw [hwait]; simp [ht]))]
          exact hpre t ht)
      (by intro t ht
          rw [hHprio M hML, hHprio t (hnotL t (by rw [hwait]; simp [ht]))]
          exact hpost t ht)
      (by intro t ht
          rw [hHwait, ← hwait] at ht
          unfold is_thread
          rw [hHthreads t (hnotL t ht)]
          exact hblocked t ht)
  have h1prioM : s1.prio M = s.prio M := by
    unfold State.prio; rw [h14, hHthreads M hML]
  have h1prioL : s1.prio L = (s.threads L).init_priority := by
    unfold State.prio; rw [h15 L (Ne.symm hML)]; exact hHprioL
  have h1ready : s1.ready_list = M :: s.ready_list := by
    rw [h16, hHready]
    apply list_insert_ordered_front
    intro e he
    simp only [thread_cmp_priority, decide_eq_true_eq, gt_iff_lt]
    show sH.prio e < sH.prio M
    rw [hHprio M hML]
    by_cases heL : e = L
    · rw [heL, hHprioL]; exact hlow
    · rw [hHprio e heL]; exact hready e he
  have hrel : lock_release l s = test_max_priority s1 := by
    unfold lock_release
    have hheld : lock_held_by_current_thread l s = .ok true := by
      unfold lock_held_by_current_thread
      rw [thread_current_ok s (by rw [hcur]; exact hthread) (by rw [hcur]; exact hrun), hcur, hholder]
      simp
    rw [hheld]
    simp only
    rw [hrefresh]
    simp only
    unfold sema_up
    have : ((remove_with_lock l s).set_thread L { (remove_with_lock l s).threads L with
        priority := (s.threads L).init_priority }).set_lock l
        { (((remove_with_lock l s).set_thread L { (remove_with_lock l s).threads L with
            priority := (s.threads L).init_priority }).locks l) with holder := none } = sH := by
      rw [hsH]
      unfold remove_with_lock
      rfl
    rw [this, h12]
  have h1thread : ∀ t, is_thread s t → is_thread s1 t := by
    intro t ht
    unfold is_thread at *
    by_cases htM : t = M
    · subst htM; rw [h14]; simp only; rw [hHthreads t hML]; exact ht
    · rw [h15 t htM]
      by_cases htL : t = L
      · subst htL; rw [hHL, hrm]; exact ht
      · rw [hHthreads t htL]; exact ht
  have h1cur : s1.current = L := by rw [h17, hHcur]
  have h1statusL : (s1.threads L).status = Status.THREAD_RUNNING := by
    rw [h15 L (Ne.symm hML), hHL, hrm]; exact hrun
  have hless : thread_cmp_priority s1 L M = false := by
    simp only [thread_cmp_priority, decide_eq_false_iff_not, gt_iff_lt, not_lt]
    show s1.prio L ≤ s1.prio M
    rw [h1prioM, h1prioL]; exact le_of_lt hlow
  obtain ⟨s', hy1, hy2, hy3, hy4, -, hy6, hy7, -⟩ := thread_yield_spec s1 M
    (by rw [h18, hsH]; exact hintr)
    (by rw [h1cur]; exact h1thread L hthread)
    (by rw [h1cur]; exact h1statusL)
    (by
      split
      · apply next_thread_to_run_head _ M (list_insert_ordered (thread_cmp_priority s1) L s.ready_list)
        show list_insert_ordered _ s1.current s1.ready_list = _
        rw [h1cur, h1ready]
        exact list_insert_ordered_behind _ _ _ _ hless
      · exact next_thread_to_run_head _ M s.ready_list h1ready)
    (h1thread M hMt)
  have h1intr : s1.intr_context = false := by rw [h18, hsH]; exact hintr
  have hyield : test_max_priority s1 = .switched s' [] := by
    unfold test_max_priority
    rw [h1ready]
    simp only
    rw [if_pos ⟨by rw [h1intr]; decide, by
      rw [h1cur]
      show s1.prio M > s1.prio L
      rw [h1prioM, h1prioL]; exact hlow⟩]
    exact hy1
  refine ⟨s1, s', hrel, by rw [h14], h1ready, h1prioL, hrel.trans hyield, hy2, hy3, ?_, ?_, ?_⟩
  · have := hy4 (by rw [h1cur]; exact hML)
    rw [h1cur] at this; exact this
  · unfold State.prio
    rw [hy6 L]
    exact h1prioL
  · rw [hy7, h110, hsH]
    simp [State.set_lock]

/-! ## C6: donation raises, release restores -/

/-- C6 (as amended). Lock l is held by L. When the running thread M, of higher priority, calls
lock_acquire on l (state s), the priority of L becomes that of M and M is switched out, queued
on the lock. When L later calls lock_release (state s2), its base priority being the priority
it had before the donation, l being the only lock it holds and every donor on its donor list
waiting on a lock it holds, while M is the first of the highest-priority waiters of l and every
READY thread has a priority below that of M: L is back at that priority, M is made READY at
the front of the ready list, and M is the thread dispatched. -/
theorem C6_donation_and_release (s : State) (l L M n : Nat)
    (hcur : s.current = M) (hthread : is_thread s M)
    (hrun : (s.threads M).status = Status.THREAD_RUNNING)
    (hintr : s.intr_context = false) (hmlfqs : s.thread_mlfqs = false)
    (hholder : (s.locks l).holder = some L)
    (hval : (s.locks l).semaphore.value = 0)
    (hlt : s.prio L < s.prio M)
    (hwf : holders_in_memory s)
    (hnext : (next_thread_to_run s).1 = some n) (hn : is_thread s n)
    (s2 : State) (pre post : List Nat)
    (hcur2 : s2.current = L) (hthread2 : is_thread s2 L)
    (hrun2 : (s2.threads L).status = Status.THREAD_RUNNING)
    (hintr2 : s2.intr_context = false)
    (hholder2 : (s2.locks l).holder = some L)
    (honly2 : ∀ l', (s2.locks l').holder = some L → l' = l)
    (hdon2 : ∀ d ∈ (s2.threads L).donations,
      ∃ l', (s2.threads d).wait_on_lock = some l' ∧ (s2.locks l').holder = some L)
    (hbase2 : (s2.threads L).init_priority = s.prio L)
    (hM2 : s2.prio M = s.prio M)
    (hwait2 : (s2.locks l).semaphore.waiters = pre ++ M :: post)
    (hpre2 : ∀ t ∈ pre, s2.prio t < s2.prio M) (hpost2 : ∀ t ∈ post, s2.prio t ≤ s2.prio M)
    (hblocked2 : ∀ t ∈ (s2.locks l).semaphore.waiters,
      is_thread s2 t ∧ (s2.threads t).status = Status.THREAD_BLOCKED)
    (hready2 : ∀ x ∈ s2.ready_list, s2.prio x < s2.prio M) :
    (∃ s', lock_acquire l s =
        .switched s' [Frame.sema_down_loop (.lock_sema l), Frame.lock_acquire_tail l M] ∧
      s'.prio L = s.prio M ∧
      M ∈ (s'.locks l).semaphore.waiters ∧
      (n ≠ M → (s'.threads M).status = Status.THREAD_BLOCKED)) ∧
    (∃ s1 s', lock_release l s2 = test_max_priority s1 ∧
      (s1.threads M).status = Status.THREAD_READY ∧
      s1.ready_list = M :: s2.ready_list ∧
      lock_release l s2 = .switched s' [] ∧
      s'.prio L = s.prio L ∧
      s'.current = M ∧ (s'.threads M).status = Status.THREAD_RUNNING ∧
      (s'.locks l).holder = none) := by
  constructor
  · obtain ⟨s', h1, h2, -, -, h5, -, -, -, h9⟩ :=
      lock_acquire_blocks s l L M n hcur hthread hrun hintr hmlfqs hholder hval hlt hwf hnext hn
    refine ⟨s', h1, h2, ?_, h9⟩
    rw [h5]
    obtain ⟨f, b, -, e, -, -⟩ := list_insert_ordered_split
      (fun a b => decide (s'.prio a > s'.prio b)) M (s.locks l).semaphore.waiters
    rw [e]; simp
  · obtain ⟨s1, s', h1, h2, h3, -, h5, h6, h7, -, h9, h10⟩ :=
      lock_release_hands_over s2 l L M pre post hcur2 hthread2 hrun2 hintr2 hholder2
        (fun d hd => by
          obtain ⟨l', hw, hl'⟩ := hdon2 d hd
          rw [hw, honly2 l' hl'])
        hwait2 hpre2 hpost2 hblocked2 (by rw [hbase2, hM2]; exact hlt) hready2
    exact ⟨s1, s', h1, h2, h3, h5, by rw [h9, hbase2], h6, h7, h10⟩

theorem donate_scene_holders : holders_in_memory donate_scene := by
  intro l h hl
  by_cases h1 : l = 1
  · subst h1; cases hl; decide
  · simp [donate_scene] at hl

theorem release_scene_only_lock : ∀ l, (release_scene.locks l).holder = some 0 → l = 1 := by
  intro l hl
  by_cases h1 : l = 1
  · exact h1
  · simp [release_scene] at hl

/-- C6 with pL = 1 and pM = 5: the donation at donate_scene, the release at release_scene. -/
theorem C6_donation_and_release_witness :
    (∃ s', lock_acquire 1 donate_scene =
        .switched s' [Frame.sema_down_loop (.lock_sema 1), Frame.lock_acquire_tail 1 1] ∧
      s'.prio 0 = 5) ∧
    (∃ s', lock_release 1 release_scene = .switched s' [] ∧ s'.prio 0 = 1 ∧ s'.current = 1) := by
  obtain ⟨⟨s', h1, h2, -⟩, ⟨s1, s'', -, -, -, h6, h7, h8, -⟩⟩ :=
    C6_donation_and_release donate_scene 1 0 1 0 (by decide!) (by decide!) (by decide!)
      (by decide!) (by decide!) (by decide!) (by decide!) (by decide!)
      donate_scene_holders (by decide!) (by decide!)
      release_scene [] [] (by decide!) (by decide!) (by decide!) (by decide!) (by decide!)
      release_scene_only_lock
      (by
        intro d hd
        have hd' : d ∈ [1] := hd
        rw [List.mem_singleton.1 hd']
        exact ⟨1, by decide!, by decide!⟩)
      (by decide!) (by decide!) (by decide!) (by decide!) (by decide!) (by decide!)
      (by decide!)
  exact ⟨⟨s', h1, h2⟩, ⟨s'', h6, h7, h8⟩⟩

/-- C6 (as stated, refuted). In handover_trace thread 1 (M, priority 5) blocks on lock 1,
held by thread 0 (L, base priority 1), which is raised to 5; when L releases the lock it is
back at priority 1 and M is READY, but the thread dispatched is thread 2 (N), which has the
priority of M and stood in the ready list before M was woken. -/
theorem C6_other_thread_dispatched :
    (run (handover_trace.take 2) handover_scene).map
      (fun s => (s.prio 0, (s.locks 1).semaphore.waiters, (s.threads 1).status)) =
      some (5, [1], Status.THREAD_BLOCKED) ∧
    (run (handover_trace.take 3) handover_scene).map
      (fun s => (s.current, (s.locks 1).holder, (s.threads 0).hold_list)) =
      some (0, some 0, []) ∧
    (run handover_trace handover_scene).map
      (fun s => (s.current, s.prio 0, (s.threads 1).status, s.ready_list)) =
      some (2, 1, Status.THREAD_READY, [1, 0]) := by
  decide!

/-! ## C17: thread_sleep on the idle thread -/

/-- C17, counterexample: in idle_scene the idle thread runs; its call thread_sleep(10) comes
back to the caller and ends in no failure, where the claim has an assertion failure. -/
theorem C17_idle_sleep_returns :
    (thread_sleep 10 idle_scene).returned = true ∧ (thread_sleep 10 idle_scene).failure = none := by
  decide!

/-- C17, amended: when the running thread is the idle thread, thread_sleep returns normally at
once for every wakeup_tick and leaves the whole state as it was: no tick is recorded, the sleep
list is untouched and the idle thread keeps running. -/
theorem C17_thread_sleep_idle (s : State) (w : Int)
    (hthread : is_thread s s.current)
    (hrun : (s.threads s.current).status = Status.THREAD_RUNNING)
    (hidle : s.idle_thread = some s.current) :
    thread_sleep w s = .ret 0 s := by
  unfold thread_sleep
  rw [thread_current_ok s hthread hrun]
  simp [hidle]

theorem C17_thread_sleep_idle_witness :
    is_thread idle_scene idle_scene.current ∧ thread_sleep 10 idle_scene = .ret 0 idle_scene :=
  ⟨by decide!, C17_thread_sleep_idle idle_scene 10 (by decide!) (by decide!) (by decide!)⟩

/-! ## C19: where cond_wait puts the waiter record -/

/-- C19: the comparator of cond_wait reads the front waiter of the new record's semaphore,
which sema_init has just emptied, so the new record precedes nothing and always goes to the
back. After cond_trace thread 0 (priority 5) holds lock 1 and the wait set of condition 0 is
the record 10, on which thread 1 (priority 1) is blocked; cond_wait by thread 0 with the record
11 leaves the wait set as 10, 11: the new record stands behind a record whose waiting thread
has strictly lower priority than the caller. -/
theorem C19_cond_wait_appends :
    (∀ (s : State) (waiter : Nat) (l : List Nat),
      list_insert_ordered (cond_sema_priority_cmp (sema_init (.sema waiter) 0 s)) waiter l
        = l ++ [waiter]) ∧
    (run cond_trace cond_scene).map (fun s =>
        (s.current, (s.threads s.current).priority, (s.locks 1).holder, (s.conds 0).waiters))
      = some (0, 5, some 0, [10]) ∧
    (run cond_trace cond_scene).map (fun s =>
        (s.semas 10).waiters.map (fun t => ((s.threads t).status, (s.threads t).priority)))
      = some [(Status.THREAD_BLOCKED, 1)] ∧
    (run (cond_trace ++ [.call (.cond_wait 0 1 11)]) cond_scene).map (fun s =>
        ((s.conds 0).waiters, (s.semas 10).waiters, (s.semas 11).waiters))
      = some ([10, 11], [1], [0]) := by
  refine ⟨?_, by decide!, by decide!, by decide!⟩
  intro s waiter l
  have hcmp : ∀ b, cond_sema_priority_cmp (sema_init (.sema waiter) 0 s) waiter b = false := by
    intro b
    simp [cond_sema_priority_cmp, sema_init, State.set_sema]
  induction l with
  | nil => rfl
  | cons e l ih => simp [list_insert_ordered, hcmp, ih]

/-! ## What a dispatch leaves alone -/

theorem dispatched_refl (s : State) : dispatched s s :=
  ⟨fun _ => rfl, rfl, rfl, rfl, rfl, rfl, rfl, rfl, rfl⟩

theorem dispatched_trans (a b c : State) (h1 : dispatched a b) (h2 : dispatched b c) :
    dispatched a c := by
  obtain ⟨a1, a2, a3, a4, a5, a6, a7, a8, a9⟩ := h1
  obtain ⟨b1, b2, b3, b4, b5, b6, b7, b8, b9⟩ := h2
  refine ⟨?_, b2.trans a2, b3.trans a3, b4.trans a4, b5.trans a5, b6.trans a6, b7.trans a7,
    b8.trans a8, b9.trans a9⟩
  intro t
  rw [b1 t, a1 t]

theorem dispatched_set_status (s : State) (c : Nat) (st : Status) :
    dispatched s (s.set_thread c { s.threads c with status := st }) :=
  ⟨fun t => set_thread_status_record s c t st, rfl, rfl, rfl, rfl, rfl, rfl, rfl, rfl⟩

theorem schedule_launch_dispatched (curr n : Nat) (s : State) :
    dispatched s (schedule_launch curr n s) := by
  unfold schedule_launch
  simp only
  split
  · split
    · exact ⟨fun t => set_thread_status_record s n t _, rfl, rfl, rfl, rfl, rfl, rfl, rfl, rfl⟩
    · exact ⟨fun t => set_thread_status_record s n t _, rfl, rfl, rfl, rfl, rfl, rfl, rfl, rfl⟩
  · exact ⟨fun t => set_thread_status_record s n t _, rfl, rfl, rfl, rfl, rfl, rfl, rfl, rfl⟩

theorem schedule_dispatched (s s' : State) (h : schedule s = .ok s') : dispatched s s' := by
  obtain ⟨n, -, -, -, rfl⟩ := schedule_eq s s' h
  exact dispatched_trans _ { s with ready_list := s.ready_list.tail } _
    ⟨fun _ => rfl, rfl, rfl, rfl, rfl, rfl, rfl, rfl, rfl⟩ (schedule_launch_dispatched _ _ _)

theorem do_schedule_dispatched (st : Status) (s s' : State) (h : do_schedule st s = .ok s') :
    dispatched s s' := by
  unfold do_schedule at h
  cases hc : thread_current s with
  | error f => rw [hc] at h; cases h
  | ok curr =>
    rw [hc] at h
    refine dispatched_trans _ _ _ ?_ (schedule_dispatched _ _ h)
    exact dispatched_trans _ { s with freed := s.freed ++ s.destruction_req, destruction_req := [] } _
      ⟨fun _ => rfl, rfl, rfl, rfl, rfl, rfl, rfl, rfl, rfl⟩ (dispatched_set_status _ _ _)

theorem thread_block_dispatched (s s' : State) (h : thread_block s = .ok s') :
    dispatched s s' := by
  unfold thread_block at h
  by_cases hi : s.intr_context = true
  · rw [if_pos hi] at h; cases h
  · rw [if_neg hi] at h
    cases hc : thread_current s with
    | error f => rw [hc] at h; cases h
    | ok curr =>
      rw [hc] at h
      exact dispatched_trans _ _ _ (dispatched_set_status _ _ _) (schedule_dispatched _ _ h)

theorem thread_yield_dispatched (s s' : State) (h : (thread_yield s).state = some s') :
    dispatched s s' := by
  obtain ⟨curr, -, -, hd, -⟩ := thread_yield_state s s' h
  refine dispatched_trans _ _ _ ?_ (do_schedule_dispatched _ _ _ hd)
  split
  · exact ⟨fun _ => rfl, rfl, rfl, rfl, rfl, rfl, rfl, rfl, rfl⟩
  · exact dispatched_refl s

theorem test_max_priority_dispatched (s s' : State) (h : (test_max_priority s).state = some s') :
    dispatched s s' := by
  unfold test_max_priority at h
  cases hr : s.ready_list with
  | nil => rw [hr] at h; cases h; exact dispatched_refl s
  | cons a l =>
    rw [hr] at h
    simp only at h
    split at h
    · exact thread_yield_dispatched _ _ h
    · cases h; exact dispatched_refl s

theorem thread_test_preemption_dispatched (s s' : State)
    (h : (thread_test_preemption s).state = some s') : dispatched s s' := by
  unfold thread_test_preemption at h
  cases hr : s.ready_list with
  | nil => rw [hr] at h; cases h; exact dispatched_refl s
  | cons a l =>
    rw [hr] at h
    simp only at h
    cases hc : thread_current s with
    | error f => rw [hc] at h; cases h
    | ok curr =>
      rw [hc] at h
      simp only at h
      split at h
      · exact thread_yield_dispatched _ _ h
      · cases h; exact dispatched_refl s
/-! ## C11: priority and base priority -/

theorem thread_current_eq (s : State) (c : Nat) (h : thread_current s = .ok c) :
    c = s.current ∧ is_thread s s.current ∧
      (s.threads s.current).status = Status.THREAD_RUNNING := by
  unfold thread_current at h
  simp only at h
  split at h
  · rename_i hh
    cases h
    exact ⟨rfl, hh.1, hh.2⟩
  · cases h

theorem dispatched_priority_inv (s s' : State) (h : dispatched s s') (hinv : priority_inv s) :
    priority_inv s' := by
  intro t
  rw [h.1 t]
  exact hinv t

/-- Whenever the donation loop comes back, it has only raised priorities. -/
theorem donate_loop_frame (fuel : Nat) : ∀ (s : State) (cur_t : Nat) (cur_lock : Option Nat)
    (s' : State), donate_loop fuel cur_t cur_lock s = .ok s' →
      (∀ t, s.prio t ≤ s'.prio t) ∧
      (∀ t, s'.threads t = { s.threads t with priority := s'.prio t }) ∧
      s' = { s with threads := s'.threads } := by
  induction fuel with
  | zero => intro s cur_t cur_lock s' h; cases h
  | succ fuel ih =>
    intro s cur_t cur_lock s' h
    unfold donate_loop at h
    cases cur_lock with
    | none => cases h; exact ⟨fun t => le_refl _, fun t => rfl, rfl⟩
    | some l =>
      simp only at h
      cases hh : (s.locks l).holder with
      | none => rw [hh] at h; cases h; exact ⟨fun t => le_refl _, fun t => rfl, rfl⟩
      | some hd =>
        rw [hh] at h
        simp only at h
        by_cases hlt : (s.threads hd).priority < (s.threads cur_t).priority
        · rw [if_pos hlt] at h
          obtain ⟨h2, h3, h4⟩ := ih _ _ _ _ h
          refine ⟨?_, ?_, ?_⟩
          · intro t
            refine le_trans ?_ (h2 t)
            by_cases ht : t = hd
            · subst ht
              simp only [State.prio, State.set_thread, Function.update_same]
              exact le_of_lt hlt
            · simp [State.prio, State.set_thread, Function.update_noteq ht]
          · intro t
            rw [h3 t]
            by_cases ht : t = hd
            · subst ht; simp [State.set_thread]
            · simp [State.set_thread, Function.update_noteq ht]
          · rw [h4]
            simp [State.set_thread]
        · rw [if_neg hlt] at h
          cases h; exact ⟨fun t => le_refl _, fun t => rfl, rfl⟩

/-- Whenever donate_priority comes back, it has only raised priorities. -/
theorem donate_priority_frame (s s' : State) (h : donate_priority s = .ok s') :
    (∀ t, s.prio t ≤ s'.prio t) ∧
    (∀ t, s'.threads t = { s.threads t with priority := s'.prio t }) ∧
    s' = { s with threads := s'.threads } := by
  unfold donate_priority at h
  cases hc : thread_current s with
  | error f => rw [hc] at h; cases h
  | ok cur_t =>
    rw [hc] at h
    simp only at h
    cases hw : (s.threads cur_t).wait_on_lock with
    | none => rw [hw] at h; cases h; exact ⟨fun t => le_refl _, fun t => rfl, rfl⟩
    | some l =>
      rw [hw] at h
      simp only at h
      cases hh : (s.locks l).holder with
      | none => rw [hh] at h; cases h; exact ⟨fun t => le_refl _, fun t => rfl, rfl⟩
      | some hd =>
        rw [hh] at h
        exact donate_loop_frame _ _ _ _ _ h

theorem donated_max_ge (s : State) (l : List Nat) : ∀ m, m ≤ donated_max s m l := by
  induction l with
  | nil => intro m; exact le_refl _
  | cons a l ih =>
    intro m
    unfold donated_max
    split
    · rename_i h
      exact le_trans (le_of_lt h) (ih _)
    · exact ih m

theorem refresh_max_ge (s : State) (l : List Nat) : ∀ m, m ≤ refresh_max s m l := by
  induction l with
  | nil => intro m; exact le_refl _
  | cons a l ih =>
    intro m
    unfold refresh_max
    cases (s.locks a).semaphore.waiters with
    | nil => exact ih m
    | cons t _ =>
      simp only
      split
      · rename_i hgt
        exact le_trans (le_of_lt hgt) (ih _)
      · exact ih m

theorem init_thread_priority_inv (s s' : State) (t : Nat) (p : Int) (hinv : priority_inv s)
    (h : init_thread t p s = .ok s') :
    (s'.threads t).priority = p ∧ (s'.threads t).init_priority = p ∧ priority_inv s' := by
  unfold init_thread at h
  split at h
  · cases h
  · cases h
    refine ⟨by simp [State.set_thread], by simp [State.set_thread], ?_⟩
    intro u
    by_cases hu : u = t
    · subst hu; simp [State.set_thread]
    · simp only [State.set_thread, Function.update_noteq hu]
      exact hinv u

theorem donate_priority_inv (s s' : State) (hinv : priority_inv s)
    (h : donate_priority s = .ok s') : priority_inv s' := by
  obtain ⟨h1, h2, -⟩ := donate_priority_frame s s' h
  intro t
  have e : (s'.threads t).init_priority = (s.threads t).init_priority := by rw [h2 t]
  rw [e]
  exact le_trans (hinv t) (h1 t)

theorem refresh_priority_inv (s s' : State) (hinv : ∀ t, t ≠ s.current →
      (s.threads t).init_priority ≤ (s.threads t).priority)
    (h : refresh_priority s = .ok s') : priority_inv s' := by
  unfold refresh_priority at h
  cases hc : thread_current s with
  | error f => rw [hc] at h; cases h
  | ok cur =>
    rw [hc] at h
    obtain ⟨rfl, -, -⟩ := thread_current_eq s cur hc
    cases h
    intro t
    by_cases ht : t = s.current
    · rw [ht]
      simp only [State.set_thread, Function.update_same]
      exact refresh_max_ge s _ _
    · simp only [State.set_thread, Function.update_noteq ht]
      exact hinv t ht

theorem thread_set_priority_inv (s s' : State) (p : Int) (hinv : priority_inv s)
    (h : (thread_set_priority p s).state = some s') : priority_inv s' := by
  unfold thread_set_priority at h
  cases hc : thread_current s with
  | error f => rw [hc] at h; cases h
  | ok cur =>
    rw [hc] at h
    simp only at h
    obtain ⟨rfl, -, -⟩ := thread_current_eq s cur hc
    cases hr : refresh_priority (s.set_thread s.current { s.threads s.current with init_priority := p }) with
    | error f => rw [hr] at h; cases h
    | ok s1 =>
      rw [hr] at h
      simp only at h
      refine dispatched_priority_inv _ _ (thread_test_preemption_dispatched _ _ h) ?_
      refine refresh_priority_inv _ _ ?_ hr
      intro t ht
      have ht' : t ≠ s.current := ht
      simp only [State.set_thread, Function.update_noteq ht']
      exact hinv t

theorem prio_op_inv (op : PrioOp) (s s' : State) (hinv : priority_inv s)
    (h : prio_op op s = some s') : priority_inv s' := by
  cases op with
  | init_thread t p =>
    simp only [prio_op] at h
    cases hi : init_thread t p s with
    | error f => rw [hi] at h; cases h
    | ok s1 =>
      rw [hi] at h
      have e : s1 = s' := by simpa [Except.toOption] using h
      rw [← e]
      exact (init_thread_priority_inv s s1 t p hinv hi).2.2
  | donate_priority =>
    simp only [prio_op] at h
    cases hi : donate_priority s with
    | error f => rw [hi] at h; cases h
    | ok s1 =>
      rw [hi] at h
      have e : s1 = s' := by simpa [Except.toOption] using h
      rw [← e]
      exact donate_priority_inv s s1 hinv hi
  | refresh_priority =>
    simp only [prio_op] at h
    cases hi : refresh_priority s with
    | error f => rw [hi] at h; cases h
    | ok s1 =>
      rw [hi] at h
      have e : s1 = s' := by simpa [Except.toOption] using h
      rw [← e]
      exact refresh_priority_inv s s1 (fun t _ => hinv t) hi
  | thread_set_priority p =>
    exact thread_set_priority_inv s s' p hinv h

theorem prio_run_inv (ops : List PrioOp) : ∀ (s s' : State), priority_inv s →
    prio_run ops s = some s' → priority_inv s' := by
  induction ops with
  | nil => intro s s' hinv h; cases h; exact hinv
  | cons op ops ih =>
    intro s s' hinv h
    unfold prio_run at h
    cases ho : prio_op op s with
    | none => rw [ho] at h; cases h
    | some s1 =>
      rw [ho] at h
      exact ih s1 s' (prio_op_inv op s s1 hinv ho) h

/-- C11. In a state where no thread is below its base priority: init_thread leaves the new
thread with priority equal to its base priority, and init_thread, donate_priority,
refresh_priority and thread_set_priority each leave every thread at or above its base
priority; hence so does every sequence of these operations. -/
theorem C11_priority_invariant (s : State) (hinv : priority_inv s) :
    (∀ t p s', init_thread t p s = .ok s' →
      (s'.threads t).priority = (s'.threads t).init_priority ∧ priority_inv s') ∧
    (∀ s', donate_priority s = .ok s' → priority_inv s') ∧
    (∀ s', refresh_priority s = .ok s' → priority_inv s') ∧
    (∀ p s', (thread_set_priority p s).state = some s' → priority_inv s') ∧
    (∀ ops s', prio_run ops s = some s' → priority_inv s') := by
  refine ⟨?_, ?_, ?_, ?_, ?_⟩
  · intro t p s' h
    obtain ⟨h1, h2, h3⟩ := init_thread_priority_inv s s' t p hinv h
    exact ⟨by rw [h1, h2], h3⟩
  · intro s' h; exact donate_priority_inv s s' hinv h
  · intro s' h; exact refresh_priority_inv s s' (fun t _ => hinv t) h
  · intro p s' h; exact thread_set_priority_inv s s' p hinv h
  · intro ops s' h; exact prio_run_inv ops s s' hinv h

theorem chain_scene_priority_inv : priority_inv chain_scene := by
  intro t
  unfold chain_scene
  simp only
  split <;> simp [Thread.live, Thread.zero]

/-- C11 at chain_scene: thread 0 donates its priority 10 to threads 1 and 2 (base 1), lowers
its base priority to 3, which lets thread 2 run, and thread 2 refreshes. The sequence runs
through and ends with priority over base 3 over 3, 10 over 1 and 1 over 1. -/
theorem C11_priority_invariant_witness :
    priority_inv chain_scene ∧
    (prio_run [.donate_priority, .thread_set_priority 3, .refresh_priority] chain_scene).map
      (fun s => [0, 1, 2].map (fun t => ((s.threads t).priority, (s.threads t).init_priority)))
      = some [(3, 3), (10, 1), (1, 1)] ∧
    (∀ ops s', prio_run ops chain_scene = some s' → priority_inv s') :=
  ⟨chain_scene_priority_inv, by decide!,
    (C11_priority_invariant chain_scene chain_scene_priority_inv).2.2.2.2⟩

/-! ## What the semaphore operations leave alone -/

theorem dispatched_sema (s s' : State) (h : dispatched s s') (r : SemaRef) :
    s'.sema r = s.sema r := by
  obtain ⟨-, h2, h3, -⟩ := h
  cases r with
  | lock_sema l => simp only [State.sema, h2]
  | sema a => simp only [State.sema, h3]

theorem thread_unblock_locks (t : Nat) (s s' : State) (h : thread_unblock t s = .ok s') :
    s'.locks = s.locks ∧ s'.semas = s.semas ∧ s'.conds = s.conds ∧
    s'.sleep_list = s.sleep_list ∧ s'.current = s.current ∧
    s'.intr_context = s.intr_context ∧ s'.idle_thread = s.idle_thread := by
  unfold thread_unblock at h
  split at h
  · cases h
  · split at h
    · cases h
    · cases h
      exact ⟨rfl, rfl, rfl, rfl, rfl, rfl, rfl⟩

/-- Whenever the first half of sema_up comes back, it has left every holder and every other
semaphore alone. -/
theorem sema_up_wake_frame (sema : SemaRef) (s s1 : State) (h : sema_up_wake sema s = .ok s1) :
    (∀ l, (s1.locks l).holder = (s.locks l).holder) ∧
    (∀ r, r ≠ sema → s1.sema r = s.sema r) ∧ s1.conds = s.conds ∧
    s1.sleep_list = s.sleep_list ∧ s1.current = s.current ∧
    s1.intr_context = s.intr_context := by
  unfold sema_up_wake at h
  simp only at h
  split at h
  · cases h
  · rename_i s0 hw
    injection h with h
    subst h
    split at hw
    · cases hw
      refine ⟨fun l => set_sema_lock_holder _ _ _ l, fun r hr => sema_set_sema_ne _ _ _ _ hr,
        ?_, ?_, by simp, by simp⟩ <;> cases sema <;> rfl
    · split at hw
      · cases hw
      · obtain ⟨u1, u2, u3, u4, u5, u6, u7⟩ := thread_unblock_locks _ _ _ hw
        refine ⟨?_, ?_, ?_, ?_, ?_, ?_⟩
        · intro l
          rw [set_sema_lock_holder, u1, set_sema_lock_holder]
        · intro r hr
          rw [sema_set_sema_ne _ _ _ _ hr, thread_unblock_sema _ _ _ hw, sema_set_sema_ne _ _ _ _ hr]
        · have e1 : ∀ (x : State) (v : Semaphore), (x.set_sema sema v).conds = x.conds := by
            intro x v; cases sema <;> rfl
          rw [e1, u3, e1]
        · have e1 : ∀ (x : State) (v : Semaphore), (x.set_sema sema v).sleep_list = x.sleep_list := by
            intro x v; cases sema <;> rfl
          rw [e1, u4, e1]
        · rw [set_sema_current, u5, set_sema_current]
        · rw [set_sema_intr_context, u6, set_sema_intr_context]

/-- Whenever sema_up leaves a state, the counter of its semaphore went up by one, and every
holder and every other semaphore is as before. -/
theorem sema_up_frame (sema : SemaRef) (s s' : State) (h : (sema_up sema s).state = some s') :
    (s'.sema sema).value = ((s.sema sema).value + 1) % UINT_MOD ∧
    (∀ l, (s'.locks l).holder = (s.locks l).holder) ∧
    (∀ r, r ≠ sema → s'.sema r = s.sema r) ∧ s'.conds = s.conds ∧
    s'.sleep_list = s.sleep_list := by
  unfold sema_up at h
  cases hw : sema_up_wake sema s with
  | error f => rw [hw] at h; cases h
  | ok s1 =>
    rw [hw] at h
    simp only at h
    have hd := test_max_priority_dispatched _ _ h
    obtain ⟨w1, w2, w3, w4, -, -⟩ := sema_up_wake_frame _ _ _ hw
    refine ⟨?_, ?_, ?_, ?_, ?_⟩
    · rw [dispatched_sema _ _ hd, sema_up_wake_value _ _ _ hw]
    · intro l; rw [hd.2.1, w1]
    · intro r hr; rw [dispatched_sema _ _ hd, w2 r hr]
    · rw [hd.2.2.2.1, w3]
    · rw [hd.2.2.2.2.1, w4]

/-- Whenever sema_down leaves a state: it returned after lowering a counter that was not 0, or
it was switched out with the counter still 0; every holder and every other semaphore is as
before. -/
theorem sema_down_frame (sema : SemaRef) (s s' : State) (h : (sema_down sema s).state = some s') :
    (((s.sema sema).value ≠ 0 ∧ sema_down sema s = .ret 0 s' ∧
        s'.sema sema = { s.sema sema with
          value := ((s.sema sema).value + (UINT_MOD - 1)) % UINT_MOD }) ∨
      ((s.sema sema).value = 0 ∧ sema_down sema s = .switched s' [Frame.sema_down_loop sema] ∧
        (s'.sema sema).value = 0)) ∧
    (∀ l, (s'.locks l).holder = (s.locks l).holder) ∧
    (∀ r, r ≠ sema → s'.sema r = s.sema r) := by
  by_cases hv : (s.sema sema).value = 0
  · rcases sema_down_zero s sema hv with ⟨f, hf⟩ | ⟨curr, s2, hc, hb, hs⟩
    · rw [hf] at h; cases h
    · rw [hs] at h
      simp only [Res.state, Option.some.injEq] at h
      subst h
      have hd := thread_block_dispatched _ _ hb
      refine ⟨Or.inr ⟨hv, hs, ?_⟩, ?_, ?_⟩
      · rw [dispatched_sema _ _ hd, sema_set_sema]
        exact hv
      · intro l; rw [hd.2.1, set_sema_lock_holder]
      · intro r hr; rw [dispatched_sema _ _ hd, sema_set_sema_ne _ _ _ _ hr]
  · have hs := sema_down_pos s sema hv
    rw [hs] at h
    simp only [Res.state, Option.some.injEq] at h
    subst h
    refine ⟨Or.inl ⟨hv, hs, sema_set_sema _ _ _⟩, ?_, ?_⟩
    · intro l; rw [set_sema_lock_holder]
    · intro r hr; rw [sema_set_sema_ne _ _ _ _ hr]
/-! ## What the lock operations do to the locks -/

theorem lock_inv_congr (s s' : State) (l : Nat)
    (h1 : (s'.locks l).holder = (s.locks l).holder)
    (h2 : (s'.locks l).semaphore.value = (s.locks l).semaphore.value) (h : lock_inv s l) :
    lock_inv s' l := by
  unfold lock_inv at h ⊢
  rw [h1, h2]
  exact h

theorem lock_sema_ne (l l' : Nat) (h : l ≠ l') : SemaRef.lock_sema l ≠ SemaRef.lock_sema l' := by
  intro e; injection e with e; exact h e

theorem lock_acquire_donate_frame (l c : Nat) (s s1 : State)
    (h : lock_acquire_donate l c s = .ok s1) :
    s1.locks = s.locks ∧ s1.semas = s.semas ∧ s1.conds = s.conds ∧
    s1.current = s.current ∧ s1.intr_context = s.intr_context := by
  unfold lock_acquire_donate at h
  cases hh : (s.locks l).holder with
  | none => rw [hh] at h; cases h; exact ⟨rfl, rfl, rfl, rfl, rfl⟩
  | some hd =>
    rw [hh] at h
    simp only at h
    split at h
    · cases h; exact ⟨rfl, rfl, rfl, rfl, rfl⟩
    · obtain ⟨-, -, e⟩ := donate_priority_frame _ _ h
      rw [e]
      exact ⟨rfl, rfl, rfl, rfl, rfl⟩

theorem lock_acquire_tail_locks (l c : Nat) (s : State) :
    ((lock_acquire_tail l c s).locks l).holder = some c ∧
    (lock_acquire_tail l c s).sema (.lock_sema l) = s.sema (.lock_sema l) ∧
    (∀ l', l' ≠ l → (lock_acquire_tail l c s).locks l' = s.locks l') := by
  refine ⟨by simp [lock_acquire_tail, State.set_lock], by simp [lock_acquire_tail, State.set_lock, State.sema], ?_⟩
  intro l' h
  simp [lock_acquire_tail, State.set_lock, Function.update_noteq h]

/-- Whenever lock_acquire leaves a state: it returned, having lowered a counter that was not 0
and made the caller the holder, or it was switched out with the counter still 0 and the holder
as before; every other lock is untouched. -/
theorem lock_acquire_frame (l : Nat) (s s' : State) (h : (lock_acquire l s).state = some s') :
    (((s.locks l).semaphore.value ≠ 0 ∧ lock_acquire l s = .ret 0 s' ∧
        (s'.locks l).holder = some s.current ∧
        (s'.locks l).semaphore.value = ((s.locks l).semaphore.value + (UINT_MOD - 1)) % UINT_MOD) ∨
      ((s.locks l).semaphore.value = 0 ∧
        lock_acquire l s =
          .switched s' [Frame.sema_down_loop (.lock_sema l), Frame.lock_acquire_tail l s.current] ∧
        (s'.locks l).holder = (s.locks l).holder ∧ (s'.locks l).semaphore.value = 0)) ∧
    (∀ l', l' ≠ l → (s'.locks l').holder = (s.locks l').holder ∧
      s'.sema (.lock_sema l') = s.sema (.lock_sema l')) := by
  unfold lock_acquire at h ⊢
  by_cases hi : s.intr_context = true
  · rw [if_pos hi] at h; cases h
  · rw [if_neg hi] at h
    rw [if_neg hi]
    cases hh : lock_held_by_current_thread l s with
    | error f => rw [hh] at h; cases h
    | ok b =>
      rw [hh] at h
      cases b with
      | true => cases h
      | false =>
        simp only at h ⊢
        cases hc : thread_current s with
        | error f => rw [hc] at h; cases h
        | ok curr =>
          rw [hc] at h
          obtain ⟨rfl, -, -⟩ := thread_current_eq s curr hc
          simp only at h ⊢
          cases hd : lock_acquire_donate l s.current s with
          | error f => rw [hd] at h; cases h
          | ok s1 =>
            rw [hd] at h
            simp only at h ⊢
            obtain ⟨d1, d2, -, -, -⟩ := lock_acquire_donate_frame _ _ _ _ hd
            have hs1 : ∀ r, s1.sema r = s.sema r := by
              intro r; cases r <;> simp [State.sema, d1, d2]
            have hdn : ∃ s2, (sema_down (.lock_sema l) s1).state = some s2 := by
              cases hsd : sema_down (.lock_sema l) s1 with
              | ret v s2 => exact ⟨s2, rfl⟩
              | switched s2 k => exact ⟨s2, rfl⟩
              | fault f => rw [hsd] at h; cases h
            obtain ⟨s2, hs2⟩ := hdn
            obtain ⟨hcase, f1, f2⟩ := sema_down_frame _ _ _ hs2
            rcases hcase with ⟨hv, hret, hval⟩ | ⟨hv, hsw, hval⟩
            · rw [hret] at h ⊢
              simp only [Res.state, Option.some.injEq] at h
              subst h
              obtain ⟨t1, t2, t3⟩ := lock_acquire_tail_locks l s.current s2
              rw [hs1] at hv hval
              refine ⟨Or.inl ⟨hv, rfl, t1, ?_⟩, ?_⟩
              · rw [← lock_sema_eq, t2, hval]
                rfl
              · intro l' hl
                rw [t3 l' hl, f1 l', d1]
                refine ⟨rfl, ?_⟩
                have := f2 _ (lock_sema_ne l' l hl)
                rw [hs1] at this
                simp only [State.sema] at this ⊢
                rw [t3 l' hl]
                exact this
            · rw [hsw] at h ⊢
              simp only [Res.state, Option.some.injEq] at h
              subst h
              rw [hs1] at hv
              refine ⟨Or.inr ⟨hv, rfl, ?_, hval⟩, ?_⟩
              · rw [f1 l, d1]
              · intro l' hl
                rw [f1 l', d1]
                refine ⟨rfl, ?_⟩
                rw [f2 _ (lock_sema_ne l' l hl), hs1]
/-- The two activations a blocked lock_acquire is left with, when they run: the same two
outcomes as for lock_acquire itself, with the thread c of the activation as the new holder. -/
theorem lock_acquire_resume_frame (l c : Nat) (s s' : State)
    (h : (run_frames [Frame.sema_down_loop (.lock_sema l), Frame.lock_acquire_tail l c] 0 s).state
      = some s') :
    (((s.locks l).semaphore.value ≠ 0 ∧
        run_frames [Frame.sema_down_loop (.lock_sema l), Frame.lock_acquire_tail l c] 0 s
          = .ret 0 s' ∧
        (s'.locks l).holder = some c ∧
        (s'.locks l).semaphore.value = ((s.locks l).semaphore.value + (UINT_MOD - 1)) % UINT_MOD) ∨
      ((s.locks l).semaphore.value = 0 ∧
        run_frames [Frame.sema_down_loop (.lock_sema l), Frame.lock_acquire_tail l c] 0 s
          = .switched s' [Frame.sema_down_loop (.lock_sema l), Frame.lock_acquire_tail l c] ∧
        (s'.locks l).holder = (s.locks l).holder ∧ (s'.locks l).semaphore.value = 0)) ∧
    (∀ l', l' ≠ l → (s'.locks l').holder = (s.locks l').holder ∧
      s'.sema (.lock_sema l') = s.sema (.lock_sema l')) := by
  simp only [run_frames, run_frame] at h ⊢
  have hdn : ∃ s2, (sema_down (.lock_sema l) s).state = some s2 := by
    cases hsd : sema_down (.lock_sema l) s with
    | ret v s2 => exact ⟨s2, rfl⟩
    | switched s2 k => exact ⟨s2, rfl⟩
    | fault f => rw [hsd] at h; cases h
  obtain ⟨s2, hs2⟩ := hdn
  obtain ⟨hcase, f1, f2⟩ := sema_down_frame _ _ _ hs2
  rcases hcase with ⟨hv, hret, hval⟩ | ⟨hv, hsw, hval⟩
  · rw [hret] at h ⊢
    simp only [Res.state, Option.some.injEq] at h
    subst h
    obtain ⟨t1, t2, t3⟩ := lock_acquire_tail_locks l c s2
    refine ⟨Or.inl ⟨hv, rfl, t1, ?_⟩, ?_⟩
    · rw [← lock_sema_eq, t2, hval]
      rfl
    · intro l' hl
      rw [t3 l' hl, f1 l']
      refine ⟨rfl, ?_⟩
      have := f2 _ (lock_sema_ne l' l hl)
      simp only [State.sema] at this ⊢
      rw [t3 l' hl]
      exact this
  · rw [hsw] at h ⊢
    simp only [Res.state, Option.some.injEq] at h
    subst h
    refine ⟨Or.inr ⟨hv, rfl, f1 l, hval⟩, ?_⟩
    intro l' hl
    exact ⟨f1 l', f2 _ (lock_sema_ne l' l hl)⟩

theorem lock_held_eq (l : Nat) (s : State) (b : Bool)
    (h : lock_held_by_current_thread l s = .ok b) :
    thread_current s = .ok s.current ∧ b = decide ((s.locks l).holder = some s.current) := by
  unfold lock_held_by_current_thread at h
  cases hc : thread_current s with
  | error f => rw [hc] at h; cases h
  | ok curr =>
    rw [hc] at h
    obtain ⟨rfl, -, -⟩ := thread_current_eq s curr hc
    cases h
    exact ⟨rfl, rfl⟩

/-- Whenever lock_release leaves a state: the caller was the holder, the holder is now null,
the counter went up by one, and every other lock is untouched. -/
theorem lock_release_frame (l : Nat) (s s' : State) (h : (lock_release l s).state = some s') :
    (s.locks l).holder = some s.current ∧ (s'.locks l).holder = none ∧
    (s'.locks l).semaphore.value = ((s.locks l).semaphore.value + 1) % UINT_MOD ∧
    (∀ l', l' ≠ l → (s'.locks l').holder = (s.locks l').holder ∧
      s'.sema (.lock_sema l') = s.sema (.lock_sema l')) := by
  unfold lock_release at h
  cases hh : lock_held_by_current_thread l s with
  | error f => rw [hh] at h; cases h
  | ok b =>
    rw [hh] at h
    obtain ⟨-, hb⟩ := lock_held_eq l s b hh
    cases b with
    | false => cases h
    | true =>
      simp only at h
      have hheld : (s.locks l).holder = some s.current := by
        simpa using hb.symm
      cases hr : refresh_donations (remove_with_lock l s) with
      | error f => rw [hr] at h; cases h
      | ok s1 =>
        rw [hr] at h
        simp only at h
        have hs1 : s1.locks = s.locks := by
          unfold refresh_donations at hr
          cases hc : thread_current (remove_with_lock l s) with
          | error f => rw [hc] at hr; cases hr
          | ok c => rw [hc] at hr; cases hr; rfl
        obtain ⟨u1, u2, u3, -, -⟩ := sema_up_frame _ _ _ h
        refine ⟨hheld, ?_, ?_, ?_⟩
        · rw [u2 l]; simp [State.set_lock]
        · rw [← lock_sema_eq, u1]
          simp [State.sema, State.set_lock, hs1]
        · intro l' hl
          refine ⟨?_, ?_⟩
          · rw [u2 l']; simp [State.set_lock, Function.update_noteq hl, hs1]
          · rw [u3 _ (lock_sema_ne l' l hl)]
            simp [State.sema, State.set_lock, Function.update_noteq hl, hs1]

/-- Whenever lock_try_acquire comes back: with true, having lowered a counter that was not 0
and made the caller the holder, or with false and the state as it was, the counter being 0. -/
theorem lock_try_acquire_frame (l : Nat) (s s' : State) (b : Bool)
    (h : lock_try_acquire l s = .ok (b, s')) :
    (s.locks l).holder ≠ some s.current ∧
    ((b = true ∧ (s.locks l).semaphore.value ≠ 0 ∧
        s' = (s.set_sema (.lock_sema l) { s.sema (.lock_sema l) with
          value := ((s.locks l).semaphore.value + (UINT_MOD - 1)) % UINT_MOD }).set_lock l
            { holder := some s.current, semaphore := { s.sema (.lock_sema l) with
              value := ((s.locks l).semaphore.value + (UINT_MOD - 1)) % UINT_MOD } }) ∨
      (b = false ∧ (s.locks l).semaphore.value = 0 ∧ s' = s)) := by
  unfold lock_try_acquire at h
  cases hh : lock_held_by_current_thread l s with
  | error f => rw [hh] at h; cases h
  | ok hb =>
    rw [hh] at h
    obtain ⟨hc, hbe⟩ := lock_held_eq l s hb hh
    cases hb with
    | true => cases h
    | false =>
      simp only at h
      have hnot : (s.locks l).holder ≠ some s.current := by
        simpa using hbe.symm
      refine ⟨hnot, ?_⟩
      by_cases hv : (s.sema (.lock_sema l)).value > 0
      · rw [sema_try_down_pos s _ hv] at h
        simp only at h
        have hc' : thread_current (s.set_sema (.lock_sema l) { s.sema (.lock_sema l) with
            value := ((s.sema (.lock_sema l)).value + (UINT_MOD - 1)) % UINT_MOD }) = .ok s.current := by
          obtain ⟨-, h1, h2⟩ := thread_current_eq s _ hc
          exact thread_current_ok _ h1 h2
        rw [hc'] at h
        simp only [Except.ok.injEq, Prod.mk.injEq] at h
        obtain ⟨rfl, rfl⟩ := h
        refine Or.inl ⟨rfl, Nat.pos_iff_ne_zero.1 hv, ?_⟩
        simp [State.set_sema, State.set_lock, State.sema]
      · have hv0 : (s.sema (.lock_sema l)).value = 0 := by omega
        rw [sema_try_down_zero s _ hv0] at h
        simp only [Except.ok.injEq, Prod.mk.injEq] at h
        obtain ⟨rfl, rfl⟩ := h
        exact Or.inr ⟨rfl, hv0, rfl⟩
/-! ## C12: the lock invariant -/

theorem uint_one_down : (1 + (UINT_MOD - 1)) % UINT_MOD = 0 := by decide

theorem uint_zero_up : (0 + 1) % UINT_MOD = 1 := by decide

theorem lock_inv_held (s : State) (l : Nat) (h : Nat) (hinv : lock_inv s l)
    (hh : (s.locks l).holder = some h) : (s.locks l).semaphore.value = 0 := by
  rcases hinv.2 with h0 | h1
  · exact h0
  · have := hinv.1.2 h1
    rw [hh] at this
    cases this

theorem lock_inv_other (s s' : State) (l l' : Nat) (hinv : lock_inv s l)
    (hf : ∀ l2, l2 ≠ l' → (s'.locks l2).holder = (s.locks l2).holder ∧
      s'.sema (.lock_sema l2) = s.sema (.lock_sema l2))
    (hne : l ≠ l') : lock_inv s' l :=
  lock_inv_congr s s' l (hf l hne).1 (congrArg Semaphore.value (hf l hne).2) hinv

theorem lock_inv_taken (s' : State) (l c : Nat) (h1 : (s'.locks l).holder = some c)
    (h2 : (s'.locks l).semaphore.value = 0) : lock_inv s' l := by
  unfold lock_inv
  rw [h1, h2]
  simp

theorem lock_inv_free (s' : State) (l : Nat) (h1 : (s'.locks l).holder = none)
    (h2 : (s'.locks l).semaphore.value = 1) : lock_inv s' l := by
  unfold lock_inv
  rw [h1, h2]
  simp

theorem lock_inv_positive (s : State) (l : Nat) (hinv : lock_inv s l)
    (hv : (s.locks l).semaphore.value ≠ 0) : (s.locks l).semaphore.value = 1 := by
  rcases hinv.2 with h0 | h1
  · exact absurd h0 hv
  · exact h1

/-- C12. lock_init leaves the lock with a null holder and the counter 1. On a lock whose holder
is null exactly when the counter is 1, the counter being 0 or 1, every state that
lock_acquire, the resumed activations of a blocked lock_acquire, lock_try_acquire and
lock_release leave has the same property, whether the operation was on this lock or on
another one; a lock_acquire that returns leaves the caller as the holder and the counter 0. -/
theorem C12_lock_invariant (s : State) (l l' : Nat) (hinv : lock_inv s l) :
    (∀ s0, lock_inv (lock_init l s0) l ∧ ((lock_init l s0).locks l).holder = none ∧
      ((lock_init l s0).locks l).semaphore.value = 1) ∧
    lock_inv (lock_init l' s) l ∧
    (∀ s', (lock_acquire l' s).state = some s' → lock_inv s' l) ∧
    (∀ v s', lock_acquire l s = .ret v s' →
      (s'.locks l).holder = some s.current ∧ (s'.locks l).semaphore.value = 0) ∧
    (∀ c s', (run_frames [Frame.sema_down_loop (.lock_sema l'), Frame.lock_acquire_tail l' c]
      0 s).state = some s' → lock_inv s' l) ∧
    (∀ b s', lock_try_acquire l' s = .ok (b, s') → lock_inv s' l) ∧
    (∀ s', (lock_release l' s).state = some s' → lock_inv s' l) := by
  have hinit : ∀ s0, lock_inv (lock_init l s0) l ∧ ((lock_init l s0).locks l).holder = none ∧
      ((lock_init l s0).locks l).semaphore.value = 1 := by
    intro s0
    have e1 : ((lock_init l s0).locks l).holder = none := by
      simp [lock_init, sema_init, State.set_sema, State.set_lock]
    have e2 : ((lock_init l s0).locks l).semaphore.value = 1 := by
      simp [lock_init, sema_init, State.set_sema, State.set_lock, UINT_MOD]
    exact ⟨lock_inv_free _ _ e1 e2, e1, e2⟩
  refine ⟨hinit, ?_, ?_, ?_, ?_, ?_, ?_⟩
  · by_cases hl : l = l'
    · subst hl; exact (hinit s).1
    · refine lock_inv_congr s _ l ?_ ?_ hinv
      · simp [lock_init, sema_init, State.set_sema, State.set_lock, Function.update_noteq hl]
      · simp [lock_init, sema_init, State.set_sema, State.set_lock,
          Function.update_noteq hl]
  · intro s' h
    obtain ⟨hcase, hf⟩ := lock_acquire_frame l' s s' h
    by_cases hl : l = l'
    · subst hl
      rcases hcase with ⟨hv, -, hh, hval⟩ | ⟨hv, -, hh, hval⟩
      · rw [lock_inv_positive s l hinv hv, uint_one_down] at hval
        exact lock_inv_taken _ _ _ hh hval
      · exact lock_inv_congr s s' l hh (by rw [hval, hv]) hinv
    · exact lock_inv_other s s' l l' hinv hf hl
  · intro v s' h
    have hst : (lock_acquire l s).state = some s' := by rw [h]; rfl
    obtain ⟨hcase, -⟩ := lock_acquire_frame l s s' hst
    rcases hcase with ⟨hv, -, hh, hval⟩ | ⟨-, hsw, -, -⟩
    · rw [lock_inv_positive s l hinv hv, uint_one_down] at hval
      exact ⟨hh, hval⟩
    · rw [hsw] at h; cases h
  · intro c s' h
    obtain ⟨hcase, hf⟩ := lock_acquire_resume_frame l' c s s' h
    by_cases hl : l = l'
    · subst hl
      rcases hcase with ⟨hv, -, hh, hval⟩ | ⟨hv, -, hh, hval⟩
      · rw [lock_inv_positive s l hinv hv, uint_one_down] at hval
        exact lock_inv_taken _ _ _ hh hval
      · exact lock_inv_congr s s' l hh (by rw [hval, hv]) hinv
    · exact lock_inv_other s s' l l' hinv hf hl
  · intro b s' h
    obtain ⟨-, hcase⟩ := lock_try_acquire_frame l' s s' b h
    rcases hcase with ⟨-, hv, rfl⟩ | ⟨-, -, rfl⟩
    · by_cases hl : l = l'
      · subst hl
        refine lock_inv_taken _ l s.current (by simp [State.set_lock]) ?_
        rw [lock_inv_positive s l hinv hv, uint_one_down]
        simp [State.set_lock]
      · refine lock_inv_congr s _ l ?_ ?_ hinv
        · simp [State.set_sema, State.set_lock, Function.update_noteq hl]
        · simp [State.set_sema, State.set_lock, Function.update_noteq hl]
    · exact hinv
  · intro s' h
    obtain ⟨hheld, hh, hval, hf⟩ := lock_release_frame l' s s' h
    by_cases hl : l = l'
    · subst hl
      rw [lock_inv_held s l _ hinv hheld, uint_zero_up] at hval
      exact lock_inv_free _ _ hh hval
    · exact lock_inv_other s s' l l' hinv hf hl

theorem handover_scene_lock_inv : lock_inv handover_scene 1 := by
  unfold lock_inv handover_scene
  simp

/-- C12 at handover_scene, where thread 0 holds lock 1 with the counter at 0: the release
leaves the holder null and the counter 1. -/
theorem C12_lock_invariant_witness :
    lock_inv handover_scene 1 ∧
    (lock_release 1 handover_scene).state.map
      (fun s => ((s.locks 1).holder, (s.locks 1).semaphore.value)) = some (none, 1) ∧
    (∀ s', (lock_release 1 handover_scene).state = some s' → lock_inv s' 1) :=
  ⟨handover_scene_lock_inv, by decide!,
    (C12_lock_invariant handover_scene 1 1 handover_scene_lock_inv).2.2.2.2.2.2⟩
/-! ## C13: lock_try_acquire -/

/-- C13, counterexample: from boot, main takes lock 1 (acquire_trace), so lock 1 is already
held; its call lock_try_acquire(1) does not return false but fails the assertion that the
caller does not hold the lock. -/
theorem C13_try_acquire_by_holder_panics :
    (run acquire_trace (boot 8)).map (fun s =>
      ((s.locks 1).holder, s.current, (exec (.lock_try_acquire 1) s).failure))
      = some (some 0, 0, some Fault.panic) := by
  decide!

theorem lock_try_acquire_held (s : State) (l : Nat)
    (hthread : is_thread s s.current)
    (hrun : (s.threads s.current).status = Status.THREAD_RUNNING)
    (hother : (s.locks l).holder ≠ some s.current)
    (hval : (s.locks l).semaphore.value = 0) :
    lock_try_acquire l s = .ok (false, s) := by
  unfold lock_try_acquire lock_held_by_current_thread
  rw [thread_current_ok s hthread hrun]
  simp only [hother, decide_False]
  rw [sema_try_down_zero s (.lock_sema l) hval]

theorem lock_try_acquire_times_held (s : State) (l : Nat)
    (h : lock_try_acquire l s = .ok (false, s)) :
    ∀ n, lock_try_acquire_times n l s = .ok (List.replicate n false, s) := by
  intro n
  induction n with
  | zero => rfl
  | succ n ih =>
    unfold lock_try_acquire_times
    rw [h]
    simp only
    rw [ih]
    rfl

/-- What taking a lock writes, with the new counter value left open. -/
theorem take_lock_props (s : State) (l c V : Nat) :
    (((s.set_sema (.lock_sema l) { s.sema (.lock_sema l) with value := V }).set_lock l
        { (s.set_sema (.lock_sema l) { s.sema (.lock_sema l) with value := V }).locks l with
          holder := some c }).locks l).holder = some c ∧
    (((s.set_sema (.lock_sema l) { s.sema (.lock_sema l) with value := V }).set_lock l
        { (s.set_sema (.lock_sema l) { s.sema (.lock_sema l) with value := V }).locks l with
          holder := some c }).locks l).semaphore.value = V ∧
    (((s.set_sema (.lock_sema l) { s.sema (.lock_sema l) with value := V }).set_lock l
        { (s.set_sema (.lock_sema l) { s.sema (.lock_sema l) with value := V }).locks l with
          holder := some c }).locks l).semaphore.waiters = (s.locks l).semaphore.waiters ∧
    (∀ l', l' ≠ l →
      ((s.set_sema (.lock_sema l) { s.sema (.lock_sema l) with value := V }).set_lock l
        { (s.set_sema (.lock_sema l) { s.sema (.lock_sema l) with value := V }).locks l with
          holder := some c }).locks l' = s.locks l') := by
  refine ⟨?_, ?_, ?_, ?_⟩
  · simp [State.set_lock, State.set_sema]
  · simp [State.set_lock, State.set_sema]
  · simp [State.set_lock, State.set_sema, State.sema]
  · intro l' hl
    simp [State.set_lock, State.set_sema, Function.update_noteq hl]

/-- C13, amended: for every lock that is already held by a thread other than the caller, every
one of any number of repeated lock_try_acquire calls returns false and leaves the whole state,
hence the holder, the counter, the waiters and the running thread, as it was; on a free lock
the call returns true, makes the caller the holder, lowers the counter to 0 and changes no
thread record, so no priority. -/
theorem C13_lock_try_acquire (s : State) (l : Nat)
    (hthread : is_thread s s.current)
    (hrun : (s.threads s.current).status = Status.THREAD_RUNNING)
    (hinv : lock_inv s l) :
    (∀ h, (s.locks l).holder = some h → h ≠ s.current →
      lock_try_acquire l s = .ok (false, s) ∧
      ∀ n, lock_try_acquire_times n l s = .ok (List.replicate n false, s)) ∧
    ((s.locks l).holder = none →
      ∃ s', lock_try_acquire l s = .ok (true, s') ∧
        (s'.locks l).holder = some s.current ∧
        (s'.locks l).semaphore.value = 0 ∧
        (s'.locks l).semaphore.waiters = (s.locks l).semaphore.waiters ∧
        (∀ l', l' ≠ l → s'.locks l' = s.locks l') ∧
        s'.threads = s.threads ∧ s'.ready_list = s.ready_list ∧ s'.current = s.current) := by
  constructor
  · intro h hh hne
    have hother : (s.locks l).holder ≠ some s.current := by
      rw [hh]; intro e; injection e with e; exact hne e
    have h0 := lock_try_acquire_held s l hthread hrun hother (lock_inv_held s l h hinv hh)
    exact ⟨h0, lock_try_acquire_times_held s l h0⟩
  · intro hfree
    have hv : (s.locks l).semaphore.value = 1 := hinv.1.1 hfree
    have hother : (s.locks l).holder ≠ some s.current := by rw [hfree]; exact fun e => by cases e
    have hpos : (s.sema (.lock_sema l)).value > 0 := by rw [lock_sema_eq, hv]; exact Nat.one_pos
    have hres : lock_try_acquire l s = .ok (true,
        (s.set_sema (.lock_sema l) { s.sema (.lock_sema l) with
          value := ((s.sema (.lock_sema l)).value + (UINT_MOD - 1)) % UINT_MOD }).set_lock l
          { (s.set_sema (.lock_sema l) { s.sema (.lock_sema l) with
              value := ((s.sema (.lock_sema l)).value + (UINT_MOD - 1)) % UINT_MOD }).locks l with
            holder := some s.current }) := by
      unfold lock_try_acquire lock_held_by_current_thread
      rw [thread_current_ok s hthread hrun]
      simp only [hother, decide_False]
      rw [sema_try_down_pos s _ hpos]
      simp only
      have hc := thread_current_ok (s.set_sema (.lock_sema l) { s.sema (.lock_sema l) with
          value := ((s.sema (.lock_sema l)).value + (UINT_MOD - 1)) % UINT_MOD }) hthread hrun
      rw [hc]
      simp only [set_sema_current]
    obtain ⟨p1, p2, p3, p4⟩ := take_lock_props s l s.current
      (((s.sema (.lock_sema l)).value + (UINT_MOD - 1)) % UINT_MOD)
    have hone : (s.sema (.lock_sema l)).value = 1 := hv
    have hzero : ((s.sema (.lock_sema l)).value + (UINT_MOD - 1)) % UINT_MOD = 0 := by
      rw [hone]; exact uint_one_down
    exact ⟨_, hres, p1, p2.trans hzero, p3, p4, rfl, rfl, rfl⟩

theorem donate_scene_lock_inv : lock_inv donate_scene 1 := by
  unfold lock_inv donate_scene
  simp

/-- C13 at donate_scene, where thread 1 runs and thread 0 holds lock 1: three calls in a row
return false and change nothing. -/
theorem C13_lock_try_acquire_witness :
    lock_inv donate_scene 1 ∧ (donate_scene.locks 1).holder = some 0 ∧
    lock_try_acquire_times 3 1 donate_scene = .ok ([false, false, false], donate_scene) :=
  ⟨donate_scene_lock_inv, by decide!,
    ((C13_lock_try_acquire donate_scene 1 (by decide!) (by decide!) donate_scene_lock_inv).1
      0 (by decide!) (by decide!)).2 3⟩

/-! ## When the wake-up and the preemption check go through -/

theorem thread_current_panic (s : State) (f : Fault) (h : thread_current s = .error f) :
    f = Fault.panic := by
  unfold thread_current at h
  simp only at h
  split at h
  · cases h
  · cases h; rfl

theorem list_insert_ordered_mem {α : Type} (less : α → α → Bool) (x y : α) (l : List α)
    (h : y ∈ list_insert_ordered less x l) : y = x ∨ y ∈ l := by
  obtain ⟨front, back, h1, h2, -, -⟩ := list_insert_ordered_split less x l
  rw [h2] at h
  rw [h1]
  simp only [List.mem_append, List.mem_cons] at h ⊢
  tauto

theorem list_insert_ordered_head {α : Type} (less : α → α → Bool) (x : α) (l : List α) :
    ∃ y rest, list_insert_ordered less x l = y :: rest ∧ (y = x ∨ y ∈ l) := by
  cases l with
  | nil => exact ⟨x, [], rfl, Or.inl rfl⟩
  | cons e l =>
    unfold list_insert_ordered
    split
    · exact ⟨x, e :: l, rfl, Or.inl rfl⟩
    · exact ⟨e, _, rfl, Or.inr (List.mem_cons_self _ _)⟩

/-- Outside interrupt context, with a valid running thread and valid threads on the ready
list, the preemption check comes back or yields; it does not fail. -/
theorem test_max_priority_ok (s : State) (hthread : is_thread s s.current)
    (hrun : (s.threads s.current).status = Status.THREAD_RUNNING)
    (hintr : s.intr_context = false) (hready : ∀ x ∈ s.ready_list, is_thread s x) :
    ∃ s', test_max_priority s = .ret 0 s' ∨ test_max_priority s = .switched s' [] := by
  unfold test_max_priority
  cases hr : s.ready_list with
  | nil => exact ⟨s, Or.inl rfl⟩
  | cons head tl =>
    simp only
    split
    · have hex : ∃ n, (next_thread_to_run
          (if some s.current ≠ s.idle_thread
           then { s with ready_list := list_insert_ordered (thread_cmp_priority s) s.current s.ready_list }
           else s)).1 = some n ∧ is_thread s n := by
        by_cases hid : some s.current ≠ s.idle_thread
        · rw [if_pos hid]
          obtain ⟨y, rest, hy, hmem⟩ :=
            list_insert_ordered_head (thread_cmp_priority s) s.current s.ready_list
          refine ⟨y, next_thread_to_run_head _ y rest hy, ?_⟩
          rcases hmem with e | e
          · rw [e]; exact hthread
          · exact hready y e
        · rw [if_neg hid]
          exact ⟨head, next_thread_to_run_head _ head tl hr,
            hready head (by rw [hr]; exact List.mem_cons_self _ _)⟩
      obtain ⟨n, hnext, hn⟩ := hex
      obtain ⟨s', hy, -⟩ := thread_yield_spec s n hintr hthread hrun hnext hn
      exact ⟨s', Or.inr hy⟩
    · exact ⟨s, Or.inl rfl⟩

/-- Outside interrupt context, with a valid running thread, valid threads on the ready list
and valid BLOCKED threads on the wait list, sema_up comes back or yields; it does not fail. -/
theorem sema_up_ok (s : State) (sema : SemaRef) (hthread : is_thread s s.current)
    (hrun : (s.threads s.current).status = Status.THREAD_RUNNING)
    (hintr : s.intr_context = false) (hready : ∀ x ∈ s.ready_list, is_thread s x)
    (hblocked : ∀ t ∈ (s.sema sema).waiters,
      is_thread s t ∧ (s.threads t).status = Status.THREAD_BLOCKED) :
    ∃ s', sema_up sema s = .ret 0 s' ∨ sema_up sema s = .switched s' [] := by
  unfold sema_up
  by_cases hw : (s.sema sema).waiters = []
  · have hwake : sema_up_wake sema s = .ok (s.set_sema sema { s.sema sema with
        value := ((s.sema sema).value + 1) % UINT_MOD }) := by
      unfold sema_up_wake
      rw [hw]
    rw [hwake]
    simp only
    refine test_max_priority_ok _ ?_ ?_ ?_ ?_
    · unfold is_thread at hthread ⊢
      rw [set_sema_current, set_sema_threads]; exact hthread
    · rw [set_sema_current, set_sema_threads]; exact hrun
    · rw [set_sema_intr_context]; exact hintr
    · intro x hx
      rw [set_sema_ready_list] at hx
      unfold is_thread
      rw [set_sema_threads]
      exact hready x hx
  · obtain ⟨w, rest, pre, post, s1, -, hsplit, -, -, -, hwake, -, -, hw1, hw2, hrl, hcur, hic, -, -⟩ :=
      sema_up_wake_spec s sema hw hblocked
    rw [hwake]
    simp only
    have hwmem : w ∈ (s.sema sema).waiters := by rw [hsplit]; simp
    have hne : s.current ≠ w := by
      intro e
      have := (hblocked w hwmem).2
      rw [← e, hrun] at this
      cases this
    have hmagic : ∀ t, is_thread s t → is_thread s1 t := by
      intro t ht
      unfold is_thread at ht ⊢
      by_cases e : t = w
      · rw [e, hw1]; rw [e] at ht; exact ht
      · rw [hw2 t e]; exact ht
    refine test_max_priority_ok _ ?_ ?_ ?_ ?_
    · rw [hcur]; exact hmagic _ hthread
    · rw [hcur, hw2 _ hne]; exact hrun
    · rw [hic]; exact hintr
    · intro x hx
      rw [hrl] at hx
      rcases list_insert_ordered_mem _ _ _ _ hx with e | e
      · rw [e]; exact hmagic _ (hblocked w hwmem).1
      · exact hmagic _ (hready x e)
/-! ## C14: the lock contract -/

/-- Up to the call of sema_up, lock_release by the holder rewrites the donation list and the
priority of the running thread and clears the holder. -/
theorem lock_release_pre (s : State) (l : Nat) (hthread : is_thread s s.current)
    (hrun : (s.threads s.current).status = Status.THREAD_RUNNING)
    (hholder : (s.locks l).holder = some s.current) :
    ∃ s2, lock_release l s = sema_up (.lock_sema l) s2 ∧
      (∀ t, (s2.threads t).magic = (s.threads t).magic ∧
        (s2.threads t).status = (s.threads t).status) ∧
      s2.sema (.lock_sema l) = s.sema (.lock_sema l) ∧
      s2.ready_list = s.ready_list ∧ s2.current = s.current ∧
      s2.intr_context = s.intr_context := by
  have hheld : lock_held_by_current_thread l s = .ok true := by
    unfold lock_held_by_current_thread
    rw [thread_current_ok s hthread hrun]
    simp [hholder]
  have hm1 : ∀ t, ((remove_with_lock l s).threads t).magic = (s.threads t).magic ∧
      ((remove_with_lock l s).threads t).status = (s.threads t).status := by
    intro t
    unfold remove_with_lock
    by_cases ht : t = s.current
    · rw [ht]; simp [State.set_thread]
    · simp [State.set_thread, Function.update_noteq ht]
  have hc1 : thread_current (remove_with_lock l s) = .ok s.current :=
    thread_current_ok (remove_with_lock l s)
      (by unfold is_thread; rw [(hm1 _).1]; exact hthread)
      (by rw [(hm1 _).2]; exact hrun)
  have hrel : lock_release l s = sema_up (.lock_sema l)
      (((remove_with_lock l s).set_thread s.current
        { (remove_with_lock l s).threads s.current with
          priority := donated_max (remove_with_lock l s)
            ((remove_with_lock l s).threads s.current).init_priority
            ((remove_with_lock l s).threads s.current).donations }).set_lock l
        { ((remove_with_lock l s).set_thread s.current
            { (remove_with_lock l s).threads s.current with
              priority := donated_max (remove_with_lock l s)
                ((remove_with_lock l s).threads s.current).init_priority
                ((remove_with_lock l s).threads s.current).donations }).locks l with
          holder := none }) := by
    unfold lock_release
    rw [hheld]
    simp only
    unfold refresh_donations
    rw [hc1]
  refine ⟨_, hrel, ?_, ?_, ?_, ?_, ?_⟩
  · intro t
    refine ⟨?_, ?_⟩
    · rw [← (hm1 t).1]
      by_cases ht : t = s.current
      · rw [ht]; simp [State.set_thread, State.set_lock]
      · simp [State.set_thread, State.set_lock, Function.update_noteq ht]
    · rw [← (hm1 t).2]
      by_cases ht : t = s.current
      · rw [ht]; simp [State.set_thread, State.set_lock]
      · simp [State.set_thread, State.set_lock, Function.update_noteq ht]
  · simp [State.sema, State.set_lock, State.set_thread, remove_with_lock]
  · rfl
  · rfl
  · rfl

/-- C14. lock_acquire on a lock the caller holds fails an assertion, and so does lock_release
on a lock the caller does not hold, a free lock included; a fault leaves no state behind.
Outside interrupt context, with valid BLOCKED waiters and valid READY threads, lock_release by
the holder goes through, leaves the holder null and the counter higher by exactly 1. -/
theorem C14_lock_contract (s : State) (l : Nat) :
    ((s.locks l).holder = some s.current → lock_acquire l s = .fault .panic) ∧
    ((s.locks l).holder ≠ some s.current → lock_release l s = .fault .panic) ∧
    (is_thread s s.current → (s.threads s.current).status = Status.THREAD_RUNNING →
      s.intr_context = false → (∀ x ∈ s.ready_list, is_thread s x) →
      (∀ t ∈ (s.locks l).semaphore.waiters,
        is_thread s t ∧ (s.threads t).status = Status.THREAD_BLOCKED) →
      (s.locks l).semaphore.value + 1 < UINT_MOD →
      (s.locks l).holder = some s.current →
      ∃ s', (lock_release l s = .ret 0 s' ∨ lock_release l s = .switched s' []) ∧
        (s'.locks l).holder = none ∧
        (s'.locks l).semaphore.value = (s.locks l).semaphore.value + 1) := by
  refine ⟨?_, ?_, ?_⟩
  · intro hholder
    unfold lock_acquire
    split
    · rfl
    · unfold lock_held_by_current_thread
      cases hc : thread_current s with
      | error f => rw [thread_current_panic s f hc]
      | ok curr =>
        obtain ⟨rfl, -, -⟩ := thread_current_eq s curr hc
        simp [hholder]
  · intro hholder
    unfold lock_release lock_held_by_current_thread
    cases hc : thread_current s with
    | error f => rw [thread_current_panic s f hc]
    | ok curr =>
      obtain ⟨rfl, -, -⟩ := thread_current_eq s curr hc
      simp [hholder]
  · intro hthread hrun hintr hready hblocked hrange hholder
    obtain ⟨s2, hrel, hm, hsema, hrl, hcur, hic⟩ := lock_release_pre s l hthread hrun hholder
    have hmagic : ∀ t, is_thread s t → is_thread s2 t := by
      intro t ht
      unfold is_thread at ht ⊢
      rw [(hm t).1]; exact ht
    obtain ⟨s', hs'⟩ := sema_up_ok s2 (.lock_sema l)
      (by rw [hcur]; exact hmagic _ hthread)
      (by rw [hcur, (hm _).2]; exact hrun)
      (by rw [hic]; exact hintr)
      (by intro x hx; rw [hrl] at hx; exact hmagic x (hready x hx))
      (by
        intro t ht
        rw [hsema] at ht
        exact ⟨hmagic t (hblocked t ht).1, by rw [(hm t).2]; exact (hblocked t ht).2⟩)
    rw [← hrel] at hs'
    have hst : (lock_release l s).state = some s' := by
      rcases hs' with e | e <;> rw [e] <;> rfl
    obtain ⟨-, hh, hval, -⟩ := lock_release_frame l s s' hst
    exact ⟨s', hs', hh, by rw [hval, Nat.mod_eq_of_lt hrange]⟩

/-- C14 at handover_scene, where thread 0 holds lock 1 with the counter at 0 and threads of
higher priority are READY: the release by thread 0 leaves the holder null and the counter 1;
a release by the same thread of lock 2, which it does not hold, fails. -/
theorem C14_lock_contract_witness :
    (handover_scene.locks 1).holder = some handover_scene.current ∧
    (handover_scene.locks 2).holder ≠ some handover_scene.current ∧
    lock_acquire 1 handover_scene = .fault .panic ∧
    lock_release 2 handover_scene = .fault .panic ∧
    (∃ s', (lock_release 1 handover_scene = .ret 0 s' ∨
        lock_release 1 handover_scene = .switched s' []) ∧
      (s'.locks 1).holder = none ∧
      (s'.locks 1).semaphore.value = (handover_scene.locks 1).semaphore.value + 1) :=
  ⟨by decide!, by decide!,
    (C14_lock_contract handover_scene 1).1 (by decide!),
    (C14_lock_contract handover_scene 2).2.1 (by decide!),
    (C14_lock_contract handover_scene 1).2.2 (by decide!) (by decide!) (by decide!)
      (by decide!) (by decide!) (by decide!) (by decide!)⟩

/-! ## The sleep list -/

theorem list_insert_ordered_perm {α : Type} (less : α → α → Bool) (x : α) (l : List α) :
    (list_insert_ordered less x l).Perm (x :: l) := by
  obtain ⟨front, back, h1, h2, -, -⟩ := list_insert_ordered_split less x l
  rw [h2, h1]
  exact List.perm_middle

theorem thread_unblock_inv (t : Nat) (s s1 : State) (h : thread_unblock t s = .ok s1) :
    is_thread s t ∧ (s.threads t).status = Status.THREAD_BLOCKED ∧
    s1 = ({ s with ready_list := list_insert_ordered (thread_cmp_priority s) t s.ready_list }.set_thread t
        { s.threads t with status := Status.THREAD_READY }) := by
  unfold thread_unblock at h
  split at h
  · cases h
  · rename_i h1
    split at h
    · cases h
    · rename_i h2
      cases h
      exact ⟨not_not.1 h1, not_not.1 h2, rfl⟩

/-- Whenever the loop of thread_awake comes back: the entries it took from the front of the
list, those not later than the tick, are READY and on the ready list; the rest of the list
and every other thread are as before. -/
theorem thread_awake_loop_inv (tick : Int) : ∀ (L : List Nat) (s s' : State),
    s.sleep_list = L → L.Nodup →
    thread_awake_loop tick L s = .ok s' →
    s'.sleep_list = L.dropWhile (fun t => decide ((s.threads t).wakeup_tick ≤ tick)) ∧
    (∀ t ∈ L.takeWhile (fun t => decide ((s.threads t).wakeup_tick ≤ tick)),
      is_thread s t ∧ (s.threads t).status = Status.THREAD_BLOCKED ∧
      s'.threads t = { s.threads t with status := Status.THREAD_READY } ∧ t ∈ s'.ready_list) ∧
    (∀ t, t ∉ L.takeWhile (fun t => decide ((s.threads t).wakeup_tick ≤ tick)) →
      s'.threads t = s.threads t) ∧
    s'.ready_list.Perm
      ((L.takeWhile (fun t => decide ((s.threads t).wakeup_tick ≤ tick))).reverse ++ s.ready_list) ∧
    s'.idle_thread = s.idle_thread ∧ s'.current = s.current ∧
    s'.intr_context = s.intr_context := by
  intro L
  induction L with
  | nil =>
    intro s s' hl _ h
    cases h
    exact ⟨by rw [hl]; rfl, (fun t ht => by cases ht), (fun t _ => rfl), by simp, rfl, rfl, rfl⟩
  | cons t rest ih =>
    intro s s' hl hnd h
    unfold thread_awake_loop at h
    by_cases hle : (s.threads t).wakeup_tick ≤ tick
    · rw [if_pos hle] at h
      cases hu : thread_unblock t { s with sleep_list := rest } with
      | error f => rw [hu] at h; cases h
      | ok s1 =>
        rw [hu] at h
        simp only at h
        obtain ⟨u1, u2, u3⟩ := thread_unblock_inv _ _ _ hu
        have hnd' := (List.nodup_cons.1 hnd)
        have hs1sl : s1.sleep_list = rest := by rw [u3]; rfl
        have hs1t : s1.threads t = { s.threads t with status := Status.THREAD_READY } := by
          rw [u3]; simp [State.set_thread]
        have hs1o : ∀ x, x ≠ t → s1.threads x = s.threads x := by
          intro x hx; rw [u3]; simp [State.set_thread, Function.update_noteq hx]
        have hs1r : s1.ready_list = list_insert_ordered (thread_cmp_priority s) t s.ready_list := by
          rw [u3]; rfl
        have hkey : ∀ x, (s1.threads x).wakeup_tick = (s.threads x).wakeup_tick := by
          intro x
          by_cases hx : x = t
          · rw [hx, hs1t]
          · rw [hs1o x hx]
        have hfun : (fun x => decide ((s1.threads x).wakeup_tick ≤ tick))
            = (fun x => decide ((s.threads x).wakeup_tick ≤ tick)) := by
          funext x; rw [hkey x]
        obtain ⟨i1, i2, i3, i4, i5, i6, i7⟩ := ih s1 s' hs1sl hnd'.2 h
        rw [hfun] at i1 i2 i3 i4
        have htw : (t :: rest).takeWhile (fun x => decide ((s.threads x).wakeup_tick ≤ tick))
            = t :: rest.takeWhile (fun x => decide ((s.threads x).wakeup_tick ≤ tick)) := by
          simp [List.takeWhile, hle]
        have hdw : (t :: rest).dropWhile (fun x => decide ((s.threads x).wakeup_tick ≤ tick))
            = rest.dropWhile (fun x => decide ((s.threads x).wakeup_tick ≤ tick)) := by
          simp [List.dropWhile, hle]
        have htnot : t ∉ rest.takeWhile (fun x => decide ((s.threads x).wakeup_tick ≤ tick)) :=
          fun hm => hnd'.1 (List.takeWhile_subset _ hm)
        rw [htw, hdw]
        refine ⟨i1, ?_, ?_, ?_, ?_, ?_, ?_⟩
        · intro x hx
          rcases List.mem_cons.1 hx with e | e
          · subst e
            refine ⟨u1, u2, ?_, ?_⟩
            · rw [i3 x htnot, hs1t]
            · refine (i4.mem_iff).2 (List.mem_append_right _ ?_)
              rw [hs1r]
              exact ((list_insert_ordered_perm _ _ _).mem_iff).2 (List.mem_cons_self _ _)
          · have hxt : x ≠ t := fun e' => htnot (e' ▸ e)
            obtain ⟨j1, j2, j3, j4⟩ := i2 x e
            unfold is_thread at j1 ⊢
            rw [hs1o x hxt] at j1 j2 j3
            exact ⟨j1, j2, j3, j4⟩
        · intro x hx
          have hx' : x ≠ t ∧ x ∉ rest.takeWhile (fun x => decide ((s.threads x).wakeup_tick ≤ tick)) := by
            simpa [List.mem_cons, not_or] using hx
          rw [i3 x hx'.2, hs1o x hx'.1]
        · refine i4.trans ?_
          rw [hs1r, List.reverse_cons, List.append_assoc]
          refine List.Perm.append_left _ ?_
          exact list_insert_ordered_perm _ _ _
        · rw [i5, u3]; rfl
        · rw [i6, u3]; rfl
        · rw [i7, u3]; rfl
    · rw [if_neg hle] at h
      cases h
      have htw : (t :: rest).takeWhile (fun x => decide ((s.threads x).wakeup_tick ≤ tick)) = [] := by
        simp [List.takeWhile, hle]
      have hdw : (t :: rest).dropWhile (fun x => decide ((s.threads x).wakeup_tick ≤ tick))
          = t :: rest := by
        simp [List.dropWhile, hle]
      rw [htw, hdw]
      exact ⟨hl, (fun x hx => by cases hx), (fun x _ => rfl), by simp, rfl, rfl, rfl⟩

/-- With valid BLOCKED threads on a sleep list without repetition, the loop comes back. -/
theorem thread_awake_loop_ok (tick : Int) : ∀ (L : List Nat) (s : State),
    L.Nodup → (∀ t ∈ L, is_thread s t ∧ (s.threads t).status = Status.THREAD_BLOCKED) →
    ∃ s', thread_awake_loop tick L s = .ok s' := by
  intro L
  induction L with
  | nil => intro s _ _; exact ⟨s, rfl⟩
  | cons t rest ih =>
    intro s hnd hb
    unfold thread_awake_loop
    by_cases hle : (s.threads t).wakeup_tick ≤ tick
    · rw [if_pos hle]
      have ht := hb t (List.mem_cons_self _ _)
      rw [thread_unblock_ok { s with sleep_list := rest } t ht.1 ht.2]
      simp only
      have hnd' := (List.nodup_cons.1 hnd)
      refine ih _ hnd'.2 ?_
      intro x hx
      have hxt : x ≠ t := fun e => hnd'.1 (e ▸ hx)
      have hbx := hb x (List.mem_cons_of_mem _ hx)
      unfold is_thread at hbx ⊢
      simp only [State.set_thread, Function.update_noteq hxt]
      exact hbx
    · rw [if_neg hle]
      exact ⟨s, rfl⟩

/-- On a list in ascending order of the key, the entries up to a bound are a prefix. -/
theorem sorted_takeWhile_dropWhile (key : Nat → Int) (tick : Int) : ∀ (L : List Nat),
    L.Pairwise (fun a b => key a ≤ key b) →
    L.dropWhile (fun t => decide (key t ≤ tick)) = L.filter (fun t => decide (key t > tick)) ∧
    L.takeWhile (fun t => decide (key t ≤ tick)) = L.filter (fun t => decide (key t ≤ tick)) := by
  intro L
  induction L with
  | nil => intro _; exact ⟨rfl, rfl⟩
  | cons t rest ih =>
    intro hp
    obtain ⟨hp1, hp2⟩ := List.pairwise_cons.1 hp
    by_cases hle : key t ≤ tick
    · obtain ⟨i1, i2⟩ := ih hp2
      have hng : ¬ key t > tick := not_lt.2 hle
      constructor
      · simp only [List.dropWhile, hle, decide_True, List.filter, hng, decide_False]
        exact i1
      · simp only [List.takeWhile, hle, decide_True, List.filter]
        rw [i2]
    · have hgt : key t > tick := not_le.1 hle
      have hall : ∀ x ∈ rest, key x > tick := fun x hx => lt_of_lt_of_le hgt (hp1 x hx)
      constructor
      · simp only [List.dropWhile, hle, decide_False, List.filter, hgt, decide_True]
        congr 1
        symm
        rw [List.filter_eq_self]
        intro x hx
        simp [hall x hx]
      · simp only [List.takeWhile, hle, decide_False, List.filter]
        symm
        rw [List.filter_eq_nil_iff]
        intro x hx
        simp [hall x hx]
/-! ## C15: thread_awake -/

/-- C15. On a sleep list in ascending order of wakeup_tick, without repetition and made of
valid BLOCKED threads, thread_awake comes back and leaves on the sleep list exactly the threads
with wakeup_tick above the tick, in their order, with their records untouched, hence still
BLOCKED; every thread that was on the list with wakeup_tick at most the tick is READY, on the
ready list and off the sleep list; threads that were not on the list are untouched. -/
theorem C15_thread_awake (s : State) (tick : Int)
    (hsorted : sleep_sorted s) (hnodup : s.sleep_list.Nodup)
    (hblocked : ∀ t ∈ s.sleep_list,
      is_thread s t ∧ (s.threads t).status = Status.THREAD_BLOCKED) :
    ∃ s', thread_awake tick s = .ok s' ∧
      s'.sleep_list = s.sleep_list.filter (fun t => decide ((s.threads t).wakeup_tick > tick)) ∧
      (∀ t ∈ s'.sleep_list, s'.threads t = s.threads t ∧
        (s'.threads t).status = Status.THREAD_BLOCKED ∧ tick < (s'.threads t).wakeup_tick) ∧
      (∀ t ∈ s.sleep_list, (s.threads t).wakeup_tick ≤ tick →
        (s'.threads t).status = Status.THREAD_READY ∧ t ∈ s'.ready_list ∧ t ∉ s'.sleep_list) ∧
      (∀ t, t ∉ s.sleep_list → s'.threads t = s.threads t) := by
  obtain ⟨s', hok⟩ := thread_awake_loop_ok tick s.sleep_list s hnodup hblocked
  obtain ⟨i1, i2, i3, -, -, -, -⟩ := thread_awake_loop_inv tick s.sleep_list s s' rfl hnodup hok
  have hs := sorted_takeWhile_dropWhile (fun t => (s.threads t).wakeup_tick) tick s.sleep_list hsorted
  simp only at hs
  rw [hs.1] at i1
  rw [hs.2] at i2 i3
  refine ⟨s', hok, i1, ?_, ?_, ?_⟩
  · intro t ht
    rw [i1] at ht
    obtain ⟨hmem, hgt⟩ := List.mem_filter.1 ht
    have hgt' : tick < (s.threads t).wakeup_tick := by simpa using hgt
    have hnot : t ∉ s.sleep_list.filter (fun t => decide ((s.threads t).wakeup_tick ≤ tick)) := by
      intro hm
      have := (List.mem_filter.1 hm).2
      simp only [decide_eq_true_eq] at this
      exact absurd hgt' (not_lt.2 this)
    rw [i3 t hnot]
    exact ⟨rfl, (hblocked t hmem).2, hgt'⟩
  · intro t ht hle
    have hm : t ∈ s.sleep_list.filter (fun t => decide ((s.threads t).wakeup_tick ≤ tick)) :=
      List.mem_filter.2 ⟨ht, by simpa using hle⟩
    obtain ⟨-, -, j3, j4⟩ := i2 t hm
    refine ⟨by rw [j3], j4, ?_⟩
    rw [i1]
    intro hm'
    have := (List.mem_filter.1 hm').2
    simp only [decide_eq_true_eq] at this
    exact absurd this (not_lt.2 hle)
  · intro t ht
    exact i3 t (fun hm => ht (List.mem_filter.1 hm).1)

/-- C15 at refresh_scene, where thread 3 sleeps until tick 10: thread_awake(5) leaves it on the
sleep list and BLOCKED, thread_awake(10) makes it READY and empties the list. -/
theorem C15_thread_awake_witness :
    sleep_sorted refresh_scene ∧
    (thread_awake 5 refresh_scene).toOption.map
      (fun s => (s.sleep_list, (s.threads 3).status, s.ready_list)) =
        some ([3], Status.THREAD_BLOCKED, [2, 0]) ∧
    (thread_awake 10 refresh_scene).toOption.map
      (fun s => (s.sleep_list, (s.threads 3).status, s.ready_list)) =
        some ([], Status.THREAD_READY, [3, 2, 0]) ∧
    (∃ s', thread_awake 10 refresh_scene = .ok s' ∧
      s'.sleep_list = refresh_scene.sleep_list.filter
        (fun t => decide ((refresh_scene.threads t).wakeup_tick > 10)) ∧
      (∀ t ∈ s'.sleep_list, s'.threads t = refresh_scene.threads t ∧
        (s'.threads t).status = Status.THREAD_BLOCKED ∧ 10 < (s'.threads t).wakeup_tick) ∧
      (∀ t ∈ refresh_scene.sleep_list, (refresh_scene.threads t).wakeup_tick ≤ 10 →
        (s'.threads t).status = Status.THREAD_READY ∧ t ∈ s'.ready_list ∧ t ∉ s'.sleep_list) ∧
      (∀ t, t ∉ refresh_scene.sleep_list → s'.threads t = refresh_scene.threads t)) :=
  ⟨by unfold sleep_sorted; decide!, by decide!, by decide!,
    C15_thread_awake refresh_scene 10 (by unfold sleep_sorted; decide!) (by decide!)
      (by decide!)⟩
/-! ## C16: thread_sleep -/

/-- The running thread, which is not the idle thread, goes to sleep until w while thread n can
be dispatched: it is inserted behind every entry that wakes no later than w and in front of
every entry that wakes later, and is BLOCKED. -/
theorem thread_sleep_spec (s : State) (w : Int) (n : Nat)
    (hthread : is_thread s s.current)
    (hrun : (s.threads s.current).status = Status.THREAD_RUNNING)
    (hidle : s.idle_thread ≠ some s.current) (hintr : s.intr_context = false)
    (hsorted : sleep_sorted s)
    (hblocked : ∀ t ∈ s.sleep_list, (s.threads t).status = Status.THREAD_BLOCKED)
    (hnext : (next_thread_to_run s).1 = some n) (hn : is_thread s n) (hne : n ≠ s.current) :
    ∃ s' front back, thread_sleep w s = .switched s' [] ∧
      s.sleep_list = front ++ back ∧ s'.sleep_list = front ++ s.current :: back ∧
      (∀ e ∈ front, (s.threads e).wakeup_tick ≤ w) ∧
      (∀ e ∈ back, w < (s.threads e).wakeup_tick) ∧
      s.current ∉ s.sleep_list ∧
      (s'.threads s.current).wakeup_tick = w ∧
      (s'.threads s.current).status = Status.THREAD_BLOCKED ∧
      (∀ t, t ≠ s.current → (s'.threads t).wakeup_tick = (s.threads t).wakeup_tick) ∧
      sleep_sorted s' ∧
      s'.current = n ∧ s'.ready_list = s.ready_list.tail ∧
      (s'.threads n).status = Status.THREAD_RUNNING ∧
      (∀ t, t ≠ n → t ≠ s.current → s'.threads t = s.threads t) ∧
      s'.idle_thread = s.idle_thread := by
  have hnotin : s.current ∉ s.sleep_list := by
    intro hm
    have := hblocked _ hm
    rw [hrun] at this
    cases this
  -- the state handed to thread_block
  obtain ⟨front, back, hsplit, hins, hfront, hback⟩ := list_insert_ordered_split
    (compare_wakeup_tick (s.set_thread s.current { s.threads s.current with wakeup_tick := w }))
    s.current s.sleep_list
  have hkey : ∀ e, e ≠ s.current →
      ((s.set_thread s.current { s.threads s.current with wakeup_tick := w }).threads e).wakeup_tick
        = (s.threads e).wakeup_tick := by
    intro e he
    rw [set_thread_ne _ _ _ _ he]
  have hkeyc :
      ((s.set_thread s.current { s.threads s.current with wakeup_tick := w }).threads
        s.current).wakeup_tick = w := by
    rw [set_thread_same]
  have hmemf : ∀ e ∈ front, e ∈ s.sleep_list := fun e he => by
    rw [hsplit]; exact List.mem_append_left _ he
  have hmemb : ∀ e ∈ back, e ∈ s.sleep_list := fun e he => by
    rw [hsplit]; exact List.mem_append_right _ he
  have hnec : ∀ e ∈ s.sleep_list, e ≠ s.current := fun e he e' => hnotin (e' ▸ he)
  have hfront' : ∀ e ∈ front, (s.threads e).wakeup_tick ≤ w := by
    intro e he
    have := hfront e he
    simp only [compare_wakeup_tick, hkeyc, hkey e (hnec e (hmemf e he)),
      decide_eq_false_iff_not, not_lt] at this
    exact this
  have hsp : sleep_sorted s := hsorted
  unfold sleep_sorted at hsp
  rw [hsplit, List.pairwise_append] at hsp
  obtain ⟨hpf, hpb, hpfb⟩ := hsp
  have hback' : ∀ e ∈ back, w < (s.threads e).wakeup_tick := by
    cases hb : back with
    | nil => intro e he; cases he
    | cons e0 b' =>
      have h0 := hback e0 (by rw [hb]; rfl)
      have he0 : e0 ∈ back := by rw [hb]; exact List.mem_cons_self _ _
      simp only [compare_wakeup_tick, hkeyc, hkey e0 (hnec e0 (hmemb e0 he0)),
        decide_eq_true_eq] at h0
      rw [hb] at hpb
      intro e he
      rcases List.mem_cons.1 he with e1 | e1
      · rw [e1]; exact h0
      · exact lt_of_lt_of_le h0 ((List.pairwise_cons.1 hpb).1 e e1)
  obtain ⟨s', b1, b2, b3, b4, b5, b6, b7, -, -, -, b11, -, -⟩ := thread_block_spec
    { (s.set_thread s.current { s.threads s.current with wakeup_tick := w }) with
      sleep_list := list_insert_ordered
        (compare_wakeup_tick (s.set_thread s.current { s.threads s.current with wakeup_tick := w }))
        s.current (s.set_thread s.current { s.threads s.current with wakeup_tick := w }).sleep_list }
    n hintr
    (by unfold is_thread at hthread ⊢; simp [State.set_thread]; exact hthread)
    (by simp [State.set_thread]; exact hrun)
    (by rw [← hnext]; exact next_thread_to_run_congr _ _ rfl rfl)
    (by unfold is_thread at hn ⊢; simp [State.set_thread, Function.update_noteq hne]; exact hn)
  have hsl : s'.sleep_list = front ++ s.current :: back := by
    rw [(thread_block_dispatched _ _ b1).2.2.2.2.1]
    exact hins
  have hk' : ∀ t, (s'.threads t).wakeup_tick =
      ((s.set_thread s.current { s.threads s.current with wakeup_tick := w }).threads t).wakeup_tick := by
    intro t
    rw [b7 t]
  refine ⟨s', front, back, ?_, hsplit, hsl, hfront', hback', hnotin, ?_, b5 hne, ?_, ?_,
    b2, b3, b4, ?_, b11⟩
  · unfold thread_sleep
    rw [thread_current_ok s hthread hrun]
    simp only
    rw [if_neg (fun e => hidle e.symm)]
    exact (by rw [b1] : (match thread_block _ with
      | .error f => Res.fault f
      | .ok s3 => Res.switched s3 []) = Res.switched s' [])
  · rw [hk', hkeyc]
  · intro t ht
    rw [hk', hkey t ht]
  · unfold sleep_sorted
    rw [hsl, List.pairwise_append]
    refine ⟨?_, ?_, ?_⟩
    · refine List.Pairwise.imp_of_mem ?_ hpf
      intro a b ha hb hab
      rw [hk', hk', hkey a (hnec a (hmemf a ha)), hkey b (hnec b (hmemf b hb))]
      exact hab
    · rw [List.pairwise_cons]
      refine ⟨?_, ?_⟩
      · intro e he
        rw [hk', hk', hkeyc, hkey e (hnec e (hmemb e he))]
        exact le_of_lt (hback' e he)
      · refine List.Pairwise.imp_of_mem ?_ hpb
        intro a b ha hb hab
        rw [hk', hk', hkey a (hnec a (hmemb a ha)), hkey b (hnec b (hmemb b hb))]
        exact hab
    · intro a ha b hb
      rw [hk', hk', hkey a (hnec a (hmemf a ha))]
      rcases List.mem_cons.1 hb with e | e
      · rw [e, hkeyc]; exact hfront' a ha
      · rw [hkey b (hnec b (hmemb b e))]
        exact hpfb a ha b e
  · intro t h1 h2
    rw [b6 t h1 h2]
    exact set_thread_ne _ _ _ _ h2
/-- The thread the dispatcher picks when the running thread blocks is not the running thread,
when the ready list holds READY threads and the running thread is not the idle thread. -/
theorem next_thread_ne_current (s : State) (n : Nat)
    (hrun : (s.threads s.current).status = Status.THREAD_RUNNING)
    (hidle : s.idle_thread ≠ some s.current)
    (hready : ∀ t ∈ s.ready_list, (s.threads t).status = Status.THREAD_READY)
    (hnext : (next_thread_to_run s).1 = some n) :
    n ≠ s.current ∧
    (n ∈ s.ready_list ∨ (s.ready_list = [] ∧ s.idle_thread = some n)) := by
  unfold next_thread_to_run at hnext
  cases hr : s.ready_list with
  | nil =>
    rw [hr] at hnext
    simp only at hnext
    refine ⟨?_, Or.inr ⟨rfl, hnext⟩⟩
    intro e
    rw [e] at hnext
    exact hidle hnext
  | cons a l =>
    rw [hr] at hnext
    simp only [Option.some.injEq] at hnext
    refine ⟨?_, Or.inl (by rw [← hnext]; exact List.mem_cons_self _ _)⟩
    intro e
    have := hready a (by rw [hr]; exact List.mem_cons_self _ _)
    rw [hnext, e, hrun] at this
    cases this

theorem thread_block_inv (s s' : State) (h : thread_block s = .ok s') :
    s.intr_context = false ∧ ∃ n, (next_thread_to_run s).1 = some n ∧ is_thread s n := by
  unfold thread_block at h
  by_cases hi : s.intr_context = true
  · rw [if_pos hi] at h; cases h
  · rw [if_neg hi] at h
    refine ⟨by simpa using hi, ?_⟩
    cases hc : thread_current s with
    | error f => rw [hc] at h; cases h
    | ok c =>
      rw [hc] at h
      obtain ⟨rfl, hthread, -⟩ := thread_current_eq s c hc
      obtain ⟨n, q1, q2, -, -⟩ := schedule_eq _ _ h
      refine ⟨n, ?_, ?_⟩
      · refine Eq.trans ?_ q1
        symm
        apply next_thread_to_run_congr <;> rfl
      · unfold is_thread at q2 ⊢
        by_cases e : n = s.current
        · rw [e]; exact hthread
        · simp only [State.set_thread, Function.update_noteq e] at q2
          exact q2

theorem thread_sleep_inv_step (s s' : State) (w : Int) (hinv : sleep_inv s)
    (h : (thread_sleep w s).state = some s') : sleep_inv s' := by
  obtain ⟨hsorted, hnd, hblocked, hready, hrnd, hidl⟩ := hinv
  have h0 := h
  unfold thread_sleep at h
  cases hc : thread_current s with
  | error f => rw [hc] at h; cases h
  | ok cur =>
    rw [hc] at h
    obtain ⟨rfl, hthread, hrun⟩ := thread_current_eq s cur hc
    simp only at h
    by_cases hid : some s.current = s.idle_thread
    · rw [if_pos hid] at h
      cases h
      exact ⟨hsorted, hnd, hblocked, hready, hrnd, hidl⟩
    · rw [if_neg hid] at h
      have hidle : s.idle_thread ≠ some s.current := fun e => hid e.symm
      cases hb : thread_block
          { (s.set_thread s.current { s.threads s.current with wakeup_tick := w }) with
            sleep_list := list_insert_ordered
              (compare_wakeup_tick
                (s.set_thread s.current { s.threads s.current with wakeup_tick := w }))
              s.current
              (s.set_thread s.current { s.threads s.current with wakeup_tick := w }).sleep_list } with
      | error f => rw [hb] at h; cases h
      | ok s3 =>
        obtain ⟨hintr', n, q1, q2⟩ := thread_block_inv _ _ hb
        have hintr : s.intr_context = false := hintr'
        have hsch : ∃ n, (next_thread_to_run s).1 = some n ∧ is_thread s n := by
          refine ⟨n, ?_, ?_⟩
          · refine Eq.trans ?_ q1
            symm
            apply next_thread_to_run_congr <;> rfl
          · unfold is_thread at q2 ⊢
            by_cases e4 : n = s.current
            · rw [e4]; exact hthread
            · simp only [State.set_thread, Function.update_noteq e4] at q2
              exact q2
        obtain ⟨n, hnext, hn⟩ := hsch
        obtain ⟨hne, hwhere⟩ := next_thread_ne_current s n hrun hidle hready hnext
        obtain ⟨s'', front, back, p1, p2, p3, -, -, p6, -, p8, -, p10, -, p12, p13, p14, p15⟩ :=
          thread_sleep_spec s w n hthread hrun hidle hintr hsorted hblocked hnext hn hne
        rw [p1] at h0
        simp only [Res.state, Option.some.injEq] at h0
        subst h0
        have hnsl : n ∉ s.sleep_list := by
          intro hm
          rcases hwhere with e | ⟨-, e⟩
          · have a1 := hready n e
            rw [hblocked n hm] at a1
            cases a1
          · exact hidl n e hm
        refine ⟨p10, ?_, ?_, ?_, ?_, ?_⟩
        · rw [p3]
          refine (List.Perm.nodup_iff List.perm_middle).2 (List.nodup_cons.2 ⟨?_, ?_⟩)
          · rw [← p2]; exact p6
          · rw [← p2]; exact hnd
        · intro t ht
          rw [p3] at ht
          have ht' : t = s.current ∨ t ∈ s.sleep_list := by
            rw [p2]
            simp only [List.mem_append, List.mem_cons] at ht ⊢
            tauto
          rcases ht' with e | e
          · rw [e]; exact p8
          · have h1 : t ≠ n := fun e' => hnsl (e' ▸ e)
            have h2 : t ≠ s.current := fun e' => p6 (e' ▸ e)
            rw [p14 t h1 h2]
            exact hblocked t e
        · intro t ht
          rw [p12] at ht
          have hmem : t ∈ s.ready_list := List.mem_of_mem_tail ht
          have h2 : t ≠ s.current := by
            intro e'
            have := hready t hmem
            rw [e', hrun] at this
            cases this
          have h1 : t ≠ n := by
            intro e'
            rcases hwhere with e | ⟨e, -⟩
            · unfold next_thread_to_run at hnext
              cases hr : s.ready_list with
              | nil => rw [hr] at hmem; cases hmem
              | cons a l =>
                rw [hr] at hnext ht hrnd
                simp only [Option.some.injEq] at hnext
                simp only [List.tail_cons] at ht
                rw [e', ← hnext] at ht
                exact (List.nodup_cons.1 hrnd).1 ht
            · rw [e] at hmem; cases hmem
          rw [p14 t h1 h2]
          exact hready t hmem
        · rw [p12]
          exact hrnd.sublist (List.tail_sublist _)
        · intro i hi
          rw [p15] at hi
          rw [p3]
          have a1 := hidl i hi
          rw [p2] at a1
          have a2 : i ≠ s.current := by
            intro e'
            rw [e'] at hi
            exact hidle hi
          simp only [List.mem_append, List.mem_cons, not_or] at a1 ⊢
          exact ⟨a1.1, a2, a1.2⟩
theorem thread_awake_inv_step (s s' : State) (tick : Int) (hinv : sleep_inv s)
    (h : thread_awake tick s = .ok s') : sleep_inv s' := by
  obtain ⟨hsorted, hnd, hblocked, hready, hrnd, hidl⟩ := hinv
  obtain ⟨i1, i2, i3, i4, i5, -, -⟩ := thread_awake_loop_inv tick s.sleep_list s s' rfl hnd h
  have happ := List.takeWhile_append_dropWhile
    (fun t => decide ((s.threads t).wakeup_tick ≤ tick)) s.sleep_list
  have hnd2 := hnd
  rw [← happ, List.nodup_append] at hnd2
  obtain ⟨ndt, ndd, hdisj⟩ := hnd2
  have hdm : ∀ t ∈ s.sleep_list.dropWhile (fun t => decide ((s.threads t).wakeup_tick ≤ tick)),
      t ∈ s.sleep_list := fun t ht => (List.dropWhile_sublist _).subset ht
  have htm : ∀ t ∈ s.sleep_list.takeWhile (fun t => decide ((s.threads t).wakeup_tick ≤ tick)),
      t ∈ s.sleep_list := fun t ht => List.takeWhile_subset _ ht
  have hsame : ∀ t ∈ s.sleep_list.dropWhile (fun t => decide ((s.threads t).wakeup_tick ≤ tick)),
      s'.threads t = s.threads t := fun t ht => i3 t (fun hm => hdisj hm ht)
  refine ⟨?_, ?_, ?_, ?_, ?_, ?_⟩
  · unfold sleep_sorted at hsorted ⊢
    rw [i1]
    refine List.Pairwise.imp_of_mem ?_ (hsorted.sublist (List.dropWhile_sublist _))
    intro a b ha hb hab
    rw [hsame a ha, hsame b hb]
    exact hab
  · rw [i1]; exact ndd
  · intro t ht
    rw [i1] at ht
    rw [hsame t ht]
    exact hblocked t (hdm t ht)
  · intro t ht
    have := (i4.mem_iff).1 ht
    rcases List.mem_append.1 this with e | e
    · rw [(i2 t (List.mem_reverse.1 e)).2.2.1]
    · have hnot : t ∉ s.sleep_list.takeWhile (fun t => decide ((s.threads t).wakeup_tick ≤ tick)) := by
        intro hm
        have a1 := hblocked t (htm t hm)
        rw [hready t e] at a1
        cases a1
      rw [i3 t hnot]
      exact hready t e
  · refine (List.Perm.nodup_iff i4).2 ?_
    rw [List.nodup_append]
    refine ⟨List.nodup_reverse.2 ndt, hrnd, ?_⟩
    intro a ha hb
    have a1 := hblocked a (htm a (List.mem_reverse.1 ha))
    rw [hready a hb] at a1
    cases a1
  · intro i hi
    rw [i5] at hi
    rw [i1]
    exact fun hm => hidl i hi (hdm i hm)

theorem sleep_op_inv (op : SleepOp) (s s' : State) (hinv : sleep_inv s)
    (h : sleep_op op s = some s') : sleep_inv s' := by
  cases op with
  | thread_sleep w => exact thread_sleep_inv_step s s' w hinv h
  | thread_awake tick =>
    simp only [sleep_op] at h
    cases ha : thread_awake tick s with
    | error f => rw [ha] at h; cases h
    | ok s1 =>
      rw [ha] at h
      have e : s1 = s' := by simpa [Except.toOption] using h
      rw [← e]
      exact thread_awake_inv_step s s1 tick hinv ha

theorem sleep_run_inv (ops : List SleepOp) : ∀ (s s' : State), sleep_inv s →
    sleep_run ops s = some s' → sleep_inv s' := by
  induction ops with
  | nil => intro s s' hinv h; cases h; exact hinv
  | cons op ops ih =>
    intro s s' hinv h
    unfold sleep_run at h
    cases ho : sleep_op op s with
    | none => rw [ho] at h; cases h
    | some s1 =>
      rw [ho] at h
      exact ih s1 s' (sleep_op_inv op s s1 hinv ho) h

/-- C16. The running thread, not the idle thread and outside interrupt context, calls
thread_sleep(w) on a sleep list in ascending order of wakeup_tick whose entries are BLOCKED
and not repeated, while another thread can be dispatched: w is recorded as its wakeup_tick, it
is inserted once, behind every entry with wakeup_tick at most w and in front of every entry
with a greater one, the list stays in ascending order, and the thread is BLOCKED. Hence, from
every state with an empty sleep list and a ready list of distinct READY threads, every state
reached by thread_sleep and thread_awake has its sleep list in ascending order. -/
theorem C16_thread_sleep (s : State) (w : Int) (n : Nat)
    (hthread : is_thread s s.current)
    (hrun : (s.threads s.current).status = Status.THREAD_RUNNING)
    (hidle : s.idle_thread ≠ some s.current) (hintr : s.intr_context = false)
    (hsorted : sleep_sorted s) (hnodup : s.sleep_list.Nodup)
    (hblocked : ∀ t ∈ s.sleep_list, (s.threads t).status = Status.THREAD_BLOCKED)
    (hnext : (next_thread_to_run s).1 = some n) (hn : is_thread s n) (hne : n ≠ s.current) :
    (∃ s' front back, thread_sleep w s = .switched s' [] ∧
      s.sleep_list = front ++ back ∧ s'.sleep_list = front ++ s.current :: back ∧
      (∀ e ∈ front, (s.threads e).wakeup_tick ≤ w) ∧
      (∀ e ∈ back, w < (s.threads e).wakeup_tick) ∧
      s'.sleep_list.count s.current = 1 ∧
      (s'.threads s.current).wakeup_tick = w ∧
      (s'.threads s.current).status = Status.THREAD_BLOCKED ∧
      sleep_sorted s') ∧
    (∀ s0 : State, s0.sleep_list = [] →
      (∀ t ∈ s0.ready_list, (s0.threads t).status = Status.THREAD_READY) →
      s0.ready_list.Nodup →
      ∀ ops s', sleep_run ops s0 = some s' → sleep_sorted s') := by
  constructor
  · obtain ⟨s', front, back, p1, p2, p3, p4, p5, p6, p7, p8, -, p10, -⟩ :=
      thread_sleep_spec s w n hthread hrun hidle hintr hsorted hblocked hnext hn hne
    refine ⟨s', front, back, p1, p2, p3, p4, p5, ?_, p7, p8, p10⟩
    rw [p3]
    have hnd : (front ++ s.current :: back).Nodup := by
      refine (List.Perm.nodup_iff List.perm_middle).2 (List.nodup_cons.2 ⟨?_, ?_⟩)
      · rw [← p2]; exact p6
      · rw [← p2]; exact hnodup
    exact List.count_eq_one_of_mem hnd (by simp)
  · intro s0 h0 hr hnd ops s' hrun'
    have hinv0 : sleep_inv s0 := by
      refine ⟨?_, ?_, ?_, hr, hnd, ?_⟩
      · unfold sleep_sorted; rw [h0]; exact List.Pairwise.nil
      · rw [h0]; exact List.nodup_nil
      · intro t ht; rw [h0] at ht; cases ht
      · intro i _ hm; rw [h0] at hm; cases hm
    exact (sleep_run_inv ops s0 s' hinv0 hrun').1

/-- C16 at sleep_scene, where threads 2, 3 and 4 sleep until ticks 5, 10 and 20: thread 0,
going to sleep until tick 10, is inserted behind thread 3 and in front of thread 4. -/
theorem C16_thread_sleep_witness :
    sleep_sorted sleep_scene ∧
    (thread_sleep 10 sleep_scene).state.map
      (fun s => (s.sleep_list, (s.threads 0).wakeup_tick, (s.threads 0).status, s.current))
      = some ([2, 3, 0, 4], 10, Status.THREAD_BLOCKED, 1) ∧
    (∃ s' front back, thread_sleep 10 sleep_scene = .switched s' [] ∧
      sleep_scene.sleep_list = front ++ back ∧
      s'.sleep_list = front ++ sleep_scene.current :: back ∧
      (∀ e ∈ front, (sleep_scene.threads e).wakeup_tick ≤ 10) ∧
      (∀ e ∈ back, 10 < (sleep_scene.threads e).wakeup_tick) ∧
      s'.sleep_list.count sleep_scene.current = 1 ∧
      (s'.threads sleep_scene.current).wakeup_tick = 10 ∧
      (s'.threads sleep_scene.current).status = Status.THREAD_BLOCKED ∧
      sleep_sorted s') :=
  ⟨by unfold sleep_sorted; decide!, by decide!,
    (C16_thread_sleep sleep_scene 10 1 (by decide!) (by decide!) (by decide!) (by decide!)
      (by unfold sleep_sorted; decide!) (by decide!) (by decide!) (by decide!) (by decide!)
      (by decide!)).1⟩

/-! ## The stable sort on sorted and on keyed lists -/

theorem list_sort_sorted {α : Type} (less : α → α → Bool) : ∀ (l : List α),
    l.Pairwise (fun a b => less b a = false) → list_sort less l = l := by
  intro l
  induction l with
  | nil => intro _; rfl
  | cons x l ih =>
    intro hp
    obtain ⟨h1, h2⟩ := List.pairwise_cons.1 hp
    unfold list_sort
    rw [ih h2]
    cases l with
    | nil => rfl
    | cons e l' =>
      unfold sort_insert
      rw [h1 e (List.mem_cons_self _ _)]
      rfl

theorem sort_insert_congr {α : Type} (less less' : α → α → Bool) (x : α) : ∀ (l : List α),
    (∀ e ∈ l, less e x = less' e x) → sort_insert less x l = sort_insert less' x l := by
  intro l
  induction l with
  | nil => intro _; rfl
  | cons e l ih =>
    intro h
    unfold sort_insert
    rw [h e (List.mem_cons_self _ _), ih (fun e' he' => h e' (List.mem_cons_of_mem _ he'))]

theorem list_sort_congr {α : Type} (less less' : α → α → Bool) : ∀ (l : List α),
    (∀ a ∈ l, ∀ b ∈ l, less a b = less' a b) → list_sort less l = list_sort less' l := by
  intro l
  induction l with
  | nil => intro _; rfl
  | cons x l ih =>
    intro h
    unfold list_sort
    rw [ih (fun a ha b hb => h a (List.mem_cons_of_mem _ ha) b (List.mem_cons_of_mem _ hb))]
    refine sort_insert_congr less less' x _ ?_
    intro e he
    have he' : e ∈ l := ((list_sort_perm less' l).mem_iff).1 he
    exact h e (List.mem_cons_of_mem _ he') x (List.mem_cons_self _ _)

theorem sort_insert_keyed {α : Type} (key : α → Int) (x : α) : ∀ (l : List α),
    l.Pairwise (fun a b => key b ≤ key a) →
    (sort_insert (fun a b => decide (key a > key b)) x l).Pairwise (fun a b => key b ≤ key a) := by
  intro l
  induction l with
  | nil => intro _; exact List.pairwise_singleton _ _
  | cons e l ih =>
    intro hp
    obtain ⟨h1, h2⟩ := List.pairwise_cons.1 hp
    unfold sort_insert
    by_cases hgt : key e > key x
    · simp only [hgt, decide_True, if_true]
      rw [List.pairwise_cons]
      refine ⟨?_, ih h2⟩
      intro b hb
      have hb' := ((sort_insert_perm _ x l).mem_iff).1 hb
      rcases List.mem_cons.1 hb' with e1 | e1
      · rw [e1]; exact le_of_lt hgt
      · exact h1 b e1
    · simp only [hgt, decide_False, Bool.false_eq_true, if_false]
      have hle : key e ≤ key x := not_lt.1 hgt
      rw [List.pairwise_cons]
      refine ⟨?_, hp⟩
      intro b hb
      rcases List.mem_cons.1 hb with e1 | e1
      · rw [e1]; exact hle
      · exact le_trans (h1 b e1) hle

/-- The stable sort by a key, greater first, gives a list in non-increasing order of the key. -/
theorem list_sort_keyed {α : Type} (key : α → Int) : ∀ (l : List α),
    (list_sort (fun a b => decide (key a > key b)) l).Pairwise (fun a b => key b ≤ key a) := by
  intro l
  induction l with
  | nil => exact List.Pairwise.nil
  | cons x l ih =>
    unfold list_sort
    exact sort_insert_keyed key x _ ih
/-! ## One turn of cond_broadcast -/

theorem set_cond_sema (s : State) (c : Nat) (ws : List Nat) (r : SemaRef) :
    (s.set_cond c ws).sema r = s.sema r := by
  cases r <;> rfl

theorem set_cond_same (s : State) (c : Nat) (ws : List Nat) :
    ((s.set_cond c ws).conds c).waiters = ws := by
  simp [State.set_cond]

/-- Outside interrupt context, with a valid running thread and valid threads on the ready
list, the preemption check returns at once or yields. -/
theorem test_max_priority_cases (s : State) (hthread : is_thread s s.current)
    (hrun : (s.threads s.current).status = Status.THREAD_RUNNING)
    (hintr : s.intr_context = false) (hready : ∀ x ∈ s.ready_list, is_thread s x) :
    test_max_priority s = .ret 0 s ∨
    ∃ s', test_max_priority s = .switched s' [] ∧ dispatched s s' := by
  obtain ⟨s', h⟩ := test_max_priority_ok s hthread hrun hintr hready
  rcases h with h | h
  · left
    have h2 := h
    unfold test_max_priority at h2
    cases hr : s.ready_list with
    | nil => unfold test_max_priority; rw [hr]
    | cons a l =>
      rw [hr] at h2
      simp only at h2
      split at h2
      · obtain ⟨c, -, -, -, hy⟩ := thread_yield_state s s' (by rw [h2]; rfl)
        rw [hy] at h2
        cases h2
      · unfold test_max_priority
        rw [hr]
        simp only
        rename_i hno
        rw [if_neg hno]
  · right
    exact ⟨s', h, test_max_priority_dispatched s s' (by rw [h]; rfl)⟩

/-- One signal of the broadcast: the record at the front of the wait set has one BLOCKED
thread t on its semaphore; sema_up wakes t and returns or yields, and the situation of P7 holds
again for the rest of the wait set. -/
theorem signal_step (s : State) (cond lock r : Nat) (rest : List Nat)
    (h : broadcast_ready s cond lock (r :: rest)) :
    ∃ t s_w, (s.semas r).waiters = [t] ∧
      (sema_up (.sema r) (s.set_cond cond rest) = .ret 0 s_w ∨
        ∃ s1, sema_up (.sema r) (s.set_cond cond rest) = .switched s1 [] ∧ dispatched s_w s1) ∧
      s_w.semas r = { value := ((s.semas r).value + 1) % UINT_MOD, waiters := [] } ∧
      (∀ r', r' ≠ r → s_w.semas r' = s.semas r') ∧
      s_w.threads t = { s.threads t with status := Status.THREAD_READY } ∧
      (∀ u, u ≠ t → s_w.threads u = s.threads u) ∧
      (s_w.conds cond).waiters = rest ∧
      (∀ r' ∈ rest, waiter_priority s_w r' = waiter_priority s r') ∧
      broadcast_ready s_w cond lock rest := by
  obtain ⟨hw, hintr, hthread, hrun, hholder, hready, hnd, hone, hinj⟩ := h
  obtain ⟨t, ht1, ht2, ht3⟩ := hone r (List.mem_cons_self _ _)
  have hnd' := List.nodup_cons.1 hnd
  obtain ⟨rest', s_w, a1, a2, a3, a4, a5, a6, a7, a8, a9, a10⟩ :=
    sema_up_wake_at (s.set_cond cond rest) (.sema r) [] [] t ht1
      (fun x hx => by cases hx) (fun x hx => by cases hx)
      (fun x hx => by
        have hx' : x ∈ [t] := by rw [← ht1]; exact hx
        rw [List.mem_singleton.1 hx']
        exact ⟨ht2, ht3⟩)
  have hrest' : rest' = [] := List.Perm.eq_nil a1
  obtain ⟨-, f2, f3, -, -, -⟩ := sema_up_wake_frame _ _ _ a2
  have hcne : s.current ≠ t := by
    intro e
    rw [← e, hrun] at ht3
    cases ht3
  have hmagic : ∀ u, is_thread s u → is_thread s_w u := by
    intro u hu
    unfold is_thread at hu ⊢
    by_cases e : u = t
    · rw [e, a4]; rw [e] at hu; exact hu
    · rw [a5 u e]; exact hu
  have hthread_w : is_thread s_w s_w.current := by rw [a7]; exact hmagic _ hthread
  have hrun_w : (s_w.threads s_w.current).status = Status.THREAD_RUNNING := by
    rw [a7]
    have : (s.set_cond cond rest).current = s.current := rfl
    rw [this, a5 _ hcne]
    exact hrun
  have hintr_w : s_w.intr_context = false := by rw [a8]; exact hintr
  have hready_w : ∀ x ∈ s_w.ready_list, is_thread s_w x := by
    intro x hx
    rw [a6] at hx
    rcases list_insert_ordered_mem _ _ _ _ hx with e | e
    · rw [e]; exact hmagic _ ht2
    · exact hmagic _ (hready x e)
  have hsemas : ∀ r', r' ≠ r → s_w.semas r' = s.semas r' := by
    intro r' hr'
    have := f2 (.sema r') (by intro e; injection e with e; exact hr' e)
    exact this
  have hconds : (s_w.conds cond).waiters = rest := by
    rw [f3]; exact set_cond_same s cond rest
  refine ⟨t, s_w, ht1, ?_, ?_, hsemas, a4, a5, hconds, ?_, ?_⟩
  · unfold sema_up
    rw [a2]
    simp only
    rcases test_max_priority_cases s_w hthread_w hrun_w hintr_w hready_w with e | ⟨s1, e1, e2⟩
    · exact Or.inl e
    · exact Or.inr ⟨s1, e1, e2⟩
  · have : s_w.semas r = s_w.sema (.sema r) := rfl
    rw [this, a3, hrest']
    rfl
  · intro r' hr'
    have hne : r' ≠ r := fun e => hnd'.1 (e ▸ hr')
    obtain ⟨t', b1, -, -⟩ := hone r' (List.mem_cons_of_mem _ hr')
    have htt : t' ≠ t := by
      intro e
      rw [e, ← ht1] at b1
      exact hne (hinj r' (List.mem_cons_of_mem _ hr') r (List.mem_cons_self _ _) b1)
    unfold waiter_priority
    rw [hsemas r' hne, b1]
    simp only
    rw [a5 t' htt]
    rfl
  · refine ⟨hconds, hintr_w, hthread_w, hrun_w, ?_, hready_w, hnd'.2, ?_, ?_⟩
    · rw [a10 lock, a7]; exact hholder
    · intro r' hr'
      have hne : r' ≠ r := fun e => hnd'.1 (e ▸ hr')
      obtain ⟨t', b1, b2, b3⟩ := hone r' (List.mem_cons_of_mem _ hr')
      have htt : t' ≠ t := by
        intro e
        rw [e, ← ht1] at b1
        exact hne (hinj r' (List.mem_cons_of_mem _ hr') r (List.mem_cons_self _ _) b1)
      refine ⟨t', by rw [hsemas r' hne]; exact b1, hmagic _ b2, ?_⟩
      rw [a5 t' htt]; exact b3
    · intro r1 h1 r2 h2 e
      have hne1 : r1 ≠ r := fun e' => hnd'.1 (e' ▸ h1)
      have hne2 : r2 ≠ r := fun e' => hnd'.1 (e' ▸ h2)
      rw [hsemas r1 hne1, hsemas r2 hne2] at e
      exact hinj r1 (List.mem_cons_of_mem _ h1) r2 (List.mem_cons_of_mem _ h2) e
theorem cond_sema_priority_cmp_keyed (s : State) (a b : Nat)
    (ha : (s.semas a).waiters ≠ []) (hb : (s.semas b).waiters ≠ []) :
    cond_sema_priority_cmp s a b = decide (waiter_priority s a > waiter_priority s b) := by
  unfold cond_sema_priority_cmp waiter_priority
  cases h1 : (s.semas a).waiters with
  | nil => exact absurd h1 ha
  | cons ta la =>
    cases h2 : (s.semas b).waiters with
    | nil => exact absurd h2 hb
    | cons tb lb => rfl

theorem broadcast_ready_nonempty (s : State) (cond lock : Nat) (L : List Nat)
    (h : broadcast_ready s cond lock L) : ∀ r ∈ L, (s.semas r).waiters ≠ [] := by
  intro r hr
  obtain ⟨t, ht, -, -⟩ := h.2.2.2.2.2.2.2.1 r hr
  rw [ht]
  exact List.cons_ne_nil _ _

/-- In the situation of P7 the comparator of cond_signal orders the records by the priority
of their waiting threads, so its sort gives them in non-increasing order of that priority. -/
theorem cond_sort_keyed (s : State) (cond lock : Nat) (L : List Nat)
    (h : broadcast_ready s cond lock L) :
    list_sort (cond_sema_priority_cmp s) L =
      list_sort (fun a b => decide (waiter_priority s a > waiter_priority s b)) L := by
  refine list_sort_congr _ _ L ?_
  intro a ha b hb
  exact cond_sema_priority_cmp_keyed s a b (broadcast_ready_nonempty s cond lock L h a ha)
    (broadcast_ready_nonempty s cond lock L h b hb)

theorem cond_sort_sorted (s : State) (cond lock : Nat) (L : List Nat)
    (h : broadcast_ready s cond lock L)
    (hp : L.Pairwise (fun a b => waiter_priority s b ≤ waiter_priority s a)) :
    list_sort (cond_sema_priority_cmp s) L = L := by
  rw [cond_sort_keyed s cond lock L h]
  refine list_sort_sorted _ L ?_
  refine List.Pairwise.imp ?_ hp
  intro a b hab
  simp only [decide_eq_false_iff_not, not_lt]
  exact hab

/-- One turn of the loop of cond_broadcast on a wait set in non-increasing order of priority:
cond_signal ups the private semaphore of the front record. -/
theorem cond_signal_front (s : State) (cond lock r : Nat) (rest : List Nat)
    (h : broadcast_ready s cond lock (r :: rest))
    (hp : (r :: rest).Pairwise (fun a b => waiter_priority s b ≤ waiter_priority s a)) :
    cond_signal cond lock s = sema_up (.sema r) (s.set_cond cond rest) := by
  have hsort := cond_sort_sorted s cond lock _ h hp
  obtain ⟨hw, hintr, hthread, hrun, hholder, -⟩ := h
  unfold cond_signal
  rw [if_neg (by rw [hintr]; decide)]
  have hheld : lock_held_by_current_thread lock s = .ok true := by
    unfold lock_held_by_current_thread
    rw [thread_current_ok s hthread hrun]
    simp [hholder]
  rw [hheld]
  simp only
  rw [hw]
  simp only
  rw [hsort]
/-- The loop of cond_broadcast on a wait set L in non-increasing order of priority, in the
situation of P7: it does what signal_in_order does on L. It signals a front part of L, each
private semaphore once, and either returns with the wait set empty and every waiting thread
READY, or is switched out by a yield with the unsignalled rest as the wait set and the rest of
the loop suspended. -/
theorem cond_broadcast_loop_spec (cond lock : Nat) : ∀ (L : List Nat) (s : State),
    broadcast_ready s cond lock L →
    L.Pairwise (fun a b => waiter_priority s b ≤ waiter_priority s a) →
    cond_broadcast_loop L.length cond lock s = signal_in_order cond lock L s ∧
    ∃ s' done rest, L = done ++ rest ∧ (s'.conds cond).waiters = rest ∧
      (∀ r ∈ done,
        s'.semas r = { value := ((s.semas r).value + 1) % UINT_MOD, waiters := [] }) ∧
      (∀ r, r ∉ done → s'.semas r = s.semas r) ∧
      ((rest = [] ∧ signal_in_order cond lock L s = .ret 0 s' ∧
          (∀ r ∈ L, ∀ t, (s.semas r).waiters = [t] →
            s'.threads t = { s.threads t with status := Status.THREAD_READY }) ∧
          (∀ u, (∀ r ∈ L, (s.semas r).waiters ≠ [u]) → s'.threads u = s.threads u)) ∨
        (done ≠ [] ∧
          signal_in_order cond lock L s = .switched s' [Frame.cond_broadcast_loop cond lock])) := by
  intro L
  induction L with
  | nil =>
    intro s h _
    refine ⟨?_, s, [], [], rfl, h.1, (fun r hr => by cases hr), (fun r _ => rfl),
      Or.inl ⟨rfl, rfl, (fun r hr => by cases hr), (fun u _ => rfl)⟩⟩
    show cond_broadcast_loop 0 cond lock s = _
    unfold cond_broadcast_loop
    rw [h.1]
    rfl
  | cons r rest ih =>
    intro s h hp
    obtain ⟨t, s_w, ht1, hup, hsr, hso, hwt, hwo, hwc, hkey, hrdy⟩ := signal_step s cond lock r rest h
    have hsig := cond_signal_front s cond lock r rest h hp
    have hnd' := List.nodup_cons.1 h.2.2.2.2.2.2.1
    have hloop : cond_broadcast_loop (r :: rest).length cond lock s =
        match sema_up (.sema r) (s.set_cond cond rest) with
        | .ret _ s1 => cond_broadcast_loop rest.length cond lock s1
        | .switched s1 k => .switched s1 (k ++ [Frame.cond_broadcast_loop cond lock])
        | .fault f => .fault f := by
      show cond_broadcast_loop (rest.length + 1) cond lock s = _
      rw [cond_broadcast_loop, h.1]
      simp only
      rw [hsig]
    have hspec : signal_in_order cond lock (r :: rest) s =
        match sema_up (.sema r) (s.set_cond cond rest) with
        | .ret _ s1 => signal_in_order cond lock rest s1
        | .switched s1 k => .switched s1 (k ++ [Frame.cond_broadcast_loop cond lock])
        | .fault f => .fault f := by
      rw [signal_in_order]
    rcases hup with hret | ⟨s1, hsw, hd⟩
    · rw [hret] at hloop hspec
      simp only at hloop hspec
      have hp' : rest.Pairwise (fun a b => waiter_priority s_w b ≤ waiter_priority s_w a) := by
        refine List.Pairwise.imp_of_mem ?_ (List.pairwise_cons.1 hp).2
        intro a b ha hb hab
        rw [hkey a ha, hkey b hb]
        exact hab
      obtain ⟨heq, s', done, rest', e1, e2, e3, e4, e5⟩ := ih s_w hrdy hp'
      refine ⟨by rw [hloop, hspec, heq], s', r :: done, rest', by rw [e1]; rfl, e2, ?_, ?_, ?_⟩
      · intro r' hr'
        rcases List.mem_cons.1 hr' with e | e
        · rw [e]
          have hrn : r ∉ done := by
            intro hm
            exact hnd'.1 (by rw [e1]; exact List.mem_append_left _ hm)
          rw [e4 r hrn, hsr]
        · have hne : r' ≠ r := by
            intro e'
            exact hnd'.1 (by rw [e1, ← e']; exact List.mem_append_left _ e)
          rw [e3 r' e, hso r' hne]
      · intro r' hr'
        have hr2 : r' ≠ r ∧ r' ∉ done := by
          simpa [List.mem_cons, not_or] using hr'
        rw [e4 r' hr2.2, hso r' hr2.1]
      · rcases e5 with ⟨g1, g2, g3, g4⟩ | ⟨g1, g2⟩
        · refine Or.inl ⟨g1, by rw [hspec, g2], ?_, ?_⟩
          · intro r' hr' t' ht'
            rcases List.mem_cons.1 hr' with e | e
            · rw [e, ht1] at ht'
              have ett : t' = t := by
                injection ht' with e0 _
                exact e0.symm
              rw [ett]
              have hu : ∀ r2 ∈ rest, (s_w.semas r2).waiters ≠ [t] := by
                intro r2 hr2 hc
                have hne : r2 ≠ r := fun e' => hnd'.1 (e' ▸ hr2)
                rw [hso r2 hne, ← ht1] at hc
                exact hne (h.2.2.2.2.2.2.2.2 r2 (List.mem_cons_of_mem _ hr2) r
                  (List.mem_cons_self _ _) hc)
              rw [g4 t hu, hwt]
            · have hne : r' ≠ r := fun e' => hnd'.1 (e' ▸ e)
              have htt : t' ≠ t := by
                intro e'
                rw [e', ← ht1] at ht'
                exact hne (h.2.2.2.2.2.2.2.2 r' (List.mem_cons_of_mem _ e) r
                  (List.mem_cons_self _ _) ht')
              rw [g3 r' e t' (by rw [hso r' hne]; exact ht'), hwo t' htt]
          · intro u hu
            have hut : u ≠ t := by
              intro e'
              exact hu r (List.mem_cons_self _ _) (by rw [e']; exact ht1)
            have hu' : ∀ r2 ∈ rest, (s_w.semas r2).waiters ≠ [u] := by
              intro r2 hr2
              have hne : r2 ≠ r := fun e' => hnd'.1 (e' ▸ hr2)
              rw [hso r2 hne]
              exact hu r2 (List.mem_cons_of_mem _ hr2)
            rw [g4 u hu', hwo u hut]
        · exact Or.inr ⟨List.cons_ne_nil _ _, by rw [hspec, g2]⟩
    · rw [hsw] at hloop hspec
      simp only [List.nil_append] at hloop hspec
      refine ⟨by rw [hloop, hspec], s1, [r], rest, rfl, ?_, ?_, ?_,
        Or.inr ⟨List.cons_ne_nil _ _, hspec⟩⟩
      · rw [hd.2.2.2.1]; exact hwc
      · intro r' hr'
        rw [List.mem_singleton.1 hr', hd.2.2.1, hsr]
      · intro r' hr'
        have hne : r' ≠ r := by simpa using hr'
        rw [hd.2.2.1, hso r' hne]
/-! ## One activation of cond_broadcast -/

theorem set_cond_set_cond (s : State) (c : Nat) (a b : List Nat) :
    (s.set_cond c a).set_cond c b = s.set_cond c b := by
  simp [State.set_cond]

/-- The first turn of cond_broadcast sorts the wait set; the loop then goes on as if the wait
set had been in that order from the start. -/
theorem cond_broadcast_sorted (s : State) (cond lock : Nat)
    (h : broadcast_ready s cond lock (s.conds cond).waiters)
    (hne : (s.conds cond).waiters ≠ []) :
    broadcast_ready (s.set_cond cond (list_sort (cond_sema_priority_cmp s) (s.conds cond).waiters))
      cond lock (list_sort (cond_sema_priority_cmp s) (s.conds cond).waiters) ∧
    cond_broadcast cond lock s =
      cond_broadcast_loop (list_sort (cond_sema_priority_cmp s) (s.conds cond).waiters).length
        cond lock
        (s.set_cond cond (list_sort (cond_sema_priority_cmp s) (s.conds cond).waiters)) ∧
    signal_in_order cond lock (list_sort (cond_sema_priority_cmp s) (s.conds cond).waiters)
        (s.set_cond cond (list_sort (cond_sema_priority_cmp s) (s.conds cond).waiters)) =
      signal_in_order cond lock (list_sort (cond_sema_priority_cmp s) (s.conds cond).waiters) s := by
  have hperm := list_sort_perm (cond_sema_priority_cmp s) (s.conds cond).waiters
  have hkeyed : (list_sort (cond_sema_priority_cmp s) (s.conds cond).waiters).Pairwise
      (fun a b => waiter_priority s b ≤ waiter_priority s a) := by
    rw [cond_sort_keyed s cond lock _ h]
    exact list_sort_keyed (waiter_priority s) _
  obtain ⟨-, hintr, hthread, hrun, hholder, hready, hnd, hone, hinj⟩ := h
  generalize hS : list_sort (cond_sema_priority_cmp s) (s.conds cond).waiters = S at hperm hkeyed ⊢
  have hrdy : broadcast_ready (s.set_cond cond S) cond lock S :=
    ⟨set_cond_same _ _ _, hintr, hthread, hrun, hholder, hready,
      (List.Perm.nodup_iff hperm).2 hnd,
      fun r hr => hone r ((hperm.mem_iff).1 hr),
      fun r hr r' hr' e => hinj r ((hperm.mem_iff).1 hr) r' ((hperm.mem_iff).1 hr') e⟩
  have hkeyed' : S.Pairwise (fun a b => waiter_priority (s.set_cond cond S) b ≤
      waiter_priority (s.set_cond cond S) a) := hkeyed
  cases S with
  | nil => exact absurd (List.Perm.eq_nil hperm.symm) hne
  | cons r rest =>
    have hfront := cond_signal_front _ cond lock r rest hrdy hkeyed'
    rw [set_cond_set_cond] at hfront
    have hlen : (s.conds cond).waiters.length = rest.length + 1 := by
      rw [← hperm.length_eq]; rfl
    have hsig : cond_signal cond lock s = sema_up (.sema r) (s.set_cond cond rest) := by
      unfold cond_signal
      rw [if_neg (by rw [hintr]; decide)]
      have hheld : lock_held_by_current_thread lock s = .ok true := by
        unfold lock_held_by_current_thread
        rw [thread_current_ok s hthread hrun]
        simp [hholder]
      rw [hheld]
      simp only
      cases hW : (s.conds cond).waiters with
      | nil => exact absurd hW hne
      | cons w ws =>
        simp only
        rw [hW] at hS
        rw [hS]
    refine ⟨hrdy, ?_, ?_⟩
    · unfold cond_broadcast
      rw [hlen]
      show cond_broadcast_loop (rest.length + 1) cond lock s =
        cond_broadcast_loop (rest.length + 1) cond lock (s.set_cond cond (r :: rest))
      rw [cond_broadcast_loop, cond_broadcast_loop, set_cond_same]
      cases hW : (s.conds cond).waiters with
      | nil => exact absurd hW hne
      | cons w ws =>
        simp only
        rw [hsig, hfront]
    · rw [signal_in_order, signal_in_order, set_cond_set_cond]
/-- One activation of cond_broadcast. In the situation of P7 (the caller holds the lock
outside interrupt context; the wait
set holds n distinct records, each with one valid BLOCKED thread on its private semaphore),
cond_broadcast does sema_up on the private semaphores in the order in which the stable sort
by priority of the waiting threads puts the n records, which is a non-increasing order of
priority with every record once. It signals a front part of that order, each semaphore once
(counter up by one, wait list emptied), and then either returns with the wait set empty, all
n semaphores signalled and every waiting thread READY, or, a woken thread outranking the
caller, has yielded inside a sema_up with the unsignalled rest as the wait set; the suspended
activation is cond_broadcast itself, on that rest. -/
theorem cond_broadcast_segment (s : State) (cond lock : Nat)
    (h : broadcast_ready s cond lock (s.conds cond).waiters) :
    (list_sort (cond_sema_priority_cmp s) (s.conds cond).waiters).Perm (s.conds cond).waiters ∧
    (list_sort (cond_sema_priority_cmp s) (s.conds cond).waiters).Pairwise
      (fun a b => waiter_priority s b ≤ waiter_priority s a) ∧
    cond_broadcast cond lock s =
      signal_in_order cond lock (list_sort (cond_sema_priority_cmp s) (s.conds cond).waiters) s ∧
    (∃ s' done rest,
      list_sort (cond_sema_priority_cmp s) (s.conds cond).waiters = done ++ rest ∧
      (s'.conds cond).waiters = rest ∧
      (∀ r ∈ done,
        s'.semas r = { value := ((s.semas r).value + 1) % UINT_MOD, waiters := [] }) ∧
      (∀ r, r ∉ done → s'.semas r = s.semas r) ∧
      ((rest = [] ∧ cond_broadcast cond lock s = .ret 0 s' ∧
          (∀ r ∈ (s.conds cond).waiters, ∀ t, (s.semas r).waiters = [t] →
            s'.threads t = { s.threads t with status := Status.THREAD_READY })) ∨
        (done ≠ [] ∧
          cond_broadcast cond lock s = .switched s' [Frame.cond_broadcast_loop cond lock]))) ∧
    (∀ v s2, run_frame (Frame.cond_broadcast_loop cond lock) v s2 = cond_broadcast cond lock s2) := by
  have hperm := list_sort_perm (cond_sema_priority_cmp s) (s.conds cond).waiters
  have hkeyed : (list_sort (cond_sema_priority_cmp s) (s.conds cond).waiters).Pairwise
      (fun a b => waiter_priority s b ≤ waiter_priority s a) := by
    rw [cond_sort_keyed s cond lock _ h]
    exact list_sort_keyed (waiter_priority s) _
  refine ⟨hperm, hkeyed, ?_, ?_, fun _ _ => rfl⟩
  · by_cases hne : (s.conds cond).waiters = []
    · unfold cond_broadcast
      rw [hne]
      show cond_broadcast_loop 0 cond lock s = _
      unfold cond_broadcast_loop
      rw [hne]
      rfl
    · obtain ⟨hrdy, e1, e2⟩ := cond_broadcast_sorted s cond lock h hne
      rw [e1, ← e2]
      exact (cond_broadcast_loop_spec cond lock _ _ hrdy hkeyed).1
  · by_cases hne : (s.conds cond).waiters = []
    · refine ⟨s, [], [], ?_, hne, (fun r hr => by cases hr), (fun r _ => rfl), Or.inl ⟨rfl, ?_, ?_⟩⟩
      · rw [hne]; rfl
      · unfold cond_broadcast
        rw [hne]
        show cond_broadcast_loop 0 cond lock s = _
        unfold cond_broadcast_loop
        rw [hne]
      · intro r hr
        rw [hne] at hr
        cases hr
    · obtain ⟨hrdy, e1, e2⟩ := cond_broadcast_sorted s cond lock h hne
      obtain ⟨q0, s', done, rest, q1, q2, q3, q4, q5⟩ :=
        cond_broadcast_loop_spec cond lock _ _ hrdy hkeyed
      refine ⟨s', done, rest, q1, q2, q3, q4, ?_⟩
      rcases q5 with ⟨g1, g2, g3, -⟩ | ⟨g1, g2⟩
      · refine Or.inl ⟨g1, by rw [e1, q0, g2], ?_⟩
        intro r hr t ht
        exact g3 r ((hperm.mem_iff).2 hr) t ht
      · exact Or.inr ⟨g1, by rw [e1, q0, g2]⟩

theorem broadcast_scene_ready :
    broadcast_ready broadcast_scene 0 1 (broadcast_scene.conds 0).waiters := by
  refine ⟨rfl, rfl, by decide!, by decide!, by decide!, by decide!, by decide!, ?_, by decide!⟩
  intro r hr
  have hr' : r = 10 ∨ r = 11 ∨ r = 12 := by
    have : r ∈ [10, 11, 12] := hr
    simpa using this
  rcases hr' with e | e | e
  · rw [e]; exact ⟨1, by decide!, by decide!, by decide!⟩
  · rw [e]; exact ⟨2, by decide!, by decide!, by decide!⟩
  · rw [e]; exact ⟨3, by decide!, by decide!, by decide!⟩

/-- cond_signal leaves the holder of every lock as it was. -/
theorem cond_signal_holder (cond lock : Nat) (s s' : State)
    (h : (cond_signal cond lock s).state = some s') (l : Nat) :
    (s'.locks l).holder = (s.locks l).holder := by
  unfold cond_signal at h
  split at h
  · cases h
  · split at h
    · cases h
    · cases h
    · split at h
      · cases h; rfl
      · split at h
        · cases h
        · exact (sema_up_frame _ _ _ h).2.1 l

/-- The loop of cond_broadcast leaves the holder of every lock as it was. -/
theorem cond_broadcast_loop_holder (fuel : Nat) (cond lock : Nat) :
    ∀ (s s' : State), (cond_broadcast_loop fuel cond lock s).state = some s' →
      ∀ l, (s'.locks l).holder = (s.locks l).holder := by
  induction fuel with
  | zero =>
    intro s s' h l
    unfold cond_broadcast_loop at h
    split at h
    · cases h; rfl
    · cases h
  | succ fuel ih =>
    intro s s' h l
    unfold cond_broadcast_loop at h
    split at h
    · cases h; rfl
    · cases hs : cond_signal cond lock s with
      | ret v s1 =>
        rw [hs] at h
        rw [ih s1 s' h l, cond_signal_holder _ _ s s1 (by rw [hs]; rfl) l]
      | switched s1 k =>
        rw [hs] at h
        cases h
        exact cond_signal_holder _ _ s _ (by rw [hs]; rfl) l
      | fault f => rw [hs] at h; cases h

/-- In the situation of P7 the broadcast comes to its end, by induction on the number of
records in the wait set: every activation of cond_broadcast signals at least one record before
it yields. -/
theorem broadcast_ends_of_ready (cond lock : Nat) : ∀ (n : Nat) (s : State),
    (s.conds cond).waiters.length = n →
    broadcast_ready s cond lock (s.conds cond).waiters → broadcast_ends cond lock s := by
  intro n
  induction n using Nat.strong_induction_on with
  | _ n ih =>
    intro s hn h
    obtain ⟨hperm, hkeyed, -, ⟨s', done, rest, hsplit, hrest, hdone, hother, hcase⟩, -⟩ :=
      cond_broadcast_segment s cond lock h
    rcases hcase with ⟨hnil, hret, -⟩ | ⟨hne, hsw⟩
    · refine broadcast_ends.returns s s' hret (by rw [hrest, hnil]) ?_ ?_
      · intro r hr
        apply hdone r
        have : r ∈ done ++ rest := by rw [← hsplit]; exact hperm.symm.subset hr
        rw [hnil, List.append_nil] at this
        exact this
      · intro r hr
        apply hother r
        intro hd
        exact hr (hperm.subset (by rw [hsplit]; exact List.mem_append_left _ hd))
    · have hnd : (done ++ rest).Nodup := by
        rw [← hsplit]
        exact hperm.nodup_iff.2 h.2.2.2.2.2.2.1
      have hlen : rest.length < n := by
        have e : (done ++ rest).length = n := by
          rw [← hsplit, hperm.length_eq, hn]
        rw [List.length_append] at e
        have : 0 < done.length := List.length_pos.2 hne
        omega
      refine broadcast_ends.yields s s' done rest hsw hne (by rw [← hsplit]; exact hperm)
        (by rw [← hsplit]; exact hkeyed) hrest hdone ?_ ?_ ?_ ?_
      · intro r hr
        apply hother r
        intro hd
        exact (List.nodup_append.1 hnd).2.2 hd hr
      · intro r hr
        apply hother r
        intro hd
        exact hr (hperm.subset (by rw [hsplit]; exact List.mem_append_left _ hd))
      · rw [cond_broadcast_loop_holder _ cond lock s s' (by
          show (cond_broadcast cond lock s).state = some s'
          rw [hsw]; rfl) lock]
        exact h.2.2.2.2.1
      · intro s2 h2
        have e2 : (s2.conds cond).waiters = rest := h2.1
        exact ih rest.length hlen s2 (by rw [e2]) (by rw [e2]; exact h2)

/-! ## C18: cond_broadcast -/

/-- C18. In the situation of P7 (the caller holds the lock outside interrupt context; the wait
set holds n distinct records, each with one valid BLOCKED thread on its private semaphore),
cond_broadcast does sema_up on the private semaphores in the order in which the stable sort
by priority of the waiting threads puts the n records, which is a non-increasing order of
priority with every record once. It signals a front part of that order, each semaphore once
(counter up by one, wait list emptied), and then either returns with the wait set empty, all
n semaphores signalled and every waiting thread READY, or, a woken thread outranking the
caller, has yielded inside a sema_up with the unsignalled rest as the wait set; the suspended
activation is cond_broadcast itself, on that rest. And the broadcast comes to its end
(broadcast_ends): every activation signals at least one record, so that after at most n
activations, each started when the caller runs again in the situation of P7 for the records
still waiting, the call has returned with the wait set empty and each of the n semaphores
signalled exactly once, in non-increasing order of the priorities at each activation. -/
theorem C18_cond_broadcast (s : State) (cond lock : Nat)
    (h : broadcast_ready s cond lock (s.conds cond).waiters) :
    (list_sort (cond_sema_priority_cmp s) (s.conds cond).waiters).Perm (s.conds cond).waiters ∧
    (list_sort (cond_sema_priority_cmp s) (s.conds cond).waiters).Pairwise
      (fun a b => waiter_priority s b ≤ waiter_priority s a) ∧
    cond_broadcast cond lock s =
      signal_in_order cond lock (list_sort (cond_sema_priority_cmp s) (s.conds cond).waiters) s ∧
    (∃ s' done rest,
      list_sort (cond_sema_priority_cmp s) (s.conds cond).waiters = done ++ rest ∧
      (s'.conds cond).waiters = rest ∧
      (∀ r ∈ done,
        s'.semas r = { value := ((s.semas r).value + 1) % UINT_MOD, waiters := [] }) ∧
      (∀ r, r ∉ done → s'.semas r = s.semas r) ∧
      ((rest = [] ∧ cond_broadcast cond lock s = .ret 0 s' ∧
          (∀ r ∈ (s.conds cond).waiters, ∀ t, (s.semas r).waiters = [t] →
            s'.threads t = { s.threads t with status := Status.THREAD_READY })) ∨
        (done ≠ [] ∧
          cond_broadcast cond lock s = .switched s' [Frame.cond_broadcast_loop cond lock]))) ∧
    (∀ v s2, run_frame (Frame.cond_broadcast_loop cond lock) v s2 = cond_broadcast cond lock s2) ∧
    broadcast_ends cond lock s := by
  obtain ⟨h1, h2, h3, h4, h5⟩ := cond_broadcast_segment s cond lock h
  exact ⟨h1, h2, h3, h4, h5, broadcast_ends_of_ready cond lock _ s rfl h⟩

theorem broadcast_low_scene_ready :
    broadcast_ready broadcast_low_scene 0 1 (broadcast_low_scene.conds 0).waiters := by
  refine ⟨rfl, rfl, by decide!, by decide!, by decide!, by decide!, by decide!, ?_, by decide!⟩
  intro r hr
  have hr' : r = 10 ∨ r = 11 ∨ r = 12 := by
    have : r ∈ [10, 11, 12] := hr
    simpa using this
  rcases hr' with e | e | e
  · rw [e]; exact ⟨1, by decide!, by decide!, by decide!⟩
  · rw [e]; exact ⟨2, by decide!, by decide!, by decide!⟩
  · rw [e]; exact ⟨3, by decide!, by decide!, by decide!⟩

/-- C18 at broadcast_scene, where threads of priority 3, 7 and 5 wait on the records 10, 11 and
12 and the caller has priority 9: the records are signalled in the order 11, 12, 10, and the
broadcast returns with the wait set empty, the three counters at 1 and the three threads on
the ready list in the order 2, 3, 1. And at broadcast_low_scene, where the caller has priority
4: the broadcast comes to its end; the first activation signals record 11 and yields to thread
2 with the records 12 and 10 left; along broadcast_low_trace the caller runs again, signals
record 12 and yields to thread 3, runs again, signals record 10 and returns, with the wait set
empty, the three counters at 1 and nobody left on the three semaphores. -/
theorem C18_cond_broadcast_witness :
    (broadcast_ready broadcast_scene 0 1 (broadcast_scene.conds 0).waiters ∧
      list_sort (cond_sema_priority_cmp broadcast_scene) (broadcast_scene.conds 0).waiters
        = [11, 12, 10] ∧
      (cond_broadcast 0 1 broadcast_scene).returned = true ∧
      (cond_broadcast 0 1 broadcast_scene).state.map (fun s =>
        ((s.conds 0).waiters, [10, 11, 12].map (fun r => (s.semas r).value), s.ready_list))
        = some ([], [1, 1, 1], [2, 3, 1, 4]) ∧
      cond_broadcast 0 1 broadcast_scene =
        signal_in_order 0 1
          (list_sort (cond_sema_priority_cmp broadcast_scene) (broadcast_scene.conds 0).waiters)
          broadcast_scene) ∧
    (broadcast_ready broadcast_low_scene 0 1 (broadcast_low_scene.conds 0).waiters ∧
      broadcast_ends 0 1 broadcast_low_scene ∧
      (cond_broadcast 0 1 broadcast_low_scene).returned = false ∧
      (run (broadcast_low_trace.take 1) broadcast_low_scene).map
        (fun s => (s.current, (s.conds 0).waiters, s.frames 0, s.ready_list)) =
        some (2, [12, 10], [Frame.cond_broadcast_loop 0 1], [0, 4]) ∧
      (run (broadcast_low_trace.take 3) broadcast_low_scene).map
        (fun s => (s.current, (s.conds 0).waiters, s.frames 0, s.ready_list)) =
        some (3, [10], [Frame.cond_broadcast_loop 0 1], [0, 4]) ∧
      (run broadcast_low_trace broadcast_low_scene).map
        (fun s => (s.current, (s.conds 0).waiters, s.frames 0, s.ready_list)) =
        some (0, [], [], [1, 4]) ∧
      (run broadcast_low_trace broadcast_low_scene).map
        (fun s => ([10, 11, 12].map (fun r => (s.semas r).value),
          [10, 11, 12].map (fun r => (s.semas r).waiters))) =
        some ([1, 1, 1], [[], [], []])) :=
  ⟨⟨broadcast_scene_ready, by decide!, by decide!, by decide!,
      (C18_cond_broadcast broadcast_scene 0 1 broadcast_scene_ready).2.2.1⟩,
    ⟨broadcast_low_scene_ready,
      (C18_cond_broadcast broadcast_low_scene 0 1 broadcast_low_scene_ready).2.2.2.2.2,
      by decide!, by decide!, by decide!, by decide!, by decide!⟩⟩

/-! ## C20: sema_up in an interrupt handler -/

/-- The preemption check dispatches nothing from an interrupt handler. -/
theorem test_max_priority_in_handler (s : State) (hintr : s.intr_context = true) :
    test_max_priority s = .ret 0 s := by
  unfold test_max_priority
  cases hr : s.ready_list with
  | nil => rfl
  | cons a l =>
    simp only
    rw [if_neg (fun h => h.1 hintr)]

/-- C20. In interrupt context, on a semaphore whose waiters are valid BLOCKED threads, sema_up
returns: no assertion fails and the dispatcher is not reached. The interrupted thread is still
the running thread, with its record untouched when it is not itself the woken thread, and the
interrupt-context flag is still set. The counter is one higher (modulo the range of unsigned).
With nobody waiting nothing else changes; otherwise the first of the highest-priority waiters
is taken off the wait list, marked READY and put on the ready list, whatever its priority, and
every other thread record is as before. -/
theorem C20_sema_up_in_handler (s : State) (sema : SemaRef) (hintr : s.intr_context = true)
    (hblocked : ∀ t ∈ (s.sema sema).waiters,
      is_thread s t ∧ (s.threads t).status = Status.THREAD_BLOCKED) :
    ∃ s', sema_up sema s = .ret 0 s' ∧ s'.current = s.current ∧ s'.intr_context = true ∧
      (s'.sema sema).value = ((s.sema sema).value + 1) % UINT_MOD ∧
      ((s.sema sema).waiters = [] →
        s'.threads = s.threads ∧ s'.ready_list = s.ready_list ∧
        (s'.sema sema).waiters = []) ∧
      ((s.sema sema).waiters ≠ [] →
        ∃ w pre post, (s.sema sema).waiters = pre ++ w :: post ∧
          (∀ t ∈ pre, s.prio t < s.prio w) ∧ (∀ t ∈ post, s.prio t ≤ s.prio w) ∧
          (s'.sema sema).waiters.Perm (pre ++ post) ∧
          s'.threads w = { s.threads w with status := Status.THREAD_READY } ∧
          w ∈ s'.ready_list ∧ s'.ready_list.Perm (w :: s.ready_list) ∧
          (∀ t, t ≠ w → s'.threads t = s.threads t)) := by
  by_cases hw : (s.sema sema).waiters = []
  · have hwake : sema_up_wake sema s = .ok (s.set_sema sema { s.sema sema with
        value := ((s.sema sema).value + 1) % UINT_MOD }) := by
      unfold sema_up_wake
      rw [hw]
    refine ⟨s.set_sema sema { s.sema sema with
        value := ((s.sema sema).value + 1) % UINT_MOD }, ?_, ?_, ?_, ?_, ?_,
      fun h => absurd hw h⟩
    · unfold sema_up
      rw [hwake]
      exact test_max_priority_in_handler _ (by rw [set_sema_intr_context]; exact hintr)
    · rw [set_sema_current]
    · rw [set_sema_intr_context]; exact hintr
    · rw [sema_set_sema]
    · intro _
      refine ⟨set_sema_threads _ _ _, set_sema_ready_list _ _ _, ?_⟩
      rw [sema_set_sema]
      exact hw
  · obtain ⟨w, rest, pre, post, s1, -, h2, h3, h4, h5, h6, h7, -, h9, h10, h11, h12, h13, -⟩ :=
      sema_up_wake_spec s sema hw hblocked
    refine ⟨s1, ?_, h12, by rw [h13]; exact hintr, by rw [h7], fun h => absurd h hw, fun _ => ?_⟩
    · unfold sema_up
      rw [h6]
      exact test_max_priority_in_handler _ (by rw [h13]; exact hintr)
    · refine ⟨w, pre, post, h2, h3, h4, by rw [h7]; exact h5, h9, ?_, ?_, h10⟩
      · rw [h11]
        exact (list_insert_ordered_perm _ w s.ready_list).symm.subset (List.mem_cons_self _ _)
      · rw [h11]
        exact list_insert_ordered_perm _ w s.ready_list

/-- C20 in handler_scene after thread 1 (priority 5) has gone down on semaphore 0 and blocked,
so that thread 0 (priority 1) runs: a sema_up on the semaphore from an interrupt handler
returns, thread 0 is still the running thread, and thread 1, which outranks it, is READY on the
ready list. -/
theorem C20_sema_up_in_handler_witness :
    (∃ s', sema_up (.sema 0) { handler_blocked_scene with intr_context := true } = .ret 0 s' ∧
      s'.current = 0 ∧ (s'.sema (.sema 0)).value = 1) ∧
    (step (.interrupt (.sema_up (.sema 0))) handler_blocked_scene).map (fun s =>
        (s.current, (s.threads 0).status, (s.threads 1).status, (s.threads 1).priority,
          s.ready_list)) =
      some (0, Status.THREAD_RUNNING, Status.THREAD_READY, 5, [1]) := by
  refine ⟨?_, by decide!⟩
  obtain ⟨s', h1, h2, -, h4, -⟩ := C20_sema_up_in_handler
    { handler_blocked_scene with intr_context := true } (.sema 0) rfl (by decide!)
  exact ⟨s', h1, h2, by rw [h4]; decide!⟩

/-! ## C21: sema_down in an interrupt handler -/

/-- C21: sema_down has no assertion of its own on the interrupt context; only thread_block,
which it reaches when the counter is 0, has one. In handler_scene with the counter of semaphore
0 set to 1, a sema_down from an interrupt handler returns and leaves the counter at 0; so it
does for every semaphore with a counter other than 0 in every state. With the counter at 0
the call fails the assertion of thread_block. -/
theorem C21_sema_down_in_handler_decrements :
    (step (.interrupt (.sema_down (.sema 0))) (sema_init (.sema 0) 1 handler_scene)).map
      (fun s => ((s.semas 0).value, s.current)) = some (0, 1) ∧
    (sema_down (.sema 0)
      { sema_init (.sema 0) 1 handler_scene with intr_context := true }).returned = true ∧
    (sema_down (.sema 0) { handler_scene with intr_context := true }).failure
      = some Fault.panic ∧
    (∀ (s : State) (sema : SemaRef), s.intr_context = true → (s.sema sema).value ≠ 0 →
      sema_down sema s = .ret 0 (s.set_sema sema { s.sema sema with
        value := ((s.sema sema).value + (UINT_MOD - 1)) % UINT_MOD })) := by
  refine ⟨by decide!, by decide!, by decide!, ?_⟩
  intro s sema _ hv
  exact sema_down_pos s sema hv

/-! ## C22: thread_set_priority under a donation -/

/-- C22 (the code breaks it). After refresh_trace thread 0 runs and holds lock 1, listed in its
hold_list; thread 1 (priority 5) and thread 2 wait on lock 1 in that order, and thread 2 has
been raised to 7 while waiting, a donation that has reached thread 0, which runs at priority 7
over the base priority 1. Its call thread_set_priority(3) sets init_priority to 3 and leaves
it at priority 5, the priority of the front waiter, below the 7 of thread 2, which still waits
on lock 1. -/
theorem C22_set_priority_reads_front_only :
    (run refresh_trace refresh_scene).map (fun s =>
        (s.current, (s.threads 0).priority, (s.threads 0).init_priority,
          (s.threads 0).hold_list, (s.locks 1).holder))
      = some (0, 7, 1, [1], some 0) ∧
    (run refresh_trace refresh_scene).map (fun s =>
        ((s.locks 1).semaphore.waiters, (s.locks 1).semaphore.waiters.map s.prio,
          (s.threads 1).wait_on_lock, (s.threads 2).wait_on_lock))
      = some ([1, 2], [5, 7], some 1, some 1) ∧
    (run (refresh_trace ++ [.call (.thread_set_priority 3)]) refresh_scene).map (fun s =>
        (s.current, (s.threads 0).priority, (s.threads 0).init_priority,
          (s.locks 1).semaphore.waiters.map s.prio))
      = some (0, 5, 3, [5, 7]) := by
  refine ⟨by decide!, by decide!, by decide!⟩

/-! ## C26: the preemption check -/

/-- C26. With a valid running thread, thread_test_preemption is thread_yield when the ready
list is not empty and its head has strictly greater priority than the running thread; with an
empty ready list, or a head of equal or lower priority, it returns and the state is the one it
was called in. thread_yield itself never just returns: it dispatches or fails. -/
theorem C26_thread_test_preemption (s : State) (hthread : is_thread s s.current)
    (hrun : (s.threads s.current).status = Status.THREAD_RUNNING) :
    (s.ready_list = [] → thread_test_preemption s = .ret 0 s) ∧
    (∀ head rest, s.ready_list = head :: rest →
      (s.threads head).priority > (s.threads s.current).priority →
      thread_test_preemption s = thread_yield s) ∧
    (∀ head rest, s.ready_list = head :: rest →
      ¬ (s.threads head).priority > (s.threads s.current).priority →
      thread_test_preemption s = .ret 0 s) ∧
    (thread_yield s).returned = false := by
  refine ⟨?_, ?_, ?_, ?_⟩
  · intro h
    unfold thread_test_preemption
    rw [h]
  · intro head rest h hgt
    unfold thread_test_preemption
    rw [h]
    simp only
    rw [thread_current_ok s hthread hrun]
    simp only
    rw [if_pos hgt]
  · intro head rest h hgt
    unfold thread_test_preemption
    rw [h]
    simp only
    rw [thread_current_ok s hthread hrun]
    simp only
    rw [if_neg hgt]
  · unfold thread_yield
    rw [thread_current_ok s hthread hrun]
    simp only
    split
    · rfl
    · split <;> rfl

/-- C26 at ready_scene, where thread 0 runs at priority 31 and the head of the ready list has
priority 40: the check yields and thread 1 is dispatched. -/
theorem C26_thread_test_preemption_witness :
    is_thread ready_scene ready_scene.current ∧
    thread_test_preemption ready_scene = thread_yield ready_scene ∧
    (thread_test_preemption ready_scene).state.map (fun s => (s.current, s.ready_list))
      = some (1, [0, 2]) :=
  ⟨by decide!,
    (C26_thread_test_preemption ready_scene (by decide!) (by decide!)).2.1 1 [2] (by decide!)
      (by decide!),
    by decide!⟩

/-! ## C29: deferred destruction -/

/-- C29: in exit_scene thread 1 exits: it is DYING, off the ready list and queued for
destruction once, and thread 2 runs. Thread 2 then blocks, in sema_down on the counter 0 or by
thread_block itself, and the dispatcher runs for thread 0: the page of thread 1 is still
queued and has not been freed, because thread_block calls schedule and not do_schedule, where
the queue is emptied. Had thread 2 yielded instead, the page would have been freed. -/
theorem C29_thread_block_frees_nothing :
    (run [.call .thread_exit] exit_scene).map (fun s =>
        (s.current, (s.threads 1).status, s.ready_list, s.destruction_req, s.freed))
      = some (2, Status.THREAD_DYING, [0], [1], []) ∧
    (run [.call .thread_exit, .call (.sema_down (.sema 0))] exit_scene).map (fun s =>
        (s.current, (s.threads 2).status, s.destruction_req, s.freed))
      = some (0, Status.THREAD_BLOCKED, [1], []) ∧
    (run [.call .thread_exit, .call .thread_block] exit_scene).map (fun s =>
        (s.current, (s.threads 2).status, s.destruction_req, s.freed))
      = some (0, Status.THREAD_BLOCKED, [1], []) ∧
    (run [.call .thread_exit, .call .thread_yield] exit_scene).map (fun s =>
        (s.current, (s.threads 2).status, s.destruction_req, s.freed))
      = some (0, Status.THREAD_READY, [], [1]) := by
  refine ⟨by decide!, by decide!, by decide!, by decide!⟩

/-! ## C27, C28: the donation loop ends, raises only, and stays on the chain -/

/-- More fuel does not change a donation loop that came back. -/
theorem donate_loop_mono (fuel : Nat) : ∀ (s : State) (cur_t : Nat) (cur_lock : Option Nat)
    (s' : State) (k : Nat), donate_loop fuel cur_t cur_lock s = .ok s' →
      donate_loop (fuel + k) cur_t cur_lock s = .ok s' := by
  induction fuel with
  | zero => intro s cur_t cur_lock s' k h; cases h
  | succ fuel ih =>
    intro s cur_t cur_lock s' k h
    rw [Nat.add_right_comm]
    unfold donate_loop at h ⊢
    cases cur_lock with
    | none => exact h
    | some l =>
      simp only at h ⊢
      cases hh : (s.locks l).holder with
      | none => rw [hh] at h; exact h
      | some hd =>
        rw [hh] at h
        simp only at h ⊢
        by_cases hlt : (s.threads hd).priority < (s.threads cur_t).priority
        · rw [if_pos hlt] at h ⊢
          exact ih _ _ _ _ k h
        · rw [if_neg hlt] at h ⊢
          exact h

/-- The donation loop comes back with every amount of fuel above the number of threads whose
priority is below the one it carries, and always with the same state. -/
theorem donate_loop_total (s : State) (cur_t : Nat) (cur_lock : Option Nat)
    (hwf : holders_in_memory s) :
    ∃ s', ∀ fuel, below s (s.prio cur_t) < fuel → donate_loop fuel cur_t cur_lock s = .ok s' := by
  obtain ⟨s', h, -⟩ := donate_loop_spec (below s (s.prio cur_t) + 1) s cur_t cur_lock hwf
    (Nat.lt_succ_self _)
  refine ⟨s', fun fuel hf => ?_⟩
  obtain ⟨k, rfl⟩ := Nat.exists_eq_add_of_le (Nat.succ_le_of_lt hf)
  exact donate_loop_mono _ _ _ _ _ k h

/-- Called by a valid running thread, donate_priority comes back, and its loop comes back with
the same state on every amount of fuel above the number of threads below the caller. -/
theorem donate_priority_total (s : State) (hthread : is_thread s s.current)
    (hrun : (s.threads s.current).status = Status.THREAD_RUNNING)
    (hwf : holders_in_memory s) :
    ∃ s', donate_priority s = .ok s' ∧
      ∀ fuel, below s (s.prio s.current) < fuel →
        donate_loop fuel s.current (s.threads s.current).wait_on_lock s = .ok s' := by
  obtain ⟨s', h⟩ := donate_loop_total s s.current (s.threads s.current).wait_on_lock hwf
  refine ⟨s', ?_, h⟩
  have h1 := h (s.mem_pages + 1) (Nat.lt_succ_of_le (below_le _ _))
  unfold donate_priority
  rw [thread_current_ok s hthread hrun]
  simp only
  cases hw : (s.threads s.current).wait_on_lock with
  | none =>
    rw [hw] at h1
    simpa [donate_loop] using h1
  | some l =>
    rw [hw] at h1
    simp only
    cases hh : (s.locks l).holder with
    | none =>
      simp only
      unfold donate_loop at h1
      simpa [hh] using h1
    | some hd => exact h1

theorem cycle_scene_holders : holders_in_memory cycle_scene := by
  intro l h hl
  by_cases h1 : l = 1
  · subst h1; cases hl; decide
  · by_cases h2 : l = 2
    · subst h2; cases hl; decide
    · by_cases h3 : l = 3
      · subst h3; cases hl; decide
      · simp [cycle_scene] at hl

theorem on_chain_congr (s s1 : State) (hl : s1.locks = s.locks)
    (hw : ∀ u, (s1.threads u).wait_on_lock = (s.threads u).wait_on_lock)
    (o : Option Nat) (t : Nat) (h : on_chain s1 o t) : on_chain s o t := by
  induction h with
  | holder l h hh => exact on_chain.holder l h (by rw [← hl]; exact hh)
  | next l h t hh _ ih =>
    exact on_chain.next l h t (by rw [← hl]; exact hh) (by rw [← hw h]; exact ih)

/-- Whenever the donation loop comes back, every thread whose priority it changed is on the
wait-for chain from the lock pointer it started with and has the priority it carried. -/
theorem donate_loop_on_chain (fuel : Nat) : ∀ (s : State) (cur_t : Nat) (cur_lock : Option Nat)
    (s' : State), donate_loop fuel cur_t cur_lock s = .ok s' →
      ∀ t, s'.prio t ≠ s.prio t → on_chain s cur_lock t ∧ s'.prio t = s.prio cur_t := by
  induction fuel with
  | zero => intro s cur_t cur_lock s' h; cases h
  | succ fuel ih =>
    intro s cur_t cur_lock s' h
    unfold donate_loop at h
    cases cur_lock with
    | none => cases h; intro t ht; exact absurd rfl ht
    | some l =>
      simp only at h
      cases hh : (s.locks l).holder with
      | none => rw [hh] at h; cases h; intro t ht; exact absurd rfl ht
      | some hd =>
        rw [hh] at h
        simp only at h
        by_cases hlt : (s.threads hd).priority < (s.threads cur_t).priority
        · rw [if_pos hlt] at h
          have hrec := ih _ _ _ _ h
          have hp1 : (s.set_thread hd { s.threads hd with
              priority := (s.threads cur_t).priority }).prio hd = s.prio cur_t := by
            simp [State.prio, State.set_thread]
          have hw1 : ∀ u, ((s.set_thread hd { s.threads hd with
              priority := (s.threads cur_t).priority }).threads u).wait_on_lock =
                (s.threads u).wait_on_lock := by
            intro u
            by_cases hu : u = hd
            · subst hu; simp [State.set_thread]
            · simp [State.set_thread, Function.update_noteq hu]
          intro t ht
          by_cases hc : s'.prio t = (s.set_thread hd { s.threads hd with
              priority := (s.threads cur_t).priority }).prio t
          · have hthd : t = hd := by
              by_contra hne
              apply ht
              rw [hc]
              simp [State.prio, State.set_thread, Function.update_noteq hne]
            subst hthd
            exact ⟨on_chain.holder l t hh, by rw [hc, hp1]⟩
          · obtain ⟨c1, c2⟩ := hrec t hc
            rw [hp1] at c2
            refine ⟨on_chain.next l hd t hh ?_, c2⟩
            rw [← hw1 hd]
            exact on_chain_congr s _ (by simp [State.set_thread]) hw1 _ t c1
        · rw [if_neg hlt] at h
          cases h; intro t ht; exact absurd rfl ht

/-- Whenever donate_priority comes back, every thread whose priority it changed is on the
wait-for chain of the caller and has the caller's priority. -/
theorem donate_priority_on_chain (s s' : State) (h : donate_priority s = .ok s') :
    ∀ t, s'.prio t ≠ s.prio t →
      on_chain s (s.threads s.current).wait_on_lock t ∧ s'.prio t = s.prio s.current := by
  unfold donate_priority at h
  cases hc : thread_current s with
  | error f => rw [hc] at h; cases h
  | ok cur_t =>
    rw [hc] at h
    obtain ⟨e, -, -⟩ := thread_current_eq s cur_t hc
    subst e
    simp only at h
    cases hw : (s.threads s.current).wait_on_lock with
    | none => rw [hw] at h; cases h; intro t ht; exact absurd rfl ht
    | some l =>
      rw [hw] at h
      simp only at h
      cases hh : (s.locks l).holder with
      | none => rw [hh] at h; cases h; intro t ht; exact absurd rfl ht
      | some hd =>
        rw [hh] at h
        exact donate_loop_on_chain _ _ _ _ _ h

/-- C27. In a state whose holder pointers lie in the finitely many thread pages, donate_priority
never runs on without end, whatever the shape of the wait-for chain, a cycle included. Called
by a valid running thread it comes back: its loop comes back, with the same state, on every
amount of fuel above the number of threads whose priority is below the caller's at entry; a
turn of the loop takes one unit of fuel and the closing test one more, so the loop makes at
most that many turns. Every thread whose priority a turn changed was strictly below the
caller's priority and has been raised to it. -/
theorem C27_donate_priority_terminates (s : State) (hwf : holders_in_memory s) :
    donate_priority s ≠ .error .diverge ∧
    (is_thread s s.current → (s.threads s.current).status = Status.THREAD_RUNNING →
      ∃ s', donate_priority s = .ok s' ∧
        donate_loop (below s (s.prio s.current) + 1) s.current
          (s.threads s.current).wait_on_lock s = .ok s' ∧
        (∀ fuel, below s (s.prio s.current) < fuel →
          donate_loop fuel s.current (s.threads s.current).wait_on_lock s = .ok s') ∧
        (∀ t, s'.prio t ≠ s.prio t →
          s.prio t < s.prio s.current ∧ s'.prio t = s.prio s.current)) := by
  have key : is_thread s s.current → (s.threads s.current).status = Status.THREAD_RUNNING →
      ∃ s', donate_priority s = .ok s' ∧
        donate_loop (below s (s.prio s.current) + 1) s.current
          (s.threads s.current).wait_on_lock s = .ok s' ∧
        (∀ fuel, below s (s.prio s.current) < fuel →
          donate_loop fuel s.current (s.threads s.current).wait_on_lock s = .ok s') ∧
        (∀ t, s'.prio t ≠ s.prio t →
          s.prio t < s.prio s.current ∧ s'.prio t = s.prio s.current) := by
    intro hthread hrun
    obtain ⟨s', h1, h2⟩ := donate_priority_total s hthread hrun hwf
    refine ⟨s', h1, h2 _ (Nat.lt_succ_self _), h2, ?_⟩
    intro t ht
    have e := (donate_priority_on_chain s s' h1 t ht).2
    refine ⟨?_, e⟩
    have hle := (donate_priority_frame s s' h1).1 t
    rw [← e]
    exact lt_of_le_of_ne hle (Ne.symm ht)
  refine ⟨?_, key⟩
  intro h
  cases hc : thread_current s with
  | error f =>
    have hf := thread_current_panic s f hc
    unfold donate_priority at h
    rw [hc, hf] at h
    cases h
  | ok c =>
    obtain ⟨e, h1, h2⟩ := thread_current_eq s c hc
    subst e
    obtain ⟨s', h3, -⟩ := key h1 h2
    rw [h3] at h
    cases h

/-- C27 at cycle_scene, where thread 1 waits on a lock of thread 2 and thread 2 on a lock of
thread 1: the donation of thread 0 comes back, with both raised to 10 and thread 3 at 4. -/
theorem C27_donate_priority_terminates_witness :
    cycle_scene.locks 2 = { holder := some 2, semaphore := { value := 0, waiters := [1] } } ∧
    cycle_scene.locks 3 = { holder := some 1, semaphore := { value := 0, waiters := [2] } } ∧
    (cycle_scene.threads 1).wait_on_lock = some 2 ∧
    (cycle_scene.threads 2).wait_on_lock = some 3 ∧
    (∃ s', donate_priority cycle_scene = .ok s' ∧
      donate_loop (below cycle_scene (cycle_scene.prio cycle_scene.current) + 1)
        cycle_scene.current (cycle_scene.threads cycle_scene.current).wait_on_lock
        cycle_scene = .ok s') ∧
    (donate_priority cycle_scene).toOption.map (fun s => [0, 1, 2, 3].map s.prio) =
      some [10, 10, 10, 4] :=
  ⟨by decide!, by decide!, by decide!, by decide!,
    ((C27_donate_priority_terminates cycle_scene cycle_scene_holders).2
      (by decide!) (by decide!)).imp (fun _ h => ⟨h.1, h.2.1⟩),
    by decide!⟩

/-- C28. Whenever donate_priority comes back, no thread has a lower priority than before; a
thread whose priority changed is on the wait-for chain of the caller (holder of the lock the
caller waits on, holder of the lock that one waits on, and so on) and has exactly the caller's
priority; every thread record is as before but for its priority, so init_priority,
wait_on_lock, status and held-lock list are kept; and locks (holder, counter and wait list),
semaphores, condition variables, ready list and sleep list are the same. -/
theorem C28_donate_priority_frame (s s' : State) (h : donate_priority s = .ok s') :
    (∀ t, s.prio t ≤ s'.prio t) ∧
    (∀ t, s'.prio t ≠ s.prio t →
      on_chain s (s.threads s.current).wait_on_lock t ∧ s'.prio t = s.prio s.current) ∧
    (∀ t, s'.threads t = { s.threads t with priority := (s'.threads t).priority }) ∧
    (∀ t, (s'.threads t).init_priority = (s.threads t).init_priority ∧
      (s'.threads t).wait_on_lock = (s.threads t).wait_on_lock) ∧
    s'.locks = s.locks ∧ s'.semas = s.semas ∧ s'.conds = s.conds ∧
    s'.ready_list = s.ready_list ∧ s'.sleep_list = s.sleep_list ∧
    s' = { s with threads := s'.threads } := by
  obtain ⟨h1, h2, h3⟩ := donate_priority_frame s s' h
  refine ⟨h1, donate_priority_on_chain s s' h, h2, ?_, ?_, ?_, ?_, ?_, ?_, h3⟩
  · intro t; rw [h2 t]; exact ⟨rfl, rfl⟩
  all_goals rw [h3]

/-- C28 at chain_scene: the donation of thread 0 (priority 10) comes back; threads 1 and 2 on
its chain go from 1 to 10, nothing is lowered and the locks are as before. -/
theorem C28_donate_priority_frame_witness :
    ∃ s', donate_priority chain_scene = .ok s' ∧
      (∀ t, chain_scene.prio t ≤ s'.prio t) ∧
      (∀ t, s'.prio t ≠ chain_scene.prio t →
        on_chain chain_scene (chain_scene.threads chain_scene.current).wait_on_lock t ∧
          s'.prio t = chain_scene.prio chain_scene.current) ∧
      s'.locks = chain_scene.locks ∧ s'.ready_list = chain_scene.ready_list :=
  (donate_priority_total chain_scene (by decide!) (by decide!) chain_scene_holders).imp
    (fun s' h =>
      have r := C28_donate_priority_frame chain_scene s' h.1
      ⟨h.1, r.1, r.2.1, r.2.2.2.2.1, r.2.2.2.2.2.2.2.1⟩)

/-! ## C23: thread_yield -/

/-- The thread thread_yield dispatches and the ready list it leaves: front and rest of the list
handed to the dispatcher. -/
theorem thread_yield_full (s : State) (n : Nat) (hintr : s.intr_context = false)
    (hcur : is_thread s s.current)
    (hrun : (s.threads s.current).status = Status.THREAD_RUNNING)
    (hnext : (next_thread_to_run
      (if some s.current ≠ s.idle_thread
       then { s with ready_list := list_insert_ordered (thread_cmp_priority s) s.current s.ready_list }
       else s)).1 = some n)
    (hn : is_thread s n) :
    ∃ s', thread_yield s = .switched s' [] ∧ s'.current = n ∧
      s'.ready_list = (if some s.current ≠ s.idle_thread
        then list_insert_ordered (thread_cmp_priority s) s.current s.ready_list
        else s.ready_list).tail ∧
      (s'.threads n).status = Status.THREAD_RUNNING ∧
      (n ≠ s.current → (s'.threads s.current).status = Status.THREAD_READY) ∧
      (∀ t, s'.threads t = { s.threads t with status := (s'.threads t).status }) := by
  have hi : ¬ (s.intr_context = true) := by rw [hintr]; decide
  by_cases hidle : some s.current ≠ s.idle_thread
  · rw [if_pos hidle] at hnext
    obtain ⟨s', h1, h2, h3, h4, h5, -, h7, -⟩ := do_schedule_spec Status.THREAD_READY
      { s with ready_list := list_insert_ordered (thread_cmp_priority s) s.current s.ready_list }
      n hcur hrun (by decide) hnext hn
    refine ⟨s', ?_, h2, ?_, h4, h5, h7⟩
    · unfold thread_yield
      rw [thread_current_ok s hcur hrun]
      simp only
      rw [if_neg hi, if_pos hidle, h1]
    · rw [if_pos hidle]; exact h3
  · rw [if_neg hidle] at hnext
    obtain ⟨s', h1, h2, h3, h4, h5, -, h7, -⟩ := do_schedule_spec Status.THREAD_READY
      s n hcur hrun (by decide) hnext hn
    refine ⟨s', ?_, h2, ?_, h4, h5, h7⟩
    · unfold thread_yield
      rw [thread_current_ok s hcur hrun]
      simp only
      rw [if_neg hi, if_neg hidle, h1]
    · rw [if_neg hidle]; exact h3

/-- In a list sorted by non-increasing priority, the ordered insertion of c splits the list
into the entries of priority at least that of c and the entries below it. -/
theorem ready_insert_split (s : State) (c : Nat) (l : List Nat)
    (hsorted : l.Pairwise (fun a b => s.prio a ≥ s.prio b)) :
    ∃ front back, l = front ++ back ∧
      list_insert_ordered (thread_cmp_priority s) c l = front ++ c :: back ∧
      (∀ e ∈ front, s.prio e ≥ s.prio c) ∧ (∀ e ∈ back, s.prio e < s.prio c) := by
  obtain ⟨front, back, h1, h2, h3, h4⟩ := list_insert_ordered_split (thread_cmp_priority s) c l
  refine ⟨front, back, h1, h2, ?_, ?_⟩
  · intro e he
    have := h3 e he
    simp only [thread_cmp_priority, decide_eq_false_iff_not, State.prio] at this ⊢
    exact not_lt.1 this
  · rw [h1] at hsorted
    have hb := (List.pairwise_append.1 hsorted).2.1
    cases back with
    | nil => intro e he; cases he
    | cons b rest =>
      have hb0 := h4 b rfl
      simp only [thread_cmp_priority, decide_eq_true_eq] at hb0
      intro e he
      rcases List.mem_cons.1 he with rfl | he
      · exact hb0
      · exact lt_of_le_of_lt (List.rel_of_pairwise_cons hb he) hb0

/-- C23. A valid running thread c yields outside interrupt context, with a ready list sorted by
non-increasing priority whose threads are valid and READY. When c is not the idle thread, the
call dispatches: the ready list splits into the threads of priority at least that of c and
the threads below it, c is inserted between the two parts, and the head n of the resulting
list runs next, the rest being the new ready list. So n has priority at least that of c; n is
c itself when c strictly outranks every thread of the ready list; and when some thread of the
ready list has the priority of c, n is another thread and c is READY on the ready list. When
c is the idle thread, the call dispatches the head of the ready list (or c again when the list
is empty), the new ready list is the rest of the old one, and c is not on it. -/
theorem C23_thread_yield (s : State) (hthread : is_thread s s.current)
    (hrun : (s.threads s.current).status = Status.THREAD_RUNNING)
    (hintr : s.intr_context = false)
    (hsorted : s.ready_list.Pairwise (fun a b => s.prio a ≥ s.prio b))
    (hready : ∀ e ∈ s.ready_list,
      is_thread s e ∧ (s.threads e).status = Status.THREAD_READY) :
    (some s.current ≠ s.idle_thread →
      ∃ s' n front back, thread_yield s = .switched s' [] ∧
        s.ready_list = front ++ back ∧
        (∀ e ∈ front, s.prio e ≥ s.prio s.current) ∧
        (∀ e ∈ back, s.prio e < s.prio s.current) ∧
        n :: s'.ready_list = front ++ s.current :: back ∧
        s'.current = n ∧ (s'.threads n).status = Status.THREAD_RUNNING ∧
        s'.prio n = s.prio n ∧ s.prio n ≥ s.prio s.current ∧
        ((∀ e ∈ s.ready_list, s.prio e < s.prio s.current) → n = s.current) ∧
        ((∃ e ∈ s.ready_list, s.prio e = s.prio s.current) →
          n ≠ s.current ∧ n ∈ s.ready_list ∧ s.current ∈ s'.ready_list ∧
          (s'.threads s.current).status = Status.THREAD_READY)) ∧
    (some s.current = s.idle_thread →
      ∃ s', thread_yield s = .switched s' [] ∧
        s'.ready_list = s.ready_list.tail ∧ s.current ∉ s'.ready_list ∧
        (∀ n rest, s.ready_list = n :: rest → s'.current = n) ∧
        (s.ready_list = [] → s'.current = s.current)) := by
  have hnot : s.current ∉ s.ready_list := by
    intro hm
    have := (hready _ hm).2
    rw [hrun] at this
    cases this
  constructor
  · intro hidle
    obtain ⟨front, back, h1, h2, h3, h4⟩ := ready_insert_split s s.current s.ready_list hsorted
    cases front with
    | nil =>
      simp only [List.nil_append] at h1 h2
      obtain ⟨s', y1, y2, y3, y4, -, y6⟩ := thread_yield_full s s.current hintr hthread hrun
        (by rw [if_pos hidle]; exact next_thread_to_run_head _ _ back h2) hthread
      rw [if_pos hidle, h2] at y3
      refine ⟨s', s.current, [], back, y1, h1, h3, h4, ?_, y2, y4, ?_, le_refl _,
        fun _ => rfl, ?_⟩
      · rw [y3]; rfl
      · simp only [State.prio]; rw [y6]
      · rintro ⟨e, he, hp⟩
        rw [h1] at he
        exact absurd hp (ne_of_lt (h4 e he))
    | cons f fr =>
      have hf : f ∈ s.ready_list := by rw [h1]; simp
      have hne : f ≠ s.current := fun e => hnot (e ▸ hf)
      obtain ⟨s', y1, y2, y3, y4, y5, y6⟩ := thread_yield_full s f hintr hthread hrun
        (by rw [if_pos hidle]; exact next_thread_to_run_head _ _ (fr ++ s.current :: back) h2)
        (hready f hf).1
      rw [if_pos hidle, h2] at y3
      refine ⟨s', f, f :: fr, back, y1, h1, h3, h4, ?_, y2, y4, ?_, h3 f (by simp), ?_, ?_⟩
      · rw [y3]; rfl
      · simp only [State.prio]; rw [y6]
      · intro hall
        exact absurd (h3 f (by simp)) (not_le.2 (hall f hf))
      · intro _
        refine ⟨hne, hf, ?_, y5 hne⟩
        rw [y3]
        simp
  · intro hidle
    have hidle' : ¬ (some s.current ≠ s.idle_thread) := fun h => h hidle
    have htail : s.current ∉ s.ready_list.tail := fun hm => hnot (List.mem_of_mem_tail hm)
    cases hr : s.ready_list with
    | nil =>
      obtain ⟨s', y1, y2, y3, -⟩ := thread_yield_full s s.current hintr hthread hrun
        (by
          rw [if_neg hidle']
          unfold next_thread_to_run
          rw [hr]
          exact hidle.symm) hthread
      rw [if_neg hidle', hr] at y3
      refine ⟨s', y1, y3, ?_, ?_, fun _ => y2⟩
      · rw [y3]; simp
      · intro n rest h; cases h
    | cons f fr =>
      have hf : f ∈ s.ready_list := by rw [hr]; simp
      obtain ⟨s', y1, y2, y3, -⟩ := thread_yield_full s f hintr hthread hrun
        (by rw [if_neg hidle']; exact next_thread_to_run_head _ _ fr hr) (hready f hf).1
      rw [if_neg hidle', hr] at y3
      refine ⟨s', y1, y3, ?_, ?_, ?_⟩
      · rw [hr] at htail; rw [y3]; exact htail
      · intro n rest h; cases h; exact y2
      · intro h; cases h

/-- C23 at exit_scene, where thread 1 runs and threads 2 and 0 are READY, all with priority 31:
the yield dispatches another thread of that priority and leaves thread 1 READY on the ready
list; evaluated, thread 2 runs and the ready list is 0, 1. -/
theorem C23_thread_yield_witness :
    (∃ s' n, thread_yield exit_scene = .switched s' [] ∧ s'.current = n ∧
      n ≠ exit_scene.current ∧ exit_scene.current ∈ s'.ready_list ∧
      (s'.threads exit_scene.current).status = Status.THREAD_READY ∧
      exit_scene.prio n ≥ exit_scene.prio exit_scene.current) ∧
    (thread_yield exit_scene).state.map (fun s => (s.current, s.ready_list)) =
      some (2, [0, 1]) := by
  refine ⟨?_, by decide!⟩
  obtain ⟨s', n, front, back, h1, -, -, -, -, h6, -, -, h9, -, h11⟩ :=
    (C23_thread_yield exit_scene (by decide!) (by decide!) (by decide!)
      (by decide!) (by decide!)).1 (by decide!)
  obtain ⟨a, -, b, c⟩ := h11 ⟨2, by decide!, by decide!⟩
  exact ⟨s', n, h1, h6, a, b, c, h9⟩

/-! ## C25: the semaphore round trip -/

theorem set_sema_set_sema (s : State) (r : SemaRef) (a b : Semaphore) :
    (s.set_sema r a).set_sema r b = s.set_sema r b := by
  cases r <;> simp [State.set_sema, State.set_lock]

theorem set_sema_self (s : State) (r : SemaRef) (a : Semaphore) (h : a = s.sema r) :
    s.set_sema r a = s := by
  subst h
  cases r <;> simp [State.set_sema, State.set_lock, State.sema]

theorem uint_succ_down (v : Nat) (h : v + 1 < UINT_MOD) :
    (v + 1 + (UINT_MOD - 1)) % UINT_MOD = v := by
  unfold UINT_MOD at *
  omega

theorem uint_up (v : Nat) (h : v + 1 < UINT_MOD) : (v + 1) % UINT_MOD = v + 1 :=
  Nat.mod_eq_of_lt h

/-- The state sema_down leaves on a positive counter, with the new counter named. -/
theorem sema_down_to (s : State) (sema : SemaRef) (ws : List Nat) (w : Nat)
    (hv : (s.sema sema).value ≠ 0) (hw : (s.sema sema).waiters = ws)
    (hd : ((s.sema sema).value + (UINT_MOD - 1)) % UINT_MOD = w) :
    sema_down sema s = .ret 0 (s.set_sema sema { value := w, waiters := ws }) := by
  rw [sema_down_pos s sema hv]
  subst hd
  subst hw
  rfl

/-- After the dispatcher the caller has the status it came with, unless it was dispatched
again. -/
theorem schedule_caller (x s' : State) (h : schedule x = .ok s') :
    (s'.threads x.current).status = (x.threads x.current).status ∨
    (s'.threads x.current).status = Status.THREAD_RUNNING := by
  obtain ⟨n, -, -, -, hs⟩ := schedule_eq _ _ h
  obtain ⟨-, -, p3, p4, -⟩ := schedule_launch_props n { x with ready_list := x.ready_list.tail }
  by_cases hn : x.current = n
  · right
    rw [hs, hn]
    rw [hn] at p3
    exact p3
  · left
    rw [hs]
    exact congrArg Thread.status (p4 x.current hn)

/-- After do_schedule the caller has the status it asked for, unless it was dispatched again. -/
theorem do_schedule_caller (st : Status) (s s' : State) (h : do_schedule st s = .ok s') :
    (s'.threads s.current).status = st ∨
    (s'.threads s.current).status = Status.THREAD_RUNNING := by
  unfold do_schedule at h
  cases hc : thread_current s with
  | error f => rw [hc] at h; cases h
  | ok curr =>
    rw [hc] at h
    obtain ⟨e, -, -⟩ := thread_current_eq s curr hc
    subst e
    simp only at h
    have := schedule_caller _ _ h
    simpa [State.set_thread] using this

/-- A thread that yields is READY afterwards, or runs again: it is not BLOCKED. -/
theorem thread_yield_caller (s s' : State) (h : (thread_yield s).state = some s') :
    (s'.threads s.current).status = Status.THREAD_READY ∨
    (s'.threads s.current).status = Status.THREAD_RUNNING := by
  obtain ⟨curr, -, -, hd, -⟩ := thread_yield_state s s' h
  have := do_schedule_caller _ _ _ hd
  split at this
  · exact this
  · exact this

/-- With nobody waiting, sema_up is the increment followed by the preemption check. -/
theorem sema_up_empty (s : State) (sema : SemaRef) (w : Nat)
    (hw : (s.sema sema).waiters = [])
    (hv : ((s.sema sema).value + 1) % UINT_MOD = w) :
    sema_up sema s = test_max_priority (s.set_sema sema { value := w, waiters := [] }) := by
  subst hv
  unfold sema_up sema_up_wake
  rw [hw]
  simp only
  rw [← hw]

/-- A caller the preemption check switched out is READY or runs again: it is not BLOCKED. -/
theorem test_max_priority_caller (s s' : State) (k : List Frame)
    (h : test_max_priority s = .switched s' k) :
    (s'.threads s.current).status = Status.THREAD_READY ∨
    (s'.threads s.current).status = Status.THREAD_RUNNING := by
  unfold test_max_priority at h
  cases hr : s.ready_list with
  | nil => rw [hr] at h; cases h
  | cons a l =>
    rw [hr] at h
    simp only at h
    split at h
    · exact thread_yield_caller s s' (by rw [h]; rfl)
    · cases h

/-- One sema_up and one sema_down on a semaphore nobody waits on, whose counter is below the
greatest unsigned value: both return and the state is as before, or the preemption check of
sema_up switches the caller out with the counter one higher. -/
theorem sema_round_trip (s : State) (sema : SemaRef) (hthread : is_thread s s.current)
    (hrun : (s.threads s.current).status = Status.THREAD_RUNNING)
    (hintr : s.intr_context = false) (hready : ∀ x ∈ s.ready_list, is_thread s x)
    (hw : (s.sema sema).waiters = []) (hv : (s.sema sema).value + 1 < UINT_MOD) :
    (∃ s1, sema_up sema s = .ret 0 s1 ∧ (s1.sema sema).value = (s.sema sema).value + 1 ∧
      (s1.sema sema).waiters = [] ∧ sema_down sema s1 = .ret 0 s) ∨
    (∃ s1, sema_up sema s = .switched s1 [] ∧ (s1.sema sema).value = (s.sema sema).value + 1 ∧
      (s1.sema sema).waiters = [] ∧
      ((s1.threads s.current).status = Status.THREAD_READY ∨
       (s1.threads s.current).status = Status.THREAD_RUNNING)) := by
  rw [sema_up_empty s sema ((s.sema sema).value + 1) hw (uint_up _ hv)]
  have hs1 : (s.set_sema sema { value := (s.sema sema).value + 1, waiters := [] }).sema sema =
      { value := (s.sema sema).value + 1, waiters := [] } := sema_set_sema _ _ _
  rcases test_max_priority_cases
      (s.set_sema sema { value := (s.sema sema).value + 1, waiters := [] })
      (by unfold is_thread at hthread ⊢; rw [set_sema_current, set_sema_threads]; exact hthread)
      (by rw [set_sema_current, set_sema_threads]; exact hrun)
      (by rw [set_sema_intr_context]; exact hintr)
      (by
        intro x hx
        rw [set_sema_ready_list] at hx
        unfold is_thread
        rw [set_sema_threads]
        exact hready x hx) with h | ⟨s', h, hd⟩
  · left
    refine ⟨_, h, by rw [hs1], by rw [hs1], ?_⟩
    rw [sema_down_to _ sema [] (s.sema sema).value (by rw [hs1]; exact Nat.succ_ne_zero _)
      (by rw [hs1]) (by rw [hs1]; exact uint_succ_down _ hv)]
    rw [set_sema_set_sema, set_sema_self]
    rw [← hw]
  · right
    have hc := test_max_priority_caller _ _ _ h
    rw [set_sema_current] at hc
    exact ⟨s', h, by rw [dispatched_sema _ _ hd, hs1], by rw [dispatched_sema _ _ hd, hs1], hc⟩

/-- When no thread at the head of the ready list outranks the running thread, the preemption
check returns at once. -/
theorem test_max_priority_quiet (s : State)
    (hq : ∀ head rest, s.ready_list = head :: rest →
      ¬ (s.threads head).priority > (s.threads s.current).priority) :
    test_max_priority s = .ret 0 s := by
  unfold test_max_priority
  cases hr : s.ready_list with
  | nil => rfl
  | cons a l =>
    simp only
    rw [if_neg (fun h => hq a l hr h.2)]

/-- Any number of rounds of sema_up then sema_down, with nobody waiting, the counter below the
greatest unsigned value and no ready thread outranking the caller: every call returns and the
state is as before. -/
theorem round_trips_spec (sema : SemaRef) (s : State)
    (hq : ∀ head rest, s.ready_list = head :: rest →
      ¬ (s.threads head).priority > (s.threads s.current).priority)
    (hw : (s.sema sema).waiters = []) (hv : (s.sema sema).value + 1 < UINT_MOD) (n : Nat) :
    round_trips sema n s = some s := by
  have hs1 : (s.set_sema sema { value := (s.sema sema).value + 1, waiters := [] }).sema sema =
      { value := (s.sema sema).value + 1, waiters := [] } := sema_set_sema _ _ _
  have hup : sema_up sema s =
      .ret 0 (s.set_sema sema { value := (s.sema sema).value + 1, waiters := [] }) := by
    rw [sema_up_empty s sema ((s.sema sema).value + 1) hw (uint_up _ hv)]
    apply test_max_priority_quiet
    intro head rest hr
    rw [set_sema_ready_list] at hr
    rw [set_sema_current, set_sema_threads]
    exact hq head rest hr
  have hdown : sema_down sema
      (s.set_sema sema { value := (s.sema sema).value + 1, waiters := [] }) = .ret 0 s := by
    rw [sema_down_to _ sema [] (s.sema sema).value (by rw [hs1]; exact Nat.succ_ne_zero _)
      (by rw [hs1]) (by rw [hs1]; exact uint_succ_down _ hv)]
    rw [set_sema_set_sema, set_sema_self]
    rw [← hw]
  induction n with
  | zero => rfl
  | succ n ih =>
    unfold round_trips
    rw [hup]
    simp only
    rw [hdown]
    exact ih

/-- Along a run of sema_up and sema_down in which every sema_down finds a positive counter,
the counter moves by the number of increments less the number of decrements, modulo the range
of unsigned. -/
theorem sema_run_positive_value (sema : SemaRef) (ops : List SemaOp) :
    ∀ (s s' : State), (s.sema sema).value < UINT_MOD →
      (∀ op ∈ ops, op = SemaOp.sema_up ∨ op = SemaOp.sema_down) →
      sema_run_positive sema ops s = some s' →
      ((s'.sema sema).value + count_down ops) % UINT_MOD =
        ((s.sema sema).value + count_up ops) % UINT_MOD ∧
      (s'.sema sema).value < UINT_MOD := by
  induction ops with
  | nil =>
    intro s s' hv _ h
    simp only [sema_run_positive, Option.some.injEq] at h
    subst h
    exact ⟨rfl, hv⟩
  | cons op ops ih =>
    intro s s' hv hops h
    have hrest : ∀ o ∈ ops, o = SemaOp.sema_up ∨ o = SemaOp.sema_down :=
      fun o ho => hops o (List.mem_cons_of_mem _ ho)
    rcases hops op (List.mem_cons_self _ _) with e | e
    · subst e
      simp only [sema_run_positive, sema_op] at h
      cases hu : (sema_up sema s).state with
      | none => rw [hu] at h; cases h
      | some s1 =>
        rw [hu] at h
        simp only [Option.some_bind] at h
        have hval := (sema_up_frame sema s s1 hu).1
        have hlt : (s1.sema sema).value < UINT_MOD := by
          rw [hval]; exact Nat.mod_lt _ (by decide)
        obtain ⟨i1, i2⟩ := ih s1 s' hlt hrest h
        refine ⟨?_, i2⟩
        simp only [count_up, count_down]
        generalize (s1.sema sema).value = a at *
        generalize (s.sema sema).value = b at *
        generalize (s'.sema sema).value = c at *
        unfold UINT_MOD at *
        omega
    · subst e
      simp only [sema_run_positive, sema_op] at h
      by_cases h0 : (s.sema sema).value = 0
      · rw [if_pos h0] at h; cases h
      · rw [if_neg h0] at h
        rw [sema_down_pos s sema h0] at h
        simp only [Res.state, Option.some_bind] at h
        have hval : ((s.set_sema sema { s.sema sema with
            value := ((s.sema sema).value + (UINT_MOD - 1)) % UINT_MOD }).sema sema).value =
            ((s.sema sema).value + (UINT_MOD - 1)) % UINT_MOD := by
          rw [sema_set_sema]
        generalize (s.set_sema sema { s.sema sema with
            value := ((s.sema sema).value + (UINT_MOD - 1)) % UINT_MOD }) = s1 at h hval
        have hlt : (s1.sema sema).value < UINT_MOD := by
          rw [hval]; exact Nat.mod_lt _ (by decide)
        obtain ⟨i1, i2⟩ := ih s1 s' hlt hrest h
        refine ⟨?_, i2⟩
        simp only [count_up, count_down]
        generalize (s1.sema sema).value = a at *
        generalize (s.sema sema).value = b at *
        generalize (s'.sema sema).value = c at *
        unfold UINT_MOD at *
        omega

/-- C25, the claim as stated fails in two ways. At the greatest unsigned value: on a semaphore
with counter 4294967295 and nobody waiting, sema_up returns with the counter wrapped to 0, and
the sema_down that follows finds 0 and blocks its caller (thread 1), which is then on the wait
list. And under a READY thread that outranks the caller: in ready_scene thread 0 (priority 31)
calls sema_up on semaphore 0 (counter 0, nobody waiting) and is switched out by the preemption
check in favour of thread 1 (priority 40) with the counter at 1; thread 1 takes the permit with
sema_down and exits; thread 0 runs again and its sema_down finds the counter at 0 and blocks. -/
theorem C25_round_trip_wraps_at_max :
    (((sema_init (.sema 0) (UINT_MOD - 1) handler_scene).semas 0).value = 4294967295 ∧
      ((sema_init (.sema 0) (UINT_MOD - 1) handler_scene).semas 0).waiters = [] ∧
      (sema_up (.sema 0) (sema_init (.sema 0) (UINT_MOD - 1) handler_scene)).returned = true ∧
      (sema_up (.sema 0) (sema_init (.sema 0) (UINT_MOD - 1) handler_scene)).state.map
        (fun s => ((s.semas 0).value, (sema_down (.sema 0) s).returned)) = some (0, false) ∧
      (run [.call (.sema_up (.sema 0)), .call (.sema_down (.sema 0))]
        (sema_init (.sema 0) (UINT_MOD - 1) handler_scene)).map
        (fun s => ((s.semas 0).value, (s.semas 0).waiters, (s.threads 1).status, s.current)) =
        some (0, [1], Status.THREAD_BLOCKED, 0)) ∧
    ((ready_scene.current, (ready_scene.semas 0).value, (ready_scene.semas 0).waiters) =
        (0, 0, []) ∧
      (sema_up (.sema 0) ready_scene).returned = false ∧
      (run [.call (.sema_up (.sema 0))] ready_scene).map
        (fun s => (s.current, (s.semas 0).value, (s.semas 0).waiters, s.ready_list)) =
        some (1, 1, [], [0, 2]) ∧
      (run [.call (.sema_up (.sema 0)), .call (.sema_down (.sema 0)), .call .thread_exit]
        ready_scene).map
        (fun s => (s.current, (s.semas 0).value, (s.semas 0).waiters, s.frames 0)) =
        some (0, 0, [], []) ∧
      (run [.call (.sema_up (.sema 0)), .call (.sema_down (.sema 0)), .call .thread_exit,
          .call (.sema_down (.sema 0))] ready_scene).map
        (fun s => ((s.semas 0).value, (s.semas 0).waiters, (s.threads 0).status, s.current)) =
        some (0, [0], Status.THREAD_BLOCKED, 2)) :=
  ⟨⟨by decide!, by decide!, by decide!, by decide!, by decide!⟩,
    ⟨by decide!, by decide!, by decide!, by decide!, by decide!⟩⟩

/-- C25, amended. The running thread calls sema_up and then sema_down on a semaphore nobody
waits on whose counter v is below the greatest unsigned value, while the thread at the head of
the ready list, if there is one, has no higher priority than the running thread. sema_up
returns with counter v + 1 and nobody waiting, the sema_down that follows returns without
blocking, and the state is as before the two calls (counter v, nobody waiting); any number of
such rounds return and leave the state as it was. More generally, for every state with the
counter in the range of unsigned and every sequence of sema_up and sema_down with as many of
the one as of the other, each sema_down finding a positive counter, the counter at the end is
the counter at the start. -/
theorem C25_sema_round_trip (s : State) (sema : SemaRef)
    (hq : ∀ head rest, s.ready_list = head :: rest →
      (s.threads head).priority ≤ (s.threads s.current).priority)
    (hw : (s.sema sema).waiters = []) (hv : (s.sema sema).value + 1 < UINT_MOD) :
    (∃ s1, sema_up sema s = .ret 0 s1 ∧ (s1.sema sema).value = (s.sema sema).value + 1 ∧
      (s1.sema sema).waiters = [] ∧ sema_down sema s1 = .ret 0 s) ∧
    (∀ n, round_trips sema n s = some s) ∧
    (∀ (x x' : State) (ops : List SemaOp), (x.sema sema).value < UINT_MOD →
      (∀ op ∈ ops, op = SemaOp.sema_up ∨ op = SemaOp.sema_down) →
      count_up ops = count_down ops →
      sema_run_positive sema ops x = some x' →
      (x'.sema sema).value = (x.sema sema).value) := by
  have hq' : ∀ head rest, s.ready_list = head :: rest →
      ¬ (s.threads head).priority > (s.threads s.current).priority :=
    fun head rest h => not_lt.2 (hq head rest h)
  have hs1 : (s.set_sema sema { value := (s.sema sema).value + 1, waiters := [] }).sema sema =
      { value := (s.sema sema).value + 1, waiters := [] } := sema_set_sema _ _ _
  refine ⟨⟨s.set_sema sema { value := (s.sema sema).value + 1, waiters := [] }, ?_,
    by rw [hs1], by rw [hs1], ?_⟩, fun n => round_trips_spec sema s hq' hw hv n, ?_⟩
  · rw [sema_up_empty s sema ((s.sema sema).value + 1) hw (uint_up _ hv)]
    apply test_max_priority_quiet
    intro head rest hr
    rw [set_sema_ready_list] at hr
    rw [set_sema_current, set_sema_threads]
    exact hq' head rest hr
  · rw [sema_down_to _ sema [] (s.sema sema).value (by rw [hs1]; exact Nat.succ_ne_zero _)
      (by rw [hs1]) (by rw [hs1]; exact uint_succ_down _ hv)]
    rw [set_sema_set_sema, set_sema_self]
    rw [← hw]
  · intro x x' ops hx hops hc hr
    obtain ⟨i1, i2⟩ := sema_run_positive_value sema ops x x' hx hops hr
    rw [hc] at i1
    generalize (x.sema sema).value = a at *
    generalize (x'.sema sema).value = b at *
    generalize count_down ops = c at *
    unfold UINT_MOD at *
    omega

/-- C25 on semaphore 0 initialised to 0 in handler_scene, where thread 1 (priority 5) runs and
thread 0 (priority 1) is READY: sema_up then sema_down return and leave the state as it was, and
so do ten such rounds; and the run of sema_self_test from boot, ten sema_up and ten sema_down on
each of two semaphores initialised to 0, ends with both counters at 0 and nobody waiting. -/
theorem C25_sema_round_trip_witness :
    (∃ s1, sema_up (.sema 0) (sema_init (.sema 0) 0 handler_scene) = .ret 0 s1 ∧
      (s1.semas 0).value = 1 ∧
      sema_down (.sema 0) s1 = .ret 0 (sema_init (.sema 0) 0 handler_scene)) ∧
    round_trips (.sema 0) 10 (sema_init (.sema 0) 0 handler_scene) =
      some (sema_init (.sema 0) 0 handler_scene) ∧
    (run self_test_trace (boot 8)).map (fun s => (s.current, (s.semas 0).value,
      (s.semas 0).waiters, (s.semas 1).value, (s.semas 1).waiters)) = some (0, 0, [], 0, []) := by
  have h := C25_sema_round_trip (sema_init (.sema 0) 0 handler_scene) (.sema 0)
    (by
      intro head rest h
      have e : (sema_init (.sema 0) 0 handler_scene).ready_list = [0] := by decide!
      rw [e] at h
      cases h
      decide!)
    (by decide!) (by decide!)
  obtain ⟨⟨s1, h1, h2, -, h4⟩, h5, -⟩ := h
  exact ⟨⟨s1, h1, h2, h4⟩, h5 10, by decide!⟩

/-! ## C24: the tid counter -/

@[simp] theorem set_thread_next_tid (s : State) (t : Nat) (th : Thread) :
    (s.set_thread t th).next_tid = s.next_tid := rfl

@[simp] theorem set_lock_next_tid (s : State) (l : Nat) (lk : Lock) :
    (s.set_lock l lk).next_tid = s.next_tid := rfl

@[simp] theorem set_sema_next_tid (s : State) (r : SemaRef) (v : Semaphore) :
    (s.set_sema r v).next_tid = s.next_tid := by
  cases r <;> rfl

@[simp] theorem set_cond_next_tid (s : State) (c : Nat) (ws : List Nat) :
    (s.set_cond c ws).next_tid = s.next_tid := rfl

theorem thread_unblock_next_tid (t : Nat) (s s' : State) (h : thread_unblock t s = .ok s') :
    s'.next_tid = s.next_tid := by
  rw [(thread_unblock_inv t s s' h).2.2]
  rfl

theorem schedule_launch_next_tid (c n : Nat) (s : State) :
    (schedule_launch c n s).next_tid = s.next_tid := by
  unfold schedule_launch
  simp only
  split
  · split <;> rfl
  · rfl

theorem schedule_next_tid (s s' : State) (h : schedule s = .ok s') :
    s'.next_tid = s.next_tid := by
  obtain ⟨n, -, -, -, hs⟩ := schedule_eq s s' h
  rw [hs, schedule_launch_next_tid]

theorem do_schedule_next_tid (st : Status) (s s' : State) (h : do_schedule st s = .ok s') :
    s'.next_tid = s.next_tid := by
  unfold do_schedule at h
  cases hc : thread_current s with
  | error f => rw [hc] at h; cases h
  | ok curr =>
    rw [hc] at h
    rw [schedule_next_tid _ _ h]
    rfl

theorem thread_block_next_tid (s s' : State) (h : thread_block s = .ok s') :
    s'.next_tid = s.next_tid := by
  unfold thread_block at h
  split at h
  · cases h
  · cases hc : thread_current s with
    | error f => rw [hc] at h; cases h
    | ok curr =>
      rw [hc] at h
      rw [schedule_next_tid _ _ h]
      rfl

theorem thread_yield_next_tid (s s' : State) (h : (thread_yield s).state = some s') :
    s'.next_tid = s.next_tid := by
  obtain ⟨curr, -, -, hd, -⟩ := thread_yield_state s s' h
  rw [do_schedule_next_tid _ _ _ hd]
  split <;> rfl

theorem thread_test_preemption_next_tid (s s' : State)
    (h : (thread_test_preemption s).state = some s') : s'.next_tid = s.next_tid := by
  unfold thread_test_preemption at h
  split at h
  · cases h; rfl
  · split at h
    · cases h
    · split at h
      · exact thread_yield_next_tid s s' h
      · cases h; rfl

theorem test_max_priority_next_tid (s s' : State)
    (h : (test_max_priority s).state = some s') : s'.next_tid = s.next_tid := by
  unfold test_max_priority at h
  split at h
  · cases h; rfl
  · split at h
    · exact thread_yield_next_tid s s' h
    · cases h; rfl

theorem thread_exit_next_tid (s s' : State) (h : (thread_exit s).state = some s') :
    s'.next_tid = s.next_tid := by
  unfold thread_exit at h
  split at h
  · cases h
  · cases hd : do_schedule Status.THREAD_DYING s with
    | error f => rw [hd] at h; cases h
    | ok s1 =>
      rw [hd] at h
      cases h
      exact do_schedule_next_tid _ _ _ hd

theorem thread_sleep_next_tid (w : Int) (s s' : State) (h : (thread_sleep w s).state = some s') :
    s'.next_tid = s.next_tid := by
  unfold thread_sleep at h
  cases hc : thread_current s with
  | error f => rw [hc] at h; cases h
  | ok cur =>
    rw [hc] at h
    simp only at h
    split at h
    · cases h; rfl
    · split at h
      · cases h
      · rename_i s3 hb
        cases h
        rw [thread_block_next_tid _ _ hb]
        rfl

theorem thread_awake_loop_next_tid (tick : Int) (l : List Nat) :
    ∀ (s s' : State), thread_awake_loop tick l s = .ok s' → s'.next_tid = s.next_tid := by
  induction l with
  | nil => intro s s' h; cases h; rfl
  | cons t rest ih =>
    intro s s' h
    unfold thread_awake_loop at h
    split at h
    · cases hu : thread_unblock t { s with sleep_list := rest } with
      | error f => rw [hu] at h; cases h
      | ok s1 =>
        rw [hu] at h
        rw [ih s1 s' h, thread_unblock_next_tid _ _ _ hu]
    · cases h; rfl

theorem thread_awake_next_tid (tick : Int) (s s' : State) (h : thread_awake tick s = .ok s') :
    s'.next_tid = s.next_tid :=
  thread_awake_loop_next_tid tick _ s s' h

theorem init_thread_next_tid (t : Nat) (p : Int) (s s' : State)
    (h : init_thread t p s = .ok s') : s'.next_tid = s.next_tid := by
  unfold init_thread at h
  split at h
  · cases h
  · cases h; rfl

theorem donate_priority_next_tid (s s' : State) (h : donate_priority s = .ok s') :
    s'.next_tid = s.next_tid := by
  rw [(donate_priority_frame s s' h).2.2]

theorem refresh_priority_next_tid (s s' : State) (h : refresh_priority s = .ok s') :
    s'.next_tid = s.next_tid := by
  unfold refresh_priority at h
  cases hc : thread_current s with
  | error f => rw [hc] at h; cases h
  | ok cur =>
    rw [hc] at h
    cases h; rfl

theorem refresh_donations_next_tid (s s' : State) (h : refresh_donations s = .ok s') :
    s'.next_tid = s.next_tid := by
  unfold refresh_donations at h
  cases hc : thread_current s with
  | error f => rw [hc] at h; cases h
  | ok cur =>
    rw [hc] at h
    cases h; rfl

theorem thread_set_priority_next_tid (p : Int) (s s' : State)
    (h : (thread_set_priority p s).state = some s') : s'.next_tid = s.next_tid := by
  unfold thread_set_priority at h
  cases hc : thread_current s with
  | error f => rw [hc] at h; cases h
  | ok cur =>
    rw [hc] at h
    simp only at h
    cases hr : refresh_priority (s.set_thread cur { s.threads cur with init_priority := p }) with
    | error f => rw [hr] at h; cases h
    | ok s1 =>
      rw [hr] at h
      rw [thread_test_preemption_next_tid _ _ h, refresh_priority_next_tid _ _ hr]
      rfl

theorem sema_down_next_tid (sema : SemaRef) (s s' : State)
    (h : (sema_down sema s).state = some s') : s'.next_tid = s.next_tid := by
  by_cases hv : (s.sema sema).value = 0
  · rcases sema_down_zero s sema hv with ⟨f, hf⟩ | ⟨curr, s2, -, hb, hs⟩
    · rw [hf] at h; cases h
    · rw [hs] at h
      cases h
      rw [thread_block_next_tid _ _ hb, set_sema_next_tid]
  · rw [sema_down_pos s sema hv] at h
    cases h
    rw [set_sema_next_tid]

theorem sema_try_down_next_tid (sema : SemaRef) (s : State) :
    (sema_try_down sema s).2.next_tid = s.next_tid := by
  unfold sema_try_down
  split
  · simp only [set_sema_next_tid]
  · rfl

theorem sema_up_wake_next_tid (sema : SemaRef) (s s' : State)
    (h : sema_up_wake sema s = .ok s') : s'.next_tid = s.next_tid := by
  unfold sema_up_wake at h
  simp only at h
  split at h
  · cases h
  · rename_i s0 hw
    injection h with h
    subst h
    rw [set_sema_next_tid]
    split at hw
    · cases hw; rfl
    · split at hw
      · cases hw
      · rw [thread_unblock_next_tid _ _ _ hw, set_sema_next_tid]

theorem sema_up_next_tid (sema : SemaRef) (s s' : State)
    (h : (sema_up sema s).state = some s') : s'.next_tid = s.next_tid := by
  unfold sema_up at h
  cases hw : sema_up_wake sema s with
  | error f => rw [hw] at h; cases h
  | ok s1 =>
    rw [hw] at h
    rw [test_max_priority_next_tid _ _ h, sema_up_wake_next_tid _ _ _ hw]

theorem lock_acquire_donate_next_tid (lock curr : Nat) (s s' : State)
    (h : lock_acquire_donate lock curr s = .ok s') : s'.next_tid = s.next_tid := by
  unfold lock_acquire_donate at h
  split at h
  · cases h; rfl
  · split at h
    · cases h; rfl
    · rw [donate_priority_next_tid _ _ h]
      rfl

theorem lock_acquire_tail_next_tid (lock curr : Nat) (s : State) :
    (lock_acquire_tail lock curr s).next_tid = s.next_tid := rfl

theorem lock_acquire_next_tid (lock : Nat) (s s' : State)
    (h : (lock_acquire lock s).state = some s') : s'.next_tid = s.next_tid := by
  unfold lock_acquire at h
  split at h
  · cases h
  · split at h
    · cases h
    · cases h
    · cases hc : thread_current s with
      | error f => rw [hc] at h; cases h
      | ok curr =>
        rw [hc] at h
        simp only at h
        cases hd : lock_acquire_donate lock curr s with
        | error f => rw [hd] at h; cases h
        | ok s1 =>
          rw [hd] at h
          simp only at h
          have h1 := lock_acquire_donate_next_tid _ _ _ _ hd
          cases hs : sema_down (.lock_sema lock) s1 with
          | ret v s2 =>
            rw [hs] at h
            cases h
            rw [lock_acquire_tail_next_tid, sema_down_next_tid _ s1 s2 (by rw [hs]; rfl), h1]
          | switched s2 k =>
            rw [hs] at h
            cases h
            rw [sema_down_next_tid _ s1 _ (by rw [hs]; rfl), h1]
          | fault f => rw [hs] at h; cases h

theorem lock_try_acquire_next_tid (lock : Nat) (s s' : State) (b : Bool)
    (h : lock_try_acquire lock s = .ok (b, s')) : s'.next_tid = s.next_tid := by
  unfold lock_try_acquire at h
  split at h
  · cases h
  · cases h
  · have ht := sema_try_down_next_tid (.lock_sema lock) s
    split at h
    · rename_i s1 he
      rw [he] at ht
      split at h
      · cases h
      · cases h
        exact ht
    · rename_i s1 he
      rw [he] at ht
      cases h
      exact ht

theorem lock_release_next_tid (lock : Nat) (s s' : State)
    (h : (lock_release lock s).state = some s') : s'.next_tid = s.next_tid := by
  unfold lock_release at h
  split at h
  · cases h
  · cases h
  · cases hr : refresh_donations (remove_with_lock lock s) with
    | error f => rw [hr] at h; cases h
    | ok s1 =>
      rw [hr] at h
      rw [sema_up_next_tid _ _ _ h, set_lock_next_tid, refresh_donations_next_tid _ _ hr]
      rfl

theorem sema_init_next_tid (sema : SemaRef) (v : Nat) (s : State) :
    (sema_init sema v s).next_tid = s.next_tid := by
  unfold sema_init
  rw [set_sema_next_tid]

theorem lock_init_next_tid (lock : Nat) (s : State) :
    (lock_init lock s).next_tid = s.next_tid := by
  unfold lock_init
  rw [sema_init_next_tid, set_lock_next_tid]

theorem cond_wait_released_next_tid (waiter lock : Nat) (s s' : State)
    (h : (cond_wait_released waiter lock s).state = some s') : s'.next_tid = s.next_tid := by
  unfold cond_wait_released at h
  cases hs : sema_down (.sema waiter) s with
  | ret v s1 =>
    rw [hs] at h
    rw [lock_acquire_next_tid _ _ _ h, sema_down_next_tid _ s s1 (by rw [hs]; rfl)]
  | switched s1 k =>
    rw [hs] at h
    cases h
    rw [sema_down_next_tid _ s _ (by rw [hs]; rfl)]
  | fault f => rw [hs] at h; cases h

theorem cond_wait_next_tid (cond lock waiter : Nat) (s s' : State)
    (h : (cond_wait cond lock waiter s).state = some s') : s'.next_tid = s.next_tid := by
  unfold cond_wait at h
  split at h
  · cases h
  · split at h
    · cases h
    · cases h
    · simp only at h
      generalize hx : (sema_init (SemaRef.sema waiter) 0 s).set_cond cond
        (list_insert_ordered (cond_sema_priority_cmp (sema_init (SemaRef.sema waiter) 0 s)) waiter
          ((sema_init (SemaRef.sema waiter) 0 s).conds cond).waiters) = x at h
      have hxt : x.next_tid = s.next_tid := by
        rw [← hx, set_cond_next_tid, sema_init_next_tid]
      cases hl : lock_release lock x with
      | ret v s3 =>
        rw [hl] at h
        rw [cond_wait_released_next_tid _ _ _ _ h,
          lock_release_next_tid _ x s3 (by rw [hl]; rfl), hxt]
      | switched s3 k =>
        rw [hl] at h
        cases h
        rw [lock_release_next_tid _ x _ (by rw [hl]; rfl), hxt]
      | fault f => rw [hl] at h; cases h

theorem cond_signal_next_tid (cond lock : Nat) (s s' : State)
    (h : (cond_signal cond lock s).state = some s') : s'.next_tid = s.next_tid := by
  unfold cond_signal at h
  split at h
  · cases h
  · split at h
    · cases h
    · cases h
    · split at h
      · cases h; rfl
      · split at h
        · cases h
        · rw [sema_up_next_tid _ _ _ h, set_cond_next_tid]

theorem cond_broadcast_loop_next_tid (fuel : Nat) (cond lock : Nat) :
    ∀ (s s' : State), (cond_broadcast_loop fuel cond lock s).state = some s' →
      s'.next_tid = s.next_tid := by
  induction fuel with
  | zero =>
    intro s s' h
    unfold cond_broadcast_loop at h
    split at h
    · cases h; rfl
    · cases h
  | succ fuel ih =>
    intro s s' h
    unfold cond_broadcast_loop at h
    split at h
    · cases h; rfl
    · cases hs : cond_signal cond lock s with
      | ret v s1 =>
        rw [hs] at h
        rw [ih s1 s' h, cond_signal_next_tid _ _ s s1 (by rw [hs]; rfl)]
      | switched s1 k =>
        rw [hs] at h
        cases h
        rw [cond_signal_next_tid _ _ s _ (by rw [hs]; rfl)]
      | fault f => rw [hs] at h; cases h

theorem cond_broadcast_next_tid (cond lock : Nat) (s s' : State)
    (h : (cond_broadcast cond lock s).state = some s') : s'.next_tid = s.next_tid :=
  cond_broadcast_loop_next_tid _ cond lock s s' h


/-! ## C10, amended: what lock_acquire leaves when it returns -/

/-- The donation loop writes priorities only: every held-lock list is as before. -/
theorem donate_priority_hold_list (s s' : State) (h : donate_priority s = .ok s') (t : Nat) :
    (s'.threads t).hold_list = (s.threads t).hold_list := by
  rw [(donate_priority_frame s s' h).2.1 t]

/-- The donation step of lock_acquire leaves every held-lock list as it was. -/
theorem lock_acquire_donate_hold_list (l c : Nat) (s s1 : State)
    (h : lock_acquire_donate l c s = .ok s1) (t : Nat) :
    (s1.threads t).hold_list = (s.threads t).hold_list := by
  unfold lock_acquire_donate at h
  cases hh : (s.locks l).holder with
  | none => rw [hh] at h; cases h; rfl
  | some hd =>
    rw [hh] at h
    simp only at h
    split at h
    · cases h; rfl
    · rw [donate_priority_hold_list _ _ h t]
      by_cases h1 : t = hd
      · subst h1
        by_cases h2 : t = c
        · subst h2; simp [State.set_thread]
        · simp [State.set_thread, Function.update_noteq h2]
      · by_cases h2 : t = c
        · subst h2; simp [State.set_thread, Function.update_noteq h1]
        · simp [State.set_thread, Function.update_noteq h1, Function.update_noteq h2]

/-- sema_down leaves every held-lock list as it was, whether it returns or blocks. -/
theorem sema_down_hold_list (sema : SemaRef) (s s' : State)
    (h : (sema_down sema s).state = some s') (t : Nat) :
    (s'.threads t).hold_list = (s.threads t).hold_list := by
  by_cases hv : (s.sema sema).value = 0
  · rcases sema_down_zero s sema hv with ⟨f, hf⟩ | ⟨curr, s2, -, hb, hs⟩
    · rw [hf] at h; cases h
    · rw [hs] at h
      cases h
      have hd := thread_block_dispatched _ _ hb
      rw [hd.1 t, set_sema_threads]
  · rw [sema_down_pos s sema hv] at h
    cases h
    rw [set_sema_threads]

/-- The end of lock_acquire: the thread is the holder, waits on no lock, and every held-lock
list is as it was. -/
theorem lock_acquire_tail_spec (l c : Nat) (s : State) :
    ((lock_acquire_tail l c s).locks l).holder = some c ∧
    ((lock_acquire_tail l c s).threads c).wait_on_lock = none ∧
    ∀ t, ((lock_acquire_tail l c s).threads t).hold_list = (s.threads t).hold_list := by
  refine ⟨by simp [lock_acquire_tail, State.set_lock],
    by simp [lock_acquire_tail, State.set_lock, State.set_thread], ?_⟩
  intro t
  by_cases h : t = c
  · subst h; simp [lock_acquire_tail, State.set_lock, State.set_thread]
  · simp [lock_acquire_tail, State.set_lock, State.set_thread, Function.update_noteq h]

/-- What lock_acquire is made of, once its assertions have passed: the donation step, sema_down
on the lock's semaphore, and the end of lock_acquire. -/
theorem lock_acquire_parts (s : State) (l : Nat) (r : Res) (h : lock_acquire l s = r)
    (hr : ∀ f, r ≠ .fault f) :
    ∃ s1, lock_acquire_donate l s.current s = .ok s1 ∧
      r = match sema_down (.lock_sema l) s1 with
        | .ret _ s2 => .ret 0 (lock_acquire_tail l s.current s2)
        | .switched s2 k => .switched s2 (k ++ [Frame.lock_acquire_tail l s.current])
        | .fault f => .fault f := by
  unfold lock_acquire at h
  by_cases hi : s.intr_context = true
  · rw [if_pos hi] at h; exact absurd h.symm (hr _)
  · rw [if_neg hi] at h
    cases hh : lock_held_by_current_thread l s with
    | error f => rw [hh] at h; exact absurd h.symm (hr _)
    | ok b =>
      rw [hh] at h
      cases b with
      | true => exact absurd h.symm (hr _)
      | false =>
        simp only at h
        cases hc : thread_current s with
        | error f => rw [hc] at h; exact absurd h.symm (hr _)
        | ok curr =>
          rw [hc] at h
          obtain ⟨rfl, -, -⟩ := thread_current_eq s curr hc
          simp only at h
          cases hd : lock_acquire_donate l s.current s with
          | error f => rw [hd] at h; exact absurd h.symm (hr _)
          | ok s1 =>
            rw [hd] at h
            exact ⟨s1, rfl, h.symm⟩

/-- The two activations a blocked lock_acquire leaves behind, when they run and come to their
end: the thread of the activation is the holder, waits on no lock, and every held-lock list is
as it was. -/
theorem lock_acquire_resumed (l c : Nat) (s2 s' : State) (v0 v : Int)
    (h : run_frames [Frame.sema_down_loop (.lock_sema l), Frame.lock_acquire_tail l c] v0 s2 =
      .ret v s') :
    (s'.locks l).holder = some c ∧ (s'.threads c).wait_on_lock = none ∧
    ∀ t, (s'.threads t).hold_list = (s2.threads t).hold_list := by
  simp only [run_frames, run_frame] at h
  cases hs : sema_down (.lock_sema l) s2 with
  | ret v1 s3 =>
    rw [hs] at h
    simp only [Res.ret.injEq] at h
    obtain ⟨-, rfl⟩ := h
    obtain ⟨t1, t2, t3⟩ := lock_acquire_tail_spec l c s3
    exact ⟨t1, t2, fun t => (t3 t).trans (sema_down_hold_list _ s2 s3 (by rw [hs]; rfl) t)⟩
  | switched s3 k => rw [hs] at h; cases h
  | fault f => rw [hs] at h; cases h

/-- C10 (as amended). Whenever lock_acquire returns, at once or after the caller has been
blocked and dispatched again, the lock's holder is the calling thread and the calling thread
waits on no lock; lock_acquire keeps no held-lock list: the hold_list of every thread is as
it was before the call. It does return: at once for a valid running thread outside interrupt
context on a free lock whose counter is not 0, and, for a caller that was blocked, when it runs
again in a state in which the counter is not 0. -/
theorem C10_lock_acquire (s : State) (l : Nat) :
    (∀ v s', lock_acquire l s = .ret v s' →
      (s'.locks l).holder = some s.current ∧ (s'.threads s.current).wait_on_lock = none ∧
      ∀ t, (s'.threads t).hold_list = (s.threads t).hold_list) ∧
    (∀ s1 k, lock_acquire l s = .switched s1 k →
      k = [Frame.sema_down_loop (.lock_sema l), Frame.lock_acquire_tail l s.current] ∧
      (∀ t, (s1.threads t).hold_list = (s.threads t).hold_list) ∧
      (∀ s2 v0, (s2.locks l).semaphore.value ≠ 0 → ∃ s', run_frames k v0 s2 = .ret 0 s') ∧
      (∀ s2 v0 v s', run_frames k v0 s2 = .ret v s' →
        (s'.locks l).holder = some s.current ∧ (s'.threads s.current).wait_on_lock = none ∧
        ∀ t, (s'.threads t).hold_list = (s2.threads t).hold_list)) ∧
    (is_thread s s.current → (s.threads s.current).status = Status.THREAD_RUNNING →
      s.intr_context = false → (s.locks l).holder = none → (s.locks l).semaphore.value ≠ 0 →
      ∃ s', lock_acquire l s = .ret 0 s') := by
  refine ⟨?_, ?_, ?_⟩
  · intro v s' h
    obtain ⟨s1, hd, hr⟩ := lock_acquire_parts s l _ h (fun f e => by cases e)
    cases hs : sema_down (.lock_sema l) s1 with
    | ret v1 s2 =>
      rw [hs] at hr
      simp only [Res.ret.injEq] at hr
      obtain ⟨-, rfl⟩ := hr
      obtain ⟨t1, t2, t3⟩ := lock_acquire_tail_spec l s.current s2
      refine ⟨t1, t2, fun t => ?_⟩
      rw [t3 t, sema_down_hold_list _ s1 s2 (by rw [hs]; rfl) t,
        lock_acquire_donate_hold_list _ _ _ _ hd t]
    | switched s2 k => rw [hs] at hr; cases hr
    | fault f => rw [hs] at hr; cases hr
  · intro s1' k h
    obtain ⟨s1, hd, hr⟩ := lock_acquire_parts s l _ h (fun f e => by cases e)
    cases hs : sema_down (.lock_sema l) s1 with
    | ret v1 s2 => rw [hs] at hr; cases hr
    | fault f => rw [hs] at hr; cases hr
    | switched s2 k2 =>
      rw [hs] at hr
      simp only [Res.switched.injEq] at hr
      obtain ⟨rfl, rfl⟩ := hr
      have hk : k2 = [Frame.sema_down_loop (.lock_sema l)] := by
        by_cases hv : (s1.sema (.lock_sema l)).value = 0
        · rcases sema_down_zero s1 _ hv with ⟨f, hf⟩ | ⟨curr, s3, -, -, e⟩
          · rw [hf] at hs; cases hs
          · rw [e] at hs
            simp only [Res.switched.injEq] at hs
            exact hs.2.symm
        · rw [sema_down_pos s1 _ hv] at hs; cases hs
      subst hk
      refine ⟨rfl, fun t => ?_, ?_, ?_⟩
      · rw [sema_down_hold_list _ s1 s1' (by rw [hs]; rfl) t,
          lock_acquire_donate_hold_list _ _ _ _ hd t]
      · intro s2 v0 hv
        have e : run_frames [Frame.sema_down_loop (.lock_sema l),
            Frame.lock_acquire_tail l s.current] v0 s2 =
            .ret 0 (lock_acquire_tail l s.current (s2.set_sema (.lock_sema l)
              { s2.sema (.lock_sema l) with
                value := ((s2.sema (.lock_sema l)).value + (UINT_MOD - 1)) % UINT_MOD })) := by
          simp only [run_frames, run_frame]
          rw [sema_down_pos s2 (.lock_sema l) (by rw [lock_sema_eq]; exact hv)]
        exact ⟨_, e⟩
      · intro s2 v0 v s' hrun
        exact lock_acquire_resumed l s.current s2 s' v0 v hrun
  · intro hthread hrun hintr hh hv
    unfold lock_acquire
    rw [if_neg (by rw [hintr]; decide)]
    unfold lock_held_by_current_thread
    rw [thread_current_ok s hthread hrun]
    have hd : decide ((none : Option Nat) = some s.current) = false := by simp
    simp only [hh, hd]
    unfold lock_acquire_donate
    rw [hh]
    simp only
    rw [sema_down_pos s (.lock_sema l) (by rw [lock_sema_eq]; exact hv)]
    exact ⟨_, rfl⟩

/-- C10 at donate_scene, where thread 1 runs: it takes the free lock 2, is its holder
afterwards, waits on no lock, and its hold_list is still empty; on lock 1, which thread 0
holds, it is switched out with the two activations of a blocked lock_acquire. -/
theorem C10_lock_acquire_witness :
    (∃ s', lock_acquire 2 donate_scene = .ret 0 s' ∧ (s'.locks 2).holder = some 1 ∧
      (s'.threads 1).wait_on_lock = none ∧ (s'.threads 1).hold_list = []) ∧
    (lock_acquire 1 donate_scene).returned = false := by
  obtain ⟨s', h⟩ := (C10_lock_acquire donate_scene 2).2.2 (by decide!) (by decide!)
    (by decide!) (by decide!) (by decide!)
  obtain ⟨a, b, c⟩ := (C10_lock_acquire donate_scene 2).1 0 s' h
  exact ⟨⟨s', h, a, b, (c 1).trans (by decide!)⟩, by decide!⟩

/-! ## C9: releasing one of two contended locks -/

/-- The running maximum over the donor list depends on the priorities only. -/
theorem donated_max_congr (s s' : State) (h : ∀ t, s'.prio t = s.prio t) (l : List Nat) :
    ∀ m, donated_max s' m l = donated_max s m l := by
  induction l with
  | nil => intro m; rfl
  | cons a l ih =>
    intro m
    have ha : (s'.threads a).priority = (s.threads a).priority := h a
    unfold donated_max
    rw [ha, ih, ih]

/-- Up to its call of sema_up, lock_release by the holder: the donors that wait on the lock
are taken off the donor list of the caller, its priority becomes the maximum of its base
priority and of the priorities of the donors that remain, and the holder is cleared. -/
theorem lock_release_restore (s : State) (l : Nat) (hthread : is_thread s s.current)
    (hrun : (s.threads s.current).status = Status.THREAD_RUNNING)
    (hholder : (s.locks l).holder = some s.current) :
    ∃ s2, lock_release l s = sema_up (.lock_sema l) s2 ∧
      s2.threads s.current = { s.threads s.current with
        donations := (s.threads s.current).donations.filter
          (fun d => decide ((s.threads d).wait_on_lock ≠ some l)),
        priority := donated_max s (s.threads s.current).init_priority
          ((s.threads s.current).donations.filter
            (fun d => decide ((s.threads d).wait_on_lock ≠ some l))) } ∧
      (∀ t, t ≠ s.current → s2.threads t = s.threads t) ∧
      s2.sema (.lock_sema l) = s.sema (.lock_sema l) ∧
      s2.ready_list = s.ready_list ∧ s2.current = s.current ∧
      s2.intr_context = s.intr_context ∧ s2.idle_thread = s.idle_thread ∧
      s2.next_tid = s.next_tid ∧ (s2.locks l).holder = none := by
  have hheld : lock_held_by_current_thread l s = .ok true := by
    unfold lock_held_by_current_thread
    rw [thread_current_ok s hthread hrun]
    simp [hholder]
  have hm1 : ∀ t, ((remove_with_lock l s).threads t).magic = (s.threads t).magic ∧
      ((remove_with_lock l s).threads t).status = (s.threads t).status ∧
      ((remove_with_lock l s).threads t).priority = (s.threads t).priority := by
    intro t
    unfold remove_with_lock
    by_cases ht : t = s.current
    · rw [ht]; simp [State.set_thread]
    · simp [State.set_thread, Function.update_noteq ht]
  have hc1 : thread_current (remove_with_lock l s) = .ok s.current :=
    thread_current_ok (remove_with_lock l s)
      (by unfold is_thread; rw [(hm1 _).1]; exact hthread)
      (by rw [(hm1 _).2.1]; exact hrun)
  have hrel : lock_release l s = sema_up (.lock_sema l)
      (((remove_with_lock l s).set_thread s.current
        { (remove_with_lock l s).threads s.current with
          priority := donated_max (remove_with_lock l s)
            ((remove_with_lock l s).threads s.current).init_priority
            ((remove_with_lock l s).threads s.current).donations }).set_lock l
        { ((remove_with_lock l s).set_thread s.current
            { (remove_with_lock l s).threads s.current with
              priority := donated_max (remove_with_lock l s)
                ((remove_with_lock l s).threads s.current).init_priority
                ((remove_with_lock l s).threads s.current).donations }).locks l with
          holder := none }) := by
    unfold lock_release
    rw [hheld]
    simp only
    unfold refresh_donations
    rw [hc1]
  refine ⟨_, hrel, ?_, ?_, ?_, rfl, rfl, rfl, rfl, rfl, ?_⟩
  · rw [donated_max_congr s (remove_with_lock l s) (fun t => (hm1 t).2.2)]
    simp [State.set_lock, State.set_thread, remove_with_lock]
  · intro t ht
    simp [State.set_lock, State.set_thread, remove_with_lock, Function.update_noteq ht]
  · simp [State.sema, State.set_lock, State.set_thread, remove_with_lock]
  · simp [State.set_lock]

theorem tid_advanced_refl (a : Int) : tid_advanced a a := ⟨0, rfl⟩

theorem tid_advanced_of_eq {a b : Int} (h : b = a) : tid_advanced a b := ⟨0, h⟩

theorem tid_advanced_succ (a : Int) : tid_advanced a (int_wrap (a + 1)) := ⟨1, rfl⟩

theorem tid_advanced_trans {a b c : Int} (h1 : tid_advanced a b) (h2 : tid_advanced b c) :
    tid_advanced a c := by
  obtain ⟨k1, e1⟩ := h1
  obtain ⟨k2, e2⟩ := h2
  refine ⟨k2 + k1, ?_⟩
  rw [e2, e1, Function.iterate_add_apply]

/-- Below INT_MAX the machine increment is the increment. -/
theorem tid_succ_eq (n : Int) (h1 : -2147483648 ≤ n + 1) (h2 : n < INT_MAX) :
    tid_succ n = n + 1 := by
  unfold tid_succ int_wrap
  unfold INT_MAX at h2
  omega

/-- While the counter stays within INT_MAX, k increments raise it by k. -/
theorem tid_succ_iterate (k : Nat) : ∀ n : Int, -2147483648 ≤ n + 1 → n + k ≤ INT_MAX →
    tid_succ^[k] n = n + k := by
  induction k with
  | zero => intro n _ _; simp
  | succ k ih =>
    intro n h1 h2
    rw [Function.iterate_succ_apply, tid_succ_eq n h1 (by push_cast at h2; omega),
      ih (n + 1) (by omega) (by push_cast at h2 ⊢; omega)]
    push_cast
    omega

/-- At INT_MAX the machine increment wraps to the least int. -/
theorem tid_succ_wraps : tid_succ INT_MAX = -2147483648 := by decide

theorem allocate_tid_locked_next_tid (s s' : State)
    (h : (allocate_tid_locked s).state = some s') :
    s'.next_tid = int_wrap (s.next_tid + 1) := by
  unfold allocate_tid_locked at h
  simp only at h
  cases hl : lock_release tid_lock { s with next_tid := int_wrap (s.next_tid + 1) } with
  | ret v s1 =>
    rw [hl] at h
    cases h
    exact lock_release_next_tid _ _ _ (by rw [hl]; rfl)
  | switched s1 k =>
    rw [hl] at h
    cases h
    exact lock_release_next_tid _ _ _ (by rw [hl]; rfl)
  | fault f => rw [hl] at h; cases h

theorem allocate_tid_next_tid (s s' : State) (h : (allocate_tid s).state = some s') :
    tid_advanced s.next_tid s'.next_tid := by
  unfold allocate_tid at h
  cases hl : lock_acquire tid_lock s with
  | ret v s1 =>
    rw [hl] at h
    rw [allocate_tid_locked_next_tid _ _ h, lock_acquire_next_tid _ s s1 (by rw [hl]; rfl)]
    exact tid_advanced_succ _
  | switched s1 k =>
    rw [hl] at h
    cases h
    exact tid_advanced_of_eq (lock_acquire_next_tid _ s _ (by rw [hl]; rfl))
  | fault f => rw [hl] at h; cases h

theorem thread_create_tid_next_tid (t : Nat) (tid : Int) (s s' : State)
    (h : (thread_create_tid t tid s).state = some s') : s'.next_tid = s.next_tid := by
  unfold thread_create_tid at h
  cases hu : thread_unblock t (s.set_thread t { s.threads t with tid := tid }) with
  | error f => rw [hu] at h; cases h
  | ok s1 =>
    rw [hu] at h
    simp only at h
    have h1 := thread_unblock_next_tid _ _ _ hu
    rw [set_thread_next_tid] at h1
    cases hp : thread_test_preemption s1 with
    | ret v s2 =>
      rw [hp] at h
      cases h
      rw [thread_test_preemption_next_tid s1 _ (by rw [hp]; rfl), h1]
    | switched s2 k =>
      rw [hp] at h
      cases h
      rw [thread_test_preemption_next_tid s1 _ (by rw [hp]; rfl), h1]
    | fault f => rw [hp] at h; cases h

theorem thread_create_next_tid (page : Option Nat) (p : Int) (s s' : State)
    (h : (thread_create page p s).state = some s') : tid_advanced s.next_tid s'.next_tid := by
  unfold thread_create at h
  cases page with
  | none => cases h; exact tid_advanced_refl _
  | some t =>
    simp only at h
    cases hi : init_thread t p s with
    | error f => rw [hi] at h; cases h
    | ok s1 =>
      rw [hi] at h
      simp only at h
      have h1 := init_thread_next_tid _ _ _ _ hi
      cases ha : allocate_tid s1 with
      | ret tid s2 =>
        rw [ha] at h
        rw [thread_create_tid_next_tid _ _ _ _ h, ← h1]
        exact allocate_tid_next_tid s1 s2 (by rw [ha]; rfl)
      | switched s2 k =>
        rw [ha] at h
        cases h
        rw [← h1]
        exact allocate_tid_next_tid s1 _ (by rw [ha]; rfl)
      | fault f => rw [ha] at h; cases h

theorem thread_init_tid_next_tid (tid : Int) (s s' : State)
    (h : (thread_init_tid tid s).state = some s') : s'.next_tid = s.next_tid := by
  unfold thread_init_tid at h
  split at h
  · cases h
  · cases h; rfl

theorem thread_init_next_tid (s s' : State) (h : (thread_init s).state = some s') :
    tid_advanced s.next_tid s'.next_tid := by
  unfold thread_init at h
  simp only at h
  split at h
  · cases h
  · rename_i s3 hi
    have h1 := init_thread_next_tid _ _ _ _ hi
    simp only [lock_init_next_tid] at h1
    split at h
    · rename_i tid s4 ha
      have h2 := allocate_tid_next_tid _ s4 (by rw [ha]; rfl)
      simp only [set_thread_next_tid] at h2
      rw [thread_init_tid_next_tid _ _ _ h, ← h1]
      exact h2
    · rename_i s4 k ha
      have h2 := allocate_tid_next_tid _ s4 (by rw [ha]; rfl)
      simp only [set_thread_next_tid] at h2
      cases h
      rw [← h1]
      exact h2
    · cases h

theorem run_frame_next_tid (f : Frame) (v : Int) (s s' : State)
    (h : (run_frame f v s).state = some s') : tid_advanced s.next_tid s'.next_tid := by
  cases f with
  | sema_down_loop sema => exact tid_advanced_of_eq (sema_down_next_tid _ _ _ h)
  | lock_acquire_tail lock curr => cases h; exact tid_advanced_refl _
  | allocate_tid_locked =>
    rw [allocate_tid_locked_next_tid _ _ h]
    exact tid_advanced_succ _
  | allocate_tid_unlocked tid => cases h; exact tid_advanced_refl _
  | thread_create_tid t => exact tid_advanced_of_eq (thread_create_tid_next_tid _ _ _ _ h)
  | thread_create_ret tid => cases h; exact tid_advanced_refl _
  | thread_init_tid => exact tid_advanced_of_eq (thread_init_tid_next_tid _ _ _ h)
  | thread_exit_not_reached => cases h
  | cond_wait_released waiter lock =>
    exact tid_advanced_of_eq (cond_wait_released_next_tid _ _ _ _ h)
  | cond_wait_signaled lock => exact tid_advanced_of_eq (lock_acquire_next_tid _ _ _ h)
  | cond_broadcast_loop cond lock => exact tid_advanced_of_eq (cond_broadcast_next_tid _ _ _ _ h)

theorem run_frames_next_tid (fs : List Frame) :
    ∀ (v : Int) (s s' : State), (run_frames fs v s).state = some s' →
      tid_advanced s.next_tid s'.next_tid := by
  induction fs with
  | nil => intro v s s' h; cases h; exact tid_advanced_refl _
  | cons f fs ih =>
    intro v s s' h
    unfold run_frames at h
    cases hr : run_frame f v s with
    | ret v1 s1 =>
      rw [hr] at h
      exact tid_advanced_trans (run_frame_next_tid f v s s1 (by rw [hr]; rfl)) (ih v1 s1 s' h)
    | switched s1 k =>
      rw [hr] at h
      cases h
      exact run_frame_next_tid f v s _ (by rw [hr]; rfl)
    | fault e => rw [hr] at h; cases h

theorem exec_next_tid (c : Call) (s s' : State) (h : (exec c s).state = some s') :
    tid_advanced s.next_tid s'.next_tid := by
  cases c with
  | thread_init => exact thread_init_next_tid _ _ h
  | thread_create page p => exact thread_create_next_tid _ _ _ _ h
  | thread_block =>
    simp only [exec] at h
    cases hb : thread_block s with
    | error f => rw [hb] at h; cases h
    | ok s1 =>
      rw [hb] at h
      cases h
      exact tid_advanced_of_eq (thread_block_next_tid _ _ hb)
  | thread_unblock t =>
    simp only [exec] at h
    cases hb : thread_unblock t s with
    | error f => rw [hb] at h; cases h
    | ok s1 =>
      rw [hb] at h
      cases h
      exact tid_advanced_of_eq (thread_unblock_next_tid _ _ _ hb)
  | thread_sleep w => exact tid_advanced_of_eq (thread_sleep_next_tid _ _ _ h)
  | thread_awake tick =>
    simp only [exec] at h
    cases hb : thread_awake tick s with
    | error f => rw [hb] at h; cases h
    | ok s1 =>
      rw [hb] at h
      cases h
      exact tid_advanced_of_eq (thread_awake_next_tid _ _ _ hb)
  | thread_exit => exact tid_advanced_of_eq (thread_exit_next_tid _ _ h)
  | thread_yield => exact tid_advanced_of_eq (thread_yield_next_tid _ _ h)
  | thread_set_priority p => exact tid_advanced_of_eq (thread_set_priority_next_tid _ _ _ h)
  | sema_init sema v => cases h; exact tid_advanced_of_eq (sema_init_next_tid _ _ _)
  | sema_down sema => exact tid_advanced_of_eq (sema_down_next_tid _ _ _ h)
  | sema_try_down sema => cases h; exact tid_advanced_of_eq (sema_try_down_next_tid _ _)
  | sema_up sema => exact tid_advanced_of_eq (sema_up_next_tid _ _ _ h)
  | lock_init lock => cases h; exact tid_advanced_of_eq (lock_init_next_tid _ _)
  | lock_acquire lock => exact tid_advanced_of_eq (lock_acquire_next_tid _ _ _ h)
  | lock_try_acquire lock =>
    simp only [exec] at h
    cases hb : lock_try_acquire lock s with
    | error f => rw [hb] at h; cases h
    | ok r =>
      obtain ⟨b, s1⟩ := r
      rw [hb] at h
      cases h
      exact tid_advanced_of_eq (lock_try_acquire_next_tid _ _ _ _ hb)
  | lock_release lock => exact tid_advanced_of_eq (lock_release_next_tid _ _ _ h)
  | cond_init cond => cases h; exact tid_advanced_refl _
  | cond_wait cond lock waiter => exact tid_advanced_of_eq (cond_wait_next_tid _ _ _ _ _ h)
  | cond_signal cond lock => exact tid_advanced_of_eq (cond_signal_next_tid _ _ _ _ h)
  | cond_broadcast cond lock => exact tid_advanced_of_eq (cond_broadcast_next_tid _ _ _ _ h)

theorem commit_next_tid (c : Nat) (r : Res) (s' : State) (h : commit c r = .ok s') :
    ∃ s1, r.state = some s1 ∧ s'.next_tid = s1.next_tid := by
  cases r with
  | ret v s1 => cases h; exact ⟨_, rfl, rfl⟩
  | switched s1 k => cases h; exact ⟨_, rfl, rfl⟩
  | fault f => cases h

/-- In a step of the system the tid counter moves by increments of allocate_tid only. -/
theorem step_next_tid (e : Event) (s s' : State) (h : step e s = some s') :
    tid_advanced s.next_tid s'.next_tid := by
  cases e with
  | call c =>
    simp only [step] at h
    split at h
    · cases hc : commit s.current (exec c s) with
      | error f => rw [hc] at h; cases h
      | ok s2 =>
        rw [hc] at h
        have e : s2 = s' := by simpa [Except.toOption] using h
        subst e
        obtain ⟨s1, h1, h2⟩ := commit_next_tid _ _ _ hc
        rw [h2]
        exact exec_next_tid c s s1 h1
    · cases h
  | resume =>
    simp only [step] at h
    split at h
    · cases h
    · rename_i k ks hf
      cases hc : commit s.current
          (run_frames (k :: ks) 0 { s with frames := Function.update s.frames s.current [] }) with
      | error f => rw [hc] at h; cases h
      | ok s2 =>
        rw [hc] at h
        have e : s2 = s' := by simpa [Except.toOption] using h
        subst e
        obtain ⟨s1, h1, h2⟩ := commit_next_tid _ _ _ hc
        rw [h2]
        exact run_frames_next_tid _ _
          { s with frames := Function.update s.frames s.current [] } s1 h1
  | interrupt c =>
    simp only [step] at h
    split at h
    · cases hx : exec c { s with intr_context := true } with
      | ret v s1 =>
        rw [hx] at h
        cases h
        exact exec_next_tid c { s with intr_context := true } s1 (by rw [hx]; rfl)
      | switched s1 k => rw [hx] at h; cases h
      | fault f => rw [hx] at h; cases h
    · cases h

/-- Along a run of the system the tid counter moves by increments of allocate_tid only. -/
theorem run_next_tid (es : List Event) :
    ∀ (s s' : State), run es s = some s' → tid_advanced s.next_tid s'.next_tid := by
  induction es with
  | nil => intro s s' h; cases h; exact tid_advanced_refl _
  | cons e es ih =>
    intro s s' h
    unfold run at h
    cases hs : step e s with
    | none => rw [hs] at h; cases h
    | some s1 =>
      rw [hs] at h
      exact tid_advanced_trans (step_next_tid e s s1 hs) (ih s1 s' h)

theorem caller_only_trans (a b c : State) (h1 : caller_only a b) (h2 : caller_only b c) :
    caller_only a c := by
  obtain ⟨a1, a2, a3, a4, a5, a6, a7, a8⟩ := h1
  obtain ⟨b1, b2, b3, b4, b5, b6, b7, b8⟩ := h2
  rw [a2] at b5 b6 b7 b8
  exact ⟨b1.trans a1, b2.trans a2, b3.trans a3, b4.trans a4,
    fun u hu => (b5 u hu).trans (a5 u hu), b6.trans a6, b7.trans a7, b8.trans a8⟩

/-- The running maximum over a donor list depends on the priorities of the donors only. -/
theorem donated_max_congr_mem (s s' : State) (l : List Nat) :
    ∀ m, (∀ d ∈ l, s'.prio d = s.prio d) → donated_max s' m l = donated_max s m l := by
  induction l with
  | nil => intro m _; rfl
  | cons a l ih =>
    intro m h
    have ha : (s'.threads a).priority = (s.threads a).priority := h a (List.mem_cons_self _ _)
    have hl : ∀ d ∈ l, s'.prio d = s.prio d := fun d hd => h d (List.mem_cons_of_mem _ hd)
    unfold donated_max
    rw [ha, ih _ hl, ih _ hl]

/-- The thread thread_yield dispatches, the ready list it leaves, and what it leaves alone. -/
theorem thread_yield_to (s : State) (n : Nat) (hintr : s.intr_context = false)
    (hcur : is_thread s s.current)
    (hrun : (s.threads s.current).status = Status.THREAD_RUNNING)
    (hnext : (next_thread_to_run
      (if some s.current ≠ s.idle_thread
       then { s with ready_list := list_insert_ordered (thread_cmp_priority s) s.current s.ready_list }
       else s)).1 = some n)
    (hn : is_thread s n) :
    ∃ s', thread_yield s = .switched s' [] ∧ s'.current = n ∧
      s'.ready_list = (if some s.current ≠ s.idle_thread
        then list_insert_ordered (thread_cmp_priority s) s.current s.ready_list
        else s.ready_list).tail ∧
      (s'.threads n).status = Status.THREAD_RUNNING ∧
      (n ≠ s.current → (s'.threads s.current).status = Status.THREAD_READY) ∧
      (∀ t, t ≠ n → t ≠ s.current → s'.threads t = s.threads t) ∧
      (∀ t, s'.threads t = { s.threads t with status := (s'.threads t).status }) ∧
      s'.next_tid = s.next_tid := by
  have hi : ¬ (s.intr_context = true) := by rw [hintr]; decide
  by_cases hidle : some s.current ≠ s.idle_thread
  · rw [if_pos hidle] at hnext
    obtain ⟨s', h1, h2, h3, h4, h5, h6, h7, -⟩ := do_schedule_spec Status.THREAD_READY
      { s with ready_list := list_insert_ordered (thread_cmp_priority s) s.current s.ready_list }
      n hcur hrun (by decide) hnext hn
    have hy : thread_yield s = .switched s' [] := by
      unfold thread_yield
      rw [thread_current_ok s hcur hrun]
      simp only
      rw [if_neg hi, if_pos hidle, h1]
    refine ⟨s', hy, h2, ?_, h4, h5, h6, h7, thread_yield_next_tid s s' (by rw [hy]; rfl)⟩
    rw [if_pos hidle]; exact h3
  · rw [if_neg hidle] at hnext
    obtain ⟨s', h1, h2, h3, h4, h5, h6, h7, -⟩ := do_schedule_spec Status.THREAD_READY
      s n hcur hrun (by decide) hnext hn
    have hy : thread_yield s = .switched s' [] := by
      unfold thread_yield
      rw [thread_current_ok s hcur hrun]
      simp only
      rw [if_neg hi, if_neg hidle, h1]
    refine ⟨s', hy, h2, ?_, h4, h5, h6, h7, thread_yield_next_tid s s' (by rw [hy]; rfl)⟩
    rw [if_neg hidle]; exact h3

/-- A valid running thread takes a free lock: lock_acquire returns, the caller is the holder,
the counter is 0, and of the thread records only wait_on_lock of the caller is written. -/
theorem lock_acquire_free (s : State) (l : Nat) (hthread : is_thread s s.current)
    (hrun : (s.threads s.current).status = Status.THREAD_RUNNING)
    (hintr : s.intr_context = false)
    (hh : (s.locks l).holder = none) (hv : (s.locks l).semaphore.value = 1) :
    ∃ s1, lock_acquire l s = .ret 0 s1 ∧ caller_only s s1 ∧ s1.next_tid = s.next_tid ∧
      (s1.locks l).holder = some s.current ∧ (s1.locks l).semaphore.value = 0 ∧
      (s1.locks l).semaphore.waiters = (s.locks l).semaphore.waiters ∧
      s1.threads s.current = { s.threads s.current with wait_on_lock := none } := by
  have hres : lock_acquire l s = .ret 0 (lock_acquire_tail l s.current
      (s.set_sema (.lock_sema l) { value := 0, waiters := (s.locks l).semaphore.waiters })) := by
    unfold lock_acquire
    rw [if_neg (by rw [hintr]; decide)]
    unfold lock_held_by_current_thread
    rw [thread_current_ok s hthread hrun]
    have hd : decide ((none : Option Nat) = some s.current) = false := by simp
    simp only [hh, hd]
    unfold lock_acquire_donate
    rw [hh]
    simp only
    rw [sema_down_to s (.lock_sema l) (s.locks l).semaphore.waiters 0
      (by rw [lock_sema_eq, hv]; decide) rfl (by rw [lock_sema_eq, hv]; exact uint_one_down)]
  refine ⟨_, hres, ⟨rfl, rfl, ?_, ?_, ?_, ?_, ?_, ?_⟩, rfl, ?_, ?_, ?_, ?_⟩
  · simp [lock_acquire_tail, State.set_lock, State.set_sema, State.set_thread]
  · simp [lock_acquire_tail, State.set_lock, State.set_sema, State.set_thread]
  · intro u hu
    simp [lock_acquire_tail, State.set_lock, State.set_sema, State.set_thread,
      Function.update_noteq hu]
  all_goals simp [lock_acquire_tail, State.set_lock, State.set_sema, State.set_thread]

/-- The holder releases a lock nobody waits on and none of its donors waits on: up to the
preemption check at the end of sema_up, the priority of the caller becomes its effective
priority, the lock is free with the counter at 1, and nothing else has changed. -/
theorem lock_release_unwaited (s : State) (l : Nat) (hthread : is_thread s s.current)
    (hrun : (s.threads s.current).status = Status.THREAD_RUNNING)
    (hh : (s.locks l).holder = some s.current) (hv : (s.locks l).semaphore.value = 0)
    (hw : (s.locks l).semaphore.waiters = [])
    (hnw : ∀ d ∈ (s.threads s.current).donations, (s.threads d).wait_on_lock ≠ some l) :
    ∃ s2, lock_release l s = test_max_priority s2 ∧
      s2.threads s.current = { s.threads s.current with
        priority := effective_priority s s.current } ∧
      (∀ u, u ≠ s.current → s2.threads u = s.threads u) ∧
      s2.ready_list = s.ready_list ∧ s2.current = s.current ∧
      s2.intr_context = s.intr_context ∧ s2.idle_thread = s.idle_thread ∧
      s2.next_tid = s.next_tid ∧
      (s2.locks l).holder = none ∧ (s2.locks l).semaphore.value = 1 ∧
      (s2.locks l).semaphore.waiters = [] := by
  obtain ⟨s1, hrel, hH, hothers, hsema, hrl, hcur, hic, hidle, hnt, hhold⟩ :=
    lock_release_restore s l hthread hrun hh
  have hfilter : (s.threads s.current).donations.filter
      (fun d => decide ((s.threads d).wait_on_lock ≠ some l)) =
      (s.threads s.current).donations := by
    rw [List.filter_eq_self]
    intro d hd
    simp only [ne_eq, decide_eq_true_eq]
    exact hnw d hd
  rw [hfilter] at hH
  have hup : sema_up (.lock_sema l) s1 =
      test_max_priority (s1.set_sema (.lock_sema l) { value := 1, waiters := [] }) :=
    sema_up_empty s1 (.lock_sema l) 1 (by rw [hsema, lock_sema_eq, hw])
      (by rw [hsema, lock_sema_eq, hv]; exact uint_zero_up)
  have hl := sema_set_sema s1 (.lock_sema l) { value := 1, waiters := [] }
  rw [lock_sema_eq] at hl
  refine ⟨_, by rw [hrel, hup], ?_, ?_, ?_, ?_, ?_, ?_, ?_, ?_, ?_, ?_⟩
  · rw [set_sema_threads, hH]; rfl
  · intro u hu; rw [set_sema_threads]; exact hothers u hu
  · rw [set_sema_ready_list, hrl]
  · rw [set_sema_current, hcur]
  · rw [set_sema_intr_context, hic]
  · rw [set_sema_idle_thread, hidle]
  · rw [set_sema_next_tid, hnt]
  · rw [set_sema_lock_holder]; exact hhold
  · rw [hl]
  · rw [hl]

/-- allocate_tid by a valid running thread while tid_lock is free. When the thread at the head
of the ready list does not outrank the effective priority of the caller, allocate_tid returns
the counter and leaves it incremented, and the caller has its effective priority. When it
does, the preemption check inside lock_release switches the caller out in its favour, with the
counter incremented and the return of the tid left to do. -/
theorem allocate_tid_spec (s : State) (hthread : is_thread s s.current)
    (hrun : (s.threads s.current).status = Status.THREAD_RUNNING)
    (hintr : s.intr_context = false)
    (hh : (s.locks tid_lock).holder = none) (hv : (s.locks tid_lock).semaphore.value = 1)
    (hw : (s.locks tid_lock).semaphore.waiters = [])
    (hnw : ∀ d ∈ (s.threads s.current).donations, (s.threads d).wait_on_lock ≠ some tid_lock)
    (hready : ∀ x ∈ s.ready_list, is_thread s x) :
    ((∀ head rest, s.ready_list = head :: rest →
        head = s.current ∨ s.prio head ≤ effective_priority s s.current) →
      ∃ s2, allocate_tid s = .ret s.next_tid s2 ∧ s2.next_tid = int_wrap (s.next_tid + 1) ∧
        s2.threads s.current = { s.threads s.current with
          wait_on_lock := none, priority := effective_priority s s.current } ∧
        (∀ u, u ≠ s.current → s2.threads u = s.threads u) ∧
        s2.ready_list = s.ready_list ∧ s2.current = s.current ∧
        s2.intr_context = s.intr_context) ∧
    (∀ head rest, s.ready_list = head :: rest → head ≠ s.current →
      effective_priority s s.current < s.prio head →
      ∃ s1, allocate_tid s = .switched s1 [Frame.allocate_tid_unlocked s.next_tid] ∧
        s1.next_tid = int_wrap (s.next_tid + 1) ∧ s1.current = head ∧
        (∀ u, u ≠ head → u ≠ s.current → s1.threads u = s.threads u) ∧
        (∀ x ∈ s1.ready_list, x = s.current ∨ x ∈ s.ready_list)) := by
  obtain ⟨sa, ha, ⟨a1, a2, a3, a4, a5, a6, a7, a8⟩, hta, hha, hva, hwa, hca⟩ :=
    lock_acquire_free s tid_lock hthread hrun hintr hh hv
  have hprio : ∀ d, sa.prio d = s.prio d := by
    intro d
    unfold State.prio
    by_cases hd : d = s.current
    · rw [hd, hca]
    · rw [a5 d hd]
  obtain ⟨sb, hsb⟩ : ∃ sb : State, sb = { sa with next_tid := int_wrap (sa.next_tid + 1) } :=
    ⟨_, rfl⟩
  have hbt : sb.threads = sa.threads := by rw [hsb]
  have hbc : sb.current = s.current := by rw [hsb]; exact a2
  have hbl : sb.locks = sa.locks := by rw [hsb]
  have hbr : sb.ready_list = sa.ready_list := by rw [hsb]
  have hbo : sb.intr_context = sa.intr_context ∧ sb.idle_thread = sa.idle_thread ∧
      sb.next_tid = int_wrap (sa.next_tid + 1) := by rw [hsb]; exact ⟨rfl, rfl, rfl⟩
  have heff : effective_priority sb s.current = effective_priority s s.current := by
    unfold effective_priority
    rw [hbt, hca]
    exact donated_max_congr s sb (fun d => by unfold State.prio; rw [hbt]; exact hprio d) _ _
  obtain ⟨s2, hrel, b1, b2, b3, b4, b5, b6, b7, -, -, -⟩ := lock_release_unwaited sb tid_lock
    (by unfold is_thread at hthread ⊢; rw [hbc, hbt, a6]; exact hthread)
    (by rw [hbc, hbt, a7]; exact hrun)
    (by rw [hbl, hbc]; exact hha)
    (by rw [hbl]; exact hva) (by rw [hbl, hwa]; exact hw)
    (by
      intro d hd
      rw [hbc, hbt, hca] at hd
      rw [hbt]
      by_cases hdc : d = s.current
      · rw [hdc, hca]; exact fun e => by cases e
      · rw [a5 d hdc]; exact hnw d hd)
  rw [hbc] at b1 b2 b4
  rw [heff, hbt] at b1
  rw [hsb] at hrel
  have b1' : s2.threads s.current = { s.threads s.current with
      wait_on_lock := none, priority := effective_priority s s.current } := by
    rw [b1, hca]
  have b2' : ∀ u, u ≠ s.current → s2.threads u = s.threads u := by
    intro u hu
    rw [b2 u hu, hbt]
    exact a5 u hu
  have b3' : s2.ready_list = s.ready_list := (b3.trans hbr).trans a1
  have b5' : s2.intr_context = false := ((b5.trans hbo.1).trans a3).trans hintr
  have b7' : s2.next_tid = int_wrap (s.next_tid + 1) := by
    rw [b7, hbo.2.2, hta]
  have halloc : allocate_tid s =
      match test_max_priority s2 with
      | .ret _ s3 => Res.ret s.next_tid s3
      | .switched s3 k => Res.switched s3 (k ++ [Frame.allocate_tid_unlocked s.next_tid])
      | .fault f => Res.fault f := by
    unfold allocate_tid
    rw [ha]
    simp only
    unfold allocate_tid_locked
    simp only
    rw [hrel, hta]
    try rfl
  have h2c : (s2.threads s2.current).priority = effective_priority s s.current := by
    rw [b4, b1']
  refine ⟨?_, ?_⟩
  · intro hq
    have hquiet : test_max_priority s2 = .ret 0 s2 := by
      apply test_max_priority_quiet
      intro head rest hr
      rw [b3'] at hr
      rw [h2c]
      rcases hq head rest hr with e | e
      · rw [e, b1']; exact lt_irrefl _
      · by_cases hc : head = s.current
        · rw [hc, b1']; exact lt_irrefl _
        · rw [b2' head hc]; exact not_lt.2 e
    refine ⟨s2, by rw [halloc, hquiet], b7', b1', b2', b3', b4, b5'.trans hintr.symm⟩
  · intro head rest hr hne hlt
    have hhd : (s2.threads head).priority = s.prio head := by rw [b2' head hne]; rfl
    have hyield : test_max_priority s2 = thread_yield s2 := by
      unfold test_max_priority
      rw [b3', hr]
      simp only
      rw [if_pos ⟨by rw [b5']; decide, by rw [h2c, hhd]; exact hlt⟩]
    have h2thread : is_thread s2 s2.current := by
      unfold is_thread at hthread ⊢
      rw [b4, b1']; exact hthread
    have h2run : (s2.threads s2.current).status = Status.THREAD_RUNNING := by
      rw [b4, b1']; exact hrun
    have hins : list_insert_ordered (thread_cmp_priority s2) s2.current s2.ready_list =
        head :: list_insert_ordered (thread_cmp_priority s2) s2.current rest := by
      rw [b3', hr]
      apply list_insert_ordered_behind
      simp only [thread_cmp_priority, decide_eq_false_iff_not, h2c, hhd]
      exact not_lt.2 (le_of_lt hlt)
    have hnext : (next_thread_to_run
        (if some s2.current ≠ s2.idle_thread
         then { s2 with
           ready_list := list_insert_ordered (thread_cmp_priority s2) s2.current s2.ready_list }
         else s2)).1 = some head := by
      by_cases hidle : some s2.current ≠ s2.idle_thread
      · rw [if_pos hidle]
        exact next_thread_to_run_head _ head _ hins
      · rw [if_neg hidle]
        exact next_thread_to_run_head _ head rest (by rw [b3', hr])
    obtain ⟨s1, y1, y2, y3, -, -, y6, -, y8⟩ := thread_yield_to s2 head b5' h2thread h2run hnext
      (by
        have := hready head (by rw [hr]; exact List.mem_cons_self _ _)
        unfold is_thread at this ⊢
        rw [b2' head hne]; exact this)
    refine ⟨s1, by rw [halloc, hyield, y1]; rfl, by rw [y8, b7'], y2, ?_, ?_⟩
    · intro u hu1 hu2
      rw [y6 u hu1 (by rw [b4]; exact hu2), b2' u hu2]
    · intro x hx
      rw [y3] at hx
      by_cases hidle : some s2.current ≠ s2.idle_thread
      · rw [if_pos hidle, hins, List.tail_cons] at hx
        rcases list_insert_ordered_mem _ _ _ _ hx with e | e
        · left; rw [e, b4]
        · right; rw [hr]; exact List.mem_cons_of_mem _ e
      · rw [if_neg hidle, b3', hr, List.tail_cons] at hx
        right; rw [hr]; exact List.mem_cons_of_mem _ hx

/-- The end of thread_create, from the point where the tid is known, in the situation
create_pending: the new thread gets its tid and is made READY by ordered insertion into the
ready list, and the preemption check runs. The call returns to its caller or the caller
yields with only the return of the tid left to do. The new thread is READY and on the ready
list, unless it came to stand at the head of the ready list and outranks the creator: then it
is dispatched, RUNNING and not on the ready list. When the thread at the head of the ready list
does not outrank the creator, the call returns if the requested priority is at most the
priority of the creator, and otherwise the new thread is dispatched. -/
theorem thread_create_tid_spec (s : State) (t : Nat) (p tid : Int)
    (h : create_pending s t p) :
    ∃ s', (thread_create_tid t tid s = .ret tid s' ∨
        thread_create_tid t tid s = .switched s' [Frame.thread_create_ret tid]) ∧
      s'.next_tid = s.next_tid ∧
      s'.threads t = Thread.mk tid (s'.threads t).status p p 0 none [] [] THREAD_MAGIC ∧
      (((s'.threads t).status = Status.THREAD_READY ∧ t ∈ s'.ready_list) ∨
        ((s'.threads t).status = Status.THREAD_RUNNING ∧ s'.current = t ∧
          t ∉ s'.ready_list ∧ s.prio s.current < p ∧
          thread_create_tid t tid s = .switched s' [Frame.thread_create_ret tid])) ∧
      ((∀ head rest, s.ready_list = head :: rest → s.prio head ≤ s.prio s.current) →
        (p ≤ s.prio s.current →
          thread_create_tid t tid s = .ret tid s' ∧
          (s'.threads t).status = Status.THREAD_READY ∧ t ∈ s'.ready_list ∧
          s'.current = s.current) ∧
        (s.prio s.current < p →
          thread_create_tid t tid s = .switched s' [Frame.thread_create_ret tid] ∧
          (s'.threads t).status = Status.THREAD_RUNNING ∧ s'.current = t ∧
          t ∉ s'.ready_list)) := by
  obtain ⟨hthread, hrun, hintr, hne, hnotin, hready, hrec⟩ := h
  have hcne : s.current ≠ t := Ne.symm hne
  obtain ⟨y, hy⟩ : ∃ y, y = s.set_thread t { s.threads t with tid := tid } := ⟨_, rfl⟩
  have hyt : y.threads t =
      (Thread.mk tid Status.THREAD_BLOCKED p p 0 none [] [] THREAD_MAGIC) := by
    rw [hy, set_thread_same, hrec]
  have hyne : ∀ u, u ≠ t → y.threads u = s.threads u := by
    intro u hu; rw [hy]; exact set_thread_ne _ _ _ _ hu
  have hyrl : y.ready_list = s.ready_list := by rw [hy]; rfl
  obtain ⟨z, hz⟩ : ∃ z, z =
      ({ y with
          ready_list := list_insert_ordered (thread_cmp_priority y) t y.ready_list }.set_thread t
        { y.threads t with status := Status.THREAD_READY }) := ⟨_, rfl⟩
  have hunb : thread_unblock t y = .ok z := by
    rw [hz]
    exact thread_unblock_ok y t (by unfold is_thread; rw [hyt]) (by rw [hyt])
  have hzt : z.threads t =
      (Thread.mk tid Status.THREAD_READY p p 0 none [] [] THREAD_MAGIC) := by
    rw [hz, set_thread_same, hyt]
  have hzne : ∀ u, u ≠ t → z.threads u = s.threads u := by
    intro u hu; rw [hz, set_thread_ne _ _ _ _ hu]; exact hyne u hu
  have hzc : z.threads s.current = s.threads s.current := hzne _ hcne
  have hzrl : z.ready_list = list_insert_ordered (thread_cmp_priority y) t s.ready_list := by
    rw [hz, ← hyrl]; rfl
  have hzcur : z.current = s.current := by rw [hz, hy]; rfl
  have hzo : z.intr_context = false ∧ z.next_tid = s.next_tid := by
    rw [hz, hy]
    exact ⟨hintr, rfl⟩
  have hzthread : is_thread z z.current := by
    unfold is_thread at hthread ⊢; rw [hzcur, hzc]; exact hthread
  have hzrun : (z.threads z.current).status = Status.THREAD_RUNNING := by
    rw [hzcur, hzc]; exact hrun
  have hzcur_ok : thread_current z = .ok s.current := by
    rw [← hzcur]; exact thread_current_ok z hzthread hzrun
  have hzvalid : ∀ x ∈ z.ready_list, is_thread z x := by
    intro x hx
    rw [hzrl] at hx
    rcases list_insert_ordered_mem _ _ _ _ hx with e | e
    · rw [e]; unfold is_thread; rw [hzt]
    · have hxt : x ≠ t := fun e' => hnotin (e' ▸ e)
      have := hready x e
      unfold is_thread at this ⊢
      rw [hzne x hxt]; exact this
  have htin : t ∈ z.ready_list := by
    rw [hzrl]
    exact (list_insert_ordered_perm _ t s.ready_list).symm.subset (List.mem_cons_self _ _)
  have hct : thread_create_tid t tid s =
      (match thread_test_preemption z with
        | .ret _ s2 => Res.ret tid s2
        | .switched s2 k => Res.switched s2 (k ++ [Frame.thread_create_ret tid])
        | .fault f => Res.fault f) := by
    unfold thread_create_tid
    rw [← hy, hunb]
    try rfl
  -- the head of the ready list after the insertion
  obtain ⟨hd, rest, hhead, hhd⟩ : ∃ hd rest, z.ready_list = hd :: rest ∧
      ((hd = t ∧ rest = s.ready_list ∧
          ∀ a l, s.ready_list = a :: l → s.prio a < p) ∨
        (hd ≠ t ∧ t ∈ rest ∧ ∃ l, s.ready_list = hd :: l ∧ p ≤ s.prio hd)) := by
    rw [hzrl]
    cases hl : s.ready_list with
    | nil => exact ⟨t, [], rfl, Or.inl ⟨rfl, rfl, fun a l e => by cases e⟩⟩
    | cons a l =>
      have hat : a ≠ t := fun e => hnotin (by rw [hl, e]; exact List.mem_cons_self _ _)
      by_cases hc : (s.threads a).priority < p
      · refine ⟨t, a :: l, ?_, Or.inl ⟨rfl, rfl, ?_⟩⟩
        · simp [list_insert_ordered, thread_cmp_priority, hyt, hyne a hat, hc]
        · intro a' l' e
          injection e with e1 e2
          subst e1
          exact hc
      · refine ⟨a, list_insert_ordered (thread_cmp_priority y) t l, ?_,
          Or.inr ⟨hat, ?_, l, rfl, not_lt.1 hc⟩⟩
        · simp [list_insert_ordered, thread_cmp_priority, hyt, hyne a hat, hc]
        · exact (list_insert_ordered_perm _ t l).symm.subset (List.mem_cons_self _ _)
  have hpre : thread_test_preemption z =
      if (z.threads hd).priority > (z.threads s.current).priority then thread_yield z
      else .ret 0 z := by
    unfold thread_test_preemption
    rw [hhead]
    simp only
    rw [hzcur_ok]
  by_cases hgt : (z.threads hd).priority > (z.threads s.current).priority
  · -- the caller yields to the head of the ready list
    have hins : list_insert_ordered (thread_cmp_priority z) z.current z.ready_list =
        hd :: list_insert_ordered (thread_cmp_priority z) z.current rest := by
      rw [hhead]
      apply list_insert_ordered_behind
      simp only [thread_cmp_priority, decide_eq_false_iff_not, hzcur]
      exact not_lt.2 (le_of_lt hgt)
    have hnext : (next_thread_to_run
        (if some z.current ≠ z.idle_thread
         then { z with
           ready_list := list_insert_ordered (thread_cmp_priority z) z.current z.ready_list }
         else z)).1 = some hd := by
      by_cases hidle : some z.current ≠ z.idle_thread
      · rw [if_pos hidle]
        exact next_thread_to_run_head _ hd _ hins
      · rw [if_neg hidle]
        exact next_thread_to_run_head _ hd rest hhead
    obtain ⟨s', y1, y2, y3, y4, y5, y6, y7, y8⟩ := thread_yield_to z hd hzo.1 hzthread hzrun
      hnext (hzvalid hd (by rw [hhead]; exact List.mem_cons_self _ _))
    have hsw : thread_create_tid t tid s = .switched s' [Frame.thread_create_ret tid] := by
      rw [hct, hpre, if_pos hgt, y1]
      rfl
    have hrest : ∀ x, x ∈ s'.ready_list ↔ (x ∈ rest ∨ (some z.current ≠ z.idle_thread ∧
        x = z.current)) := by
      intro x
      rw [y3]
      by_cases hidle : some z.current ≠ z.idle_thread
      · rw [if_pos hidle, hins, List.tail_cons,
          (list_insert_ordered_perm _ _ rest).mem_iff, List.mem_cons]
        constructor
        · rintro (e | e)
          · exact Or.inr ⟨hidle, e⟩
          · exact Or.inl e
        · rintro (e | ⟨-, e⟩)
          · exact Or.inr e
          · exact Or.inl e
      · rw [if_neg hidle, hhead, List.tail_cons]
        constructor
        · intro e; exact Or.inl e
        · rintro (e | ⟨e, -⟩)
          · exact e
          · exact absurd e hidle
    have hs't : s'.threads t = Thread.mk tid (s'.threads t).status p p 0 none [] []
        THREAD_MAGIC := by
      rw [y7 t, hzt]
    rcases hhd with ⟨e1, e2, e3⟩ | ⟨e1, e2, l, e3, e4⟩
    · -- the new thread is the head: it is dispatched
      subst e1
      have hlt : s.prio s.current < p := by
        have := hgt
        rw [hzt, hzc] at this
        exact this
      have hst : (s'.threads hd).status = Status.THREAD_RUNNING := y4
      have hnot : hd ∉ s'.ready_list := by
        rw [hrest hd, e2]
        rintro (e | ⟨-, e⟩)
        · exact hnotin e
        · exact hne (e.trans hzcur)
      refine ⟨s', Or.inr hsw, y8.trans hzo.2, hs't,
        Or.inr ⟨hst, y2, hnot, hlt, hsw⟩, fun _ => ⟨fun hle => ?_, fun _ => ⟨hsw, hst, y2, hnot⟩⟩⟩
      exact absurd hlt (not_lt.2 hle)
    · -- another thread is the head: the new thread stays on the ready list
      have hst : (s'.threads t).status = Status.THREAD_READY := by
        rw [y6 t (Ne.symm e1) (by rw [hzcur]; exact hne), hzt]
      have hin : t ∈ s'.ready_list := (hrest t).2 (Or.inl e2)
      have hhdlt : s.prio s.current < s.prio hd := by
        have := hgt
        rw [hzne hd e1, hzc] at this
        exact this
      refine ⟨s', Or.inr hsw, y8.trans hzo.2, hs't, Or.inl ⟨hst, hin⟩, fun hq => ?_⟩
      exact absurd hhdlt (not_lt.2 (hq hd l e3))
  · -- the caller goes on
    have hret : thread_create_tid t tid s = .ret tid z := by
      rw [hct, hpre, if_neg hgt]
    refine ⟨z, Or.inl hret, hzo.2, by rw [hzt], Or.inl ⟨by rw [hzt], htin⟩,
      fun hq => ⟨fun _ => ⟨hret, by rw [hzt], htin, hzcur⟩, fun hlt => ?_⟩⟩
    exfalso
    apply hgt
    rcases hhd with ⟨e1, -, -⟩ | ⟨e1, -, l, e3, e4⟩
    · rw [e1, hzt, hzc]; exact hlt
    · have := hq hd l e3
      have h1 : s.prio hd < p := lt_of_le_of_lt this hlt
      exact absurd h1 (not_lt.2 e4)

/-- The two activations thread_create is left with when it is switched out inside
allocate_tid, when they run: the end of thread_create with the tid allocated. -/
theorem thread_create_resumed (t : Nat) (tid v : Int) (s : State) :
    run_frames [Frame.allocate_tid_unlocked tid, Frame.thread_create_tid t] v s =
      thread_create_tid t tid s := by
  simp only [run_frames, run_frame]
  cases thread_create_tid t tid s with
  | ret v1 s1 => rfl
  | switched s1 k => simp
  | fault f => rfl

/-- thread_create up to the point where the tid is allocated: allocate_tid returns, or the
preemption check inside it switches the creator out. -/
theorem thread_create_allocates (s : State) (t : Nat) (p : Int)
    (hthread : is_thread s s.current)
    (hrun : (s.threads s.current).status = Status.THREAD_RUNNING)
    (hintr : s.intr_context = false)
    (hprio : PRI_MIN ≤ p ∧ p ≤ PRI_MAX)
    (hh : (s.locks tid_lock).holder = none) (hv : (s.locks tid_lock).semaphore.value = 1)
    (hw : (s.locks tid_lock).semaphore.waiters = [])
    (hnw : ∀ d ∈ (s.threads s.current).donations, (s.threads d).wait_on_lock ≠ some tid_lock)
    (hfresh : t ≠ s.current ∧ t ∉ s.ready_list ∧ t ∉ (s.threads s.current).donations)
    (hready : ∀ x ∈ s.ready_list, is_thread s x)
    (htid : 1 ≤ s.next_tid ∧ s.next_tid < INT_MAX) :
    ((∀ head rest, s.ready_list = head :: rest →
        head = s.current ∨ s.prio head ≤ effective_priority s s.current) →
      ∃ s2, thread_create (some t) p s = thread_create_tid t s.next_tid s2 ∧
        s2.next_tid = s.next_tid + 1 ∧ create_pending s2 t p ∧
        s2.current = s.current ∧ s2.ready_list = s.ready_list ∧
        s2.prio s.current = effective_priority s s.current ∧
        (∀ u, u ≠ s.current → u ≠ t → s2.threads u = s.threads u)) ∧
    (∀ head rest, s.ready_list = head :: rest → head ≠ s.current →
      effective_priority s s.current < s.prio head →
      ∃ s1, thread_create (some t) p s =
          .switched s1 [Frame.allocate_tid_unlocked s.next_tid, Frame.thread_create_tid t] ∧
        s1.next_tid = s.next_tid + 1 ∧ s1.current = head ∧
        s1.threads t = Thread.mk 0 Status.THREAD_BLOCKED p p 0 none [] [] THREAD_MAGIC ∧
        t ∉ s1.ready_list) := by
  obtain ⟨hne, hnotin, hnotdon⟩ := hfresh
  have hcne : s.current ≠ t := Ne.symm hne
  obtain ⟨x, hx⟩ : ∃ x, x = s.set_thread t
      { tid := 0, status := Status.THREAD_BLOCKED, priority := p,
        init_priority := p, wakeup_tick := 0, wait_on_lock := none,
        hold_list := [], donations := [], magic := THREAD_MAGIC } := ⟨_, rfl⟩
  have hinit : init_thread t p s = .ok x := by
    unfold init_thread
    rw [if_neg (not_not.2 hprio), hx]
  have hxc : x.threads s.current = s.threads s.current := by
    rw [hx]; exact set_thread_ne _ _ _ _ hcne
  have hxne : ∀ u, u ≠ t → x.threads u = s.threads u := by
    intro u hu; rw [hx]; exact set_thread_ne _ _ _ _ hu
  have hxt : x.threads t =
      (Thread.mk 0 Status.THREAD_BLOCKED p p 0 none [] [] THREAD_MAGIC) := by
    rw [hx]; exact set_thread_same _ _ _
  have hxcur : x.current = s.current := by rw [hx]; rfl
  have hxrl : x.ready_list = s.ready_list := by rw [hx]; rfl
  have hxo : x.intr_context = s.intr_context ∧ x.locks = s.locks ∧ x.next_tid = s.next_tid := by
    rw [hx]; exact ⟨rfl, rfl, rfl⟩
  have hxeff : effective_priority x x.current = effective_priority s s.current := by
    unfold effective_priority
    rw [hxcur, hxc]
    apply donated_max_congr_mem
    intro d hd
    have hdt : d ≠ t := fun e => hnotdon (e ▸ hd)
    unfold State.prio
    rw [hxne d hdt]
  have hwrap : int_wrap (s.next_tid + 1) = s.next_tid + 1 := by
    have := tid_succ_eq s.next_tid (by omega) htid.2
    exact this
  obtain ⟨hA, hB⟩ := allocate_tid_spec x
    (by unfold is_thread at hthread ⊢; rw [hxcur, hxc]; exact hthread)
    (by rw [hxcur, hxc]; exact hrun)
    (by rw [hxo.1]; exact hintr)
    (by rw [hxo.2.1]; exact hh) (by rw [hxo.2.1]; exact hv) (by rw [hxo.2.1]; exact hw)
    (by
      intro d hd
      rw [hxcur, hxc] at hd
      have hdt : d ≠ t := fun e => hnotdon (e ▸ hd)
      rw [hxne d hdt]; exact hnw d hd)
    (by
      intro e he
      rw [hxrl] at he
      have het : e ≠ t := fun h => hnotin (h ▸ he)
      have := hready e he
      unfold is_thread at this ⊢
      rw [hxne e het]; exact this)
  rw [hxeff, hxcur, hxo.2.2, hwrap, hxrl] at hA hB
  have hcreate : thread_create (some t) p s =
      match allocate_tid x with
      | .ret tid s2 => thread_create_tid t tid s2
      | .switched s2 k => .switched s2 (k ++ [Frame.thread_create_tid t])
      | .fault f => .fault f := by
    unfold thread_create
    simp only
    rw [hinit]
    try rfl
  refine ⟨?_, ?_⟩
  · intro hq
    obtain ⟨s2, h1, h2, h3, h4, h5, h6, h7⟩ := hA (by
      intro head rest hr
      rcases hq head rest hr with e | e
      · exact Or.inl e
      · right
        have het : head ≠ t := fun h => hnotin (by rw [hr, ← h]; exact List.mem_cons_self _ _)
        unfold State.prio
        rw [hxne head het]; exact e)
    have h2t : s2.threads t =
        Thread.mk 0 Status.THREAD_BLOCKED p p 0 none [] [] THREAD_MAGIC := by
      rw [h4 t hne, hxt]
    refine ⟨s2, by rw [hcreate, h1], h2, ⟨?_, ?_, (h7.trans hxo.1).trans hintr, ?_, ?_, ?_, h2t⟩, h6, h5,
      ?_, ?_⟩
    · unfold is_thread at hthread ⊢
      rw [h6, h3, hxc]; exact hthread
    · rw [h6, h3, hxc]; exact hrun
    · rw [h6]; exact hne
    · rw [h5]; exact hnotin
    · intro e he
      rw [h5] at he
      have het : e ≠ t := fun h => hnotin (h ▸ he)
      have := hready e he
      unfold is_thread at this ⊢
      by_cases hec : e = s.current
      · rw [hec, h3, hxc]; rw [hec] at this; exact this
      · rw [h4 e hec, hxne e het]; exact this
    · unfold State.prio; rw [h3]
    · intro u hu1 hu2
      rw [h4 u hu1, hxne u hu2]
  · intro head rest hr hhc hlt
    have het : head ≠ t := fun h => hnotin (by rw [hr, ← h]; exact List.mem_cons_self _ _)
    obtain ⟨s1, h1, h2, h3, h4, h5⟩ := hB head rest hr hhc (by
      unfold State.prio
      rw [hxne head het]; exact hlt)
    refine ⟨s1, by rw [hcreate, h1]; rfl, h2, h3, ?_, ?_⟩
    · rw [h4 t (Ne.symm het) hne, hxt]
    · intro hm
      rcases h5 t hm with e | e
      · exact hne e
      · exact hnotin e

/-- thread_create when the thread at the head of the ready list does not outrank the effective
priority of the creator: the call returns the counter with the new thread READY on the ready
list if the requested priority is at most that priority, and otherwise the creator yields at
the end of thread_create and the new thread runs. -/
theorem thread_create_direct (s : State) (t : Nat) (p : Int)
    (hthread : is_thread s s.current)
    (hrun : (s.threads s.current).status = Status.THREAD_RUNNING)
    (hintr : s.intr_context = false)
    (hprio : PRI_MIN ≤ p ∧ p ≤ PRI_MAX)
    (hh : (s.locks tid_lock).holder = none) (hv : (s.locks tid_lock).semaphore.value = 1)
    (hw : (s.locks tid_lock).semaphore.waiters = [])
    (hnw : ∀ d ∈ (s.threads s.current).donations, (s.threads d).wait_on_lock ≠ some tid_lock)
    (hfresh : t ≠ s.current ∧ t ∉ s.ready_list ∧ t ∉ (s.threads s.current).donations)
    (hready : ∀ x ∈ s.ready_list, is_thread s x)
    (htid : 1 ≤ s.next_tid ∧ s.next_tid < INT_MAX)
    (hq : ∀ head rest, s.ready_list = head :: rest →
      s.prio head ≤ effective_priority s s.current) :
    (p ≤ effective_priority s s.current →
      ∃ s', thread_create (some t) p s = .ret s.next_tid s' ∧
        s'.next_tid = s.next_tid + 1 ∧
        s'.threads t = Thread.mk s.next_tid Status.THREAD_READY p p 0 none [] [] THREAD_MAGIC ∧
        t ∈ s'.ready_list ∧ s'.current = s.current) ∧
    (effective_priority s s.current < p →
      ∃ s', thread_create (some t) p s = .switched s' [Frame.thread_create_ret s.next_tid] ∧
        s'.next_tid = s.next_tid + 1 ∧
        s'.threads t = Thread.mk s.next_tid Status.THREAD_RUNNING p p 0 none [] []
          THREAD_MAGIC ∧
        s'.current = t ∧ t ∉ s'.ready_list) := by
  obtain ⟨hA, -⟩ := thread_create_allocates s t p hthread hrun hintr hprio hh hv hw hnw hfresh
    hready htid
  obtain ⟨s2, e1, e2, hp, e4, e5, e6, e7⟩ := hA (fun head rest hr => Or.inr (hq head rest hr))
  obtain ⟨s', -, hnt, hrec, -, himp⟩ := thread_create_tid_spec s2 t p s.next_tid hp
  have hc2 : s2.prio s2.current = effective_priority s s.current := by rw [e4, e6]
  have hq2 : ∀ head rest, s2.ready_list = head :: rest → s2.prio head ≤ s2.prio s2.current := by
    intro head rest hr
    rw [e5] at hr
    rw [hc2]
    by_cases hc : head = s.current
    · rw [hc, e6]
    · have het : head ≠ t := fun h => hfresh.2.1 (by rw [hr, ← h]; exact List.mem_cons_self _ _)
      unfold State.prio
      rw [e7 head hc het]
      exact hq head rest hr
  obtain ⟨i1, i2⟩ := himp hq2
  rw [hc2] at i1 i2
  refine ⟨fun hle => ?_, fun hlt => ?_⟩
  · obtain ⟨r1, r2, r3, r4⟩ := i1 hle
    refine ⟨s', by rw [e1, r1], by rw [hnt, e2], ?_, r3, r4.trans e4⟩
    rw [hrec, r2]
  · obtain ⟨r1, r2, r3, r4⟩ := i2 hlt
    refine ⟨s', by rw [e1, r1], by rw [hnt, e2], ?_, r3, r4⟩
    rw [hrec, r2]

/-! ## C24: thread_create -/

/-- Along a run of the system the tid counter moves by increments only, and while it stays
within INT_MAX it has risen by their number. -/
theorem run_tid_increments (es : List Event) (x x' : State) (h : run es x = some x') :
    ∃ k : Nat, x'.next_tid = tid_succ^[k] x.next_tid ∧
      (1 ≤ x.next_tid → x.next_tid + k ≤ INT_MAX → x'.next_tid = x.next_tid + k) := by
  obtain ⟨k, hk⟩ := run_next_tid es x x' h
  refine ⟨k, hk, fun h1 h2 => ?_⟩
  rw [hk]
  exact tid_succ_iterate k _ (by omega) h2

/-- C24, the claim as stated fails in two ways. When the new thread outranks its creator:
from boot, main (priority 31, tid 1) creates a thread of priority 40 on page 1; the allocation
succeeds and the thread gets tid 2, but the preemption check at the end of thread_create
dispatches it, so it is RUNNING and not on the ready list, which holds main. And when the tid
counter, an int, stands at INT_MAX: the thread created then gets tid 2147483647, the counter
wraps, and the thread created next gets tid -2147483648, which is not above the tid handed
out before. -/
theorem C24_created_thread_runs_at_once :
    ((run [.call .thread_init] (boot 8)).map
        (fun s => (thread_create (some 1) 40 s).returned) = some false ∧
      (run [.call .thread_init, .call (.thread_create (some 1) 40)] (boot 8)).map
        (fun s => (s.current, (s.threads 1).status, (s.threads 1).tid, s.ready_list))
        = some (1, Status.THREAD_RUNNING, 2, [0]) ∧
      (run [.call .thread_init, .call (.thread_create (some 1) 40)] (boot 8)).map
        (fun s => ((s.threads 1).priority, (s.threads 0).priority, (s.threads 0).status,
          s.frames 0)) = some (40, 31, Status.THREAD_READY, [Frame.thread_create_ret 2])) ∧
    (tid_max_scene.next_tid = INT_MAX ∧
      (thread_create (some 2) 3 tid_max_scene).returned = true ∧
      (run [.call (.thread_create (some 2) 3), .call (.thread_create (some 3) 3)]
        tid_max_scene).map (fun s => ((s.threads 2).tid, (s.threads 3).tid, s.next_tid)) =
        some (2147483647, -2147483648, -2147483647) ∧
      (run [.call (.thread_create (some 2) 3), .call (.thread_create (some 3) 3)]
        tid_max_scene).map (fun s => ((s.threads 2).status, (s.threads 3).status,
          s.ready_list)) = some (Status.THREAD_READY, Status.THREAD_READY, [2, 3, 0])) :=
  ⟨⟨by decide!, by decide!, by decide!⟩, ⟨by decide!, by decide!, by decide!, by decide!⟩⟩

/-- C24, amended. When the page allocation fails, thread_create returns TID_ERROR and leaves the
whole state as it was. When it succeeds, for a valid running creator outside interrupt
context, a priority within PRI_MIN and PRI_MAX, tid_lock free with nobody waiting on it, a
fresh page t, valid threads on the ready list and the tid counter from 1 to below INT_MAX:
thread_create hands out the value of the counter and leaves the counter one higher. Either
allocate_tid returns, the creator then having its effective priority (the maximum of its base
priority and of the priorities of its donors), or, when the thread at the head of the ready
list outranks that priority, the preemption check inside allocate_tid switches the creator out
and the end of thread_create runs when the creator is dispatched again. At the end of
thread_create, in the situation create_pending, the new thread gets the tid, has priority and
base priority equal to the requested priority, no wait_on_lock and an empty held-lock list, and
is READY and on the ready list, unless it stands at the head of the ready list and outranks
the creator: then the creator yields inside thread_create and the new thread is dispatched at
once, RUNNING and not on the ready list. With no thread at the head of the ready list above
the creator, thread_create returns if the requested priority is at most the priority of the
creator and the new thread is dispatched otherwise. Along every run the counter moves by
increments only, so while it stays within INT_MAX every tid handed out later is larger. In
short, when no thread at the head of the ready list is above the effective priority of the
creator: a requested priority of at most that priority has thread_create return the counter
with the new thread READY on the ready list, and a higher one has the creator yield and the new
thread run. -/
theorem C24_thread_create (s : State) (t : Nat) (p : Int)
    (hthread : is_thread s s.current)
    (hrun : (s.threads s.current).status = Status.THREAD_RUNNING)
    (hintr : s.intr_context = false)
    (hprio : PRI_MIN ≤ p ∧ p ≤ PRI_MAX)
    (hh : (s.locks tid_lock).holder = none) (hv : (s.locks tid_lock).semaphore.value = 1)
    (hw : (s.locks tid_lock).semaphore.waiters = [])
    (hnw : ∀ d ∈ (s.threads s.current).donations, (s.threads d).wait_on_lock ≠ some tid_lock)
    (hfresh : t ≠ s.current ∧ t ∉ s.ready_list ∧ t ∉ (s.threads s.current).donations)
    (hready : ∀ x ∈ s.ready_list, is_thread s x)
    (htid : 1 ≤ s.next_tid ∧ s.next_tid < INT_MAX) :
    (∀ q, thread_create none q s = .ret TID_ERROR s) ∧
    ((∀ head rest, s.ready_list = head :: rest →
        head = s.current ∨ s.prio head ≤ effective_priority s s.current) →
      ∃ s2, thread_create (some t) p s = thread_create_tid t s.next_tid s2 ∧
        s2.next_tid = s.next_tid + 1 ∧ create_pending s2 t p ∧
        s2.current = s.current ∧ s2.ready_list = s.ready_list ∧
        s2.prio s.current = effective_priority s s.current ∧
        (∀ u, u ≠ s.current → u ≠ t → s2.threads u = s.threads u)) ∧
    (∀ head rest, s.ready_list = head :: rest → head ≠ s.current →
      effective_priority s s.current < s.prio head →
      ∃ s1, thread_create (some t) p s =
          .switched s1 [Frame.allocate_tid_unlocked s.next_tid, Frame.thread_create_tid t] ∧
        s1.next_tid = s.next_tid + 1 ∧ s1.current = head ∧
        s1.threads t = Thread.mk 0 Status.THREAD_BLOCKED p p 0 none [] [] THREAD_MAGIC ∧
        t ∉ s1.ready_list ∧
        ∀ v s2, run_frames
            [Frame.allocate_tid_unlocked s.next_tid, Frame.thread_create_tid t] v s2 =
          thread_create_tid t s.next_tid s2) ∧
    (∀ s2 tid, create_pending s2 t p →
      ∃ s', (thread_create_tid t tid s2 = .ret tid s' ∨
          thread_create_tid t tid s2 = .switched s' [Frame.thread_create_ret tid]) ∧
        s'.next_tid = s2.next_tid ∧
        s'.threads t = Thread.mk tid (s'.threads t).status p p 0 none [] [] THREAD_MAGIC ∧
        (((s'.threads t).status = Status.THREAD_READY ∧ t ∈ s'.ready_list) ∨
          ((s'.threads t).status = Status.THREAD_RUNNING ∧ s'.current = t ∧
            t ∉ s'.ready_list ∧ s2.prio s2.current < p ∧
            thread_create_tid t tid s2 = .switched s' [Frame.thread_create_ret tid])) ∧
        ((∀ head rest, s2.ready_list = head :: rest → s2.prio head ≤ s2.prio s2.current) →
          (p ≤ s2.prio s2.current →
            thread_create_tid t tid s2 = .ret tid s' ∧
            (s'.threads t).status = Status.THREAD_READY ∧ t ∈ s'.ready_list ∧
            s'.current = s2.current) ∧
          (s2.prio s2.current < p →
            thread_create_tid t tid s2 = .switched s' [Frame.thread_create_ret tid] ∧
            (s'.threads t).status = Status.THREAD_RUNNING ∧ s'.current = t ∧
            t ∉ s'.ready_list))) ∧
    (∀ es x x', run es x = some x' →
      ∃ k : Nat, x'.next_tid = tid_succ^[k] x.next_tid ∧
        (1 ≤ x.next_tid → x.next_tid + k ≤ INT_MAX → x'.next_tid = x.next_tid + k)) ∧
    ((∀ head rest, s.ready_list = head :: rest →
        s.prio head ≤ effective_priority s s.current) →
      (p ≤ effective_priority s s.current →
        ∃ s', thread_create (some t) p s = .ret s.next_tid s' ∧
          s'.next_tid = s.next_tid + 1 ∧
          s'.threads t =
            Thread.mk s.next_tid Status.THREAD_READY p p 0 none [] [] THREAD_MAGIC ∧
          t ∈ s'.ready_list ∧ s'.current = s.current) ∧
      (effective_priority s s.current < p →
        ∃ s', thread_create (some t) p s =
            .switched s' [Frame.thread_create_ret s.next_tid] ∧
          s'.next_tid = s.next_tid + 1 ∧
          s'.threads t =
            Thread.mk s.next_tid Status.THREAD_RUNNING p p 0 none [] [] THREAD_MAGIC ∧
          s'.current = t ∧ t ∉ s'.ready_list)) := by
  obtain ⟨hA, hB⟩ := thread_create_allocates s t p hthread hrun hintr hprio hh hv hw hnw hfresh
    hready htid
  refine ⟨fun q => rfl, hA, ?_, fun s2 tid h => thread_create_tid_spec s2 t p tid h,
    fun es x x' h => run_tid_increments es x x' h,
    fun hq => thread_create_direct s t p hthread hrun hintr hprio hh hv hw hnw hfresh hready
      htid hq⟩
  intro head rest hr hhc hlt
  obtain ⟨s1, h1, h2, h3, h4, h5⟩ := hB head rest hr hhc hlt
  exact ⟨s1, h1, h2, h3, h4, h5, fun v s2 => thread_create_resumed t s.next_tid v s2⟩

/-- C24 with tid_lock initialised in handler_scene, where thread 1 (priority 5) runs and thread
0 (priority 1) is READY: a thread of priority 3 created on page 2 is READY on the ready list
and the call returns the counter value 1, leaving the counter at 2; a failed allocation
returns TID_ERROR. With tid_lock initialised in ready_scene, where thread 0 (priority 31) runs
and thread 1 (priority 40) is READY: the creator is switched out inside allocate_tid in favour
of thread 1, with the new page 4 BLOCKED and the rest of thread_create left to do. From boot,
main gets tid 1, a thread created at priority 31 gets tid 2 and is READY on the ready list, and
the next one gets tid 3. -/
theorem C24_thread_create_witness :
    (∃ s', thread_create (some 2) 3 (lock_init tid_lock handler_scene) = .ret 1 s' ∧
      (s'.threads 2).status = Status.THREAD_READY ∧ 2 ∈ s'.ready_list ∧
      (s'.threads 2).priority = 3 ∧ s'.next_tid = 2) ∧
    thread_create none 3 (lock_init tid_lock handler_scene) =
      .ret TID_ERROR (lock_init tid_lock handler_scene) ∧
    (∃ s1, thread_create (some 4) 35 (lock_init tid_lock ready_scene) =
        .switched s1 [Frame.allocate_tid_unlocked 1, Frame.thread_create_tid 4] ∧
      s1.current = 1 ∧ (s1.threads 4).status = Status.THREAD_BLOCKED ∧ s1.next_tid = 2) ∧
    (run [.call .thread_init, .call (.thread_create (some 1) 31),
        .call (.thread_create (some 2) 31)] (boot 8)).map
      (fun s => ((s.threads 0).tid, (s.threads 1).tid, (s.threads 2).tid, s.next_tid))
      = some (1, 2, 3, 4) ∧
    (run [.call .thread_init, .call (.thread_create (some 1) 31),
        .call (.thread_create (some 2) 31)] (boot 8)).map
      (fun s => ((s.threads 2).status, s.ready_list)) = some (Status.THREAD_READY, [1, 2]) := by
  have h := C24_thread_create (lock_init tid_lock handler_scene) 2 3
    (by decide!) (by decide!) (by decide!) (by decide) (by decide!) (by decide!) (by decide!)
    (by decide!) (by decide!) (by decide!) (by decide!)
  have g := C24_thread_create (lock_init tid_lock ready_scene) 4 35
    (by decide!) (by decide!) (by decide!) (by decide) (by decide!) (by decide!) (by decide!)
    (by decide!) (by decide!) (by decide!) (by decide!)
  have hn : (lock_init tid_lock handler_scene).next_tid = 1 := by decide!
  have hc : (lock_init tid_lock handler_scene).current = 1 := by decide!
  have hl : (lock_init tid_lock handler_scene).ready_list = [0] := by decide!
  refine ⟨?_, h.1 3, ?_, by decide!, by decide!⟩
  · obtain ⟨s2, e1, e2, hp, e4, e5, e6, e7⟩ := h.2.1 (by
      intro head rest hr
      rw [hl] at hr
      injection hr with hr1 hr2
      subst hr1
      right
      decide!)
    obtain ⟨s', -, hnt, hrec, -, himp⟩ := h.2.2.2.1 s2 1 hp
    have hq : ∀ head rest, s2.ready_list = head :: rest → s2.prio head ≤ s2.prio s2.current := by
      intro head rest hr
      rw [e5, hl] at hr
      injection hr with hr1 hr2
      subst hr1
      rw [e4, e6]
      unfold State.prio
      rw [e7 0 (by rw [hc]; decide) (by decide)]
      decide!
    have hle : (3 : Int) ≤ s2.prio s2.current := by
      rw [e4, e6]
      decide!
    obtain ⟨r1, r2, r3, -⟩ := (himp hq).1 hle
    rw [hn] at e1 e2
    refine ⟨s', by rw [e1, r1], r2, r3, by rw [hrec], by rw [hnt, e2]; rfl⟩
  · have gn : (lock_init tid_lock ready_scene).next_tid = 1 := by decide!
    obtain ⟨s1, f1, f2, f3, f4, -, -⟩ := g.2.2.1 1 [2] (by decide!) (by decide!) (by decide!)
    rw [gn] at f1 f2
    exact ⟨s1, f1, f3, by rw [f4], by rw [f2]; rfl⟩

end Pintos
